import Mathlib

/-!
# node-compress: streaming gzip / bzip2 adapters

A shallow embedding of `src/gzip.cc` (classes `Gzip`, `Gunzip`) and
`src/src/bzip.cc` (classes `BzipUtils`, `BzipImpl`, `BunzipImpl`).

The external codec libraries (zlib, libbz2) and the allocator are a parameter
`Native σ`: a deterministic machine over a hidden state `σ` whose answers
(status, bytes consumed, bytes produced, growth success) are arbitrary.  Every
loop of the source that depends on the library making progress takes a fuel
argument; running out of fuel and failing an `assert` are the two ways a call
does not return (`Halt`).
-/

namespace NodeCompress

/-! ## Constants of `zlib.h`, `bzlib.h` and `gzip.cc` -/

abbrev Byte := Fin 256

abbrev Z_OK : Int := 0
abbrev Z_STREAM_END : Int := 1
abbrev Z_NEED_DICT : Int := 2
abbrev Z_STREAM_ERROR : Int := -2
abbrev Z_DATA_ERROR : Int := -3
abbrev Z_MEM_ERROR : Int := -4
abbrev Z_BUF_ERROR : Int := -5

abbrev BZ_OK : Int := 0
abbrev BZ_RUN_OK : Int := 1
abbrev BZ_FLUSH_OK : Int := 2
abbrev BZ_FINISH_OK : Int := 3
abbrev BZ_STREAM_END : Int := 4
abbrev BZ_SEQUENCE_ERROR : Int := -1
abbrev BZ_PARAM_ERROR : Int := -2
abbrev BZ_MEM_ERROR : Int := -3
abbrev BZ_DATA_ERROR : Int := -4
abbrev BZ_DATA_ERROR_MAGIC : Int := -5
abbrev BZ_IO_ERROR : Int := -6
abbrev BZ_UNEXPECTED_EOF : Int := -7
abbrev BZ_OUTBUFF_FULL : Int := -8
abbrev BZ_CONFIG_ERROR : Int := -9

/-- The `#define CHUNK 16384` of `gzip.cc`. -/
abbrev CHUNK : Nat := 16384

/-! ## `utils.h`: stream state and the transition guard

`utils.h` is not among the sources.  Its macro `COND_RETURN(cond, ret)` is read as
`if (cond) return ret;` throughout. -/

/-- Modelled from the spec: the enumeration `State::Value` (also `ZipLib<T>::State`) of
`utils.h`, which is not among the sources.  Spec, StreamState: values `Idle`, `Active`
(spelled `Data` in the code), `Eos`, `Error`. -/
inductive State where
  | Idle
  | Data
  | Eos
  | Error
  deriving DecidableEq, Repr

/-- Modelled from the spec: the scoped guard `State::Transition` of `utils.h`, which is not
among the sources.  Spec 4.1: the guard is opened with a tentative target; `alter` commits a
final target; without a commit the tentative target becomes the state when the scope ends;
`abort` commits the state as the value it had before the guard opened. -/
structure Transition where
  /-- The state when the guard was opened. -/
  orig : State
  /-- The target written when the scope ends. -/
  value : State
  /-- Cleared by `abort`: the guard no longer writes at scope end. -/
  live : Bool
  deriving DecidableEq, Repr

/-- The constructor `Transition t(state_, tentative)`. -/
def Transition.start (state_ tentative : State) : Transition :=
  { orig := state_, value := tentative, live := true }

/-- The call `t.alter(v)`: the target of the guard becomes `v`. -/
def Transition.alter (t : Transition) (v : State) : Transition :=
  { t with value := v }

/-- The call `t.abort()`: the state is committed as the original value, and the guard is
disarmed.  Returns the disarmed guard and the state to store. -/
def Transition.abort (t : Transition) : Transition × State :=
  ({ t with live := false }, t.orig)

/-- The destructor of the guard, run at scope end on the current state. -/
def Transition.finish (t : Transition) (cur : State) : State :=
  if t.live then t.value else cur

/-! ## The native libraries and the allocator -/

/-- The flush argument of the step primitive: `Z_NO_FLUSH` / `BZ_RUN`, or `Z_FINISH` /
`BZ_FINISH`.  The decompression primitives are called with `run`. -/
inductive Flush where
  | run
  | finish
  deriving DecidableEq, Repr

/-- What one call of a native step primitive answers. -/
structure StepOut where
  status : Int
  /-- Input bytes taken (capped by the `avail_in` offered). -/
  consumed : Nat
  /-- Output bytes written (capped by the `avail_out` offered). -/
  produced : List Byte

/-- The external world of a codec instance: the library primitives and the allocator behind
`GrowBy`, as a machine over a hidden state `σ`.  The primitives read and write the stream
fields `next_in`, `avail_in`, `next_out`, `avail_out` only as `Vars.callStep` says: the init
and destroy primitives leave them alone. -/
structure Native (σ : Type) where
  /-- The init primitive `deflateInit2` / `inflateInit2` / `BZ2_bzCompressInit` /
  `BZ2_bzDecompressInit`: its status. -/
  init : σ → Int × σ
  /-- The step primitive `deflate` / `inflate` / `BZ2_bzCompress` / `BZ2_bzDecompress`, given
  the flush mode, the input bytes offered and the output space offered. -/
  step : σ → Flush → List Byte → Nat → StepOut × σ
  /-- The destroy primitive `deflateEnd` / `inflateEnd` / `BZ2_bzCompressEnd` /
  `BZ2_bzDecompressEnd`. -/
  destroy : σ → σ
  /-- Whether the allocation behind `GrowBy(n)` succeeds. -/
  grow : σ → Nat → Bool × σ

/-- One entry of the history of calls made to the outside world. -/
inductive Call where
  | init (status : Int)
  | step (flush : Flush) (avail_in offset avail_out capacity : Nat) (status : Int)
  | destroy (allocated : Bool)
  | grow (n : Nat) (ok : Bool)
  deriving DecidableEq, Repr

/-- Whether a history entry is a call of a codec primitive (init, step or destroy). -/
def Call.isNative : Call → Bool
  | .grow _ _ => false
  | _ => true

/-- Whether a history entry is a call of the destroy primitive. -/
def Call.isDestroy : Call → Bool
  | .destroy _ => true
  | _ => false

/-- Whether a history entry is a call of the step primitive. -/
def Call.isStep : Call → Bool
  | .step _ _ _ _ _ _ => true
  | _ => false

/-- The fields of `z_stream` / `bz_stream` the drivers use, with the library's hidden state
and two ghost fields: whether the native context is allocated, and the call history. -/
structure Stream (σ : Type) where
  /-- The bytes readable at `next_in`. -/
  next_in : List Byte
  avail_in : Nat
  /-- Hidden state of the library and the allocator. -/
  native : σ
  /-- Ghost: a native init succeeded and no destroy followed. -/
  allocated : Bool
  /-- Ghost: the calls made so far, oldest first. -/
  log : List Call

/-- Modelled from the spec: `ScopedOutputBuffer<T>` / `ScopedBlob` of `utils.h`, which is not
among the sources.  Spec, GrowableBuffer: owned storage, current capacity, current logical
length. -/
structure ScopedOutputBuffer where
  capacity : Nat
  length : Nat
  /-- The bytes stored from offset 0. -/
  mem : List Byte
  deriving DecidableEq, Repr

/-- A fresh buffer `ScopedBytesBlob out;`. -/
def ScopedOutputBuffer.empty : ScopedOutputBuffer :=
  { capacity := 0, length := 0, mem := [] }

/-- Modelled from the spec: `IncreaseLengthBy(n)` of `utils.h` commits that `n` bytes at the
tail were written, advancing the logical length. -/
def ScopedOutputBuffer.IncreaseLengthBy (b : ScopedOutputBuffer) (n : Nat) :
    ScopedOutputBuffer :=
  { b with length := b.length + n }

/-- Storing the bytes `bs` at offset `off` of a memory image. -/
def writeAt (mem : List Byte) (off : Nat) (bs : List Byte) : List Byte :=
  (mem ++ List.replicate (off - mem.length) 0).take off ++ bs ++ mem.drop (off + bs.length)

/-- Why a call does not return. -/
inductive Halt where
  /-- An `assert` of the source failed. -/
  | assertion
  /-- The loop was still running when the fuel ran out. -/
  | fuel
  deriving DecidableEq, Repr

/-- The data members of each of the four classes `Gzip`, `Gunzip`, `BzipImpl`, `BunzipImpl`:
`stream_` and `state_`. -/
structure Instance (σ : Type) where
  stream_ : Stream σ
  state_ : State

/-- The constructors `Gzip()`, `Gunzip()`, `BzipImpl()`, `BunzipImpl()`: state `Idle`;
`stream_` is not initialised, so `next_in` and `avail_in` hold whatever was in memory
(`garbage`, `garbage_len`); no native context exists. -/
def Instance.new {σ : Type} (w : σ) (garbage : List Byte) (garbage_len : Nat) : Instance σ :=
  { stream_ := { next_in := garbage, avail_in := garbage_len, native := w,
                 allocated := false, log := [] },
    state_ := State.Idle }

/-- The variables a Write or End works on: the members of the instance, the transition guard
of the call, the output buffer and, for the gzip family, the counter `*out_len`.  The counter
is an `int` in the source and a natural number here: the two agree as long as the value stays
below `2 ^ 31`, and the theorems that read it say so. -/
structure Vars (σ : Type) where
  stream_ : Stream σ
  state_ : State
  t : Transition
  out : ScopedOutputBuffer
  out_len : Nat

/-- How a loop ends: it runs to its end (`next`, with the last status in `ret`), or a
`return` inside it leaves the function (`leave`) with a status. -/
inductive Flow (σ : Type) where
  | next (ret : Int) (v : Vars σ)
  | leave (ret : Int) (v : Vars σ)

/-- What a Write or End hands back: the status, the bytes of the buffer the caller reads (the
first `out_len` bytes for gzip, the first `out.length()` bytes for bzip2), and the buffer. -/
structure Result where
  status : Int
  output : List Byte
  out : ScopedOutputBuffer
  out_len : Nat
  deriving DecidableEq, Repr

/-- The variables at the start of a call that opens a guard with target `tentative`. -/
def Vars.enter {σ : Type} (g : Instance σ) (tentative : State) : Vars σ :=
  { stream_ := g.stream_, state_ := g.state_, t := Transition.start g.state_ tentative,
    out := ScopedOutputBuffer.empty, out_len := 0 }

/-- The end of the scope of a gzip call returning `ret`: the guard's destructor runs, and the
caller reads the first `out_len` bytes at `out.data()`, whether or not they lie within the
capacity of the buffer (see `Vars.callStep`). -/
def Vars.exitGzip {σ : Type} (v : Vars σ) (ret : Int) : Result × Instance σ :=
  ({ status := ret, output := v.out.mem.take v.out_len, out := v.out, out_len := v.out_len },
   { stream_ := v.stream_, state_ := v.t.finish v.state_ })

/-- The end of the scope of a bzip2 call returning `ret`: the guard's destructor runs, and the
caller reads the first `out.length()` bytes. -/
def Vars.exitBzip {σ : Type} (v : Vars σ) (ret : Int) : Result × Instance σ :=
  ({ status := ret, output := v.out.mem.take v.out.length, out := v.out,
     out_len := v.out_len },
   { stream_ := v.stream_, state_ := v.t.finish v.state_ })

/-- A call that returns before opening a guard and before touching `out`. -/
def Instance.early {σ : Type} (g : Instance σ) (ret : Int) : Result × Instance σ :=
  ({ status := ret, output := [], out := ScopedOutputBuffer.empty, out_len := 0 }, g)

/-- The init primitive called on the stream. -/
def Stream.callInit {σ : Type} (nat : Native σ) (s : Stream σ) : Int × Stream σ :=
  let r := nat.init s.native
  (r.1, { s with native := r.2, allocated := s.allocated || decide (r.1 = 0),
                 log := s.log ++ [Call.init r.1] })

/-- The destroy primitive called on the stream. -/
def Stream.callDestroy {σ : Type} (nat : Native σ) (s : Stream σ) : Stream σ :=
  { s with native := nat.destroy s.native, allocated := false,
           log := s.log ++ [Call.destroy s.allocated] }

/-- Modelled from the spec: `GrowBy(n)` of `utils.h` requests at least `n` additional bytes
of writable capacity beyond the current logical length and reports failure by `false`. -/
def Vars.GrowBy {σ : Type} (nat : Native σ) (v : Vars σ) (n : Nat) : Bool × Vars σ :=
  let r := nat.grow v.stream_.native n
  let s := { v.stream_ with native := r.2, log := v.stream_.log ++ [Call.grow n r.1] }
  if r.1 then
    (true, { v with stream_ := s,
                    out := { v.out with capacity := max v.out.capacity (v.out.length + n) } })
  else
    (false, { v with stream_ := s })

/-- The step primitive called with `avail_out` bytes of output space at `next_out =
out.data() + offset`: the library takes at most `avail_in` bytes from `next_in`, stores at
most `avail_out` bytes, and updates the stream fields.  Returns the status and the
`avail_out` left.  The image `mem` records every store at its offset, also one that falls
beyond the capacity of the buffer, which in the source is a write outside the allocation; the
history entry of the step keeps the offset, the space offered and the capacity, so that
`Call.inBounds` tells the two apart, and the theorems about the bytes handed back are stated
for steps within the capacity. -/
def Vars.callStep {σ : Type} (nat : Native σ) (v : Vars σ) (flush : Flush)
    (offset avail_out : Nat) : Int × Nat × Vars σ :=
  let s := v.stream_
  let r := nat.step s.native flush (s.next_in.take s.avail_in) avail_out
  let c := min r.1.consumed s.avail_in
  let p := r.1.produced.take avail_out
  (r.1.status, avail_out - p.length,
    { v with
      stream_ := { s with native := r.2, next_in := s.next_in.drop c, avail_in := s.avail_in - c,
                          log := s.log ++
                            [Call.step flush s.avail_in offset avail_out v.out.capacity
                              r.1.status] }
      out := { v.out with mem := writeAt v.out.mem offset p } })

/-! ## `gzip.cc`: class `Gzip` -/

/-- The method `int Gzip::GzipInit(int level)`.  The level goes to `deflateInit2` and plays no
part in the driver. -/
def Gzip.GzipInit {σ : Type} (nat : Native σ) (g : Instance σ) : Int × Instance σ :=
  if g.state_ ≠ State.Idle then (Z_STREAM_ERROR, g)
  else
    let r := g.stream_.callInit nat
    if r.1 = Z_OK then (r.1, { stream_ := r.2, state_ := State.Data })
    else (r.1, { g with stream_ := r.2 })

/-- The `do { ... } while (stream_.avail_out == 0)` loop of `GzipDeflate`. -/
def Gzip.deflateInner {σ : Type} (nat : Native σ) : Nat → Vars σ → Except Halt (Flow σ)
  | 0, _ => .error Halt.fuel
  | fuel + 1, v =>
    let grown := v.GrowBy nat CHUNK
    if grown.1 = false then .ok (.leave Z_MEM_ERROR grown.2)
    else
      let stepped := grown.2.callStep nat Flush.run grown.2.out_len CHUNK
      let ret := stepped.1
      let avail_out := stepped.2.1
      if ret = Z_STREAM_ERROR then .error Halt.assertion
      else if ret ≠ Z_OK then .ok (.leave ret stepped.2.2)
      else
        let v3 := { stepped.2.2 with out_len := stepped.2.2.out_len + (CHUNK - avail_out) }
        if avail_out = 0 then Gzip.deflateInner nat fuel v3
        else .ok (.next ret v3)

/-- The `while (data_len > 0)` loop of `GzipDeflate`; `inner` is the fuel handed to each run
of the inner loop. -/
def Gzip.deflateOuter {σ : Type} (nat : Native σ) (inner : Nat) :
    Nat → List Byte → Int → Int → Vars σ → Except Halt (Flow σ)
  | fuel, data, data_len, ret, v =>
    if data_len > 0 then
      match fuel with
      | 0 => .error Halt.fuel
      | fuel + 1 =>
        let avail_in : Nat := if data_len > CHUNK then CHUNK else data_len.toNat
        let v1 := { v with stream_ := { v.stream_ with avail_in := avail_in, next_in := data } }
        match Gzip.deflateInner nat inner v1 with
        | .error h => .error h
        | .ok (.leave r v2) => .ok (.leave r v2)
        | .ok (.next r v2) =>
          Gzip.deflateOuter nat inner fuel (data.drop CHUNK) (data_len - CHUNK) r v2
    else .ok (.next ret v)

/-- The method `int Gzip::GzipDeflate(char* data, int data_len, ScopedBytesBlob &out,
int* out_len)`, called with a fresh `out`.  The length is an `int` in the source and an
integer here: the two agree for `data_len` between `-2 ^ 31` and `2 ^ 31 - 1`. -/
def Gzip.GzipDeflate {σ : Type} (nat : Native σ) (fuel : Nat) (g : Instance σ)
    (data : List Byte) (data_len : Int) : Except Halt (Result × Instance σ) :=
  if g.state_ ≠ State.Data then .ok (g.early Z_STREAM_ERROR)
  else
    match Gzip.deflateOuter nat fuel fuel data data_len Z_OK (Vars.enter g State.Error) with
    | .error h => .error h
    | .ok (.leave r v) => .ok (v.exitGzip r)
    | .ok (.next r v) => .ok ({ v with t := v.t.alter State.Data }.exitGzip r)

/-- The `do { ... } while (ret != Z_STREAM_END)` loop of `GzipEndWithData`; a `return`
inside it returns from `GzipEndWithData`. -/
def Gzip.endLoop {σ : Type} (nat : Native σ) : Nat → Vars σ → Except Halt (Int × Vars σ)
  | 0, _ => .error Halt.fuel
  | fuel + 1, v =>
    let grown := v.GrowBy nat CHUNK
    if grown.1 = false then .ok (Z_MEM_ERROR, grown.2)
    else
      let stepped := grown.2.callStep nat Flush.finish grown.2.out_len CHUNK
      let ret := stepped.1
      let avail_out := stepped.2.1
      if ret = Z_STREAM_ERROR then .error Halt.assertion
      else if ret ≠ Z_OK ∧ ret ≠ Z_STREAM_END then .ok (ret, stepped.2.2)
      else
        let v3 := { stepped.2.2 with out_len := stepped.2.2.out_len + (CHUNK - avail_out) }
        if ret ≠ Z_STREAM_END then Gzip.endLoop nat fuel v3
        else .ok (ret, v3)

/-- The method `int Gzip::GzipEndWithData(ScopedBytesBlob &out, int *out_len)`. -/
def Gzip.GzipEndWithData {σ : Type} (nat : Native σ) (fuel : Nat) (v : Vars σ) :
    Except Halt (Int × Vars σ) :=
  Gzip.endLoop nat fuel { v with stream_ := { v.stream_ with avail_in := 0, next_in := [] } }

/-- The method `int Gzip::GzipEnd(ScopedBytesBlob &out, int *out_len)`, called with a fresh
`out`. -/
def Gzip.GzipEnd {σ : Type} (nat : Native σ) (fuel : Nat) (g : Instance σ) :
    Except Halt (Result × Instance σ) :=
  if g.state_ = State.Idle then .ok (g.early Z_OK)
  else if ¬ (g.state_ = State.Data ∨ g.state_ = State.Error) then .error Halt.assertion
  else
    let v := Vars.enter g State.Idle
    if v.state_ = State.Data then
      match Gzip.GzipEndWithData nat fuel v with
      | .error h => .error h
      | .ok r => .ok ({ r.2 with stream_ := r.2.stream_.callDestroy nat }.exitGzip r.1)
    else
      .ok ({ v with stream_ := v.stream_.callDestroy nat }.exitGzip Z_OK)

/-- The destructor `~Gzip()`. -/
def Gzip.delete {σ : Type} (nat : Native σ) (g : Instance σ) : Instance σ :=
  if g.state_ ≠ State.Idle then { g with stream_ := g.stream_.callDestroy nat } else g

/-! ## `gzip.cc`: class `Gunzip` -/

/-- The method `int Gunzip::GunzipInit()`. -/
def Gunzip.GunzipInit {σ : Type} (nat : Native σ) (g : Instance σ) : Int × Instance σ :=
  if g.state_ ≠ State.Idle then (Z_STREAM_ERROR, g)
  else
    let r := { g.stream_ with avail_in := 0, next_in := [] }.callInit nat
    if r.1 = Z_OK then (r.1, { stream_ := r.2, state_ := State.Data })
    else (r.1, { g with stream_ := r.2 })

/-- The method `void Gunzip::GunzipEnd()`, on the members `state_` and `stream_`. -/
def Gunzip.GunzipEnd {σ : Type} (nat : Native σ) (g : Instance σ) : Instance σ :=
  if g.state_ ≠ State.Idle then
    { stream_ := g.stream_.callDestroy nat, state_ := State.Idle }
  else g

/-- The call `GunzipEnd()` made inside `GunzipInflate`, on the variables of that call. -/
def Vars.GunzipEnd {σ : Type} (nat : Native σ) (v : Vars σ) : Vars σ :=
  let g := Gunzip.GunzipEnd nat { stream_ := v.stream_, state_ := v.state_ }
  { v with stream_ := g.stream_, state_ := g.state_ }

/-- The call `t.abort()` on the variables of a call. -/
def Vars.abort {σ : Type} (v : Vars σ) : Vars σ :=
  { v with t := v.t.abort.1, state_ := v.t.abort.2 }

/-- The `do { ... } while (stream_.avail_out == 0)` loop of `GunzipInflate`. -/
def Gunzip.inflateInner {σ : Type} (nat : Native σ) : Nat → Vars σ → Except Halt (Flow σ)
  | 0, _ => .error Halt.fuel
  | fuel + 1, v =>
    let grown := v.GrowBy nat CHUNK
    if grown.1 = false then .ok (.leave Z_MEM_ERROR grown.2)
    else
      let stepped := grown.2.callStep nat Flush.run grown.2.out_len CHUNK
      let ret := stepped.1
      let avail_out := stepped.2.1
      if ret = Z_STREAM_ERROR then .error Halt.assertion
      else if ret = Z_NEED_DICT ∨ ret = Z_DATA_ERROR ∨ ret = Z_MEM_ERROR then
        .ok (.leave (if ret = Z_NEED_DICT then Z_DATA_ERROR else ret)
              (stepped.2.2.abort.GunzipEnd nat))
      else if ret ≠ Z_OK ∧ ret ≠ Z_STREAM_END then .ok (.leave ret stepped.2.2)
      else
        let v3 := { stepped.2.2 with out_len := stepped.2.2.out_len + (CHUNK - avail_out) }
        if ret = Z_STREAM_END then .ok (.leave ret { v3 with t := v3.t.alter State.Eos })
        else if avail_out = 0 then Gunzip.inflateInner nat fuel v3
        else .ok (.next ret v3)

/-- The `while (data_len > 0)` loop of `GunzipInflate`; `inner` is the fuel handed to each
run of the inner loop. -/
def Gunzip.inflateOuter {σ : Type} (nat : Native σ) (inner : Nat) :
    Nat → List Byte → Int → Int → Vars σ → Except Halt (Flow σ)
  | fuel, data, data_len, ret, v =>
    if data_len > 0 then
      match fuel with
      | 0 => .error Halt.fuel
      | fuel + 1 =>
        let avail_in : Nat := if data_len > CHUNK then CHUNK else data_len.toNat
        let v1 := { v with stream_ := { v.stream_ with avail_in := avail_in, next_in := data } }
        match Gunzip.inflateInner nat inner v1 with
        | .error h => .error h
        | .ok (.leave r v2) => .ok (.leave r v2)
        | .ok (.next r v2) =>
          Gunzip.inflateOuter nat inner fuel (data.drop CHUNK) (data_len - CHUNK) r v2
    else .ok (.next ret v)

/-- The method `int Gunzip::GunzipInflate(const char* data, int data_len,
ScopedBytesBlob &out, int* out_len)`, called with a fresh `out`.  The length is an `int` in
the source and an integer here: the two agree for `data_len` between `-2 ^ 31` and
`2 ^ 31 - 1`. -/
def Gunzip.GunzipInflate {σ : Type} (nat : Native σ) (fuel : Nat) (g : Instance σ)
    (data : List Byte) (data_len : Int) : Except Halt (Result × Instance σ) :=
  if g.state_ = State.Eos then .ok (g.early Z_OK)
  else if g.state_ ≠ State.Data then .ok (g.early Z_STREAM_ERROR)
  else
    match Gunzip.inflateOuter nat fuel fuel data data_len Z_OK (Vars.enter g State.Error) with
    | .error h => .error h
    | .ok (.leave r v) => .ok (v.exitGzip r)
    | .ok (.next r v) => .ok ({ v with t := v.t.alter State.Data }.exitGzip r)

/-- The destructor `~Gunzip()`. -/
def Gunzip.delete {σ : Type} (nat : Native σ) (g : Instance σ) : Instance σ :=
  Gunzip.GunzipEnd nat g

/-! ## `bzip.cc`: class `BzipUtils` -/

/-- The function `static bool BzipUtils::IsError(int bzipStatus)`. -/
def BzipUtils.IsError (bzipStatus : Int) : Bool :=
  !(bzipStatus == BZ_OK ||
    bzipStatus == BZ_RUN_OK ||
    bzipStatus == BZ_FLUSH_OK ||
    bzipStatus == BZ_FINISH_OK ||
    bzipStatus == BZ_STREAM_END)

/-! The message constants of `BzipUtils`. -/

def BzipUtils.ConfigError : String := "Library configuration error."
def BzipUtils.SequenceError : String := "Call sequence error."
def BzipUtils.ParamError : String := "Invalid arguments."
def BzipUtils.MemError : String := "Out of memory."
def BzipUtils.DataError : String := "Data integrity error."
def BzipUtils.DataErrorMagic : String := "BZip magic not found."
def BzipUtils.IoError : String := "Input/output error."
def BzipUtils.UnexpectedEof : String := "Unexpected end of file."
def BzipUtils.OutbuffFull : String := "Output buffer full."

/-- The function `static Local<Value> BzipUtils::GetException(int bzipStatus)`: `none` is
`Undefined()`, `some m` is `Exception::Error(String::New(m))`. -/
def BzipUtils.GetException (bzipStatus : Int) : Option String :=
  if !BzipUtils.IsError bzipStatus then none
  else if bzipStatus = BZ_CONFIG_ERROR then some BzipUtils.ConfigError
  else if bzipStatus = BZ_SEQUENCE_ERROR then some BzipUtils.SequenceError
  else if bzipStatus = BZ_PARAM_ERROR then some BzipUtils.ParamError
  else if bzipStatus = BZ_MEM_ERROR then some BzipUtils.MemError
  else if bzipStatus = BZ_DATA_ERROR then some BzipUtils.DataError
  else if bzipStatus = BZ_DATA_ERROR_MAGIC then some BzipUtils.DataErrorMagic
  else if bzipStatus = BZ_IO_ERROR then some BzipUtils.IoError
  else if bzipStatus = BZ_UNEXPECTED_EOF then some BzipUtils.UnexpectedEof
  else if bzipStatus = BZ_OUTBUFF_FULL then some BzipUtils.OutbuffFull
  else some "Unknown error"

/-! ## `bzip.cc`: class `BzipImpl` -/

/-- The method `int BzipImpl::BzipInit(int blockSize100k, int workFactor)`.  The two arguments
go to `BZ2_bzCompressInit` and play no part in the driver; `stream_.avail_in` and
`stream_.next_in` are not assigned. -/
def BzipImpl.BzipInit {σ : Type} (nat : Native σ) (g : Instance σ) : Int × Instance σ :=
  if g.state_ ≠ State.Idle then (BZ_SEQUENCE_ERROR, g)
  else
    let r := g.stream_.callInit nat
    if r.1 = BZ_OK then (r.1, { stream_ := r.2, state_ := State.Data })
    else (r.1, { g with stream_ := r.2 })

/-- The `while (data_len > 0)` loop of `BzipImpl::Write`. -/
def BzipImpl.writeLoop {σ : Type} (nat : Native σ) :
    Nat → List Byte → Int → Int → Vars σ → Except Halt (Flow σ)
  | fuel, data, data_len, ret, v =>
    if data_len > 0 then
      match fuel with
      | 0 => .error Halt.fuel
      | fuel + 1 =>
        let grown := v.GrowBy nat (data_len + 1).toNat
        if grown.1 = false then .ok (.leave BZ_MEM_ERROR grown.2)
        else
          let v2 := { grown.2 with stream_ := { grown.2.stream_ with
                                                  next_in := data, avail_in := data_len.toNat } }
          let stepped := v2.callStep nat Flush.run v2.out.length (data_len + 1).toNat
          let ret := stepped.1
          let avail_out := stepped.2.1
          if ret = BZ_SEQUENCE_ERROR then .error Halt.assertion
          else if ret ≠ BZ_RUN_OK then .ok (.leave ret stepped.2.2)
          else
            let v4 := { stepped.2.2 with out := stepped.2.2.out.IncreaseLengthBy
                                                  ((data_len + 1).toNat - avail_out) }
            BzipImpl.writeLoop nat fuel
              (data.drop (data_len.toNat - v4.stream_.avail_in)) v4.stream_.avail_in ret v4
    else .ok (.next ret v)

/-- The method `int BzipImpl::Write(char *data, int data_len, Blob &out)`, called with a
fresh `out`.  The length is an `int` in the source and an integer here: the two agree for
`data_len` between `-2 ^ 31` and `2 ^ 31 - 2`, where `data_len + 1` does not overflow. -/
def BzipImpl.Write {σ : Type} (nat : Native σ) (fuel : Nat) (g : Instance σ)
    (data : List Byte) (data_len : Int) : Except Halt (Result × Instance σ) :=
  if g.state_ ≠ State.Data then .ok (g.early BZ_SEQUENCE_ERROR)
  else
    match BzipImpl.writeLoop nat fuel data data_len BZ_OK (Vars.enter g State.Error) with
    | .error h => .error h
    | .ok (.leave r v) => .ok (v.exitBzip r)
    | .ok (.next _ v) => .ok ({ v with t := v.t.alter State.Data }.exitBzip BZ_OK)

/-- The method `void BzipImpl::Destroy()`, on the members `state_` and `stream_`. -/
def BzipImpl.Destroy {σ : Type} (nat : Native σ) (g : Instance σ) : Instance σ :=
  if g.state_ ≠ State.Idle then
    { state_ := State.Idle, stream_ := g.stream_.callDestroy nat }
  else g

/-- The call `this->Destroy()` made inside `BzipImpl::Close`, on the variables of that
call. -/
def Vars.BzipDestroy {σ : Type} (nat : Native σ) (v : Vars σ) : Vars σ :=
  let g := BzipImpl.Destroy nat { stream_ := v.stream_, state_ := v.state_ }
  { v with stream_ := g.stream_, state_ := g.state_ }

/-- The method `int BzipImpl::BzipEndWithData(Blob &out)`, with `const int Chunk = 128`. -/
def BzipImpl.BzipEndWithData {σ : Type} (nat : Native σ) :
    Nat → Vars σ → Except Halt (Int × Vars σ)
  | 0, _ => .error Halt.fuel
  | fuel + 1, v =>
    let grown := v.GrowBy nat 128
    if grown.1 = false then .ok (BZ_MEM_ERROR, grown.2)
    else
      let stepped := grown.2.callStep nat Flush.finish grown.2.out.length 128
      let ret := stepped.1
      let avail_out := stepped.2.1
      if ret = BZ_SEQUENCE_ERROR then .error Halt.assertion
      else if ret ≠ BZ_FINISH_OK ∧ ret ≠ BZ_STREAM_END then .ok (ret, stepped.2.2)
      else
        let v3 := { stepped.2.2 with out := stepped.2.2.out.IncreaseLengthBy (128 - avail_out) }
        if ret ≠ BZ_STREAM_END then BzipImpl.BzipEndWithData nat fuel v3
        else .ok (BZ_OK, v3)

/-- The method `int BzipImpl::Close(Blob &out)`, called with a fresh `out`. -/
def BzipImpl.Close {σ : Type} (nat : Native σ) (fuel : Nat) (g : Instance σ) :
    Except Halt (Result × Instance σ) :=
  if g.state_ = State.Idle then .ok (g.early BZ_OK)
  else if ¬ (g.state_ = State.Data ∨ g.state_ = State.Error) then .error Halt.assertion
  else
    let v := Vars.enter g State.Error
    if v.state_ = State.Data then
      match BzipImpl.BzipEndWithData nat fuel v with
      | .error h => .error h
      | .ok r => .ok ((r.2.abort.BzipDestroy nat).exitBzip r.1)
    else
      .ok ((v.abort.BzipDestroy nat).exitBzip BZ_OK)

/-- The destructor `~BzipImpl()`. -/
def BzipImpl.delete {σ : Type} (nat : Native σ) (g : Instance σ) : Instance σ :=
  BzipImpl.Destroy nat g

/-! ## `bzip.cc`: class `BunzipImpl` -/

/-- The method `int BunzipImpl::BunzipInit(int small)`.  The argument goes to
`BZ2_bzDecompressInit` and plays no part in the driver. -/
def BunzipImpl.BunzipInit {σ : Type} (nat : Native σ) (g : Instance σ) : Int × Instance σ :=
  if g.state_ ≠ State.Idle then (BZ_SEQUENCE_ERROR, g)
  else
    let r := { g.stream_ with avail_in := 0, next_in := [] }.callInit nat
    if r.1 = BZ_OK then (r.1, { stream_ := r.2, state_ := State.Data })
    else (r.1, { g with stream_ := r.2 })

/-- The `while (data_len > 0)` loop of `BunzipImpl::Write`. -/
def BunzipImpl.writeLoop {σ : Type} (nat : Native σ) :
    Nat → List Byte → Int → Int → Vars σ → Except Halt (Flow σ)
  | fuel, data, data_len, ret, v =>
    if data_len > 0 then
      match fuel with
      | 0 => .error Halt.fuel
      | fuel + 1 =>
        let grown := v.GrowBy nat data_len.toNat
        if grown.1 = false then .ok (.leave BZ_MEM_ERROR grown.2)
        else
          let v2 := { grown.2 with stream_ := { grown.2.stream_ with
                                                  next_in := data, avail_in := data_len.toNat } }
          let stepped := v2.callStep nat Flush.run v2.out.length data_len.toNat
          let ret := stepped.1
          let avail_out := stepped.2.1
          if ret = BZ_SEQUENCE_ERROR then .error Halt.assertion
          else if ret ≠ BZ_OK ∧ ret ≠ BZ_STREAM_END then .ok (.leave ret stepped.2.2)
          else
            let v4 := { stepped.2.2 with out := stepped.2.2.out.IncreaseLengthBy
                                                  (data_len.toNat - avail_out) }
            if ret = BZ_STREAM_END then
              .ok (.leave ret { v4 with t := v4.t.alter State.Eos })
            else
              BunzipImpl.writeLoop nat fuel
                (data.drop (data_len.toNat - v4.stream_.avail_in)) v4.stream_.avail_in ret v4
    else .ok (.next ret v)

/-- The method `int BunzipImpl::Write(const char *data, int data_len, Blob &out)`, called
with a fresh `out`.  The length is an `int` in the source and an integer here: the two agree
for `data_len` between `-2 ^ 31` and `2 ^ 31 - 1`. -/
def BunzipImpl.Write {σ : Type} (nat : Native σ) (fuel : Nat) (g : Instance σ)
    (data : List Byte) (data_len : Int) : Except Halt (Result × Instance σ) :=
  if g.state_ = State.Eos then .ok (g.early BZ_OK)
  else if g.state_ ≠ State.Data then .ok (g.early BZ_SEQUENCE_ERROR)
  else
    match BunzipImpl.writeLoop nat fuel data data_len BZ_OK (Vars.enter g State.Error) with
    | .error h => .error h
    | .ok (.leave r v) => .ok (v.exitBzip r)
    | .ok (.next r v) => .ok ({ v with t := v.t.alter State.Data }.exitBzip r)

/-- The method `int BunzipImpl::Close(Blob &out)`: `return BZ_OK;` and nothing else. -/
def BunzipImpl.Close {σ : Type} (g : Instance σ) : Result × Instance σ :=
  g.early BZ_OK

/-- The method `void BunzipImpl::Destroy()`. -/
def BunzipImpl.Destroy {σ : Type} (nat : Native σ) (g : Instance σ) : Instance σ :=
  if g.state_ ≠ State.Idle then
    { state_ := State.Idle, stream_ := g.stream_.callDestroy nat }
  else g

/-- The destructor `~BunzipImpl()`. -/
def BunzipImpl.delete {σ : Type} (nat : Native σ) (g : Instance σ) : Instance σ :=
  BunzipImpl.Destroy nat g

/-! ## Concrete libraries used to run the drivers -/

/-- A library whose init always answers `i`, whose step always answers status `s`, taking `c`
input bytes and writing `p`, and whose allocator always answers `ok`. -/
def constNative (i s : Int) (c : Nat) (p : List Byte) (ok : Bool) : Native Unit :=
  { init := fun w => (i, w)
    step := fun w _ _ _ => ({ status := s, consumed := c, produced := p }, w)
    destroy := fun w => w
    grow := fun w _ => (ok, w) }

/-- A codec that stores bytes as they are, used to run a compressor against a decompressor:
a step takes all the input offered, queues it behind the bytes still pending, and writes as
many pending bytes as the output space allows.  In mode `run` it answers `run`; in mode
`finish` it answers `done` once nothing is pending and `more` before that.  Init answers 0
(`Z_OK`, `BZ_OK`) and growth always succeeds. -/
def echoNative (run more done : Int) : Native (List Byte) :=
  { init := fun _ => (0, [])
    step := fun w flush inp avail_out =>
      let all := w ++ inp
      let rest := all.drop avail_out
      ({ status := match flush with
                   | Flush.run => run
                   | Flush.finish => if rest.isEmpty then done else more
         consumed := inp.length
         produced := all.take avail_out }, rest)
    destroy := fun _ => []
    grow := fun w _ => (true, w) }

/-- The number of calls of the destroy primitive in a history. -/
def destroyCount (log : List Call) : Nat :=
  log.countP Call.isDestroy

/-- A Write or End returned status `st` with zero output bytes and left the instance exactly
as it was: same state, same stream fields, same native context, and no call added to the
history. -/
def ReturnsUntouched {σ : Type} (res : Except Halt (Result × Instance σ)) (st : Int)
    (g : Instance σ) : Prop :=
  ∃ r, res = .ok (r, g) ∧ r.status = st ∧ r.output = [] ∧ r.out_len = 0 ∧ r.out.length = 0

/-- An instance of one of the classes some time after construction, in state `st`, with the
native context allocated or not, and an empty history. -/
def Instance.inState (st : State) (allocated : Bool) : Instance Unit :=
  { stream_ := { next_in := [], avail_in := 0, native := (), allocated := allocated, log := [] },
    state_ := st }

/-- The variables a loop result carries. -/
def Flow.vars {σ : Type} : Flow σ → Vars σ
  | .next _ v => v
  | .leave _ v => v

/-- The status a loop result carries. -/
def Flow.ret {σ : Type} : Flow σ → Int
  | .next r _ => r
  | .leave r _ => r

/-- A history entry of a call that lets a compressing Write go on: a growth that succeeded,
or a step that answered the progressing status `ok`. -/
def Call.progress (ok : Int) : Call → Bool
  | .grow _ b => b
  | .step _ _ _ _ _ st => decide (st = ok)
  | _ => false

/-- A history entry of a call that makes a compressing Write return `r`: a growth that failed
(`r` is the memory-error status `mem`), or a step that answered `r`, which is not the
progressing status `ok`. -/
def Call.failure (ok mem r : Int) : Call → Bool
  | .grow _ b => !b && decide (r = mem)
  | .step _ _ _ _ _ st => decide (st = r) && !decide (r = ok)
  | _ => false

/-- The variables `v2` come from `v1` by the calls `l`, with guard, state and allocation
untouched. -/
def Steps {σ : Type} (v1 v2 : Vars σ) (l : List Call) : Prop :=
  v2.t = v1.t ∧ v2.state_ = v1.state_ ∧ v2.stream_.allocated = v1.stream_.allocated ∧
  v2.stream_.log = v1.stream_.log ++ l

/-- What the calls `l` made by a compressing loop look like, given how the loop ended: all
progressing when it ran to its end; all progressing but the last, which is the failure
returned, when it left the function. -/
def CompressPost {σ : Type} (ok mem : Int) : Flow σ → List Call → Prop
  | .next _ _, l => ∀ c ∈ l, c.progress ok = true
  | .leave r _, l => ∃ l0 c, l = l0 ++ [c] ∧ (∀ x ∈ l0, x.progress ok = true) ∧
      c.failure ok mem r = true

/-- The library makes progress, for the steps made in mode `flush`, as measured by `μ` on
its hidden state (think of the bytes it still has to write): a growth request never raises
`μ`; a step offered output space never answers the status `asserted` that the source asserts
against, and raises `μ` by no more than the input bytes it takes; and a step that answers the
continuing status `cont` raises `μ` by less than that when it was a finishing step, or was
offered input, or filled the whole output space. -/
def Progressing {σ : Type} (nat : Native σ) (μ : σ → Nat) (flush : Flush)
    (asserted cont : Int) : Prop :=
  (∀ w n, μ (nat.grow w n).2 ≤ μ w) ∧
  ∀ w inp n, 0 < n →
    (nat.step w flush inp n).1.status ≠ asserted ∧
    μ (nat.step w flush inp n).2 ≤
      μ w + min (nat.step w flush inp n).1.consumed inp.length ∧
    ((nat.step w flush inp n).1.status = cont →
      (flush = Flush.finish ∨ inp ≠ [] ∨ n ≤ (nat.step w flush inp n).1.produced.length) →
      μ (nat.step w flush inp n).2 <
        μ w + min (nat.step w flush inp n).1.consumed inp.length)

/-- A stretch of history made of growth requests and step calls only: every call of a codec
primitive in it is a step, none is an init or a destroy. -/
def Quiet (l : List Call) : Prop :=
  ∀ c ∈ l, c.isNative = true → c.isStep = true

/-- A history entry of a decompress step that answered a status on which `GunzipInflate`
tears the session down: `Z_NEED_DICT`, `Z_DATA_ERROR` or `Z_MEM_ERROR`. -/
def Call.fatal : Call → Bool
  | .step _ _ _ _ _ st => decide (st = Z_NEED_DICT ∨ st = Z_DATA_ERROR ∨ st = Z_MEM_ERROR)
  | _ => false

/-- A stretch of history made of growth requests and steps, none of which answered a status
on which `GunzipInflate` tears the session down. -/
def Calm (l : List Call) : Prop :=
  Quiet l ∧ ∀ c ∈ l, c.fatal = false

/-- How a loop of `GunzipInflate` started on the variables `v` can end.  It runs to its end
with status `Z_OK` after calm calls; or it leaves the function after calm calls with a status
that is none of `Z_OK`, `Z_STREAM_END`, `Z_DATA_ERROR`; or it leaves at the end of the stream
with the guard altered to `Eos`; or it leaves torn down: the last step answered a tear-down
status, the guard was aborted, `GunzipEnd` called the destroy primitive and set the state to
`Idle`. -/
def InflatePost {σ : Type} (v : Vars σ) : Flow σ → Prop
  | .next r w => r = Z_OK ∧ ∃ l, Steps v w l ∧ Calm l
  | .leave r w =>
    (r ≠ Z_OK ∧ r ≠ Z_STREAM_END ∧ r ≠ Z_DATA_ERROR ∧ ∃ l, Steps v w l ∧ Calm l) ∨
    (r = Z_STREAM_END ∧ w.t = v.t.alter State.Eos ∧
      ∃ l, Steps v { w with t := v.t } l ∧ Calm l) ∨
    ((r = Z_DATA_ERROR ∨ r = Z_MEM_ERROR) ∧ w.state_ = State.Idle ∧ w.t.live = false ∧
      w.stream_.allocated = false ∧
      ∃ l a b c d st, w.stream_.log = v.stream_.log ++ l ++
          [Call.step Flush.run a b c d st, Call.destroy v.stream_.allocated] ∧ Calm l ∧
        (st = Z_NEED_DICT ∨ st = Z_DATA_ERROR ∨ st = Z_MEM_ERROR) ∧
        r = if st = Z_NEED_DICT then Z_DATA_ERROR else st)

/-- How the loop of `BunzipImpl::Write` started on the variables `v` with status `ret` can
end.  It runs to its end with status `ret` or `BZ_OK`; or it leaves the function with a status
that is neither `BZ_OK` nor `BZ_STREAM_END`; or it leaves at the end of the stream with the
guard altered to `Eos`.  In each case only growth requests and steps were made. -/
def BunzipPost {σ : Type} (v : Vars σ) (ret : Int) : Flow σ → Prop
  | .next r w => (r = ret ∨ r = BZ_OK) ∧ ∃ l, Steps v w l ∧ Quiet l
  | .leave r w =>
    (r ≠ BZ_OK ∧ r ≠ BZ_STREAM_END ∧ ∃ l, Steps v w l ∧ Quiet l) ∨
    (r = BZ_STREAM_END ∧ w.t = v.t.alter State.Eos ∧
      ∃ l, Steps v { w with t := v.t } l ∧ Quiet l)

/-- A history entry of a step that answered the status `s`. -/
def Call.answered (s : Int) : Call → Bool
  | .step _ _ _ _ _ st => decide (st = s)
  | _ => false

/-- The status the first step of a Write of `data` answers, when the growth before it
succeeds: the step sees the hidden state left by the growth request for `n` bytes, the first
`avail_in` bytes of `data`, and `avail_out` bytes of output space. -/
def firstStepStatus {σ : Type} (nat : Native σ) (g : Instance σ) (data : List Byte)
    (n avail_in avail_out : Nat) : Int :=
  (nat.step (nat.grow g.stream_.native n).2 Flush.run (data.take avail_in) avail_out).1.status

/-- The life cycle of the native context replayed over one history entry: `some a` says the
entries so far respect it and the context is now allocated (`a = true`) or not; `none` says it
was violated.  An init needs a context that is not allocated and allocates it when its status
is the success status 0; a destroy needs an allocated context and releases it; growth
requests and steps change nothing. -/
def replay : Option Bool → Call → Option Bool
  | none, _ => none
  | some a, .init st => if a then none else some (decide (st = 0))
  | some a, .destroy _ => if a then some false else none
  | some a, _ => some a

/-- The resource/state invariant of an instance: the native context is allocated exactly when
the state is not `Idle`, and the history respects the life cycle of the context (no destroy
without a successful init before it that no other destroy has used up, no init on an allocated
context) and ends with the context as the ghost field says. -/
def Inv {σ : Type} (g : Instance σ) : Prop :=
  (g.stream_.allocated = true ↔ g.state_ ≠ State.Idle) ∧
  g.stream_.log.foldl replay (some false) = some g.stream_.allocated

/-- The instances of `Gzip` reachable from a freshly constructed one by `GzipInit`,
`GzipDeflate` and `GzipEnd` calls that return, with any library, data and fuel. -/
inductive Gzip.Reachable {σ : Type} (nat : Native σ) : Instance σ → Prop where
  | fresh (w : σ) (garbage : List Byte) (n : Nat) : Gzip.Reachable nat (Instance.new w garbage n)
  | init {g : Instance σ} : Gzip.Reachable nat g → Gzip.Reachable nat (Gzip.GzipInit nat g).2
  | write {g : Instance σ} (fuel : Nat) (data : List Byte) (data_len : Int)
      (x : Result × Instance σ) : Gzip.Reachable nat g →
      Gzip.GzipDeflate nat fuel g data data_len = .ok x → Gzip.Reachable nat x.2
  | close {g : Instance σ} (fuel : Nat) (x : Result × Instance σ) : Gzip.Reachable nat g →
      Gzip.GzipEnd nat fuel g = .ok x → Gzip.Reachable nat x.2

/-- The instances of `Gunzip` reachable from a freshly constructed one by `GunzipInit`,
`GunzipInflate` and `GunzipEnd` calls that return, with any library, data and fuel. -/
inductive Gunzip.Reachable {σ : Type} (nat : Native σ) : Instance σ → Prop where
  | fresh (w : σ) (garbage : List Byte) (n : Nat) :
      Gunzip.Reachable nat (Instance.new w garbage n)
  | init {g : Instance σ} : Gunzip.Reachable nat g →
      Gunzip.Reachable nat (Gunzip.GunzipInit nat g).2
  | write {g : Instance σ} (fuel : Nat) (data : List Byte) (data_len : Int)
      (x : Result × Instance σ) : Gunzip.Reachable nat g →
      Gunzip.GunzipInflate nat fuel g data data_len = .ok x → Gunzip.Reachable nat x.2
  | close {g : Instance σ} : Gunzip.Reachable nat g →
      Gunzip.Reachable nat (Gunzip.GunzipEnd nat g)

/-- The instances of `BzipImpl` reachable from a freshly constructed one by `BzipInit`,
`Write` and `Close` calls that return, with any library, data and fuel. -/
inductive BzipImpl.Reachable {σ : Type} (nat : Native σ) : Instance σ → Prop where
  | fresh (w : σ) (garbage : List Byte) (n : Nat) :
      BzipImpl.Reachable nat (Instance.new w garbage n)
  | init {g : Instance σ} : BzipImpl.Reachable nat g →
      BzipImpl.Reachable nat (BzipImpl.BzipInit nat g).2
  | write {g : Instance σ} (fuel : Nat) (data : List Byte) (data_len : Int)
      (x : Result × Instance σ) : BzipImpl.Reachable nat g →
      BzipImpl.Write nat fuel g data data_len = .ok x → BzipImpl.Reachable nat x.2
  | close {g : Instance σ} (fuel : Nat) (x : Result × Instance σ) :
      BzipImpl.Reachable nat g → BzipImpl.Close nat fuel g = .ok x →
      BzipImpl.Reachable nat x.2

/-- The instances of `BunzipImpl` reachable from a freshly constructed one by `BunzipInit`,
`Write` and `Close` calls that return, and by `Destroy`, with any library, data and fuel. -/
inductive BunzipImpl.Reachable {σ : Type} (nat : Native σ) : Instance σ → Prop where
  | fresh (w : σ) (garbage : List Byte) (n : Nat) :
      BunzipImpl.Reachable nat (Instance.new w garbage n)
  | init {g : Instance σ} : BunzipImpl.Reachable nat g →
      BunzipImpl.Reachable nat (BunzipImpl.BunzipInit nat g).2
  | write {g : Instance σ} (fuel : Nat) (data : List Byte) (data_len : Int)
      (x : Result × Instance σ) : BunzipImpl.Reachable nat g →
      BunzipImpl.Write nat fuel g data data_len = .ok x → BunzipImpl.Reachable nat x.2
  | close {g : Instance σ} : BunzipImpl.Reachable nat g →
      BunzipImpl.Reachable nat (BunzipImpl.Close g).2
  | destroy {g : Instance σ} : BunzipImpl.Reachable nat g →
      BunzipImpl.Reachable nat (BunzipImpl.Destroy nat g)

/-- An instance in state `Data` over the byte-storing codec, which still has the bytes `w`
to write; the history is empty. -/
def Instance.pending (w : List Byte) : Instance (List Byte) :=
  { stream_ := { next_in := [], avail_in := 0, native := w, allocated := true, log := [] },
    state_ := State.Data }

/-- The number of input bytes (`avail_in`) a step in the history was offered; 0 for the other
entries. -/
def Call.availIn : Call → Nat
  | .step _ a _ _ _ _ => a
  | _ => 0

/-- The history `log2` is `log1` followed by entries that all satisfy `G`. -/
def Extends (G : Call → Prop) (log1 log2 : List Call) : Prop :=
  ∃ l, log2 = log1 ++ l ∧ ∀ c ∈ l, G c

/-- The number of iterations `ceil(n / CHUNK)` the outer loop of a gzip Write needs for
`data_len = n` (none when `n ≤ 0`). -/
def chunkCount (n : Int) : Nat :=
  (n.toNat + CHUNK - 1) / CHUNK

/-- The number of calls of the step primitive in a history. -/
def stepCount (log : List Call) : Nat :=
  log.countP Call.isStep

/-- Every step of the library in mode `run` that is offered input and answers the
progressing status `ok` takes at least one input byte. -/
def Consuming {σ : Type} (nat : Native σ) (ok : Int) : Prop :=
  ∀ w inp n, inp ≠ [] → (nat.step w Flush.run inp n).1.status = ok →
    0 < (nat.step w Flush.run inp n).1.consumed

/-- Whether the output region a step in the history was offered, `next_out` to
`next_out + avail_out` (bytes `offset` to `offset + avail_out` of the buffer), lies within the
capacity the buffer had at that call; true for the other entries. -/
def Call.inBounds : Call → Bool
  | .step _ _ off ao cap _ => decide (off + ao ≤ cap)
  | _ => true

/-- The library keeps a notebook in its hidden state: `taken w` is the input bytes its steps
have taken so far and `stored w` the output bytes they have stored, both in call order.  A
step adds the bytes it takes from the input offered and the bytes it stores in the output space
offered; init, destroy and growth requests leave the notebook alone. -/
def Records {σ : Type} (nat : Native σ) (taken stored : σ → List Byte) : Prop :=
  (∀ w, taken (nat.init w).2 = taken w ∧ stored (nat.init w).2 = stored w) ∧
  (∀ w, taken (nat.destroy w) = taken w ∧ stored (nat.destroy w) = stored w) ∧
  (∀ w n, taken (nat.grow w n).2 = taken w ∧ stored (nat.grow w n).2 = stored w) ∧
  ∀ w f inp n,
    taken (nat.step w f inp n).2 = taken w ++ inp.take (nat.step w f inp n).1.consumed ∧
    stored (nat.step w f inp n).2 = stored w ++ (nat.step w f inp n).1.produced.take n

/-- Any library, run with a notebook beside its hidden state: the library answers as before,
and each step is written down. -/
def recorded {σ : Type} (nat : Native σ) : Native (σ × List Byte × List Byte) :=
  { init := fun w => ((nat.init w.1).1, ((nat.init w.1).2, w.2))
    step := fun w f inp n =>
      ((nat.step w.1 f inp n).1,
        ((nat.step w.1 f inp n).2, w.2.1 ++ inp.take (nat.step w.1 f inp n).1.consumed,
          w.2.2 ++ (nat.step w.1 f inp n).1.produced.take n))
    destroy := fun w => (nat.destroy w.1, w.2)
    grow := fun w n => ((nat.grow w.1 n).1, ((nat.grow w.1 n).2, w.2)) }

/-- An instance in state `Data` whose library is in the hidden state `w`; the history is
empty. -/
def Instance.active {σ : Type} (w : σ) : Instance σ :=
  { stream_ := { next_in := [], avail_in := 0, native := w, allocated := true, log := [] },
    state_ := State.Data }

/-- Whether a history entry is no step that answered a status other than `a` and `b`, the
statuses after which the driver counts the bytes the step stored. -/
def Call.accepted (a b : Int) : Call → Bool
  | .step _ _ _ _ _ st => decide (st = a ∨ st = b)
  | _ => true

/-- Whether a loop ran to its end. -/
def Flow.isNext {σ : Type} : Flow σ → Bool
  | .next _ _ => true
  | .leave _ _ => false

/-- A step of the library in mode `run` that answers the progressing status `ok` and leaves
output space unused has taken all the input it was offered (the contract of `deflate` and
`inflate` that the `while (stream_.avail_out == 0)` loops of `gzip.cc` rely on). -/
def Draining {σ : Type} (nat : Native σ) (ok : Int) : Prop :=
  ∀ w inp n, (nat.step w Flush.run inp n).1.status = ok →
    ((nat.step w Flush.run inp n).1.produced.take n).length < n →
    inp.length ≤ (nat.step w Flush.run inp n).1.consumed

/-- The input side of a loop result: the bytes `now` the library has taken are the bytes `t0`
taken before the call followed by the first `k` of the `n0` bytes of `data0`; `k` is `n0` when
the loop ran to its end (`next`), and a `return` inside the loop leaves the call with a state
other than `Data`. -/
def Cursor {σ : Type} (taken : σ → List Byte) (t0 data0 : List Byte) (n0 : Nat) (f : Flow σ) :
    Prop :=
  ∃ k, k ≤ n0 ∧ taken f.vars.stream_.native = t0 ++ data0.take k ∧
    (f.isNext = true → k = n0 ∧ f.vars.t.live = true ∧ f.vars.t.value = State.Error) ∧
    (f.isNext = false → f.vars.t.finish f.vars.state_ ≠ State.Data)

/-- The input side of a Write that returned `x` on the instance `g`: the bytes the library
took during the call are the first `k` bytes of `data`, in order, with `k` at most
`data_len`; and `k` is `data_len` when the call leaves the state `Data`. -/
def Fed {σ : Type} (taken : σ → List Byte) (g : Instance σ) (data : List Byte) (data_len : Int)
    (x : Result × Instance σ) : Prop :=
  ∃ k, k ≤ data_len.toNat ∧
    taken x.2.stream_.native = taken g.stream_.native ++ data.take k ∧
    (x.2.state_ = State.Data → k = data_len.toNat)

/-- The library keeps an itemised notebook in its hidden state: `chunks w` lists, in call
order, the bytes each of its steps has stored so far, one entry per step.  A step adds the
bytes it stores in the output space offered; init, destroy and growth requests leave the
notebook alone. -/
def Itemised {σ : Type} (nat : Native σ) (chunks : σ → List (List Byte)) : Prop :=
  (∀ w, chunks (nat.init w).2 = chunks w) ∧
  (∀ w, chunks (nat.destroy w) = chunks w) ∧
  (∀ w n, chunks (nat.grow w n).2 = chunks w) ∧
  ∀ w f inp n,
    chunks (nat.step w f inp n).2 = chunks w ++ [(nat.step w f inp n).1.produced.take n]

/-- Any library, run with an itemised notebook beside its hidden state: the library answers
as before, and the bytes each step stores are written down as one entry. -/
def itemised {σ : Type} (nat : Native σ) : Native (σ × List (List Byte)) :=
  { init := fun w => ((nat.init w.1).1, ((nat.init w.1).2, w.2))
    step := fun w f inp n =>
      ((nat.step w.1 f inp n).1,
        ((nat.step w.1 f inp n).2, w.2 ++ [(nat.step w.1 f inp n).1.produced.take n]))
    destroy := fun w => (nat.destroy w.1, w.2)
    grow := fun w n => ((nat.grow w.1 n).1, ((nat.grow w.1 n).2, w.2)) }

/-- The offset into the buffer (`next_out - out.data()`) a step in the history was offered;
0 for the other entries. -/
def Call.offset : Call → Nat
  | .step _ _ off _ _ _ => off
  | _ => 0

/-- The bytes a Write or End counts, read off the calls `l` it made and the bytes `cs` its
steps stored (one entry per step, in call order): the entries of the steps, concatenated in
call order, up to the first step that answered a status other than `a` and `b`, the statuses
the driver accepts. -/
def handedBack (a b : Int) : List Call → List (List Byte) → List Byte
  | [], _ => []
  | c :: l, cs =>
    if c.isStep then
      match cs with
      | [] => []
      | ch :: cs => if c.accepted a b then ch ++ handedBack a b l cs else []
    else handedBack a b l cs

/-- Whether each step among the calls `l` was offered the output region that starts where
the bytes stored by the steps before it end: the first step at offset `off`, each later step
at the offset of the step before plus the number of bytes that step stored. -/
def offsetsFollow : Nat → List Call → List (List Byte) → Bool
  | _, [], _ => true
  | off, c :: l, cs =>
    if c.isStep then
      match cs with
      | [] => false
      | ch :: cs => decide (c.offset = off) && offsetsFollow (off + ch.length) l cs
    else offsetsFollow off l cs

/-- The calls `l` made so far were all accepted, their steps stored the entries `cs`, each at
the offset where the bytes before it end, and the first `len` bytes of the buffer `mem` are
those entries concatenated. -/
def Tallied (a b : Int) (l : List Call) (cs : List (List Byte)) (mem : List Byte)
    (len : Nat) : Prop :=
  (∀ c ∈ l, c.accepted a b = true) ∧ cs.length = stepCount l ∧
  offsetsFollow 0 l cs = true ∧
  mem.take len = cs.flatten ∧ len ≤ mem.length

/-- The output side of a call, part way or at its end: the history `log` is the history
`log0` before the call followed by the calls `l` made since, and the notebook `now` is the
notebook `c0` before the call followed by the entries `cs` of the steps made since.  Either
all is tallied; or (only when the loop was left, `next = false`) all is tallied up to a step
that answered a status the driver rejects, which was offered the offset `len`, whose bytes
are the last entry, and after which no step was made. -/
def OutputPost (a b : Int) (log0 : List Call) (c0 : List (List Byte)) (log : List Call)
    (now : List (List Byte)) (mem : List Byte) (len : Nat) (next : Bool) : Prop :=
  ∃ l cs, log = log0 ++ l ∧ now = c0 ++ cs ∧
    (Tallied a b l cs mem len ∨
      (next = false ∧ ∃ l1 cs1 c ch l2, l = l1 ++ c :: l2 ∧ cs = cs1 ++ [ch] ∧
        Tallied a b l1 cs1 mem len ∧ c.isStep = true ∧ c.accepted a b = false ∧
        c.offset = len ∧ ∀ d ∈ l2, d.isStep = false))

/-- The calls `l` and the notebook entries `cs` are those made during the call that took the
instance `g` to the result `x`. -/
def During {σ : Type} (chunks : σ → List (List Byte)) (g : Instance σ)
    (x : Result × Instance σ) (l : List Call) (cs : List (List Byte)) : Prop :=
  x.2.stream_.log = g.stream_.log ++ l ∧
  chunks x.2.stream_.native = chunks g.stream_.native ++ cs

/-- What a Write or End that made the calls `l`, whose steps stored the entries `cs`, handed
back as `out` with the length `reported`.  There is one entry per step; only the last step can
have answered a status other than `a`, `b`; each step was offered the offset where the bytes
stored before it end; the length reported is the length of the entries of the accepted
steps; and when every region offered lay within the capacity of the buffer, the bytes handed
back are those entries, concatenated in call order. -/
def Handed (a b : Int) (l : List Call) (cs : List (List Byte)) (out : List Byte)
    (reported : Nat) : Prop :=
  cs.length = stepCount l ∧
  (∀ c ∈ (l.filter Call.isStep).dropLast, c.accepted a b = true) ∧
  offsetsFollow 0 l cs = true ∧
  reported = (handedBack a b l cs).length ∧
  ((∀ c ∈ l, c.inBounds = true) → out = handedBack a b l cs)

/-- The library is `k` progressing steps away from answering `fin` (the end of its stream,
or an error): whatever growth is requested before a step and whatever input and output space
the step is offered, every growth succeeds, each of the next `k` steps in mode `run` answers
the progressing status `ok`, and the step after them answers `fin`. -/
def Ending {σ : Type} (nat : Native σ) (ok fin : Int) : Nat → σ → Prop
  | 0, w => ∀ m inp n, (nat.grow w m).1 = true ∧
      (nat.step (nat.grow w m).2 Flush.run inp n).1.status = fin
  | k + 1, w => ∀ m inp n, (nat.grow w m).1 = true ∧
      (nat.step (nat.grow w m).2 Flush.run inp n).1.status = ok ∧
      Ending nat ok fin k (nat.step (nat.grow w m).2 Flush.run inp n).2

/-- A library that counts down to the end of its stream, or to an error: in the hidden
state `w + 1` a step answers `ok`, in the hidden state 0 it answers `fin`; each step takes `c`
input bytes and stores `p`.  Init answers 0 and growth always succeeds. -/
def countNative (ok fin : Int) (c : Nat) (p : List Byte) : Native Nat :=
  { init := fun w => (0, w)
    step := fun w _ _ _ =>
      ({ status := if w = 0 then fin else ok, consumed := c, produced := p }, w - 1)
    destroy := fun w => w
    grow := fun w _ => (true, w) }

/-! ## Theorems -/

/-! ### What growth requests and step calls leave alone -/

theorem Vars.GrowBy_fields {σ : Type} (nat : Native σ) (v : Vars σ) (n : Nat) :
    (v.GrowBy nat n).2.t = v.t ∧ (v.GrowBy nat n).2.state_ = v.state_ ∧
    (v.GrowBy nat n).2.out_len = v.out_len ∧
    (v.GrowBy nat n).2.stream_.allocated = v.stream_.allocated ∧
    (v.GrowBy nat n).2.stream_.log = v.stream_.log ++ [Call.grow n (v.GrowBy nat n).1] ∧
    (v.GrowBy nat n).2.out.length = v.out.length ∧
    (v.GrowBy nat n).2.out.mem = v.out.mem ∧
    (v.GrowBy nat n).2.stream_.avail_in = v.stream_.avail_in ∧
    (v.GrowBy nat n).2.stream_.next_in = v.stream_.next_in := by
  cases h : (nat.grow v.stream_.native n).1 <;> simp [Vars.GrowBy, h]

theorem Vars.callStep_fields {σ : Type} (nat : Native σ) (v : Vars σ) (f : Flush)
    (off ao : Nat) :
    (v.callStep nat f off ao).2.2.t = v.t ∧ (v.callStep nat f off ao).2.2.state_ = v.state_ ∧
    (v.callStep nat f off ao).2.2.out_len = v.out_len ∧
    (v.callStep nat f off ao).2.2.stream_.allocated = v.stream_.allocated ∧
    (v.callStep nat f off ao).2.2.stream_.log =
      v.stream_.log ++ [Call.step f v.stream_.avail_in off ao v.out.capacity
        (v.callStep nat f off ao).1] ∧
    (v.callStep nat f off ao).2.2.out.length = v.out.length ∧
    (v.callStep nat f off ao).2.2.out.capacity = v.out.capacity := by
  simp [Vars.callStep]

theorem Steps.refl {σ : Type} (v : Vars σ) : Steps v v [] :=
  ⟨rfl, rfl, rfl, by simp⟩

theorem Steps.trans {σ : Type} {v1 v2 v3 : Vars σ} {l1 l2 : List Call} (h1 : Steps v1 v2 l1)
    (h2 : Steps v2 v3 l2) : Steps v1 v3 (l1 ++ l2) := by
  obtain ⟨a1, b1, c1, d1⟩ := h1
  obtain ⟨a2, b2, c2, d2⟩ := h2
  exact ⟨a2.trans a1, b2.trans b1, c2.trans c1, by rw [d2, d1, List.append_assoc]⟩

/-- Variables that agree with `v2` on guard, state, allocation and history are reached by the
same calls. -/
theorem Steps.congr {σ : Type} {v1 v2 v3 : Vars σ} {l : List Call} (h : Steps v1 v2 l)
    (ht : v3.t = v2.t) (hs : v3.state_ = v2.state_)
    (ha : v3.stream_.allocated = v2.stream_.allocated)
    (hl : v3.stream_.log = v2.stream_.log) : Steps v1 v3 l := by
  obtain ⟨a, b, c, d⟩ := h
  exact ⟨ht.trans a, hs.trans b, ha.trans c, hl.trans d⟩

/-- The same on the left: the start may be replaced by variables that agree with it. -/
theorem Steps.congr_left {σ : Type} {v0 v1 v2 : Vars σ} {l : List Call} (h : Steps v1 v2 l)
    (ht : v1.t = v0.t) (hs : v1.state_ = v0.state_)
    (ha : v1.stream_.allocated = v0.stream_.allocated)
    (hl : v1.stream_.log = v0.stream_.log) : Steps v0 v2 l := by
  obtain ⟨a, b, c, d⟩ := h
  exact ⟨a.trans ht, b.trans hs, c.trans ha, by rw [d, hl]⟩

theorem Steps.growBy {σ : Type} (nat : Native σ) (v : Vars σ) (n : Nat) :
    Steps v (v.GrowBy nat n).2 [Call.grow n (v.GrowBy nat n).1] := by
  obtain ⟨a, b, _, c, d, _⟩ := Vars.GrowBy_fields nat v n
  exact ⟨a, b, c, d⟩

theorem Steps.callStep {σ : Type} (nat : Native σ) (v : Vars σ) (f : Flush) (off ao : Nat) :
    Steps v (v.callStep nat f off ao).2.2
      [Call.step f v.stream_.avail_in off ao v.out.capacity (v.callStep nat f off ao).1] := by
  obtain ⟨a, b, _, c, d, _⟩ := Vars.callStep_fields nat v f off ao
  exact ⟨a, b, c, d⟩

theorem Quiet.nil : Quiet [] := by
  intro c hc; simp at hc

theorem Quiet.append {l1 l2 : List Call} (h1 : Quiet l1) (h2 : Quiet l2) : Quiet (l1 ++ l2) := by
  intro c hc
  rcases List.mem_append.1 hc with h | h
  · exact h1 c h
  · exact h2 c h

theorem Quiet.grow (n : Nat) (b : Bool) : Quiet [Call.grow n b] := by
  intro c hc; simp at hc; subst hc; simp [Call.isNative]

theorem Quiet.of_round (n : Nat) (f : Flush) (a b c d : Nat) (st : Int) :
    Quiet [Call.grow n true, Call.step f a b c d st] := by
  intro x hx
  simp only [List.mem_cons, List.mem_singleton, List.not_mem_nil, or_false] at hx
  rcases hx with h | h <;> subst h <;> simp [Call.isStep, Call.isNative]

theorem Quiet.step (f : Flush) (a b c d : Nat) (st : Int) : Quiet [Call.step f a b c d st] := by
  intro x hx; simp at hx; subst hx; simp [Call.isStep]

theorem Quiet.of_progress {ok : Int} {l : List Call} (h : ∀ c ∈ l, c.progress ok = true) :
    Quiet l := by
  intro c hc _
  have := h c hc
  cases c <;> simp_all [Call.progress, Call.isStep, Call.isNative]

theorem Quiet.of_failure {ok mem r : Int} {c : Call} (h : c.failure ok mem r = true) :
    Quiet [c] := by
  intro x hx _
  simp at hx; subst hx
  cases x <;> simp_all [Call.failure, Call.isStep, Call.isNative]

theorem Quiet.no_destroy {l : List Call} (h : Quiet l) : destroyCount l = 0 := by
  unfold destroyCount
  rw [List.countP_eq_zero]
  intro c hc
  have := h c hc
  cases c <;> simp_all [Call.isDestroy, Call.isNative, Call.isStep]

theorem CompressPost.prepend_compress {σ : Type} {ok mem : Int} {f : Flow σ} {l1 l2 : List Call}
    (h1 : ∀ c ∈ l1, c.progress ok = true) (h2 : CompressPost ok mem f l2) :
    CompressPost ok mem f (l1 ++ l2) := by
  cases f with
  | next r v =>
    intro c hc
    rcases List.mem_append.1 hc with h | h
    · exact h1 c h
    · exact h2 c h
  | leave r v =>
    obtain ⟨l0, c, e, hp, hf⟩ := h2
    refine ⟨l1 ++ l0, c, by rw [e, List.append_assoc], ?_, hf⟩
    intro x hx
    rcases List.mem_append.1 hx with h | h
    · exact h1 x h
    · exact hp x h

/-- The calls of one round of a loop body: a growth that succeeded, then a step. -/
theorem Steps.round {σ : Type} (nat : Native σ) (v : Vars σ) (n : Nat) (f : Flush)
    (off ao : Nat) (hg : ¬ (v.GrowBy nat n).1 = false) :
    Steps v ((v.GrowBy nat n).2.callStep nat f off ao).2.2
      [Call.grow n true,
       Call.step f (v.GrowBy nat n).2.stream_.avail_in off ao (v.GrowBy nat n).2.out.capacity
         ((v.GrowBy nat n).2.callStep nat f off ao).1] := by
  have h := (Steps.growBy nat v n).trans (Steps.callStep nat (v.GrowBy nat n).2 f off ao)
  simp only [Bool.not_eq_false] at hg
  rw [hg] at h
  exact h

theorem Gzip.endLoop_steps {σ : Type} (nat : Native σ) :
    ∀ (fuel : Nat) (v : Vars σ) (r : Int × Vars σ),
      Gzip.endLoop nat fuel v = .ok r → ∃ l, Steps v r.2 l ∧ Quiet l := by
  intro fuel
  induction fuel with
  | zero => intro v r h; simp [Gzip.endLoop] at h
  | succ n ih =>
    intro v r h
    simp only [Gzip.endLoop] at h
    split_ifs at h with h1 h2 h3 h4
    · cases h
      exact ⟨_, Steps.growBy nat v CHUNK, Quiet.grow _ _⟩
    · cases h
      exact ⟨_, Steps.round nat v CHUNK Flush.finish _ CHUNK h1, Quiet.of_round _ _ _ _ _ _ _⟩
    · obtain ⟨l, hl, hq⟩ := ih _ _ h
      have hr := Steps.round nat v CHUNK Flush.finish (v.GrowBy nat CHUNK).2.out_len CHUNK h1
      exact ⟨_, hr.trans (hl.congr_left rfl rfl rfl rfl),
        (Quiet.of_round _ _ _ _ _ _ _).append hq⟩
    · cases h
      exact ⟨_, (Steps.round nat v CHUNK Flush.finish _ CHUNK h1).congr rfl rfl rfl rfl,
        Quiet.of_round _ _ _ _ _ _ _⟩

theorem BzipImpl.BzipEndWithData_steps {σ : Type} (nat : Native σ) :
    ∀ (fuel : Nat) (v : Vars σ) (r : Int × Vars σ),
      BzipImpl.BzipEndWithData nat fuel v = .ok r → ∃ l, Steps v r.2 l ∧ Quiet l := by
  intro fuel
  induction fuel with
  | zero => intro v r h; simp [BzipImpl.BzipEndWithData] at h
  | succ n ih =>
    intro v r h
    simp only [BzipImpl.BzipEndWithData] at h
    split_ifs at h with h1 h2 h3 h4
    · cases h
      exact ⟨_, Steps.growBy nat v 128, Quiet.grow _ _⟩
    · cases h
      exact ⟨_, Steps.round nat v 128 Flush.finish _ 128 h1, Quiet.of_round _ _ _ _ _ _ _⟩
    · obtain ⟨l, hl, hq⟩ := ih _ _ h
      have hr := Steps.round nat v 128 Flush.finish (v.GrowBy nat 128).2.out.length 128 h1
      exact ⟨_, hr.trans (hl.congr_left rfl rfl rfl rfl),
        (Quiet.of_round _ _ _ _ _ _ _).append hq⟩
    · cases h
      exact ⟨_, (Steps.round nat v 128 Flush.finish _ 128 h1).congr rfl rfl rfl rfl,
        Quiet.of_round _ _ _ _ _ _ _⟩

theorem progress_round (ok : Int) (n : Nat) (f : Flush) (a b c d : Nat) :
    ∀ x ∈ [Call.grow n true, Call.step f a b c d ok], x.progress ok = true := by
  intro x hx
  simp only [List.mem_cons, List.mem_singleton, List.not_mem_nil, or_false] at hx
  rcases hx with h | h <;> subst h <;> simp [Call.progress]

theorem Gzip.deflateInner_post {σ : Type} (nat : Native σ) :
    ∀ (fuel : Nat) (v : Vars σ) (f : Flow σ),
      Gzip.deflateInner nat fuel v = .ok f →
      ∃ l, Steps v f.vars l ∧ CompressPost Z_OK Z_MEM_ERROR f l ∧
        (∀ r w, f = .next r w → r = Z_OK) := by
  intro fuel
  induction fuel with
  | zero => intro v f h; simp [Gzip.deflateInner] at h
  | succ n ih =>
    intro v f h
    simp only [Gzip.deflateInner] at h
    split_ifs at h with h1 h2 h3 h4
    · cases h
      refine ⟨_, Steps.growBy nat v CHUNK, ⟨[], _, rfl, by simp, ?_⟩, by simp⟩
      simp [Call.failure, h1]
    · cases h
      refine ⟨_, Steps.round nat v CHUNK Flush.run _ CHUNK h1, ⟨[_], _, rfl, ?_, ?_⟩,
        by simp⟩
      · simp [Call.progress]
      · simpa [Call.failure] using h3
    · obtain ⟨l, hl, hp, hr⟩ := ih _ _ h
      have hs := Steps.round nat v CHUNK Flush.run (v.GrowBy nat CHUNK).2.out_len CHUNK h1
      simp only [ne_eq, Decidable.not_not] at h3
      rw [h3] at hs
      exact ⟨_, hs.trans (hl.congr_left rfl rfl rfl rfl),
        CompressPost.prepend_compress (progress_round _ _ _ _ _ _ _) hp, hr⟩
    · cases h
      simp only [ne_eq, Decidable.not_not] at h3
      refine ⟨_, (Steps.round nat v CHUNK Flush.run _ CHUNK h1).congr rfl rfl rfl rfl, ?_, ?_⟩
      · rw [h3]
        exact progress_round _ _ _ _ _ _ _
      · intro r w e
        cases e
        exact h3

theorem Gzip.deflateOuter_post {σ : Type} (nat : Native σ) (inner : Nat) :
    ∀ (fuel : Nat) (data : List Byte) (data_len : Int) (v : Vars σ) (f : Flow σ),
      Gzip.deflateOuter nat inner fuel data data_len Z_OK v = .ok f →
      ∃ l, Steps v f.vars l ∧ CompressPost Z_OK Z_MEM_ERROR f l ∧
        (∀ r w, f = .next r w → r = Z_OK) := by
  intro fuel
  induction fuel with
  | zero =>
    intro data data_len v f h
    unfold Gzip.deflateOuter at h
    by_cases h1 : data_len > 0
    · rw [if_pos h1] at h
      cases h
    · rw [if_neg h1] at h
      cases h
      exact ⟨[], Steps.refl v, by simp [CompressPost], by simp⟩
  | succ n ih =>
    intro data data_len v f h
    unfold Gzip.deflateOuter at h
    by_cases h1 : data_len > 0
    · rw [if_pos h1] at h
      simp only at h
      split at h
      · cases h
      · rename_i r v2 hin
        cases h
        obtain ⟨l, hl, hp, hr⟩ := Gzip.deflateInner_post nat _ _ _ hin
        exact ⟨l, hl.congr_left rfl rfl rfl rfl, hp, hr⟩
      · rename_i r v2 hin
        obtain ⟨l, hl, hp, hr⟩ := Gzip.deflateInner_post nat _ _ _ hin
        have hz : r = Z_OK := hr r v2 rfl
        subst hz
        obtain ⟨l2, hl2, hp2, hr2⟩ := ih _ _ _ _ h
        exact ⟨l ++ l2, (hl.congr_left rfl rfl rfl rfl).trans hl2,
          CompressPost.prepend_compress hp hp2, hr2⟩
    · rw [if_neg h1] at h
      cases h
      exact ⟨[], Steps.refl v, by simp [CompressPost], by simp⟩

theorem BzipImpl.bzip_writeLoop_post {σ : Type} (nat : Native σ) :
    ∀ (fuel : Nat) (data : List Byte) (data_len ret : Int) (v : Vars σ) (f : Flow σ),
      BzipImpl.writeLoop nat fuel data data_len ret v = .ok f →
      ∃ l, Steps v f.vars l ∧ CompressPost BZ_RUN_OK BZ_MEM_ERROR f l := by
  intro fuel
  induction fuel with
  | zero =>
    intro data data_len ret v f h
    unfold BzipImpl.writeLoop at h
    by_cases h1 : data_len > 0
    · rw [if_pos h1] at h
      cases h
    · rw [if_neg h1] at h
      cases h
      exact ⟨[], Steps.refl v, by simp [CompressPost]⟩
  | succ n ih =>
    intro data data_len ret v f h
    unfold BzipImpl.writeLoop at h
    by_cases h1 : data_len > 0
    · rw [if_pos h1] at h
      simp only at h
      have hg := Steps.growBy nat v (data_len + 1).toNat
      by_cases h2 : (v.GrowBy nat (data_len + 1).toNat).1 = false
      · rw [if_pos h2] at h
        cases h
        refine ⟨_, hg, ⟨[], _, rfl, by simp, ?_⟩⟩
        simp [Call.failure, h2]
      · rw [if_neg h2] at h
        simp only [Bool.not_eq_false] at h2
        rw [h2] at hg
        have hg2 : Steps v { (v.GrowBy nat (data_len + 1).toNat).2 with
            stream_ := { (v.GrowBy nat (data_len + 1).toNat).2.stream_ with
              next_in := data, avail_in := data_len.toNat } }
            [Call.grow (data_len + 1).toNat true] := hg.congr rfl rfl rfl rfl
        have hs := hg2.trans (Steps.callStep nat _ Flush.run
            (v.GrowBy nat (data_len + 1).toNat).2.out.length (data_len + 1).toNat)
        split_ifs at h with h3 h4
        · cases h
          refine ⟨_, hs, ⟨[_], _, rfl, ?_, ?_⟩⟩
          · simp [Call.progress]
          · simpa [Call.failure] using h4
        · obtain ⟨l, hl, hp⟩ := ih _ _ _ _ _ h
          simp only [ne_eq, Decidable.not_not] at h4
          rw [h4] at hs
          refine ⟨_, hs.trans (hl.congr_left rfl rfl rfl rfl),
            CompressPost.prepend_compress ?_ hp⟩
          exact progress_round _ _ _ _ _ _ _
    · rw [if_neg h1] at h
      cases h
      exact ⟨[], Steps.refl v, by simp [CompressPost]⟩

/-! ### Enough fuel: the loops return when the library makes progress -/

theorem Vars.GrowBy_native {σ : Type} (nat : Native σ) (v : Vars σ) (n : Nat) :
    (v.GrowBy nat n).2.stream_.native = (nat.grow v.stream_.native n).2 := by
  cases h : (nat.grow v.stream_.native n).1 <;> simp [Vars.GrowBy, h]

theorem Vars.callStep_native {σ : Type} (nat : Native σ) (v : Vars σ) (f : Flush)
    (off ao : Nat) :
    (v.callStep nat f off ao).1 =
      (nat.step v.stream_.native f (v.stream_.next_in.take v.stream_.avail_in) ao).1.status ∧
    (v.callStep nat f off ao).2.2.stream_.native =
      (nat.step v.stream_.native f (v.stream_.next_in.take v.stream_.avail_in) ao).2 ∧
    (v.callStep nat f off ao).2.1 = ao - min ao
      (nat.step v.stream_.native f (v.stream_.next_in.take v.stream_.avail_in)
        ao).1.produced.length ∧
    (v.callStep nat f off ao).2.2.stream_.avail_in = v.stream_.avail_in - min
      (nat.step v.stream_.native f (v.stream_.next_in.take v.stream_.avail_in) ao).1.consumed
      v.stream_.avail_in := by
  simp [Vars.callStep]

/-- One round of a loop body under `Progressing`, in terms of the library's measure plus the
input still on offer: the step does not answer the asserted status, the sum does not rise, and
it falls when the step answers the continuing status after finishing, after being offered
input, or after filling the output space. -/
theorem Progressing.one_round {σ : Type} {nat : Native σ} {μ : σ → Nat} {flush : Flush}
    {asserted cont : Int} (hp : Progressing nat μ flush asserted cont) (v v1 : Vars σ)
    (n off ao : Nat) (hao : 0 < ao)
    (hv : v1.stream_.native = (v.GrowBy nat n).2.stream_.native) :
    (v1.callStep nat flush off ao).1 ≠ asserted ∧
    μ (v1.callStep nat flush off ao).2.2.stream_.native +
        (v1.callStep nat flush off ao).2.2.stream_.avail_in ≤
      μ v.stream_.native + v1.stream_.avail_in ∧
    ((v1.callStep nat flush off ao).1 = cont →
      (flush = Flush.finish ∨ 0 < min v1.stream_.avail_in v1.stream_.next_in.length ∨
        (v1.callStep nat flush off ao).2.1 = 0) →
      μ (v1.callStep nat flush off ao).2.2.stream_.native +
          (v1.callStep nat flush off ao).2.2.stream_.avail_in <
        μ v.stream_.native + v1.stream_.avail_in) := by
  obtain ⟨hs, hn, ho, hi⟩ := Vars.callStep_native nat v1 flush off ao
  have hg := hp.1 v.stream_.native n
  obtain ⟨h1, h2, h3⟩ :=
    hp.2 v1.stream_.native (v1.stream_.next_in.take v1.stream_.avail_in) ao hao
  have hle : μ v1.stream_.native ≤ μ v.stream_.native := by
    rw [hv, Vars.GrowBy_native]
    exact hg
  have hlen : (v1.stream_.next_in.take v1.stream_.avail_in).length =
      min v1.stream_.avail_in v1.stream_.next_in.length := List.length_take _ _
  rw [hs, hn, ho, hi]
  rw [hlen] at h2 h3
  refine ⟨h1, by omega, fun hc hq => ?_⟩
  have h4 := h3 hc (by
    rcases hq with e | e | e
    · exact Or.inl e
    · refine Or.inr (Or.inl ?_)
      intro hnil
      rw [hnil, List.length_nil] at hlen
      omega
    · exact Or.inr (Or.inr (by omega)))
  omega

theorem Gzip.endLoop_returns {σ : Type} (nat : Native σ) (μ : σ → Nat)
    (hp : Progressing nat μ Flush.finish Z_STREAM_ERROR Z_OK) :
    ∀ (fuel : Nat) (v : Vars σ), μ v.stream_.native + v.stream_.avail_in < fuel →
      ∃ r, Gzip.endLoop nat fuel v = .ok r := by
  intro fuel
  induction fuel with
  | zero => intro v h; omega
  | succ n ih =>
    intro v h
    obtain ⟨ha, _, hc⟩ := hp.one_round v (v.GrowBy nat CHUNK).2 CHUNK
      (v.GrowBy nat CHUNK).2.out_len CHUNK (by decide) rfl
    have hai := (Vars.GrowBy_fields nat v CHUNK).2.2.2.2.2.2.2.1
    simp only [Gzip.endLoop]
    by_cases h1 : (v.GrowBy nat CHUNK).1 = false
    · rw [if_pos h1]; exact ⟨_, rfl⟩
    rw [if_neg h1, if_neg ha]
    by_cases h3 : (Vars.callStep nat (v.GrowBy nat CHUNK).2 Flush.finish
        (v.GrowBy nat CHUNK).2.out_len CHUNK).1 ≠ Z_OK ∧
        (Vars.callStep nat (v.GrowBy nat CHUNK).2 Flush.finish
        (v.GrowBy nat CHUNK).2.out_len CHUNK).1 ≠ Z_STREAM_END
    · rw [if_pos h3]; exact ⟨_, rfl⟩
    rw [if_neg h3]
    by_cases h4 : (Vars.callStep nat (v.GrowBy nat CHUNK).2 Flush.finish
        (v.GrowBy nat CHUNK).2.out_len CHUNK).1 ≠ Z_STREAM_END
    · rw [if_pos h4]
      apply ih
      have hz : (Vars.callStep nat (v.GrowBy nat CHUNK).2 Flush.finish
          (v.GrowBy nat CHUNK).2.out_len CHUNK).1 = Z_OK := by
        by_contra hne
        exact h3 ⟨hne, h4⟩
      have := hc hz (Or.inl rfl)
      simp only
      omega
    · rw [if_neg h4]; exact ⟨_, rfl⟩

theorem BzipImpl.BzipEndWithData_returns {σ : Type} (nat : Native σ) (μ : σ → Nat)
    (hp : Progressing nat μ Flush.finish BZ_SEQUENCE_ERROR BZ_FINISH_OK) :
    ∀ (fuel : Nat) (v : Vars σ), μ v.stream_.native + v.stream_.avail_in < fuel →
      ∃ r, BzipImpl.BzipEndWithData nat fuel v = .ok r := by
  intro fuel
  induction fuel with
  | zero => intro v h; omega
  | succ n ih =>
    intro v h
    obtain ⟨ha, _, hc⟩ := hp.one_round v (v.GrowBy nat 128).2 128
      (v.GrowBy nat 128).2.out.length 128 (by decide) rfl
    have hai := (Vars.GrowBy_fields nat v 128).2.2.2.2.2.2.2.1
    simp only [BzipImpl.BzipEndWithData]
    by_cases h1 : (v.GrowBy nat 128).1 = false
    · rw [if_pos h1]; exact ⟨_, rfl⟩
    rw [if_neg h1, if_neg ha]
    by_cases h3 : (Vars.callStep nat (v.GrowBy nat 128).2 Flush.finish
        (v.GrowBy nat 128).2.out.length 128).1 ≠ BZ_FINISH_OK ∧
        (Vars.callStep nat (v.GrowBy nat 128).2 Flush.finish
        (v.GrowBy nat 128).2.out.length 128).1 ≠ BZ_STREAM_END
    · rw [if_pos h3]; exact ⟨_, rfl⟩
    rw [if_neg h3]
    by_cases h4 : (Vars.callStep nat (v.GrowBy nat 128).2 Flush.finish
        (v.GrowBy nat 128).2.out.length 128).1 ≠ BZ_STREAM_END
    · rw [if_pos h4]
      apply ih
      have hz : (Vars.callStep nat (v.GrowBy nat 128).2 Flush.finish
          (v.GrowBy nat 128).2.out.length 128).1 = BZ_FINISH_OK := by
        by_contra hne
        exact h3 ⟨hne, h4⟩
      have := hc hz (Or.inl rfl)
      simp only
      omega
    · rw [if_neg h4]; exact ⟨_, rfl⟩

theorem Gzip.deflateInner_returns {σ : Type} (nat : Native σ) (μ : σ → Nat)
    (hp : Progressing nat μ Flush.run Z_STREAM_ERROR Z_OK) :
    ∀ (fuel : Nat) (v : Vars σ), μ v.stream_.native + v.stream_.avail_in < fuel →
      ∃ f, Gzip.deflateInner nat fuel v = .ok f ∧
        ∀ r w, f = .next r w →
          μ w.stream_.native ≤ μ v.stream_.native + v.stream_.avail_in := by
  intro fuel
  induction fuel with
  | zero => intro v h; omega
  | succ n ih =>
    intro v h
    obtain ⟨ha, hle, hc⟩ := hp.one_round v (v.GrowBy nat CHUNK).2 CHUNK
      (v.GrowBy nat CHUNK).2.out_len CHUNK (by decide) rfl
    have hai := (Vars.GrowBy_fields nat v CHUNK).2.2.2.2.2.2.2.1
    simp only [Gzip.deflateInner]
    by_cases h1 : (v.GrowBy nat CHUNK).1 = false
    · rw [if_pos h1]; exact ⟨_, rfl, by simp⟩
    rw [if_neg h1, if_neg ha]
    by_cases h3 : (Vars.callStep nat (v.GrowBy nat CHUNK).2 Flush.run
        (v.GrowBy nat CHUNK).2.out_len CHUNK).1 ≠ Z_OK
    · rw [if_pos h3]; exact ⟨_, rfl, by simp⟩
    rw [if_neg h3]
    simp only [ne_eq, Decidable.not_not] at h3
    by_cases h4 : (Vars.callStep nat (v.GrowBy nat CHUNK).2 Flush.run
        (v.GrowBy nat CHUNK).2.out_len CHUNK).2.1 = 0
    · rw [if_pos h4]
      have hlt := hc h3 (Or.inr (Or.inr h4))
      obtain ⟨f, hf, hm⟩ := ih { (Vars.callStep nat (v.GrowBy nat CHUNK).2 Flush.run
          (v.GrowBy nat CHUNK).2.out_len CHUNK).2.2 with
        out_len := (Vars.callStep nat (v.GrowBy nat CHUNK).2 Flush.run
          (v.GrowBy nat CHUNK).2.out_len CHUNK).2.2.out_len + (CHUNK - (Vars.callStep nat
          (v.GrowBy nat CHUNK).2 Flush.run (v.GrowBy nat CHUNK).2.out_len CHUNK).2.1) }
        (by simp only; omega)
      refine ⟨f, hf, fun r w e => ?_⟩
      have := hm r w e
      simp only at this
      omega
    · rw [if_neg h4]
      refine ⟨_, rfl, fun r w e => ?_⟩
      cases e
      simp only
      omega

theorem Gzip.deflateOuter_returns {σ : Type} (nat : Native σ) (μ : σ → Nat)
    (hp : Progressing nat μ Flush.run Z_STREAM_ERROR Z_OK) (inner : Nat) :
    ∀ (fuel : Nat) (data : List Byte) (data_len ret : Int) (v : Vars σ),
      data_len.toNat ≤ fuel → μ v.stream_.native + data_len.toNat < inner →
      ∃ f, Gzip.deflateOuter nat inner fuel data data_len ret v = .ok f := by
  intro fuel
  induction fuel with
  | zero =>
    intro data data_len ret v h _
    unfold Gzip.deflateOuter
    rw [if_neg (by omega)]
    exact ⟨_, rfl⟩
  | succ n ih =>
    intro data data_len ret v h hi
    have hC1 : (CHUNK : Int) = 16384 := rfl
    have hC2 : CHUNK = 16384 := rfl
    unfold Gzip.deflateOuter
    by_cases h1 : data_len > 0
    · rw [if_pos h1]
      simp only
      have hav : (if data_len > CHUNK then CHUNK else data_len.toNat) ≤ data_len.toNat := by
        split_ifs <;> omega
      obtain ⟨f, hf, hm⟩ := Gzip.deflateInner_returns nat μ hp inner
        { v with stream_ := { v.stream_ with
            avail_in := if data_len > CHUNK then CHUNK else data_len.toNat, next_in := data } }
        (by simp only; omega)
      rw [hf]
      cases f with
      | leave r w => exact ⟨_, rfl⟩
      | next r w =>
        have := hm r w rfl
        simp only at this
        refine ih _ _ _ _ (by omega) ?_
        split_ifs at this <;> omega
    · rw [if_neg h1]; exact ⟨_, rfl⟩

theorem BzipImpl.writeLoop_returns {σ : Type} (nat : Native σ) (μ : σ → Nat)
    (hp : Progressing nat μ Flush.run BZ_SEQUENCE_ERROR BZ_RUN_OK) :
    ∀ (fuel : Nat) (data : List Byte) (data_len ret : Int) (v : Vars σ),
      data_len ≤ data.length → μ v.stream_.native + data_len.toNat < fuel →
      ∃ f, BzipImpl.writeLoop nat fuel data data_len ret v = .ok f := by
  intro fuel
  induction fuel with
  | zero => intro data data_len ret v _ h; omega
  | succ n ih =>
    intro data data_len ret v hd h
    unfold BzipImpl.writeLoop
    by_cases h1 : data_len > 0
    · rw [if_pos h1]
      simp only
      obtain ⟨ha, hle, hc⟩ := hp.one_round v
        { (v.GrowBy nat (data_len + 1).toNat).2 with
          stream_ := { (v.GrowBy nat (data_len + 1).toNat).2.stream_ with
            next_in := data, avail_in := data_len.toNat } }
        (data_len + 1).toNat (v.GrowBy nat (data_len + 1).toNat).2.out.length
        (data_len + 1).toNat (by omega) rfl
      have hi := (Vars.callStep_native nat
        { (v.GrowBy nat (data_len + 1).toNat).2 with
          stream_ := { (v.GrowBy nat (data_len + 1).toNat).2.stream_ with
            next_in := data, avail_in := data_len.toNat } } Flush.run
        (v.GrowBy nat (data_len + 1).toNat).2.out.length (data_len + 1).toNat).2.2.2
      by_cases h2 : (v.GrowBy nat (data_len + 1).toNat).1 = false
      · rw [if_pos h2]; exact ⟨_, rfl⟩
      rw [if_neg h2, if_neg ha]
      split_ifs with h3
      · exact ⟨_, rfl⟩
      · simp only [ne_eq, Decidable.not_not] at h3
        have := hc h3 (Or.inr (Or.inl (by simp only; omega)))
        apply ih
        · simp only [ScopedOutputBuffer.IncreaseLengthBy, List.length_drop] at hi ⊢
          omega
        · simp only [ScopedOutputBuffer.IncreaseLengthBy] at this ⊢
          omega
    · rw [if_neg h1]; exact ⟨_, rfl⟩

/-- The codec that stores bytes as they are makes progress, measured by the number of bytes
it still has to write, when none of its statuses is the asserted one and the status that ends
a finish is not the continuing one. -/
theorem echoNative_progressing (run more done asserted cont : Int) (flush : Flush)
    (h1 : run ≠ asserted) (h2 : more ≠ asserted) (h3 : done ≠ asserted) (h4 : done ≠ cont) :
    Progressing (echoNative run more done) List.length flush asserted cont := by
  refine ⟨fun w n => le_refl _, fun w inp n hn => ⟨?_, ?_, ?_⟩⟩
  · cases flush
    · exact h1
    · simp only [echoNative]
      split_ifs
      · exact h3
      · exact h2
  · simp [echoNative]
  · intro hc hq
    simp only [echoNative, List.length_drop, List.length_append, List.length_take,
      min_self] at hc hq ⊢
    rcases hq with e | e | e
    · subst e
      simp only [List.isEmpty_eq_true, List.drop_eq_nil_iff, List.length_append] at hc
      split_ifs at hc with h5
      · exact absurd hc h4
      · omega
    · have : 0 < inp.length := List.length_pos.2 e
      omega
    · omega

/-! ### Libraries that never let a loop end -/

theorem Gzip.endLoop_stuck (fuel : Nat) :
    ∀ v : Vars Unit, Gzip.endLoop (constNative 0 Z_OK 0 [] true) fuel v = .error Halt.fuel := by
  induction fuel with
  | zero => intro v; rfl
  | succ n ih =>
    intro v
    simp only [Gzip.endLoop]
    rw [if_neg (by simp [Vars.GrowBy, constNative]),
      if_neg (by simp [Vars.callStep, constNative]),
      if_neg (by simp [Vars.callStep, constNative]),
      if_pos (by simp [Vars.callStep, constNative])]
    exact ih _

theorem BzipImpl.BzipEndWithData_stuck (fuel : Nat) :
    ∀ v : Vars Unit,
      BzipImpl.BzipEndWithData (constNative 0 BZ_FINISH_OK 0 [] true) fuel v =
        .error Halt.fuel := by
  induction fuel with
  | zero => intro v; rfl
  | succ n ih =>
    intro v
    simp only [BzipImpl.BzipEndWithData]
    rw [if_neg (by simp [Vars.GrowBy, constNative]),
      if_neg (by simp [Vars.callStep, constNative]; decide),
      if_neg (by simp [Vars.callStep, constNative]),
      if_pos (by simp [Vars.callStep, constNative])]
    exact ih _

theorem Gzip.deflateInner_stuck (fuel : Nat) :
    ∀ v : Vars Unit,
      Gzip.deflateInner (constNative 0 Z_OK 0 (List.replicate CHUNK 0) true) fuel v =
        .error Halt.fuel := by
  induction fuel with
  | zero => intro v; rfl
  | succ n ih =>
    intro v
    simp only [Gzip.deflateInner]
    rw [if_neg (by simp [Vars.GrowBy, constNative]),
      if_neg (by simp [Vars.callStep, constNative]),
      if_neg (by simp [Vars.callStep, constNative]),
      if_pos (by simp [Vars.callStep, constNative])]
    exact ih _

theorem BzipImpl.writeLoop_stuck (fuel : Nat) :
    ∀ (ret : Int) (v : Vars Unit),
      BzipImpl.writeLoop (constNative 0 BZ_RUN_OK 0 [] true) fuel [1] 1 ret v =
        .error Halt.fuel := by
  induction fuel with
  | zero => intro ret v; rfl
  | succ n ih =>
    intro ret v
    unfold BzipImpl.writeLoop
    rw [if_pos (by decide)]
    simp only
    rw [if_neg (by simp [Vars.GrowBy, constNative]),
      if_neg (by simp [Vars.callStep, constNative]; decide),
      if_neg (by simp [Vars.callStep, constNative])]
    have h := ih BZ_RUN_OK
    simp only [Vars.callStep, constNative, Nat.min_def] at h ⊢
    exact h _

/-! ### The Write of the compressors -/

theorem Gzip.GzipDeflate_outcome {σ : Type} (nat : Native σ) (fuel : Nat) (g : Instance σ)
    (data : List Byte) (data_len : Int) (hs : g.state_ = State.Data)
    (x : Result × Instance σ) (h : Gzip.GzipDeflate nat fuel g data data_len = .ok x) :
    x.2.stream_.allocated = g.stream_.allocated ∧
    ∃ l, x.2.stream_.log = g.stream_.log ++ l ∧
      ((x.1.status = Z_OK ∧ x.2.state_ = State.Data ∧ ∀ c ∈ l, c.progress Z_OK = true) ∨
       (x.2.state_ = State.Error ∧ ∃ l0 c, l = l0 ++ [c] ∧
          (∀ c ∈ l0, c.progress Z_OK = true) ∧
          c.failure Z_OK Z_MEM_ERROR x.1.status = true)) := by
  unfold Gzip.GzipDeflate at h
  simp only [hs, ne_eq, not_true_eq_false, if_false] at h
  split at h
  · cases h
  · rename_i r v hv
    cases h
    obtain ⟨l, ⟨ht, hst, ha, hl⟩, hp, _⟩ := Gzip.deflateOuter_post nat _ _ _ _ _ _ hv
    refine ⟨ha, l, hl, Or.inr ⟨?_, hp⟩⟩
    simp only [Flow.vars] at ht
    simp [Vars.exitGzip, ht, Vars.enter, Transition.finish, Transition.start]
  · rename_i r v hv
    cases h
    obtain ⟨l, ⟨ht, hst, ha, hl⟩, hp, hr⟩ := Gzip.deflateOuter_post nat _ _ _ _ _ _ hv
    refine ⟨ha, l, hl, Or.inl ⟨hr r v rfl, ?_, hp⟩⟩
    simp only [Flow.vars] at ht
    simp [Vars.exitGzip, ht, Vars.enter, Transition.finish, Transition.start,
      Transition.alter]

theorem BzipImpl.bzip_Write_outcome {σ : Type} (nat : Native σ) (fuel : Nat) (g : Instance σ)
    (data : List Byte) (data_len : Int) (hs : g.state_ = State.Data)
    (x : Result × Instance σ) (h : BzipImpl.Write nat fuel g data data_len = .ok x) :
    x.2.stream_.allocated = g.stream_.allocated ∧
    ∃ l, x.2.stream_.log = g.stream_.log ++ l ∧
      ((x.1.status = BZ_OK ∧ x.2.state_ = State.Data ∧
          ∀ c ∈ l, c.progress BZ_RUN_OK = true) ∨
       (x.2.state_ = State.Error ∧ ∃ l0 c, l = l0 ++ [c] ∧
          (∀ c ∈ l0, c.progress BZ_RUN_OK = true) ∧
          c.failure BZ_RUN_OK BZ_MEM_ERROR x.1.status = true)) := by
  unfold BzipImpl.Write at h
  simp only [hs, ne_eq, not_true_eq_false, if_false] at h
  split at h
  · cases h
  · rename_i r v hv
    cases h
    obtain ⟨l, ⟨ht, hst, ha, hl⟩, hp⟩ := BzipImpl.bzip_writeLoop_post nat _ _ _ _ _ _ hv
    refine ⟨ha, l, hl, Or.inr ⟨?_, hp⟩⟩
    simp only [Flow.vars] at ht
    simp [Vars.exitBzip, ht, Vars.enter, Transition.finish, Transition.start]
  · rename_i r v hv
    cases h
    obtain ⟨l, ⟨ht, hst, ha, hl⟩, hp⟩ := BzipImpl.bzip_writeLoop_post nat _ _ _ _ _ _ hv
    refine ⟨ha, l, hl, Or.inl ⟨rfl, ?_, hp⟩⟩
    simp only [Flow.vars] at ht
    simp [Vars.exitBzip, ht, Vars.enter, Transition.finish, Transition.start,
      Transition.alter]

/-! ### The loops of the decompressors -/

theorem Calm.nil_calm : Calm [] :=
  ⟨Quiet.nil, by simp⟩

theorem Calm.append_calm {l1 l2 : List Call} (h1 : Calm l1) (h2 : Calm l2) : Calm (l1 ++ l2) := by
  refine ⟨h1.1.append h2.1, fun c hc => ?_⟩
  rcases List.mem_append.1 hc with h | h
  · exact h1.2 c h
  · exact h2.2 c h

theorem Calm.grow_calm (n : Nat) (b : Bool) : Calm [Call.grow n b] := by
  refine ⟨Quiet.grow n b, fun c hc => ?_⟩
  simp only [List.mem_singleton] at hc
  subst hc
  rfl

theorem Calm.of_round_calm (n : Nat) (f : Flush) (a b c d : Nat) (st : Int)
    (h : ¬ (st = Z_NEED_DICT ∨ st = Z_DATA_ERROR ∨ st = Z_MEM_ERROR)) :
    Calm [Call.grow n true, Call.step f a b c d st] := by
  refine ⟨Quiet.of_round _ _ _ _ _ _ _, fun x hx => ?_⟩
  simp only [List.mem_cons, List.mem_singleton, List.not_mem_nil, or_false] at hx
  rcases hx with e | e <;> subst e
  · rfl
  · simpa [Call.fatal] using h

theorem InflatePost.prepend_inflate {σ : Type} {v v1 : Vars σ} {l1 : List Call} {f : Flow σ}
    (h1 : Steps v v1 l1) (hc : Calm l1) (h2 : InflatePost v1 f) : InflatePost v f := by
  cases f with
  | next r w =>
    obtain ⟨hr, l, hl, hq⟩ := h2
    exact ⟨hr, _, h1.trans hl, hc.append_calm hq⟩
  | leave r w =>
    rcases h2 with ⟨a, b, c, l, hl, hq⟩ | ⟨a, b, l, hl, hq⟩ |
      ⟨a, b, c, d, l, p, q, s, t, st, e, hq, hst, hr⟩
    · exact Or.inl ⟨a, b, c, _, h1.trans hl, hc.append_calm hq⟩
    · refine Or.inr (Or.inl ⟨a, by rw [b, h1.1], _, h1.trans (hl.congr ?_ rfl rfl rfl),
        hc.append_calm hq⟩)
      exact h1.1.symm
    · refine Or.inr (Or.inr ⟨a, b, c, d, l1 ++ l, p, q, s, t, st, ?_, hc.append_calm hq, hst,
        hr⟩)
      rw [e, h1.2.2.2, h1.2.2.1]
      simp

theorem Gunzip.inflateInner_post {σ : Type} (nat : Native σ) :
    ∀ (fuel : Nat) (v : Vars σ) (f : Flow σ), v.t.orig ≠ State.Idle →
      Gunzip.inflateInner nat fuel v = .ok f → InflatePost v f := by
  intro fuel
  induction fuel with
  | zero => intro v f _ h; simp [Gunzip.inflateInner] at h
  | succ n ih =>
    intro v f ho h
    simp only [Gunzip.inflateInner] at h
    by_cases h1 : (v.GrowBy nat CHUNK).1 = false
    · rw [if_pos h1] at h
      cases h
      refine Or.inl ⟨by decide, by decide, by decide, _, Steps.growBy nat v CHUNK,
        Calm.grow_calm _ _⟩
    rw [if_neg h1] at h
    have hs := Steps.round nat v CHUNK Flush.run (v.GrowBy nat CHUNK).2.out_len CHUNK h1
    generalize hst : (Vars.callStep nat (v.GrowBy nat CHUNK).2 Flush.run
      (v.GrowBy nat CHUNK).2.out_len CHUNK) = stepped at h hs
    by_cases h2 : stepped.1 = Z_STREAM_ERROR
    · rw [if_pos h2] at h; cases h
    rw [if_neg h2] at h
    by_cases h3 : stepped.1 = Z_NEED_DICT ∨ stepped.1 = Z_DATA_ERROR ∨ stepped.1 = Z_MEM_ERROR
    · rw [if_pos h3] at h
      cases h
      obtain ⟨ht, hstate, ha, hl⟩ := hs
      have hne : stepped.2.2.t.orig ≠ State.Idle := by rw [ht]; exact ho
      refine Or.inr (Or.inr ⟨?_, ?_, ?_, ?_, [Call.grow CHUNK true],
        (v.GrowBy nat CHUNK).2.stream_.avail_in, (v.GrowBy nat CHUNK).2.out_len, CHUNK,
        (v.GrowBy nat CHUNK).2.out.capacity, stepped.1, ?_, Calm.grow_calm _ _, h3, rfl⟩)
      · rcases h3 with e | e | e <;> rw [e] <;> decide
      · simp [Vars.GunzipEnd, Gunzip.GunzipEnd, Vars.abort, Transition.abort, hne]
      · simp [Vars.GunzipEnd, Gunzip.GunzipEnd, Vars.abort, Transition.abort, hne]
      · simp [Vars.GunzipEnd, Gunzip.GunzipEnd, Vars.abort, Transition.abort, hne,
          Stream.callDestroy]
      · simp [Vars.GunzipEnd, Gunzip.GunzipEnd, Vars.abort, Transition.abort, hne,
          Stream.callDestroy, hl, ha]
    rw [if_neg h3] at h
    have hcalm := Calm.of_round_calm CHUNK Flush.run (v.GrowBy nat CHUNK).2.stream_.avail_in
      (v.GrowBy nat CHUNK).2.out_len CHUNK (v.GrowBy nat CHUNK).2.out.capacity stepped.1 h3
    by_cases h4 : stepped.1 ≠ Z_OK ∧ stepped.1 ≠ Z_STREAM_END
    · rw [if_pos h4] at h
      cases h
      refine Or.inl ⟨h4.1, h4.2, fun e => h3 (Or.inr (Or.inl e)), _, hs, hcalm⟩
    rw [if_neg h4] at h
    by_cases h5 : stepped.1 = Z_STREAM_END
    · simp only [h5, if_true] at h
      cases h
      refine Or.inr (Or.inl ⟨rfl, ?_, _, hs.congr hs.1.symm rfl rfl rfl, hcalm⟩)
      simp [hs.1]
    have h6 : stepped.1 = Z_OK := by
      by_contra hne
      exact h4 ⟨hne, h5⟩
    simp only [h5, if_false] at h
    by_cases h7 : stepped.2.1 = 0
    · rw [if_pos h7] at h
      have hne : ({ stepped.2.2 with out_len := stepped.2.2.out_len + (CHUNK - stepped.2.1) } :
          Vars σ).t.orig ≠ State.Idle := by
        simp only [hs.1]; exact ho
      have h8 := ih _ _ hne h
      refine InflatePost.prepend_inflate ?_ hcalm h8
      exact hs.congr rfl rfl rfl rfl
    · rw [if_neg h7] at h
      cases h
      exact ⟨h6, _, hs.congr rfl rfl rfl rfl, hcalm⟩

theorem Gunzip.inflateOuter_post {σ : Type} (nat : Native σ) (inner : Nat) :
    ∀ (fuel : Nat) (data : List Byte) (data_len : Int) (v : Vars σ) (f : Flow σ),
      v.t.orig ≠ State.Idle →
      Gunzip.inflateOuter nat inner fuel data data_len Z_OK v = .ok f → InflatePost v f := by
  intro fuel
  induction fuel with
  | zero =>
    intro data data_len v f _ h
    unfold Gunzip.inflateOuter at h
    by_cases h1 : data_len > 0
    · rw [if_pos h1] at h
      cases h
    · rw [if_neg h1] at h
      cases h
      exact ⟨rfl, [], Steps.refl v, Calm.nil_calm⟩
  | succ n ih =>
    intro data data_len v f ho h
    unfold Gunzip.inflateOuter at h
    by_cases h1 : data_len > 0
    · rw [if_pos h1] at h
      simp only at h
      have hv : Steps v { v with stream_ := { v.stream_ with
          avail_in := if data_len > CHUNK then CHUNK else data_len.toNat, next_in := data } }
          [] := (Steps.refl v).congr rfl rfl rfl rfl
      split at h
      · cases h
      · rename_i r v2 hin
        cases h
        have hp := fun ho2 => Gunzip.inflateInner_post nat _ _ _ ho2 hin
        exact InflatePost.prepend_inflate hv Calm.nil_calm (hp ho)
      · rename_i r v2 hin
        have hp := fun ho2 => Gunzip.inflateInner_post nat _ _ _ ho2 hin
        obtain ⟨hr, l, hl, hq⟩ := hp ho
        subst hr
        have ho2 : v2.t.orig ≠ State.Idle := by rw [hl.1]; exact ho
        exact InflatePost.prepend_inflate (hv.trans hl) (Calm.nil_calm.append_calm hq)
          (ih _ _ _ _ ho2 h)
    · rw [if_neg h1] at h
      cases h
      exact ⟨rfl, [], Steps.refl v, Calm.nil_calm⟩

theorem BunzipPost.prepend_bunzip {σ : Type} {v v1 : Vars σ} {l1 : List Call} {f : Flow σ}
    (ret : Int) (h1 : Steps v v1 l1) (hc : Quiet l1) (h2 : BunzipPost v1 BZ_OK f) :
    BunzipPost v ret f := by
  cases f with
  | next r w =>
    obtain ⟨hr, l, hl, hq⟩ := h2
    exact ⟨Or.inr (by rcases hr with e | e <;> exact e), _, h1.trans hl, hc.append hq⟩
  | leave r w =>
    rcases h2 with ⟨a, b, l, hl, hq⟩ | ⟨a, b, l, hl, hq⟩
    · exact Or.inl ⟨a, b, _, h1.trans hl, hc.append hq⟩
    · refine Or.inr ⟨a, by rw [b, h1.1], _, h1.trans (hl.congr ?_ rfl rfl rfl), hc.append hq⟩
      exact h1.1.symm

theorem BunzipImpl.bunzip_writeLoop_post {σ : Type} (nat : Native σ) :
    ∀ (fuel : Nat) (data : List Byte) (data_len ret : Int) (v : Vars σ) (f : Flow σ),
      BunzipImpl.writeLoop nat fuel data data_len ret v = .ok f → BunzipPost v ret f := by
  intro fuel
  induction fuel with
  | zero =>
    intro data data_len ret v f h
    unfold BunzipImpl.writeLoop at h
    by_cases h1 : data_len > 0
    · rw [if_pos h1] at h
      cases h
    · rw [if_neg h1] at h
      cases h
      exact ⟨Or.inl rfl, [], Steps.refl v, Quiet.nil⟩
  | succ n ih =>
    intro data data_len ret v f h
    unfold BunzipImpl.writeLoop at h
    by_cases h1 : data_len > 0
    · rw [if_pos h1] at h
      simp only at h
      have hg := Steps.growBy nat v data_len.toNat
      by_cases h2 : (v.GrowBy nat data_len.toNat).1 = false
      · rw [if_pos h2] at h
        cases h
        exact Or.inl ⟨by decide, by decide, _, hg, Quiet.grow _ _⟩
      rw [if_neg h2] at h
      simp only [Bool.not_eq_false] at h2
      rw [h2] at hg
      have hg2 : Steps v { (v.GrowBy nat data_len.toNat).2 with
          stream_ := { (v.GrowBy nat data_len.toNat).2.stream_ with
            next_in := data, avail_in := data_len.toNat } }
          [Call.grow data_len.toNat true] := hg.congr rfl rfl rfl rfl
      have hs := hg2.trans (Steps.callStep nat _ Flush.run
          (v.GrowBy nat data_len.toNat).2.out.length data_len.toNat)
      have hq := Quiet.of_round data_len.toNat Flush.run data_len.toNat
        (v.GrowBy nat data_len.toNat).2.out.length data_len.toNat
        (v.GrowBy nat data_len.toNat).2.out.capacity
      generalize hst : (Vars.callStep nat { (v.GrowBy nat data_len.toNat).2 with
          stream_ := { (v.GrowBy nat data_len.toNat).2.stream_ with
            next_in := data, avail_in := data_len.toNat } } Flush.run
          (v.GrowBy nat data_len.toNat).2.out.length data_len.toNat) = stepped at h hs
      by_cases h3 : stepped.1 = BZ_SEQUENCE_ERROR
      · rw [if_pos h3] at h; cases h
      rw [if_neg h3] at h
      by_cases h4 : stepped.1 ≠ BZ_OK ∧ stepped.1 ≠ BZ_STREAM_END
      · rw [if_pos h4] at h
        cases h
        exact Or.inl ⟨h4.1, h4.2, _, hs, hq _⟩
      rw [if_neg h4] at h
      by_cases h5 : stepped.1 = BZ_STREAM_END
      · simp only [h5, if_true] at h
        cases h
        refine Or.inr ⟨rfl, ?_, _, hs.congr hs.1.symm rfl rfl rfl, hq _⟩
        simp [hs.1]
      have h6 : stepped.1 = BZ_OK := by
        by_contra hne
        exact h4 ⟨hne, h5⟩
      simp only [h5, if_false] at h
      rw [h6] at h
      have h8 := ih _ _ _ _ _ h
      refine BunzipPost.prepend_bunzip ret ?_ (hq stepped.1) h8
      exact hs.congr rfl rfl rfl rfl
    · rw [if_neg h1] at h
      cases h
      exact ⟨Or.inl rfl, [], Steps.refl v, Quiet.nil⟩

/-! ### The Write of the decompressors -/

theorem Gunzip.GunzipInflate_outcome {σ : Type} (nat : Native σ) (fuel : Nat)
    (g : Instance σ) (data : List Byte) (data_len : Int) (hs : g.state_ = State.Data)
    (x : Result × Instance σ) (h : Gunzip.GunzipInflate nat fuel g data data_len = .ok x) :
    (x.1.status ≠ Z_DATA_ERROR ∧ x.2.state_ ≠ State.Idle ∧
      (x.1.status = Z_OK ↔ x.2.state_ = State.Data) ∧
      (x.1.status = Z_STREAM_END ↔ x.2.state_ = State.Eos) ∧
      x.2.stream_.allocated = g.stream_.allocated ∧
      ∃ l, x.2.stream_.log = g.stream_.log ++ l ∧ Calm l) ∨
    ((x.1.status = Z_DATA_ERROR ∨ x.1.status = Z_MEM_ERROR) ∧ x.2.state_ = State.Idle ∧
      x.2.stream_.allocated = false ∧
      ∃ l a b c d st, x.2.stream_.log = g.stream_.log ++ l ++
          [Call.step Flush.run a b c d st, Call.destroy g.stream_.allocated] ∧ Calm l ∧
        (st = Z_NEED_DICT ∨ st = Z_DATA_ERROR ∨ st = Z_MEM_ERROR) ∧
        x.1.status = if st = Z_NEED_DICT then Z_DATA_ERROR else st) := by
  unfold Gunzip.GunzipInflate at h
  simp only [hs, reduceCtorEq, if_false, ne_eq, not_true_eq_false] at h
  have ho : (Vars.enter g State.Error).t.orig ≠ State.Idle := by
    simp [Vars.enter, Transition.start, hs]
  split at h
  · cases h
  · rename_i r v hv
    cases h
    have hp := Gunzip.inflateOuter_post nat _ _ _ _ _ _ ho hv
    rcases hp with ⟨a, b, c, l, ⟨ht, hst, ha, hl⟩, hq⟩ | ⟨a, b, l, ⟨ht, hst, ha, hl⟩, hq⟩ |
      ⟨a, b, c, d, l, p, q, s, t, st, e, hq, hst, hr⟩
    · refine Or.inl ⟨c, ?_, ?_, ?_, ha, l, hl, hq⟩ <;>
        simp [Vars.exitGzip, ht, Vars.enter, Transition.finish, Transition.start, a, b]
    · refine Or.inl ⟨?_, ?_, ?_, ?_, ha, l, hl, hq⟩ <;>
        simp [Vars.exitGzip, b, Vars.enter, Transition.finish, Transition.start,
          Transition.alter, a]
      decide
    · refine Or.inr ⟨a, ?_, d, l, p, q, s, t, st, e, hq, hst, hr⟩
      simp [Vars.exitGzip, Transition.finish, c, b]
  · rename_i r v hv
    cases h
    obtain ⟨a, l, ⟨ht, hst, ha, hl⟩, hq⟩ := Gunzip.inflateOuter_post nat _ _ _ _ _ _ ho hv
    refine Or.inl ⟨?_, ?_, ?_, ?_, ha, l, hl, hq⟩ <;>
      simp [Vars.exitGzip, ht, Vars.enter, Transition.finish, Transition.start,
        Transition.alter, a]

theorem BunzipImpl.bunzip_Write_outcome {σ : Type} (nat : Native σ) (fuel : Nat)
    (g : Instance σ) (data : List Byte) (data_len : Int) (hs : g.state_ = State.Data)
    (x : Result × Instance σ) (h : BunzipImpl.Write nat fuel g data data_len = .ok x) :
    x.2.state_ ≠ State.Idle ∧
    (x.1.status = BZ_OK ↔ x.2.state_ = State.Data) ∧
    (x.1.status = BZ_STREAM_END ↔ x.2.state_ = State.Eos) ∧
    x.2.stream_.allocated = g.stream_.allocated ∧
    ∃ l, x.2.stream_.log = g.stream_.log ++ l ∧ Quiet l := by
  unfold BunzipImpl.Write at h
  simp only [hs, reduceCtorEq, if_false, ne_eq, not_true_eq_false] at h
  split at h
  · cases h
  · rename_i r v hv
    cases h
    have hp := BunzipImpl.bunzip_writeLoop_post nat _ _ _ _ _ _ hv
    rcases hp with ⟨a, b, l, ⟨ht, hst, ha, hl⟩, hq⟩ | ⟨a, b, l, ⟨ht, hst, ha, hl⟩, hq⟩
    · refine ⟨?_, ?_, ?_, ha, l, hl, hq⟩ <;>
        simp [Vars.exitBzip, ht, Vars.enter, Transition.finish, Transition.start, a, b]
    · refine ⟨?_, ?_, ?_, ha, l, hl, hq⟩ <;>
        simp [Vars.exitBzip, b, Vars.enter, Transition.finish, Transition.start,
          Transition.alter, a]
  · rename_i r v hv
    cases h
    obtain ⟨a, l, ⟨ht, hst, ha, hl⟩, hq⟩ :=
      BunzipImpl.bunzip_writeLoop_post nat _ _ _ _ _ _ hv
    have a2 : r = BZ_OK := by rcases a with e | e <;> exact e
    refine ⟨?_, ?_, ?_, ha, l, hl, hq⟩ <;>
      simp [Vars.exitBzip, ht, Vars.enter, Transition.finish, Transition.start,
        Transition.alter, a2]

theorem Gunzip.GunzipInflate_first_fatal {σ : Type} (nat : Native σ) (n : Nat)
    (g : Instance σ) (data : List Byte) (data_len : Int) (hs : g.state_ = State.Data)
    (hlen : 0 < data_len) (hgrow : (nat.grow g.stream_.native CHUNK).1 = true)
    (hst : firstStepStatus nat g data CHUNK
        (if data_len > CHUNK then CHUNK else data_len.toNat) CHUNK = Z_DATA_ERROR ∨
      firstStepStatus nat g data CHUNK
        (if data_len > CHUNK then CHUNK else data_len.toNat) CHUNK = Z_NEED_DICT) :
    ∃ x, Gunzip.GunzipInflate nat (n + 1) g data data_len = .ok x ∧
      x.1.status = Z_DATA_ERROR := by
  unfold firstStepStatus at hst
  unfold Gunzip.GunzipInflate Gunzip.inflateOuter
  simp only [hs, reduceCtorEq, if_false, ne_eq, not_true_eq_false, gt_iff_lt, hlen, if_true,
    Gunzip.inflateInner]
  have hg : ∀ v : Vars σ, v.stream_.native = g.stream_.native →
      (v.GrowBy nat CHUNK).1 = true := by
    intro v hv
    simp [Vars.GrowBy, hv, hgrow]
  rw [if_neg (by rw [hg _ rfl]; simp)]
  have hstat := (Vars.callStep_native nat (Vars.GrowBy nat
    { (Vars.enter g State.Error) with stream_ := { (Vars.enter g State.Error).stream_ with
        avail_in := if CHUNK < data_len then CHUNK else data_len.toNat, next_in := data } }
    CHUNK).2 Flush.run (Vars.GrowBy nat
    { (Vars.enter g State.Error) with stream_ := { (Vars.enter g State.Error).stream_ with
        avail_in := if CHUNK < data_len then CHUNK else data_len.toNat, next_in := data } }
    CHUNK).2.out_len CHUNK).1
  rw [Vars.GrowBy_native] at hstat
  obtain ⟨_, _, _, _, _, _, _, hai, hni⟩ := Vars.GrowBy_fields nat
    { (Vars.enter g State.Error) with stream_ := { (Vars.enter g State.Error).stream_ with
        avail_in := if CHUNK < data_len then CHUNK else data_len.toNat, next_in := data } }
    CHUNK
  rw [hai, hni] at hstat
  simp only [gt_iff_lt, Vars.enter] at hst hstat
  rcases hst with e | e
  · rw [e] at hstat
    simp only [Vars.enter, hstat]
    exact ⟨_, rfl, rfl⟩
  · rw [e] at hstat
    simp only [Vars.enter, hstat]
    exact ⟨_, rfl, rfl⟩

theorem BunzipImpl.Write_first_fatal {σ : Type} (nat : Native σ) (n : Nat)
    (g : Instance σ) (data : List Byte) (data_len : Int) (hs : g.state_ = State.Data)
    (hlen : 0 < data_len) (hgrow : (nat.grow g.stream_.native data_len.toNat).1 = true)
    (st : Int) (hv : st = BZ_DATA_ERROR ∨ st = BZ_DATA_ERROR_MAGIC)
    (hst : firstStepStatus nat g data data_len.toNat data_len.toNat data_len.toNat = st) :
    ∃ x, BunzipImpl.Write nat (n + 1) g data data_len = .ok x ∧ x.1.status = st := by
  unfold firstStepStatus at hst
  unfold BunzipImpl.Write BunzipImpl.writeLoop
  simp only [hs, reduceCtorEq, if_false, ne_eq, not_true_eq_false, gt_iff_lt, hlen, if_true]
  have hg : ∀ v : Vars σ, v.stream_.native = g.stream_.native →
      (v.GrowBy nat data_len.toNat).1 = true := by
    intro v hv
    simp [Vars.GrowBy, hv, hgrow]
  rw [if_neg (by rw [hg _ rfl]; simp)]
  have hstat := (Vars.callStep_native nat
    { (Vars.GrowBy nat (Vars.enter g State.Error) data_len.toNat).2 with
      stream_ := { (Vars.GrowBy nat (Vars.enter g State.Error) data_len.toNat).2.stream_ with
        next_in := data, avail_in := data_len.toNat } }
    Flush.run (Vars.GrowBy nat (Vars.enter g State.Error) data_len.toNat).2.out.length
    data_len.toNat).1
  have hfin := hstat.trans (by simpa [Vars.GrowBy_native, Vars.enter] using hst)
  simp only [Vars.enter] at hfin
  simp only [Vars.enter, hfin]
  rcases hv with e | e <;> subst e <;> exact ⟨_, rfl, rfl⟩

/-! ### The End of the compressors -/

theorem destroyCount_end (a l : List Call) (b : Bool) (h : Quiet l) :
    destroyCount (a ++ l ++ [Call.destroy b]) = destroyCount a + 1 := by
  have := h.no_destroy
  unfold destroyCount at *
  simp [List.countP_append, this, Call.isDestroy]

theorem Gzip.GzipEnd_data {σ : Type} (nat : Native σ) (fuel : Nat) (g : Instance σ)
    (hs : g.state_ = State.Data) (x : Result × Instance σ)
    (h : Gzip.GzipEnd nat fuel g = .ok x) :
    x.2.state_ = State.Idle ∧ x.2.stream_.allocated = false ∧
    ∃ l, x.2.stream_.log = g.stream_.log ++ l ++ [Call.destroy g.stream_.allocated] ∧
      Quiet l := by
  unfold Gzip.GzipEnd at h
  simp only [hs, Vars.enter, if_true, reduceCtorEq, if_false, true_or, not_true_eq_false]
    at h
  split at h
  · cases h
  · rename_i r hr
    cases h
    obtain ⟨l, ⟨ht, _, ha, hl⟩, hq⟩ := Gzip.endLoop_steps nat _ _ _ hr
    refine ⟨?_, rfl, l, ?_, hq⟩
    · simp [Vars.exitGzip, ht, Transition.finish, Transition.start]
    · simp [Vars.exitGzip, Stream.callDestroy, hl, ha]

theorem Gzip.GzipEnd_error {σ : Type} (nat : Native σ) (fuel : Nat) (g : Instance σ)
    (hs : g.state_ = State.Error) :
    ∃ r, Gzip.GzipEnd nat fuel g =
        .ok (r, { stream_ := g.stream_.callDestroy nat, state_ := State.Idle }) ∧
      r.status = Z_OK ∧ r.output = [] := by
  refine ⟨{ status := Z_OK, output := [], out := ScopedOutputBuffer.empty, out_len := 0 },
    ?_, rfl, rfl⟩
  simp [Gzip.GzipEnd, hs, Vars.enter, Vars.exitGzip, Transition.finish, Transition.start,
    ScopedOutputBuffer.empty]

theorem BzipImpl.Close_data {σ : Type} (nat : Native σ) (fuel : Nat) (g : Instance σ)
    (hs : g.state_ = State.Data) (x : Result × Instance σ)
    (h : BzipImpl.Close nat fuel g = .ok x) :
    x.2.state_ = State.Idle ∧ x.2.stream_.allocated = false ∧
    ∃ l, x.2.stream_.log = g.stream_.log ++ l ++ [Call.destroy g.stream_.allocated] ∧
      Quiet l := by
  unfold BzipImpl.Close at h
  simp only [hs, Vars.enter, if_true, reduceCtorEq, if_false, true_or, not_true_eq_false]
    at h
  split at h
  · cases h
  · rename_i r hr
    cases h
    obtain ⟨l, ⟨ht, _, ha, hl⟩, hq⟩ := BzipImpl.BzipEndWithData_steps nat _ _ _ hr
    refine ⟨?_, ?_, l, ?_, hq⟩
    · simp [Vars.exitBzip, Vars.BzipDestroy, BzipImpl.Destroy, Vars.abort, Transition.abort,
        ht, Transition.finish, Transition.start]
    · simp [Vars.exitBzip, Vars.BzipDestroy, BzipImpl.Destroy, Vars.abort, Transition.abort,
        ht, Transition.start, Stream.callDestroy]
    · simp [Vars.exitBzip, Vars.BzipDestroy, BzipImpl.Destroy, Vars.abort, Transition.abort,
        ht, Transition.start, Stream.callDestroy, hl, ha]

theorem BzipImpl.Close_error {σ : Type} (nat : Native σ) (fuel : Nat) (g : Instance σ)
    (hs : g.state_ = State.Error) :
    ∃ r, BzipImpl.Close nat fuel g =
        .ok (r, { stream_ := g.stream_.callDestroy nat, state_ := State.Idle }) ∧
      r.status = BZ_OK ∧ r.output = [] := by
  refine ⟨{ status := BZ_OK, output := [], out := ScopedOutputBuffer.empty, out_len := 0 },
    ?_, rfl, rfl⟩
  simp [BzipImpl.Close, hs, Vars.enter, Vars.exitBzip, Transition.finish, Transition.start,
    ScopedOutputBuffer.empty, Vars.BzipDestroy, BzipImpl.Destroy, Vars.abort,
    Transition.abort]

/-! ### The resource/state invariant -/

theorem replay_quiet {l : List Call} (h : Quiet l) (s : Option Bool) :
    l.foldl replay s = s := by
  induction l generalizing s with
  | nil => rfl
  | cons c l ih =>
    have hc := h c (List.mem_cons_self c l)
    have hl : Quiet l := fun x hx => h x (List.mem_cons_of_mem c hx)
    rw [List.foldl_cons, ih hl]
    cases s <;> cases c <;> simp_all [replay, Call.isNative, Call.isStep]

theorem Inv.fresh {σ : Type} (w : σ) (garbage : List Byte) (n : Nat) :
    Inv (Instance.new w garbage n) := by
  simp [Inv, Instance.new]

/-- The invariant after an init call made in state `Idle`. -/
theorem Inv.callInit {σ : Type} (nat : Native σ) (g : Instance σ) (s : Stream σ)
    (hi : Inv g) (hs : g.state_ = State.Idle) (ha : s.allocated = g.stream_.allocated)
    (hl : s.log = g.stream_.log) :
    Inv (if (s.callInit nat).1 = 0 then
        ({ stream_ := (s.callInit nat).2, state_ := State.Data } : Instance σ)
      else { g with stream_ := (s.callInit nat).2 }) := by
  obtain ⟨h1, h2⟩ := hi
  have hna : g.stream_.allocated = false := by
    cases hga : g.stream_.allocated
    · rfl
    · exact absurd hs (h1.1 hga)
  by_cases hr : (s.callInit nat).1 = 0
  · rw [if_pos hr]
    simp only [Stream.callInit] at hr
    simp [Inv, Stream.callInit, hr, hl, ha, List.foldl_append, h2, hna, replay]
  · rw [if_neg hr]
    simp only [Stream.callInit] at hr
    simp [Inv, Stream.callInit, hr, hl, ha, List.foldl_append, h2, hna, replay, hs]

/-- The invariant after calls that left the allocation alone and were growth requests and
steps only, ending in a state other than `Idle`. -/
theorem Inv.quiet {σ : Type} (g g2 : Instance σ) (l : List Call) (hi : Inv g)
    (hs : g.state_ ≠ State.Idle) (hs2 : g2.state_ ≠ State.Idle)
    (ha : g2.stream_.allocated = g.stream_.allocated)
    (hl : g2.stream_.log = g.stream_.log ++ l) (hq : Quiet l) : Inv g2 := by
  obtain ⟨h1, h2⟩ := hi
  refine ⟨?_, ?_⟩
  · rw [ha]
    exact ⟨fun _ => hs2, fun _ => h1.2 hs⟩
  · rw [hl, List.foldl_append, h2, replay_quiet hq, ha]

/-- The invariant after growth requests and steps followed by one destroy call, ending in
state `Idle`. -/
theorem Inv.released {σ : Type} (g g2 : Instance σ) (l : List Call) (hi : Inv g)
    (hs : g.state_ ≠ State.Idle) (hs2 : g2.state_ = State.Idle)
    (ha : g2.stream_.allocated = false)
    (hl : g2.stream_.log = g.stream_.log ++ l ++ [Call.destroy g.stream_.allocated])
    (hq : Quiet l) : Inv g2 := by
  obtain ⟨h1, h2⟩ := hi
  have hga : g.stream_.allocated = true := h1.2 hs
  refine ⟨?_, ?_⟩
  · rw [ha, hs2]; simp
  · rw [hl, List.foldl_append, List.foldl_append, h2, replay_quiet hq, ha, hga]
    rfl

theorem Gzip.gzip_init_inv {σ : Type} (nat : Native σ) (g : Instance σ) (hi : Inv g) :
    Inv (Gzip.GzipInit nat g).2 := by
  unfold Gzip.GzipInit
  by_cases hs : g.state_ = State.Idle
  · simp only [hs, ne_eq, not_true_eq_false, if_false]
    have := Inv.callInit nat g g.stream_ hi hs rfl rfl
    simp only [hs] at this
    split_ifs at this ⊢ <;> exact this
  · simp only [ne_eq, hs, not_false_eq_true, if_true]
    exact hi

theorem BzipImpl.bzip_init_inv {σ : Type} (nat : Native σ) (g : Instance σ) (hi : Inv g) :
    Inv (BzipImpl.BzipInit nat g).2 := by
  unfold BzipImpl.BzipInit
  by_cases hs : g.state_ = State.Idle
  · simp only [hs, ne_eq, not_true_eq_false, if_false]
    have := Inv.callInit nat g g.stream_ hi hs rfl rfl
    simp only [hs] at this
    split_ifs at this ⊢ <;> exact this
  · simp only [ne_eq, hs, not_false_eq_true, if_true]
    exact hi

theorem Gunzip.gunzip_init_inv {σ : Type} (nat : Native σ) (g : Instance σ) (hi : Inv g) :
    Inv (Gunzip.GunzipInit nat g).2 := by
  unfold Gunzip.GunzipInit
  by_cases hs : g.state_ = State.Idle
  · simp only [hs, ne_eq, not_true_eq_false, if_false]
    have := Inv.callInit nat g { g.stream_ with avail_in := 0, next_in := [] } hi hs rfl rfl
    simp only [hs] at this
    split_ifs at this ⊢ <;> exact this
  · simp only [ne_eq, hs, not_false_eq_true, if_true]
    exact hi

theorem BunzipImpl.bunzip_init_inv {σ : Type} (nat : Native σ) (g : Instance σ) (hi : Inv g) :
    Inv (BunzipImpl.BunzipInit nat g).2 := by
  unfold BunzipImpl.BunzipInit
  by_cases hs : g.state_ = State.Idle
  · simp only [hs, ne_eq, not_true_eq_false, if_false]
    have := Inv.callInit nat g { g.stream_ with avail_in := 0, next_in := [] } hi hs rfl rfl
    simp only [hs] at this
    split_ifs at this ⊢ <;> exact this
  · simp only [ne_eq, hs, not_false_eq_true, if_true]
    exact hi

theorem Gzip.gzip_write_inv {σ : Type} (nat : Native σ) (fuel : Nat) (g : Instance σ)
    (data : List Byte) (data_len : Int) (x : Result × Instance σ) (hi : Inv g)
    (h : Gzip.GzipDeflate nat fuel g data data_len = .ok x) : Inv x.2 := by
  by_cases hs : g.state_ = State.Data
  · obtain ⟨ha, l, hl, hc⟩ := Gzip.GzipDeflate_outcome nat fuel g data data_len hs x h
    have hg : g.state_ ≠ State.Idle := by rw [hs]; decide
    rcases hc with ⟨_, hst, hp⟩ | ⟨hst, l0, c, e, hp, hf⟩
    · exact Inv.quiet g x.2 l hi hg (by rw [hst]; decide) ha hl (Quiet.of_progress hp)
    · refine Inv.quiet g x.2 l hi hg (by rw [hst]; decide) ha hl ?_
      rw [e]
      exact (Quiet.of_progress hp).append (Quiet.of_failure hf)
  · simp only [Gzip.GzipDeflate, ne_eq, hs, not_false_eq_true, if_true] at h
    cases h
    exact hi

theorem BzipImpl.bzip_write_inv {σ : Type} (nat : Native σ) (fuel : Nat) (g : Instance σ)
    (data : List Byte) (data_len : Int) (x : Result × Instance σ) (hi : Inv g)
    (h : BzipImpl.Write nat fuel g data data_len = .ok x) : Inv x.2 := by
  by_cases hs : g.state_ = State.Data
  · obtain ⟨ha, l, hl, hc⟩ := BzipImpl.bzip_Write_outcome nat fuel g data data_len hs x h
    have hg : g.state_ ≠ State.Idle := by rw [hs]; decide
    rcases hc with ⟨_, hst, hp⟩ | ⟨hst, l0, c, e, hp, hf⟩
    · exact Inv.quiet g x.2 l hi hg (by rw [hst]; decide) ha hl (Quiet.of_progress hp)
    · refine Inv.quiet g x.2 l hi hg (by rw [hst]; decide) ha hl ?_
      rw [e]
      exact (Quiet.of_progress hp).append (Quiet.of_failure hf)
  · simp only [BzipImpl.Write, ne_eq, hs, not_false_eq_true, if_true] at h
    cases h
    exact hi

theorem Gzip.end_idle {σ : Type} (nat : Native σ) (fuel : Nat) (g : Instance σ)
    (x : Result × Instance σ) (h : Gzip.GzipEnd nat fuel g = .ok x) :
    x.2.state_ = State.Idle ∧ (g.state_ = State.Idle → x.2 = g) := by
  cases hs : g.state_
  · simp only [Gzip.GzipEnd, hs, if_true] at h
    cases h
    exact ⟨hs, fun _ => rfl⟩
  · exact ⟨(Gzip.GzipEnd_data nat fuel g hs x h).1, fun e => by cases e⟩
  · simp [Gzip.GzipEnd, hs] at h
  · obtain ⟨r, hr, _⟩ := Gzip.GzipEnd_error nat fuel g hs
    rw [hr] at h
    cases h
    exact ⟨rfl, fun e => by cases e⟩

theorem BzipImpl.close_idle {σ : Type} (nat : Native σ) (fuel : Nat) (g : Instance σ)
    (x : Result × Instance σ) (h : BzipImpl.Close nat fuel g = .ok x) :
    x.2.state_ = State.Idle ∧ (g.state_ = State.Idle → x.2 = g) := by
  cases hs : g.state_
  · simp only [BzipImpl.Close, hs, if_true] at h
    cases h
    exact ⟨hs, fun _ => rfl⟩
  · exact ⟨(BzipImpl.Close_data nat fuel g hs x h).1, fun e => by cases e⟩
  · simp [BzipImpl.Close, hs] at h
  · obtain ⟨r, hr, _⟩ := BzipImpl.Close_error nat fuel g hs
    rw [hr] at h
    cases h
    exact ⟨rfl, fun e => by cases e⟩

theorem Gzip.gzip_end_inv {σ : Type} (nat : Native σ) (fuel : Nat) (g : Instance σ)
    (x : Result × Instance σ) (hi : Inv g) (h : Gzip.GzipEnd nat fuel g = .ok x) :
    Inv x.2 := by
  cases hs : g.state_
  · rw [(Gzip.end_idle nat fuel g x h).2 hs]; exact hi
  · obtain ⟨a, b, l, hl, hq⟩ := Gzip.GzipEnd_data nat fuel g hs x h
    exact Inv.released g x.2 l hi (by rw [hs]; decide) a b hl hq
  · simp [Gzip.GzipEnd, hs] at h
  · obtain ⟨r, hr, _⟩ := Gzip.GzipEnd_error nat fuel g hs
    rw [hr] at h
    cases h
    exact Inv.released g _ [] hi (by rw [hs]; decide) rfl rfl
      (by simp [Stream.callDestroy]) Quiet.nil

theorem BzipImpl.close_inv {σ : Type} (nat : Native σ) (fuel : Nat) (g : Instance σ)
    (x : Result × Instance σ) (hi : Inv g) (h : BzipImpl.Close nat fuel g = .ok x) :
    Inv x.2 := by
  cases hs : g.state_
  · rw [(BzipImpl.close_idle nat fuel g x h).2 hs]; exact hi
  · obtain ⟨a, b, l, hl, hq⟩ := BzipImpl.Close_data nat fuel g hs x h
    exact Inv.released g x.2 l hi (by rw [hs]; decide) a b hl hq
  · simp [BzipImpl.Close, hs] at h
  · obtain ⟨r, hr, _⟩ := BzipImpl.Close_error nat fuel g hs
    rw [hr] at h
    cases h
    exact Inv.released g _ [] hi (by rw [hs]; decide) rfl rfl
      (by simp [Stream.callDestroy]) Quiet.nil

theorem Gunzip.gunzip_write_inv {σ : Type} (nat : Native σ) (fuel : Nat) (g : Instance σ)
    (data : List Byte) (data_len : Int) (x : Result × Instance σ) (hi : Inv g)
    (h : Gunzip.GunzipInflate nat fuel g data data_len = .ok x) : Inv x.2 := by
  by_cases hs : g.state_ = State.Data
  · have hg : g.state_ ≠ State.Idle := by rw [hs]; decide
    rcases Gunzip.GunzipInflate_outcome nat fuel g data data_len hs x h with
      ⟨_, hni, _, _, ha, l, hl, hq⟩ | ⟨_, hidle, hal, l, a, b, c, d, st, hl, hq, _, _⟩
    · exact Inv.quiet g x.2 l hi hg hni ha hl hq.1
    · refine Inv.released g x.2 (l ++ [Call.step Flush.run a b c d st]) hi hg hidle hal
        (by rw [hl]; simp) (hq.1.append (Quiet.step _ _ _ _ _ _))
  · unfold Gunzip.GunzipInflate at h
    by_cases he : g.state_ = State.Eos
    · rw [if_pos he] at h
      cases h
      exact hi
    · rw [if_neg he, if_pos hs] at h
      cases h
      exact hi

theorem Gunzip.gunzip_end_inv {σ : Type} (nat : Native σ) (g : Instance σ) (hi : Inv g) :
    Inv (Gunzip.GunzipEnd nat g) := by
  unfold Gunzip.GunzipEnd
  by_cases hs : g.state_ = State.Idle
  · simp only [hs, ne_eq, not_true_eq_false, if_false]
    exact hi
  · simp only [ne_eq, hs, not_false_eq_true, if_true]
    exact Inv.released g _ [] hi hs rfl rfl (by simp [Stream.callDestroy]) Quiet.nil

theorem BunzipImpl.bunzip_write_inv {σ : Type} (nat : Native σ) (fuel : Nat) (g : Instance σ)
    (data : List Byte) (data_len : Int) (x : Result × Instance σ) (hi : Inv g)
    (h : BunzipImpl.Write nat fuel g data data_len = .ok x) : Inv x.2 := by
  by_cases hs : g.state_ = State.Data
  · have hg : g.state_ ≠ State.Idle := by rw [hs]; decide
    obtain ⟨hni, _, _, ha, l, hl, hq⟩ :=
      BunzipImpl.bunzip_Write_outcome nat fuel g data data_len hs x h
    exact Inv.quiet g x.2 l hi hg hni ha hl hq
  · unfold BunzipImpl.Write at h
    by_cases he : g.state_ = State.Eos
    · rw [if_pos he] at h
      cases h
      exact hi
    · rw [if_neg he, if_pos hs] at h
      cases h
      exact hi

theorem BunzipImpl.destroy_inv {σ : Type} (nat : Native σ) (g : Instance σ) (hi : Inv g) :
    Inv (BunzipImpl.Destroy nat g) := by
  unfold BunzipImpl.Destroy
  by_cases hs : g.state_ = State.Idle
  · simp only [hs, ne_eq, not_true_eq_false, if_false]
    exact hi
  · simp only [ne_eq, hs, not_false_eq_true, if_true]
    exact Inv.released g _ [] hi hs rfl rfl (by simp [Stream.callDestroy]) Quiet.nil

/-- C10. The bzip2 error translation is a total mapping: `IsError s` is false exactly for
`BZ_OK`, `BZ_RUN_OK`, `BZ_FLUSH_OK`, `BZ_FINISH_OK`, `BZ_STREAM_END`; `GetException s` is
`Undefined` exactly when `IsError s` is false; the nine named error codes give nine pairwise
distinct messages; every other error code gives "Unknown error". -/
theorem bzip_error_translation :
    (∀ s : Int, BzipUtils.IsError s = false ↔
      (s = BZ_OK ∨ s = BZ_RUN_OK ∨ s = BZ_FLUSH_OK ∨ s = BZ_FINISH_OK ∨ s = BZ_STREAM_END)) ∧
    (∀ s : Int, BzipUtils.GetException s = none ↔ BzipUtils.IsError s = false) ∧
    ([BZ_CONFIG_ERROR, BZ_SEQUENCE_ERROR, BZ_PARAM_ERROR, BZ_MEM_ERROR, BZ_DATA_ERROR,
        BZ_DATA_ERROR_MAGIC, BZ_IO_ERROR, BZ_UNEXPECTED_EOF, BZ_OUTBUFF_FULL].map
        BzipUtils.GetException =
      [some BzipUtils.ConfigError, some BzipUtils.SequenceError, some BzipUtils.ParamError,
        some BzipUtils.MemError, some BzipUtils.DataError, some BzipUtils.DataErrorMagic,
        some BzipUtils.IoError, some BzipUtils.UnexpectedEof, some BzipUtils.OutbuffFull]) ∧
    [BzipUtils.ConfigError, BzipUtils.SequenceError, BzipUtils.ParamError,
        BzipUtils.MemError, BzipUtils.DataError, BzipUtils.DataErrorMagic,
        BzipUtils.IoError, BzipUtils.UnexpectedEof, BzipUtils.OutbuffFull].Nodup ∧
    (∀ s : Int, BzipUtils.IsError s = true →
      s ∉ [BZ_CONFIG_ERROR, BZ_SEQUENCE_ERROR, BZ_PARAM_ERROR, BZ_MEM_ERROR, BZ_DATA_ERROR,
        BZ_DATA_ERROR_MAGIC, BZ_IO_ERROR, BZ_UNEXPECTED_EOF, BZ_OUTBUFF_FULL] →
      BzipUtils.GetException s = some "Unknown error") := by
  refine ⟨?_, ?_, ?_, ?_, ?_⟩
  · intro s
    simp only [BzipUtils.IsError, Bool.not_eq_false', Bool.or_eq_true, beq_iff_eq, or_assoc]
  · intro s
    unfold BzipUtils.GetException
    cases h : BzipUtils.IsError s
    · simp
    · simp only [Bool.not_true, Bool.false_eq_true, if_false]
      repeat' split
      all_goals simp
  · decide
  · decide
  · intro s hs hn
    simp only [List.mem_cons, List.mem_singleton, not_or, List.not_mem_nil, or_false] at hn
    obtain ⟨h1, h2, h3, h4, h5, h6, h7, h8, h9⟩ := hn
    simp [BzipUtils.GetException, hs, h1, h2, h3, h4, h5, h6, h7, h8, h9]

/-- C10, at a concrete code: the status `-10` is an error outside the nine named codes and is
translated to "Unknown error". -/
theorem bzip_error_translation_witness :
    BzipUtils.IsError (-10) = true ∧ BzipUtils.GetException (-10) = some "Unknown error" :=
  ⟨by decide, bzip_error_translation.2.2.2.2 (-10) (by decide) (by decide)⟩

/-- C2. Sequence enforcement, for each of the four codecs.  A Write called in state `Idle`
returns the sequence-error status of the family (`Z_STREAM_ERROR`, `BZ_SEQUENCE_ERROR`) with
zero output bytes, whatever the fuel, the data and the library, and leaves the instance as it
was (state `Idle`, no call made).  An Init called in a state other than `Idle` returns the same
status and leaves the instance as it was (state, native context and history unchanged, so the
native init is not called). -/
theorem sequence_enforcement {σ : Type} (nat : Native σ) (fuel : Nat) (data : List Byte)
    (data_len : Int) (g : Instance σ) :
    (g.state_ = State.Idle →
      ReturnsUntouched (Gzip.GzipDeflate nat fuel g data data_len) Z_STREAM_ERROR g ∧
      ReturnsUntouched (Gunzip.GunzipInflate nat fuel g data data_len) Z_STREAM_ERROR g ∧
      ReturnsUntouched (BzipImpl.Write nat fuel g data data_len) BZ_SEQUENCE_ERROR g ∧
      ReturnsUntouched (BunzipImpl.Write nat fuel g data data_len) BZ_SEQUENCE_ERROR g) ∧
    (g.state_ ≠ State.Idle →
      Gzip.GzipInit nat g = (Z_STREAM_ERROR, g) ∧
      Gunzip.GunzipInit nat g = (Z_STREAM_ERROR, g) ∧
      BzipImpl.BzipInit nat g = (BZ_SEQUENCE_ERROR, g) ∧
      BunzipImpl.BunzipInit nat g = (BZ_SEQUENCE_ERROR, g)) := by
  constructor
  · intro h
    refine ⟨⟨(g.early Z_STREAM_ERROR).1, ?_, rfl, rfl, rfl, rfl⟩,
      ⟨(g.early Z_STREAM_ERROR).1, ?_, rfl, rfl, rfl, rfl⟩,
      ⟨(g.early BZ_SEQUENCE_ERROR).1, ?_, rfl, rfl, rfl, rfl⟩,
      ⟨(g.early BZ_SEQUENCE_ERROR).1, ?_, rfl, rfl, rfl, rfl⟩⟩
    · simp [Gzip.GzipDeflate, h, Instance.early]
    · simp [Gunzip.GunzipInflate, h, Instance.early]
    · simp [BzipImpl.Write, h, Instance.early]
    · simp [BunzipImpl.Write, h, Instance.early]
  · intro h
    simp [Gzip.GzipInit, Gunzip.GunzipInit, BzipImpl.BzipInit, BunzipImpl.BunzipInit, h]

/-- C2, run: a Write of two bytes on a `Gzip` in state `Idle`, with no fuel at all, and an
Init on a `BzipImpl` that is in state `Data`. -/
theorem sequence_enforcement_witness :
    ReturnsUntouched
      (Gzip.GzipDeflate (constNative 0 0 0 [] true) 0 (Instance.inState State.Idle false)
        [1, 2] 2) Z_STREAM_ERROR (Instance.inState State.Idle false) ∧
    BzipImpl.BzipInit (constNative 0 0 0 [] true) (Instance.inState State.Data true) =
      (BZ_SEQUENCE_ERROR, Instance.inState State.Data true) :=
  ⟨((sequence_enforcement (constNative 0 0 0 [] true) 0 [1, 2] 2
      (Instance.inState State.Idle false)).1 rfl).1,
   ((sequence_enforcement (constNative 0 0 0 [] true) 0 [] 0
      (Instance.inState State.Data true)).2 (by decide)).2.2.1⟩

/-- C7. Post-EOS tolerance, for both decompressors.  A Write called in state `Eos` returns
the success status (`Z_OK`, `BZ_OK`) with zero output bytes, whatever the fuel, the data and
the library, and leaves the instance as it was: state `Eos`, and no call (native or growth)
added to the history. -/
theorem post_eos_tolerance {σ : Type} (nat : Native σ) (fuel : Nat) (data : List Byte)
    (data_len : Int) (g : Instance σ) (h : g.state_ = State.Eos) :
    ReturnsUntouched (Gunzip.GunzipInflate nat fuel g data data_len) Z_OK g ∧
    ReturnsUntouched (BunzipImpl.Write nat fuel g data data_len) BZ_OK g := by
  refine ⟨⟨(g.early Z_OK).1, ?_, rfl, rfl, rfl, rfl⟩,
    ⟨(g.early BZ_OK).1, ?_, rfl, rfl, rfl, rfl⟩⟩
  · simp [Gunzip.GunzipInflate, h, Instance.early]
  · simp [BunzipImpl.Write, h, Instance.early]

/-- C7, run: three bytes written to a `Gunzip` and to a `BunzipImpl` in state `Eos`, with no
fuel at all. -/
theorem post_eos_tolerance_witness :
    ReturnsUntouched
      (Gunzip.GunzipInflate (constNative 0 0 0 [] true) 0 (Instance.inState State.Eos true)
        [7, 8, 9] 3) Z_OK (Instance.inState State.Eos true) ∧
    ReturnsUntouched
      (BunzipImpl.Write (constNative 0 0 0 [] true) 0 (Instance.inState State.Eos true)
        [7, 8, 9] 3) BZ_OK (Instance.inState State.Eos true) :=
  post_eos_tolerance (constNative 0 0 0 [] true) 0 [7, 8, 9] 3
    (Instance.inState State.Eos true) rfl

/-- C4, as stated, fails: when the finishing step of the library answers `Z_STREAM_ERROR`
(for bzip2 `BZ_SEQUENCE_ERROR`), `GzipEnd` (`Close`) called in state `Data` stops at the
`assert` that follows the step: it does not return, the state is not set to `Idle` and the
destroy primitive is not called.  And when every finishing step answers the continuing status
(`Z_OK`, for bzip2 `BZ_FINISH_OK`), the finishing loop never ends, whatever the fuel. -/
theorem compressor_end_releases_counterexample :
    Gzip.GzipEnd (constNative 0 Z_STREAM_ERROR 0 [] true) 1 (Instance.inState State.Data true) =
      .error Halt.assertion ∧
    BzipImpl.Close (constNative 0 BZ_SEQUENCE_ERROR 0 [] true) 1
      (Instance.inState State.Data true) = .error Halt.assertion ∧
    (∀ fuel, Gzip.GzipEnd (constNative 0 Z_OK 0 [] true) fuel
      (Instance.inState State.Data true) = .error Halt.fuel) ∧
    (∀ fuel, BzipImpl.Close (constNative 0 BZ_FINISH_OK 0 [] true) fuel
      (Instance.inState State.Data true) = .error Halt.fuel) := by
  refine ⟨rfl, rfl, fun fuel => ?_, fun fuel => ?_⟩
  · simp [Gzip.GzipEnd, Gzip.GzipEndWithData, Instance.inState, Vars.enter,
      Gzip.endLoop_stuck]
  · simp [BzipImpl.Close, Instance.inState, Vars.enter, BzipImpl.BzipEndWithData_stuck]

/-- C4, amended.  For `Gzip` (`GzipEnd`) and `BzipImpl` (`Close`), an End called in state
`Data` or `Error` that returns leaves the state `Idle` and the native context released, having
called the destroy primitive exactly once, as the last call, after growth requests and
finishing steps only, whatever status it returns (success, a native error status, or the
memory error of a failed growth).  Called in state `Error` it always returns, with the success
status and empty output, and its only call is the destroy.  Called in state `Data` it returns
when the library makes progress in its finishing steps (`Progressing`: it never answers the
status the source asserts against, and every step that answers the continuing status `Z_OK` /
`BZ_FINISH_OK` lowers a measure `μ` of what is left to write) and the fuel exceeds that
measure (plus, for bzip2, the input still on offer in `stream_.avail_in`). -/
theorem compressor_end_releases {σ : Type} (nat : Native σ) (fuel : Nat) (g : Instance σ)
    (hs : g.state_ = State.Data ∨ g.state_ = State.Error) :
    (∀ x, Gzip.GzipEnd nat fuel g = .ok x →
      x.2.state_ = State.Idle ∧ x.2.stream_.allocated = false ∧
      destroyCount x.2.stream_.log = destroyCount g.stream_.log + 1 ∧
      ∃ l, x.2.stream_.log = g.stream_.log ++ l ++ [Call.destroy g.stream_.allocated] ∧
        Quiet l) ∧
    (∀ x, BzipImpl.Close nat fuel g = .ok x →
      x.2.state_ = State.Idle ∧ x.2.stream_.allocated = false ∧
      destroyCount x.2.stream_.log = destroyCount g.stream_.log + 1 ∧
      ∃ l, x.2.stream_.log = g.stream_.log ++ l ++ [Call.destroy g.stream_.allocated] ∧
        Quiet l) ∧
    (g.state_ = State.Error →
      (∃ x, Gzip.GzipEnd nat fuel g = .ok x ∧ x.1.status = Z_OK ∧ x.1.output = [] ∧
        x.2.stream_.log = g.stream_.log ++ [Call.destroy g.stream_.allocated]) ∧
      (∃ x, BzipImpl.Close nat fuel g = .ok x ∧ x.1.status = BZ_OK ∧ x.1.output = [] ∧
        x.2.stream_.log = g.stream_.log ++ [Call.destroy g.stream_.allocated])) ∧
    (∀ μ : σ → Nat, Progressing nat μ Flush.finish Z_STREAM_ERROR Z_OK →
      μ g.stream_.native < fuel → ∃ x, Gzip.GzipEnd nat fuel g = .ok x) ∧
    (∀ μ : σ → Nat, Progressing nat μ Flush.finish BZ_SEQUENCE_ERROR BZ_FINISH_OK →
      μ g.stream_.native + g.stream_.avail_in < fuel →
      ∃ x, BzipImpl.Close nat fuel g = .ok x) := by
  have hErr : g.state_ = State.Error →
      (∃ x, Gzip.GzipEnd nat fuel g = .ok x ∧ x.1.status = Z_OK ∧ x.1.output = [] ∧
        x.2.stream_.log = g.stream_.log ++ [Call.destroy g.stream_.allocated]) ∧
      (∃ x, BzipImpl.Close nat fuel g = .ok x ∧ x.1.status = BZ_OK ∧ x.1.output = [] ∧
        x.2.stream_.log = g.stream_.log ++ [Call.destroy g.stream_.allocated]) := by
    intro he
    obtain ⟨r1, h1, a1, b1⟩ := Gzip.GzipEnd_error nat fuel g he
    obtain ⟨r2, h2, a2, b2⟩ := BzipImpl.Close_error nat fuel g he
    exact ⟨⟨_, h1, a1, b1, rfl⟩, ⟨_, h2, a2, b2, rfl⟩⟩
  refine ⟨?_, ?_, hErr, ?_, ?_⟩
  · intro x hx
    rcases hs with hd | he
    · obtain ⟨a, b, l, hl, hq⟩ := Gzip.GzipEnd_data nat fuel g hd x hx
      exact ⟨a, b, by rw [hl]; exact destroyCount_end _ _ _ hq, l, hl, hq⟩
    · obtain ⟨r1, h1, _⟩ := Gzip.GzipEnd_error nat fuel g he
      rw [h1] at hx
      cases hx
      refine ⟨rfl, rfl, ?_, [], by simp [Stream.callDestroy], Quiet.nil⟩
      have := destroyCount_end g.stream_.log [] g.stream_.allocated Quiet.nil
      simpa [Stream.callDestroy] using this
  · intro x hx
    rcases hs with hd | he
    · obtain ⟨a, b, l, hl, hq⟩ := BzipImpl.Close_data nat fuel g hd x hx
      exact ⟨a, b, by rw [hl]; exact destroyCount_end _ _ _ hq, l, hl, hq⟩
    · obtain ⟨r1, h1, _⟩ := BzipImpl.Close_error nat fuel g he
      rw [h1] at hx
      cases hx
      refine ⟨rfl, rfl, ?_, [], by simp [Stream.callDestroy], Quiet.nil⟩
      have := destroyCount_end g.stream_.log [] g.stream_.allocated Quiet.nil
      simpa [Stream.callDestroy] using this
  · intro μ hp hf
    rcases hs with hd | he
    · obtain ⟨r, hr⟩ := Gzip.endLoop_returns nat μ hp fuel
        { (Vars.enter g State.Idle) with
          stream_ := { g.stream_ with avail_in := 0, next_in := [] } } (by simpa using hf)
      simp only [Gzip.GzipEnd, hd, Gzip.GzipEndWithData, Vars.enter, if_true, reduceCtorEq,
        if_false, true_or, not_true_eq_false]
      simp only [Vars.enter, hd] at hr
      rw [hr]
      exact ⟨_, rfl⟩
    · exact ⟨_, (hErr he).1.choose_spec.1⟩
  · intro μ hp hf
    rcases hs with hd | he
    · obtain ⟨r, hr⟩ := BzipImpl.BzipEndWithData_returns nat μ hp fuel
        (Vars.enter g State.Error) hf
      simp only [BzipImpl.Close, hd, if_true, reduceCtorEq, if_false, true_or,
        not_true_eq_false]
      have hv : (Vars.enter g State.Error).state_ = State.Data := hd
      rw [if_pos hv, hr]
      exact ⟨_, rfl⟩
    · exact ⟨_, (hErr he).2.choose_spec.1⟩

/-- C4, run: `GzipEnd` on a `Gzip` in state `Data` whose byte-storing codec still has two
bytes to write returns them with `Z_STREAM_END`, releases the context by one destroy call and
leaves the state `Idle`; it returns for every fuel above 2; and `Close` on a `BzipImpl` in
state `Error` returns no output and releases the context. -/
theorem compressor_end_releases_witness :
    (∃ x, Gzip.GzipEnd (echoNative Z_OK Z_OK Z_STREAM_END) 1 (Instance.pending [5, 6]) = .ok x ∧
      x.1.status = Z_STREAM_END ∧ x.1.output = [5, 6] ∧ x.2.state_ = State.Idle ∧
      x.2.stream_.allocated = false ∧ destroyCount x.2.stream_.log = 1) ∧
    (∃ x, Gzip.GzipEnd (echoNative Z_OK Z_OK Z_STREAM_END) 3 (Instance.pending [5, 6]) =
      .ok x) ∧
    (∃ x, BzipImpl.Close (constNative 0 BZ_STREAM_END 0 [5] true) 1
        (Instance.inState State.Error true) = .ok x ∧
      x.1.output = [] ∧ x.2.state_ = State.Idle ∧ x.2.stream_.allocated = false ∧
      destroyCount x.2.stream_.log = 1) :=
  ⟨⟨_, rfl, rfl, rfl,
      ((compressor_end_releases (echoNative Z_OK Z_OK Z_STREAM_END) 1
        (Instance.pending [5, 6]) (Or.inl rfl)).1 _ rfl).1,
      ((compressor_end_releases (echoNative Z_OK Z_OK Z_STREAM_END) 1
        (Instance.pending [5, 6]) (Or.inl rfl)).1 _ rfl).2.1,
      ((compressor_end_releases (echoNative Z_OK Z_OK Z_STREAM_END) 1
        (Instance.pending [5, 6]) (Or.inl rfl)).1 _ rfl).2.2.1⟩,
   (compressor_end_releases (echoNative Z_OK Z_OK Z_STREAM_END) 3
      (Instance.pending [5, 6]) (Or.inl rfl)).2.2.2.1 List.length
      (echoNative_progressing Z_OK Z_OK Z_STREAM_END Z_STREAM_ERROR Z_OK Flush.finish
        (by decide) (by decide) (by decide) (by decide)) (by decide),
   ⟨_, rfl, rfl,
      ((compressor_end_releases (constNative 0 BZ_STREAM_END 0 [5] true) 1
        (Instance.inState State.Error true) (Or.inr rfl)).2.1 _ rfl).1,
      ((compressor_end_releases (constNative 0 BZ_STREAM_END 0 [5] true) 1
        (Instance.inState State.Error true) (Or.inr rfl)).2.1 _ rfl).2.1,
      ((compressor_end_releases (constNative 0 BZ_STREAM_END 0 [5] true) 1
        (Instance.inState State.Error true) (Or.inr rfl)).2.1 _ rfl).2.2.1⟩⟩

/-- C9, as stated, fails: when the compress step of the library answers `Z_STREAM_ERROR` (for
bzip2 `BZ_SEQUENCE_ERROR`), `GzipDeflate` (`Write`) on a session in state `Data` does not
return that status and does not set the state to `Error`: it stops at the `assert` that
follows the step.  And when every growth succeeds and every step answers the progressing
status, a Write of one byte still does not return, whatever the fuel, if each `deflate` step
fills the whole output space (for bzip2, if no `BZ2_bzCompress` step takes the byte). -/
theorem compressor_write_outcome_counterexample :
    Gzip.GzipDeflate (constNative 0 Z_STREAM_ERROR 0 [] true) 1
      (Instance.inState State.Data true) [1] 1 = .error Halt.assertion ∧
    BzipImpl.Write (constNative 0 BZ_SEQUENCE_ERROR 0 [] true) 1
      (Instance.inState State.Data true) [1] 1 = .error Halt.assertion ∧
    (∀ fuel, Gzip.GzipDeflate (constNative 0 Z_OK 0 (List.replicate CHUNK 0) true) fuel
      (Instance.inState State.Data true) [1] 1 = .error Halt.fuel) ∧
    (∀ fuel, BzipImpl.Write (constNative 0 BZ_RUN_OK 0 [] true) fuel
      (Instance.inState State.Data true) [1] 1 = .error Halt.fuel) := by
  refine ⟨rfl, rfl, fun fuel => ?_, fun fuel => ?_⟩
  · cases fuel with
    | zero => rfl
    | succ n =>
      unfold Gzip.GzipDeflate
      rw [if_neg (by simp [Instance.inState])]
      unfold Gzip.deflateOuter
      rw [if_pos (by decide)]
      simp only
      rw [Gzip.deflateInner_stuck]
  · unfold BzipImpl.Write
    rw [if_neg (by simp [Instance.inState]), BzipImpl.writeLoop_stuck]

/-- C9, amended.  For `Gzip` (`GzipDeflate`) and `BzipImpl` (`Write`) on a session in state
`Data`, a Write that returns made growth requests and compress steps only, released nothing
(allocation unchanged, no destroy call), and either every growth succeeded and every step
answered the progressing status (`Z_OK`, `BZ_RUN_OK`), the status returned is success and the
state is `Data`; or the last call made is the first that failed, the status returned is the
memory error for a failed growth and the status of the step otherwise, and the state is
`Error`.  It returns when the library makes progress in its compress steps (`Progressing`:
it never answers the status the source asserts against, and a step that answers the
progressing status after being offered input or after filling the output space lowers a
measure `μ` of what is left to do), the fuel exceeds that measure plus `data_len`, and, for
bzip2, `data` holds at least `data_len` bytes. -/
theorem compressor_write_outcome {σ : Type} (nat : Native σ) (fuel : Nat) (g : Instance σ)
    (data : List Byte) (data_len : Int) (hs : g.state_ = State.Data) :
    (∀ x, Gzip.GzipDeflate nat fuel g data data_len = .ok x →
      x.2.stream_.allocated = g.stream_.allocated ∧
      destroyCount x.2.stream_.log = destroyCount g.stream_.log ∧
      ∃ l, x.2.stream_.log = g.stream_.log ++ l ∧
        ((x.1.status = Z_OK ∧ x.2.state_ = State.Data ∧ ∀ c ∈ l, c.progress Z_OK = true) ∨
         (x.2.state_ = State.Error ∧ ∃ l0 c, l = l0 ++ [c] ∧
            (∀ c ∈ l0, c.progress Z_OK = true) ∧
            c.failure Z_OK Z_MEM_ERROR x.1.status = true))) ∧
    (∀ x, BzipImpl.Write nat fuel g data data_len = .ok x →
      x.2.stream_.allocated = g.stream_.allocated ∧
      destroyCount x.2.stream_.log = destroyCount g.stream_.log ∧
      ∃ l, x.2.stream_.log = g.stream_.log ++ l ∧
        ((x.1.status = BZ_OK ∧ x.2.state_ = State.Data ∧
            ∀ c ∈ l, c.progress BZ_RUN_OK = true) ∨
         (x.2.state_ = State.Error ∧ ∃ l0 c, l = l0 ++ [c] ∧
            (∀ c ∈ l0, c.progress BZ_RUN_OK = true) ∧
            c.failure BZ_RUN_OK BZ_MEM_ERROR x.1.status = true))) ∧
    (∀ μ : σ → Nat, Progressing nat μ Flush.run Z_STREAM_ERROR Z_OK →
      μ g.stream_.native + data_len.toNat < fuel →
      ∃ x, Gzip.GzipDeflate nat fuel g data data_len = .ok x) ∧
    (∀ μ : σ → Nat, Progressing nat μ Flush.run BZ_SEQUENCE_ERROR BZ_RUN_OK →
      data_len ≤ data.length → μ g.stream_.native + data_len.toNat < fuel →
      ∃ x, BzipImpl.Write nat fuel g data data_len = .ok x) := by
  have hq : ∀ (ok mem r : Int) (l : List Call),
      ((∀ c ∈ l, c.progress ok = true) ∨ (∃ l0 c, l = l0 ++ [c] ∧
        (∀ c ∈ l0, c.progress ok = true) ∧ c.failure ok mem r = true)) → Quiet l := by
    intro ok mem r l h
    rcases h with h | ⟨l0, c, e, h0, hc⟩
    · exact Quiet.of_progress h
    · rw [e]; exact (Quiet.of_progress h0).append (Quiet.of_failure hc)
  have hd : ∀ (a l : List Call), Quiet l → destroyCount (a ++ l) = destroyCount a := by
    intro a l h
    have := h.no_destroy
    unfold destroyCount at *
    simp [List.countP_append, this]
  refine ⟨?_, ?_, ?_, ?_⟩
  · intro x hx
    obtain ⟨ha, l, hl, h⟩ := Gzip.GzipDeflate_outcome nat fuel g data data_len hs x hx
    refine ⟨ha, ?_, l, hl, h⟩
    rw [hl]
    apply hd
    rcases h with ⟨_, _, h⟩ | ⟨_, h⟩
    · exact hq Z_OK Z_MEM_ERROR 0 l (Or.inl h)
    · exact hq Z_OK Z_MEM_ERROR _ l (Or.inr h)
  · intro x hx
    obtain ⟨ha, l, hl, h⟩ := BzipImpl.bzip_Write_outcome nat fuel g data data_len hs x hx
    refine ⟨ha, ?_, l, hl, h⟩
    rw [hl]
    apply hd
    rcases h with ⟨_, _, h⟩ | ⟨_, h⟩
    · exact hq BZ_RUN_OK BZ_MEM_ERROR 0 l (Or.inl h)
    · exact hq BZ_RUN_OK BZ_MEM_ERROR _ l (Or.inr h)
  · intro μ hp hf
    obtain ⟨f, hf⟩ := Gzip.deflateOuter_returns nat μ hp fuel fuel data data_len Z_OK
      (Vars.enter g State.Error) (by omega) hf
    simp only [Gzip.GzipDeflate, hs, ne_eq, not_true_eq_false, if_false, hf]
    cases f <;> exact ⟨_, rfl⟩
  · intro μ hp hd hf
    obtain ⟨f, hf⟩ := BzipImpl.writeLoop_returns nat μ hp fuel data data_len BZ_OK
      (Vars.enter g State.Error) hd hf
    simp only [BzipImpl.Write, hs, ne_eq, not_true_eq_false, if_false, hf]
    cases f <;> exact ⟨_, rfl⟩

/-- C9, run: two bytes written to a `Gzip` over the byte-storing codec come back with
`Z_OK` and the state stays `Data`, and the Write returns for every fuel above 2; one byte
written to a `BzipImpl` whose allocator fails returns `BZ_MEM_ERROR` with no output and the
state `Error`; neither releases the context. -/
theorem compressor_write_outcome_witness :
    (∃ x, Gzip.GzipDeflate (echoNative Z_OK Z_OK Z_STREAM_END) 1 (Instance.pending [])
        [1, 2] 2 = .ok x ∧
      x.1.status = Z_OK ∧ x.1.output = [1, 2] ∧ x.2.state_ = State.Data ∧
      x.2.stream_.allocated = true ∧ destroyCount x.2.stream_.log = 0) ∧
    (∃ x, Gzip.GzipDeflate (echoNative Z_OK Z_OK Z_STREAM_END) 3 (Instance.pending [])
        [1, 2] 2 = .ok x) ∧
    (∃ x, BzipImpl.Write (constNative 0 BZ_RUN_OK 1 [9] false) 1
        (Instance.inState State.Data true) [1] 1 = .ok x ∧
      x.1.status = BZ_MEM_ERROR ∧ x.1.output = [] ∧ x.2.state_ = State.Error ∧
      x.2.stream_.allocated = true ∧ destroyCount x.2.stream_.log = 0) :=
  ⟨⟨_, rfl, rfl, rfl, rfl,
      ((compressor_write_outcome (echoNative Z_OK Z_OK Z_STREAM_END) 1
        (Instance.pending []) [1, 2] 2 rfl).1 _ rfl).1,
      ((compressor_write_outcome (echoNative Z_OK Z_OK Z_STREAM_END) 1
        (Instance.pending []) [1, 2] 2 rfl).1 _ rfl).2.1⟩,
   (compressor_write_outcome (echoNative Z_OK Z_OK Z_STREAM_END) 3
      (Instance.pending []) [1, 2] 2 rfl).2.2.1 List.length
      (echoNative_progressing Z_OK Z_OK Z_STREAM_END Z_STREAM_ERROR Z_OK Flush.run
        (by decide) (by decide) (by decide) (by decide)) (by decide),
   ⟨_, rfl, rfl, rfl, rfl,
      ((compressor_write_outcome (constNative 0 BZ_RUN_OK 1 [9] false) 1
        (Instance.inState State.Data true) [1] 1 rfl).2.1 _ rfl).1,
      ((compressor_write_outcome (constNative 0 BZ_RUN_OK 1 [9] false) 1
        (Instance.inState State.Data true) [1] 1 rfl).2.1 _ rfl).2.1⟩⟩

theorem Calm.not_answered {l : List Call} (h : Calm l) (c : Call) (hc : c ∈ l) :
    c.answered Z_DATA_ERROR = false ∧ c.answered Z_NEED_DICT = false := by
  have := h.2 c hc
  cases c <;> simp_all [Call.fatal, Call.answered]

/-- C8. Resource/state invariant, for each of the four codecs: in every state reachable from
a freshly constructed instance by Init, Write and End calls that return (for `BunzipImpl` also
by `Destroy`), whatever the library answers and whether growth succeeds, the native context is
allocated exactly when the state is not `Idle`, and the history of calls respects the life
cycle of the context: every destroy call finds the context allocated by a successful init
that no earlier destroy has released, so the destroy primitive is never called twice for one
init nor on a context that was not initialised. -/
theorem resource_state_invariant {σ : Type} (nat : Native σ) (g : Instance σ) :
    (Gzip.Reachable nat g → Inv g) ∧ (Gunzip.Reachable nat g → Inv g) ∧
    (BzipImpl.Reachable nat g → Inv g) ∧ (BunzipImpl.Reachable nat g → Inv g) := by
  refine ⟨?_, ?_, ?_, ?_⟩
  · intro h
    induction h with
    | fresh w garbage n => exact Inv.fresh w garbage n
    | init _ ih => exact Gzip.gzip_init_inv nat _ ih
    | write fuel data data_len x _ hx ih =>
      exact Gzip.gzip_write_inv nat fuel _ data data_len x ih hx
    | close fuel x _ hx ih => exact Gzip.gzip_end_inv nat fuel _ x ih hx
  · intro h
    induction h with
    | fresh w garbage n => exact Inv.fresh w garbage n
    | init _ ih => exact Gunzip.gunzip_init_inv nat _ ih
    | write fuel data data_len x _ hx ih =>
      exact Gunzip.gunzip_write_inv nat fuel _ data data_len x ih hx
    | close _ ih => exact Gunzip.gunzip_end_inv nat _ ih
  · intro h
    induction h with
    | fresh w garbage n => exact Inv.fresh w garbage n
    | init _ ih => exact BzipImpl.bzip_init_inv nat _ ih
    | write fuel data data_len x _ hx ih =>
      exact BzipImpl.bzip_write_inv nat fuel _ data data_len x ih hx
    | close fuel x _ hx ih => exact BzipImpl.close_inv nat fuel _ x ih hx
  · intro h
    induction h with
    | fresh w garbage n => exact Inv.fresh w garbage n
    | init _ ih => exact BunzipImpl.bunzip_init_inv nat _ ih
    | write fuel data data_len x _ hx ih =>
      exact BunzipImpl.bunzip_write_inv nat fuel _ data data_len x ih hx
    | close _ ih => exact ih
    | destroy _ ih => exact BunzipImpl.destroy_inv nat _ ih

/-- C8, run: a `Gunzip` constructed, initialised, and fed one byte to which `inflate` answers
`Z_DATA_ERROR`: the instance is reachable, its state is `Idle`, its context is released, and
its history is init, growth, step, destroy. -/
theorem resource_state_invariant_witness :
    ∃ x, Gunzip.GunzipInflate (constNative 0 Z_DATA_ERROR 0 [] true) 1
        (Gunzip.GunzipInit (constNative 0 Z_DATA_ERROR 0 [] true) (Instance.new () [] 0)).2
        [1] 1 = .ok x ∧
      Inv x.2 ∧ x.2.state_ = State.Idle ∧ x.2.stream_.allocated = false ∧
      x.2.stream_.log = [Call.init 0, Call.grow CHUNK true,
        Call.step Flush.run 1 0 CHUNK CHUNK Z_DATA_ERROR, Call.destroy true] :=
  ⟨_, rfl,
    (resource_state_invariant (constNative 0 Z_DATA_ERROR 0 [] true) _).2.1
      (Gunzip.Reachable.write 1 [1] 1 _
        (Gunzip.Reachable.init (Gunzip.Reachable.fresh () [] 0)) rfl),
    rfl, rfl, rfl⟩

/-- C5, at the failing input.  `BunzipImpl::Close` returns `BZ_OK` and changes nothing, in
every state: called on an instance in state `Eos` (or `Data`, or `Error`) whose native context
is allocated, it makes no call, the context stays allocated, the state stays what it was, and
the `BunzipInit` that follows is rejected with `BZ_SEQUENCE_ERROR`.  The sibling `GunzipEnd`
on the same instance calls the destroy primitive and leaves the state `Idle`, and the
`GunzipInit` that follows is accepted. -/
theorem bunzip_close_keeps_session :
    (∀ (σ : Type) (g : Instance σ), BunzipImpl.Close g = g.early BZ_OK) ∧
    (BunzipImpl.Close (Instance.inState State.Eos true)).2.state_ = State.Eos ∧
    (BunzipImpl.Close (Instance.inState State.Eos true)).2.stream_.allocated = true ∧
    (BunzipImpl.Close (Instance.inState State.Eos true)).2.stream_.log = [] ∧
    (BunzipImpl.BunzipInit (constNative 0 0 0 [] true)
      (BunzipImpl.Close (Instance.inState State.Eos true)).2).1 = BZ_SEQUENCE_ERROR ∧
    (Gunzip.GunzipEnd (constNative 0 0 0 [] true) (Instance.inState State.Eos true)).state_ =
      State.Idle ∧
    (Gunzip.GunzipEnd (constNative 0 0 0 [] true)
      (Instance.inState State.Eos true)).stream_.allocated = false ∧
    (Gunzip.GunzipEnd (constNative 0 0 0 [] true)
      (Instance.inState State.Eos true)).stream_.log = [Call.destroy true] ∧
    (Gunzip.GunzipInit (constNative 0 0 0 [] true)
      (Gunzip.GunzipEnd (constNative 0 0 0 [] true) (Instance.inState State.Eos true))).1 =
      Z_OK :=
  ⟨fun _ _ => rfl, rfl, rfl, rfl, rfl, rfl, rfl, rfl, rfl⟩

/-- C6. Idempotent End, for each of the four codecs and every state the first End is called
from: an End that follows an End is never an error.  After a `GzipEnd` or a
`BzipImpl::Close` that returned (with whatever status), a second one returns the success
status (`Z_OK`, `BZ_OK`) with zero output bytes, for every fuel, and leaves the instance
exactly as the first left it (same state, no call made).  `GunzipEnd` is `void`, so it has no
status to return and its caller gets the empty string: a second one leaves the instance
exactly as the first left it.  `BunzipImpl::Close` returns `BZ_OK` with zero output bytes and
leaves the instance as it was, the first time and the second. -/
theorem idempotent_end {σ : Type} (nat : Native σ) (fuel fuel2 : Nat) (g : Instance σ) :
    (∀ x, Gzip.GzipEnd nat fuel g = .ok x →
      ReturnsUntouched (Gzip.GzipEnd nat fuel2 x.2) Z_OK x.2) ∧
    (∀ x, BzipImpl.Close nat fuel g = .ok x →
      ReturnsUntouched (BzipImpl.Close nat fuel2 x.2) BZ_OK x.2) ∧
    Gunzip.GunzipEnd nat (Gunzip.GunzipEnd nat g) = Gunzip.GunzipEnd nat g ∧
    ReturnsUntouched (.ok (BunzipImpl.Close (BunzipImpl.Close g).2)) BZ_OK
      (BunzipImpl.Close g).2 := by
  refine ⟨?_, ?_, ?_, ?_⟩
  · intro x hx
    have hs := (Gzip.end_idle nat fuel g x hx).1
    refine ⟨(x.2.early Z_OK).1, ?_, rfl, rfl, rfl, rfl⟩
    simp [Gzip.GzipEnd, hs, Instance.early]
  · intro x hx
    have hs := (BzipImpl.close_idle nat fuel g x hx).1
    refine ⟨(x.2.early BZ_OK).1, ?_, rfl, rfl, rfl, rfl⟩
    simp [BzipImpl.Close, hs, Instance.early]
  · unfold Gunzip.GunzipEnd
    by_cases hs : g.state_ = State.Idle <;> simp [hs]
  · exact ⟨(g.early BZ_OK).1, rfl, rfl, rfl, rfl, rfl⟩

/-- C6, run: two `GzipEnd` calls on a `Gzip` in state `Data` whose library finishes the
stream with one byte: the first returns that byte and releases the context, the second
returns `Z_OK` with no output and makes no call. -/
theorem idempotent_end_witness :
    ∃ x, Gzip.GzipEnd (constNative 0 Z_STREAM_END 0 [5] true) 1
        (Instance.inState State.Data true) = .ok x ∧
      x.1.output = [5] ∧
      ReturnsUntouched (Gzip.GzipEnd (constNative 0 Z_STREAM_END 0 [5] true) 0 x.2) Z_OK x.2 :=
  ⟨_, rfl, rfl,
    (idempotent_end (constNative 0 Z_STREAM_END 0 [5] true) 1 0
      (Instance.inState State.Data true)).1 _ rfl⟩

/-- C1, at the failing input: the empty sequence through the bzip2 pair.  `BzipImpl()` leaves
`stream_` uninitialised and `BzipInit` sets neither `avail_in` nor `next_in`; `Write` of the
empty sequence makes no step, so `Close` offers the finishing step whatever the two fields
held at construction (here three bytes `7, 7, 7`).  With a codec that stores bytes as they
are, the compressor returns those three bytes for the empty sequence and the decompressor
returns them again: the round trip of the empty sequence yields `[7, 7, 7]`.  The same run
through `Gzip`, whose `GzipEndWithData` resets both fields, yields the empty sequence. -/
theorem bzip_round_trip_of_empty_input :
    ∃ xw xc xd gw gc,
      BzipImpl.Write (echoNative BZ_RUN_OK BZ_FINISH_OK BZ_STREAM_END) 1
        (BzipImpl.BzipInit (echoNative BZ_RUN_OK BZ_FINISH_OK BZ_STREAM_END)
          (Instance.new [] [7, 7, 7] 3)).2 [] 0 = .ok xw ∧
      xw.1.status = BZ_OK ∧
      BzipImpl.Close (echoNative BZ_RUN_OK BZ_FINISH_OK BZ_STREAM_END) 1 xw.2 = .ok xc ∧
      xc.1.status = BZ_OK ∧
      xc.2.stream_.log = [Call.init 0, Call.grow 128 true,
        Call.step Flush.finish 3 0 128 128 BZ_STREAM_END, Call.destroy true] ∧
      xw.1.output ++ xc.1.output = [7, 7, 7] ∧
      BunzipImpl.Write (echoNative BZ_OK BZ_OK BZ_STREAM_END) 1
        (BunzipImpl.BunzipInit (echoNative BZ_OK BZ_OK BZ_STREAM_END)
          (Instance.new [] [] 0)).2 (xw.1.output ++ xc.1.output) 3 = .ok xd ∧
      xd.1.status = BZ_OK ∧ xd.1.output = [7, 7, 7] ∧
      Gzip.GzipDeflate (echoNative Z_OK Z_OK Z_STREAM_END) 1
        (Gzip.GzipInit (echoNative Z_OK Z_OK Z_STREAM_END)
          (Instance.new [] [7, 7, 7] 3)).2 [] 0 = .ok gw ∧
      Gzip.GzipEnd (echoNative Z_OK Z_OK Z_STREAM_END) 1 gw.2 = .ok gc ∧
      gw.1.output ++ gc.1.output = [] :=
  ⟨_, _, _, _, _, rfl, rfl, rfl, rfl, rfl, rfl, rfl, rfl, rfl, rfl, rfl, rfl⟩

/-! ### C11: the state after a fatal decompression error -/

/-- C11, as stated, fails for `Gunzip`: a Write of one byte on a session in state `Data` to
which `inflate` answers `Z_DATA_ERROR` (or `Z_MEM_ERROR`) returns that status with the state
`Idle`, not `Error`: `GunzipInflate` itself aborts the guard and calls `GunzipEnd`. -/
theorem state_after_fatal_error_counterexample :
    (∃ x, Gunzip.GunzipInflate (constNative 0 Z_DATA_ERROR 0 [] true) 1
        (Instance.inState State.Data true) [1] 1 = .ok x ∧
      x.1.status = Z_DATA_ERROR ∧ x.2.state_ = State.Idle ∧ x.2.state_ ≠ State.Error) ∧
    (∃ x, Gunzip.GunzipInflate (constNative 0 Z_MEM_ERROR 0 [] true) 1
        (Instance.inState State.Data true) [1] 1 = .ok x ∧
      x.1.status = Z_MEM_ERROR ∧ x.2.state_ = State.Idle ∧ x.2.state_ ≠ State.Error) :=
  ⟨⟨_, rfl, rfl, rfl, by decide⟩, ⟨_, rfl, rfl, rfl, by decide⟩⟩

/-- C11, amended.  After a Write on a session in state `Data` that returns:
`BunzipImpl`: whenever the status returned is neither `BZ_OK` nor `BZ_STREAM_END` (so for
`BZ_MEM_ERROR`, `BZ_DATA_ERROR` and `BZ_DATA_ERROR_MAGIC`), the state is `Error`.
`Gunzip`: the state is `Idle` exactly when one of the inflate steps of the call answered
`Z_DATA_ERROR`, `Z_NEED_DICT` or `Z_MEM_ERROR` (the call tore the session down), and that is
the case whenever the status returned is `Z_DATA_ERROR`; when no step answered such a status
and the status returned is neither `Z_OK` nor `Z_STREAM_END` (a failed growth, `Z_BUF_ERROR`),
the state is `Error`. -/
theorem state_after_fatal_error {σ : Type} (nat : Native σ) (fuel : Nat) (g : Instance σ)
    (data : List Byte) (data_len : Int) (hs : g.state_ = State.Data) :
    (∀ x, BunzipImpl.Write nat fuel g data data_len = .ok x →
      x.1.status ≠ BZ_OK → x.1.status ≠ BZ_STREAM_END → x.2.state_ = State.Error) ∧
    (∀ x, Gunzip.GunzipInflate nat fuel g data data_len = .ok x →
      ∃ l, x.2.stream_.log = g.stream_.log ++ l ∧
        ((∃ c ∈ l, c.fatal = true) ↔ x.2.state_ = State.Idle) ∧
        (x.1.status = Z_DATA_ERROR → x.2.state_ = State.Idle) ∧
        ((∀ c ∈ l, c.fatal = false) → x.1.status ≠ Z_OK → x.1.status ≠ Z_STREAM_END →
          x.2.state_ = State.Error)) := by
  refine ⟨?_, ?_⟩
  · intro x hx h1 h2
    obtain ⟨hni, hd, he, -, -⟩ :=
      BunzipImpl.bunzip_Write_outcome nat fuel g data data_len hs x hx
    have h3 : x.2.state_ ≠ State.Data := fun e => h1 (hd.2 e)
    have h4 : x.2.state_ ≠ State.Eos := fun e => h2 (he.2 e)
    cases hx2 : x.2.state_ <;> simp_all
  · intro x hx
    rcases Gunzip.GunzipInflate_outcome nat fuel g data data_len hs x hx with
      ⟨hne, hni, hd, he, -, l, hl, hq⟩ | ⟨hr, hidle, -, l, a, b, c, d, st, hl, hq, hst, hstat⟩
    · refine ⟨l, hl, ⟨?_, fun e => absurd e hni⟩, fun e => absurd e hne, ?_⟩
      · rintro ⟨c, hc, h⟩
        rw [hq.2 c hc] at h
        cases h
      · intro _ h1 h2
        have h3 : x.2.state_ ≠ State.Data := fun e => h1 (hd.2 e)
        have h4 : x.2.state_ ≠ State.Eos := fun e => h2 (he.2 e)
        cases hx2 : x.2.state_ <;> simp_all
    · refine ⟨l ++ [Call.step Flush.run a b c d st, Call.destroy g.stream_.allocated],
        by rw [hl, List.append_assoc], ⟨fun _ => hidle, fun _ => ?_⟩, fun _ => hidle, ?_⟩
      · refine ⟨Call.step Flush.run a b c d st, by simp, ?_⟩
        simp only [Call.fatal, decide_eq_true_eq]
        exact hst
      · intro hall
        have := hall (Call.step Flush.run a b c d st) (by simp)
        simp only [Call.fatal, decide_eq_false_iff_not] at this
        exact absurd hst this

/-- C11, run: one byte written to a `BunzipImpl` whose `BZ2_bzDecompress` answers
`BZ_DATA_ERROR` returns that status and leaves the state `Error`. -/
theorem state_after_fatal_error_witness :
    ∃ x, BunzipImpl.Write (constNative 0 BZ_DATA_ERROR 0 [] true) 1
        (Instance.inState State.Data true) [1] 1 = .ok x ∧
      x.1.status = BZ_DATA_ERROR ∧ x.2.state_ = State.Error :=
  ⟨_, rfl, rfl,
    (state_after_fatal_error (constNative 0 BZ_DATA_ERROR 0 [] true) 1
      (Instance.inState State.Data true) [1] 1 rfl).1 _ rfl (by decide) (by decide)⟩

/-! ### C16: the state `Error` -/

theorem destroyCount_quiet (a l : List Call) (h : Quiet l) :
    destroyCount (a ++ l) = destroyCount a := by
  have := h.no_destroy
  unfold destroyCount at *
  simp [List.countP_append, this]

theorem Quiet.of_failed {ok mem r : Int} {l : List Call}
    (h : ∃ l0 c, l = l0 ++ [c] ∧ (∀ x ∈ l0, x.progress ok = true) ∧
      c.failure ok mem r = true) : Quiet l := by
  obtain ⟨l0, c, e, h0, hc⟩ := h
  rw [e]
  exact (Quiet.of_progress h0).append (Quiet.of_failure hc)

/-- C16. Error is left only by teardown, for each of the four codecs.  On an instance in
state `Error`: every Init returns the sequence-error status of the family (`Z_STREAM_ERROR`,
`BZ_SEQUENCE_ERROR`) and leaves the instance as it was; every Write returns that status with
zero output bytes, whatever the fuel, the data and the library, and leaves the instance as it
was (state `Error`, no call made).  `GzipEnd`, `GunzipEnd` and `BzipImpl::Close` release the
context and set the state to `Idle`; `BunzipImpl::Close` leaves the instance as it was, and
`BunzipImpl::Destroy` releases the context and sets the state to `Idle`.  The destructors of
`Gunzip`, `BzipImpl` and `BunzipImpl` do the same, and `~Gzip()` releases the context without
assigning the state.  So no call moves the state from `Error` to `Data` or `Eos`.
For the compressors, a Write on a session in state `Data` that returns a status other than
success sets the state to `Error` and releases nothing: the allocation is unchanged and no
destroy call is made. -/
theorem error_left_only_by_teardown {σ : Type} (nat : Native σ) (fuel : Nat)
    (data : List Byte) (data_len : Int) (g : Instance σ) (hs : g.state_ = State.Error) :
    (Gzip.GzipInit nat g = (Z_STREAM_ERROR, g) ∧
      Gunzip.GunzipInit nat g = (Z_STREAM_ERROR, g) ∧
      BzipImpl.BzipInit nat g = (BZ_SEQUENCE_ERROR, g) ∧
      BunzipImpl.BunzipInit nat g = (BZ_SEQUENCE_ERROR, g)) ∧
    (ReturnsUntouched (Gzip.GzipDeflate nat fuel g data data_len) Z_STREAM_ERROR g ∧
      ReturnsUntouched (Gunzip.GunzipInflate nat fuel g data data_len) Z_STREAM_ERROR g ∧
      ReturnsUntouched (BzipImpl.Write nat fuel g data data_len) BZ_SEQUENCE_ERROR g ∧
      ReturnsUntouched (BunzipImpl.Write nat fuel g data data_len) BZ_SEQUENCE_ERROR g) ∧
    ((∃ r, Gzip.GzipEnd nat fuel g =
        .ok (r, { stream_ := g.stream_.callDestroy nat, state_ := State.Idle })) ∧
      Gunzip.GunzipEnd nat g = { stream_ := g.stream_.callDestroy nat, state_ := State.Idle } ∧
      (∃ r, BzipImpl.Close nat fuel g =
        .ok (r, { stream_ := g.stream_.callDestroy nat, state_ := State.Idle })) ∧
      (BunzipImpl.Close g).2 = g ∧
      BunzipImpl.Destroy nat g =
        { stream_ := g.stream_.callDestroy nat, state_ := State.Idle }) ∧
    (Gzip.delete nat g = { stream_ := g.stream_.callDestroy nat, state_ := State.Error } ∧
      Gunzip.delete nat g = { stream_ := g.stream_.callDestroy nat, state_ := State.Idle } ∧
      BzipImpl.delete nat g = { stream_ := g.stream_.callDestroy nat, state_ := State.Idle } ∧
      BunzipImpl.delete nat g =
        { stream_ := g.stream_.callDestroy nat, state_ := State.Idle }) ∧
    (∀ g2 : Instance σ, g2.state_ = State.Data →
      (∀ x, Gzip.GzipDeflate nat fuel g2 data data_len = .ok x → x.1.status ≠ Z_OK →
        x.2.state_ = State.Error ∧ x.2.stream_.allocated = g2.stream_.allocated ∧
        destroyCount x.2.stream_.log = destroyCount g2.stream_.log) ∧
      (∀ x, BzipImpl.Write nat fuel g2 data data_len = .ok x → x.1.status ≠ BZ_OK →
        x.2.state_ = State.Error ∧ x.2.stream_.allocated = g2.stream_.allocated ∧
        destroyCount x.2.stream_.log = destroyCount g2.stream_.log)) := by
  refine ⟨?_, ⟨⟨(g.early Z_STREAM_ERROR).1, ?_, rfl, rfl, rfl, rfl⟩,
      ⟨(g.early Z_STREAM_ERROR).1, ?_, rfl, rfl, rfl, rfl⟩,
      ⟨(g.early BZ_SEQUENCE_ERROR).1, ?_, rfl, rfl, rfl, rfl⟩,
      ⟨(g.early BZ_SEQUENCE_ERROR).1, ?_, rfl, rfl, rfl, rfl⟩⟩, ⟨?_, ?_, ?_, rfl, ?_⟩,
    ⟨?_, ?_, ?_, ?_⟩, ?_⟩
  · simp [Gzip.GzipInit, Gunzip.GunzipInit, BzipImpl.BzipInit, BunzipImpl.BunzipInit, hs]
  · simp [Gzip.GzipDeflate, hs, Instance.early]
  · simp [Gunzip.GunzipInflate, hs, Instance.early]
  · simp [BzipImpl.Write, hs, Instance.early]
  · simp [BunzipImpl.Write, hs, Instance.early]
  · obtain ⟨r, h, -⟩ := Gzip.GzipEnd_error nat fuel g hs
    exact ⟨r, h⟩
  · simp [Gunzip.GunzipEnd, hs]
  · obtain ⟨r, h, -⟩ := BzipImpl.Close_error nat fuel g hs
    exact ⟨r, h⟩
  · simp [BunzipImpl.Destroy, hs]
  · simp [Gzip.delete, hs]
  · simp [Gunzip.delete, Gunzip.GunzipEnd, hs]
  · simp [BzipImpl.delete, BzipImpl.Destroy, hs]
  · simp [BunzipImpl.delete, BunzipImpl.Destroy, hs]
  · intro g2 hs2
    refine ⟨?_, ?_⟩
    · intro x hx hne
      obtain ⟨ha, l, hl, h⟩ := Gzip.GzipDeflate_outcome nat fuel g2 data data_len hs2 x hx
      rcases h with ⟨h, _⟩ | ⟨he, h⟩
      · exact absurd h hne
      · refine ⟨he, ha, ?_⟩
        rw [hl]
        exact destroyCount_quiet _ _ (Quiet.of_failed h)
    · intro x hx hne
      obtain ⟨ha, l, hl, h⟩ := BzipImpl.bzip_Write_outcome nat fuel g2 data data_len hs2 x hx
      rcases h with ⟨h, _⟩ | ⟨he, h⟩
      · exact absurd h hne
      · refine ⟨he, ha, ?_⟩
        rw [hl]
        exact destroyCount_quiet _ _ (Quiet.of_failed h)

/-- C16, run: on a `BzipImpl` in state `Error`, an Init and a Write of two bytes (with no
fuel at all) are rejected and change nothing; on a `Gzip` in state `Data` whose `deflate`
answers `Z_BUF_ERROR`, a Write of one byte returns that status, sets the state to `Error` and
leaves the context allocated. -/
theorem error_left_only_by_teardown_witness :
    BzipImpl.BzipInit (constNative 0 0 0 [] true) (Instance.inState State.Error true) =
      (BZ_SEQUENCE_ERROR, Instance.inState State.Error true) ∧
    ReturnsUntouched
      (BzipImpl.Write (constNative 0 0 0 [] true) 0 (Instance.inState State.Error true)
        [1, 2] 2) BZ_SEQUENCE_ERROR (Instance.inState State.Error true) ∧
    (∃ x, Gzip.GzipDeflate (constNative 0 Z_BUF_ERROR 0 [] true) 1
        (Instance.inState State.Data true) [1] 1 = .ok x ∧ x.1.status = Z_BUF_ERROR ∧
      x.2.state_ = State.Error ∧ x.2.stream_.allocated = true) :=
  ⟨(error_left_only_by_teardown (constNative 0 0 0 [] true) 0 [1, 2] 2
      (Instance.inState State.Error true) rfl).1.2.2.1,
   (error_left_only_by_teardown (constNative 0 0 0 [] true) 0 [1, 2] 2
      (Instance.inState State.Error true) rfl).2.1.2.2.1,
   ⟨_, rfl, rfl,
    (((error_left_only_by_teardown (constNative 0 Z_BUF_ERROR 0 [] true) 1 [1] 1
      (Instance.inState State.Error true) rfl).2.2.2.2 (Instance.inState State.Data true)
        rfl).1 _ rfl (by decide)).1,
    rfl⟩⟩

/-! ### Loop rules

Each loop of the drivers, as a proof rule: a property `P` of the variables at the head of the
loop that every round maintains, and a property `Q` of the way the loop ends that every exit
establishes, give `Q` for every run of the loop that returns. -/

theorem Gzip.deflateInner_rule {σ : Type} (nat : Native σ) (P : Vars σ → Prop)
    (Q : Flow σ → Prop)
    (hmem : ∀ v, P v → (v.GrowBy nat CHUNK).1 = false →
      Q (.leave Z_MEM_ERROR (v.GrowBy nat CHUNK).2))
    (hstep : ∀ v, P v → (v.GrowBy nat CHUNK).1 = true →
      ∀ s, s = (v.GrowBy nat CHUNK).2.callStep nat Flush.run (v.GrowBy nat CHUNK).2.out_len
          CHUNK →
        s.1 ≠ Z_STREAM_ERROR →
        (s.1 ≠ Z_OK → Q (.leave s.1 s.2.2)) ∧
        (s.1 = Z_OK → s.2.1 ≠ 0 →
          Q (.next s.1 { s.2.2 with out_len := s.2.2.out_len + (CHUNK - s.2.1) })) ∧
        (s.1 = Z_OK → s.2.1 = 0 →
          P { s.2.2 with out_len := s.2.2.out_len + (CHUNK - s.2.1) })) :
    ∀ (fuel : Nat) (v : Vars σ) (f : Flow σ), P v →
      Gzip.deflateInner nat fuel v = .ok f → Q f := by
  intro fuel
  induction fuel with
  | zero => intro v f _ h; simp [Gzip.deflateInner] at h
  | succ n ih =>
    intro v f hP h
    simp only [Gzip.deflateInner] at h
    by_cases h1 : (v.GrowBy nat CHUNK).1 = false
    · rw [if_pos h1] at h
      cases h
      exact hmem v hP h1
    · rw [if_neg h1] at h
      simp only [Bool.not_eq_false] at h1
      by_cases h2 : ((v.GrowBy nat CHUNK).2.callStep nat Flush.run
          (v.GrowBy nat CHUNK).2.out_len CHUNK).1 = Z_STREAM_ERROR
      · rw [if_pos h2] at h
        cases h
      · rw [if_neg h2] at h
        obtain ⟨hbad, hnext, hloop⟩ := hstep v hP h1 _ rfl h2
        by_cases h3 : ((v.GrowBy nat CHUNK).2.callStep nat Flush.run
            (v.GrowBy nat CHUNK).2.out_len CHUNK).1 ≠ Z_OK
        · rw [if_pos h3] at h
          cases h
          exact hbad h3
        · rw [if_neg h3] at h
          simp only [ne_eq, Decidable.not_not] at h3
          by_cases h4 : ((v.GrowBy nat CHUNK).2.callStep nat Flush.run
              (v.GrowBy nat CHUNK).2.out_len CHUNK).2.1 = 0
          · rw [if_pos h4] at h
            exact ih _ _ (hloop h3 h4) h
          · rw [if_neg h4] at h
            cases h
            exact hnext h3 h4

theorem Gzip.deflateOuter_rule {σ : Type} (nat : Native σ) (inner : Nat)
    (P : List Byte → Int → Int → Vars σ → Prop) (Q : Flow σ → Prop)
    (hend : ∀ data n ret v, P data n ret v → ¬ n > 0 → Q (.next ret v))
    (hleave : ∀ data n ret v r v2, P data n ret v → n > 0 →
      Gzip.deflateInner nat inner { v with stream_ := { v.stream_ with
          avail_in := if n > CHUNK then CHUNK else n.toNat, next_in := data } } =
        .ok (.leave r v2) → Q (.leave r v2))
    (hnext : ∀ data n ret v r v2, P data n ret v → n > 0 →
      Gzip.deflateInner nat inner { v with stream_ := { v.stream_ with
          avail_in := if n > CHUNK then CHUNK else n.toNat, next_in := data } } =
        .ok (.next r v2) → P (data.drop CHUNK) (n - CHUNK) r v2) :
    ∀ (fuel : Nat) (data : List Byte) (n ret : Int) (v : Vars σ) (f : Flow σ),
      P data n ret v → Gzip.deflateOuter nat inner fuel data n ret v = .ok f → Q f := by
  intro fuel
  induction fuel with
  | zero =>
    intro data n ret v f hP h
    unfold Gzip.deflateOuter at h
    by_cases h1 : n > 0
    · rw [if_pos h1] at h
      cases h
    · rw [if_neg h1] at h
      cases h
      exact hend _ _ _ _ hP h1
  | succ k ih =>
    intro data n ret v f hP h
    unfold Gzip.deflateOuter at h
    by_cases h1 : n > 0
    · rw [if_pos h1] at h
      simp only at h
      split at h
      · cases h
      · rename_i r v2 hin
        cases h
        exact hleave _ _ _ _ _ _ hP h1 hin
      · rename_i r v2 hin
        exact ih _ _ _ _ _ (hnext _ _ _ _ _ _ hP h1 hin) h
    · rw [if_neg h1] at h
      cases h
      exact hend _ _ _ _ hP h1

theorem Gzip.endLoop_rule {σ : Type} (nat : Native σ) (P : Vars σ → Prop)
    (Q : Int × Vars σ → Prop)
    (hmem : ∀ v, P v → (v.GrowBy nat CHUNK).1 = false →
      Q (Z_MEM_ERROR, (v.GrowBy nat CHUNK).2))
    (hstep : ∀ v, P v → (v.GrowBy nat CHUNK).1 = true →
      ∀ s, s = (v.GrowBy nat CHUNK).2.callStep nat Flush.finish
          (v.GrowBy nat CHUNK).2.out_len CHUNK →
        s.1 ≠ Z_STREAM_ERROR →
        (s.1 ≠ Z_OK → s.1 ≠ Z_STREAM_END → Q (s.1, s.2.2)) ∧
        (s.1 = Z_STREAM_END →
          Q (s.1, { s.2.2 with out_len := s.2.2.out_len + (CHUNK - s.2.1) })) ∧
        (s.1 = Z_OK → P { s.2.2 with out_len := s.2.2.out_len + (CHUNK - s.2.1) })) :
    ∀ (fuel : Nat) (v : Vars σ) (r : Int × Vars σ), P v →
      Gzip.endLoop nat fuel v = .ok r → Q r := by
  intro fuel
  induction fuel with
  | zero => intro v f _ h; simp [Gzip.endLoop] at h
  | succ n ih =>
    intro v f hP h
    simp only [Gzip.endLoop] at h
    by_cases h1 : (v.GrowBy nat CHUNK).1 = false
    · rw [if_pos h1] at h
      cases h
      exact hmem v hP h1
    · rw [if_neg h1] at h
      simp only [Bool.not_eq_false] at h1
      by_cases h2 : ((v.GrowBy nat CHUNK).2.callStep nat Flush.finish
          (v.GrowBy nat CHUNK).2.out_len CHUNK).1 = Z_STREAM_ERROR
      · rw [if_pos h2] at h
        cases h
      · rw [if_neg h2] at h
        obtain ⟨hbad, hdone, hloop⟩ := hstep v hP h1 _ rfl h2
        by_cases h3 : ((v.GrowBy nat CHUNK).2.callStep nat Flush.finish
            (v.GrowBy nat CHUNK).2.out_len CHUNK).1 ≠ Z_OK ∧
            ((v.GrowBy nat CHUNK).2.callStep nat Flush.finish
            (v.GrowBy nat CHUNK).2.out_len CHUNK).1 ≠ Z_STREAM_END
        · rw [if_pos h3] at h
          cases h
          exact hbad h3.1 h3.2
        · rw [if_neg h3] at h
          by_cases h4 : ((v.GrowBy nat CHUNK).2.callStep nat Flush.finish
              (v.GrowBy nat CHUNK).2.out_len CHUNK).1 ≠ Z_STREAM_END
          · rw [if_pos h4] at h
            have h5 : ((v.GrowBy nat CHUNK).2.callStep nat Flush.finish
                (v.GrowBy nat CHUNK).2.out_len CHUNK).1 = Z_OK := by
              by_contra hne
              exact h3 ⟨hne, h4⟩
            exact ih _ _ (hloop h5) h
          · rw [if_neg h4] at h
            cases h
            simp only [ne_eq, Decidable.not_not] at h4
            exact hdone h4

theorem Gunzip.inflateInner_rule {σ : Type} (nat : Native σ) (P : Vars σ → Prop)
    (Q : Flow σ → Prop)
    (hmem : ∀ v, P v → (v.GrowBy nat CHUNK).1 = false →
      Q (.leave Z_MEM_ERROR (v.GrowBy nat CHUNK).2))
    (hstep : ∀ v, P v → (v.GrowBy nat CHUNK).1 = true →
      ∀ s, s = (v.GrowBy nat CHUNK).2.callStep nat Flush.run (v.GrowBy nat CHUNK).2.out_len
          CHUNK →
        s.1 ≠ Z_STREAM_ERROR →
        ((s.1 = Z_NEED_DICT ∨ s.1 = Z_DATA_ERROR ∨ s.1 = Z_MEM_ERROR) →
          Q (.leave (if s.1 = Z_NEED_DICT then Z_DATA_ERROR else s.1)
            (s.2.2.abort.GunzipEnd nat))) ∧
        (¬ (s.1 = Z_NEED_DICT ∨ s.1 = Z_DATA_ERROR ∨ s.1 = Z_MEM_ERROR) →
          s.1 ≠ Z_OK → s.1 ≠ Z_STREAM_END → Q (.leave s.1 s.2.2)) ∧
        (s.1 = Z_STREAM_END →
          Q (.leave s.1 { s.2.2 with out_len := s.2.2.out_len + (CHUNK - s.2.1),
                                     t := s.2.2.t.alter State.Eos })) ∧
        (s.1 = Z_OK → s.2.1 ≠ 0 →
          Q (.next s.1 { s.2.2 with out_len := s.2.2.out_len + (CHUNK - s.2.1) })) ∧
        (s.1 = Z_OK → s.2.1 = 0 →
          P { s.2.2 with out_len := s.2.2.out_len + (CHUNK - s.2.1) })) :
    ∀ (fuel : Nat) (v : Vars σ) (f : Flow σ), P v →
      Gunzip.inflateInner nat fuel v = .ok f → Q f := by
  intro fuel
  induction fuel with
  | zero => intro v f _ h; simp [Gunzip.inflateInner] at h
  | succ n ih =>
    intro v f hP h
    simp only [Gunzip.inflateInner] at h
    by_cases h1 : (v.GrowBy nat CHUNK).1 = false
    · rw [if_pos h1] at h
      cases h
      exact hmem v hP h1
    · rw [if_neg h1] at h
      simp only [Bool.not_eq_false] at h1
      generalize hst : Vars.callStep nat (v.GrowBy nat CHUNK).2 Flush.run
        (v.GrowBy nat CHUNK).2.out_len CHUNK = s at h
      by_cases h2 : s.1 = Z_STREAM_ERROR
      · rw [if_pos h2] at h
        cases h
      · rw [if_neg h2] at h
        obtain ⟨hfatal, hbad, hdone, hnext, hloop⟩ := hstep v hP h1 s hst.symm h2
        by_cases h3 : s.1 = Z_NEED_DICT ∨ s.1 = Z_DATA_ERROR ∨ s.1 = Z_MEM_ERROR
        · rw [if_pos h3] at h
          cases h
          exact hfatal h3
        · rw [if_neg h3] at h
          by_cases h4 : s.1 ≠ Z_OK ∧ s.1 ≠ Z_STREAM_END
          · rw [if_pos h4] at h
            cases h
            exact hbad h3 h4.1 h4.2
          · rw [if_neg h4] at h
            by_cases h5 : s.1 = Z_STREAM_END
            · rw [if_pos h5] at h
              cases h
              exact hdone h5
            · rw [if_neg h5] at h
              have h7 : s.1 = Z_OK := by
                by_contra hne
                exact h4 ⟨hne, h5⟩
              by_cases h6 : s.2.1 = 0
              · rw [if_pos h6] at h
                exact ih _ _ (hloop h7 h6) h
              · rw [if_neg h6] at h
                cases h
                exact hnext h7 h6

theorem Gunzip.inflateOuter_rule {σ : Type} (nat : Native σ) (inner : Nat)
    (P : List Byte → Int → Int → Vars σ → Prop) (Q : Flow σ → Prop)
    (hend : ∀ data n ret v, P data n ret v → ¬ n > 0 → Q (.next ret v))
    (hleave : ∀ data n ret v r v2, P data n ret v → n > 0 →
      Gunzip.inflateInner nat inner { v with stream_ := { v.stream_ with
          avail_in := if n > CHUNK then CHUNK else n.toNat, next_in := data } } =
        .ok (.leave r v2) → Q (.leave r v2))
    (hnext : ∀ data n ret v r v2, P data n ret v → n > 0 →
      Gunzip.inflateInner nat inner { v with stream_ := { v.stream_ with
          avail_in := if n > CHUNK then CHUNK else n.toNat, next_in := data } } =
        .ok (.next r v2) → P (data.drop CHUNK) (n - CHUNK) r v2) :
    ∀ (fuel : Nat) (data : List Byte) (n ret : Int) (v : Vars σ) (f : Flow σ),
      P data n ret v → Gunzip.inflateOuter nat inner fuel data n ret v = .ok f → Q f := by
  intro fuel
  induction fuel with
  | zero =>
    intro data n ret v f hP h
    unfold Gunzip.inflateOuter at h
    by_cases h1 : n > 0
    · rw [if_pos h1] at h
      cases h
    · rw [if_neg h1] at h
      cases h
      exact hend _ _ _ _ hP h1
  | succ k ih =>
    intro data n ret v f hP h
    unfold Gunzip.inflateOuter at h
    by_cases h1 : n > 0
    · rw [if_pos h1] at h
      simp only at h
      split at h
      · cases h
      · rename_i r v2 hin
        cases h
        exact hleave _ _ _ _ _ _ hP h1 hin
      · rename_i r v2 hin
        exact ih _ _ _ _ _ (hnext _ _ _ _ _ _ hP h1 hin) h
    · rw [if_neg h1] at h
      cases h
      exact hend _ _ _ _ hP h1

theorem BzipImpl.bzip_writeLoop_rule {σ : Type} (nat : Native σ)
    (P : List Byte → Int → Int → Vars σ → Prop) (Q : Flow σ → Prop)
    (hend : ∀ data n ret v, P data n ret v → ¬ n > 0 → Q (.next ret v))
    (hmem : ∀ data n ret v, P data n ret v → n > 0 →
      (v.GrowBy nat (n + 1).toNat).1 = false →
      Q (.leave BZ_MEM_ERROR (v.GrowBy nat (n + 1).toNat).2))
    (hstep : ∀ data n ret v, P data n ret v → n > 0 →
      (v.GrowBy nat (n + 1).toNat).1 = true →
      ∀ s, s = Vars.callStep nat { (v.GrowBy nat (n + 1).toNat).2 with
            stream_ := { (v.GrowBy nat (n + 1).toNat).2.stream_ with
              next_in := data, avail_in := n.toNat } } Flush.run
          (v.GrowBy nat (n + 1).toNat).2.out.length (n + 1).toNat →
        s.1 ≠ BZ_SEQUENCE_ERROR →
        (s.1 ≠ BZ_RUN_OK → Q (.leave s.1 s.2.2)) ∧
        (s.1 = BZ_RUN_OK →
          P (data.drop (n.toNat - s.2.2.stream_.avail_in)) s.2.2.stream_.avail_in s.1
            { s.2.2 with out := s.2.2.out.IncreaseLengthBy ((n + 1).toNat - s.2.1) })) :
    ∀ (fuel : Nat) (data : List Byte) (n ret : Int) (v : Vars σ) (f : Flow σ),
      P data n ret v → BzipImpl.writeLoop nat fuel data n ret v = .ok f → Q f := by
  intro fuel
  induction fuel with
  | zero =>
    intro data n ret v f hP h
    unfold BzipImpl.writeLoop at h
    by_cases h1 : n > 0
    · rw [if_pos h1] at h
      cases h
    · rw [if_neg h1] at h
      cases h
      exact hend _ _ _ _ hP h1
  | succ k ih =>
    intro data n ret v f hP h
    unfold BzipImpl.writeLoop at h
    by_cases h1 : n > 0
    · rw [if_pos h1] at h
      simp only at h
      by_cases h2 : (v.GrowBy nat (n + 1).toNat).1 = false
      · rw [if_pos h2] at h
        cases h
        exact hmem _ _ _ _ hP h1 h2
      · rw [if_neg h2] at h
        simp only [Bool.not_eq_false] at h2
        split_ifs at h with h3 h4
        · cases h
          exact ((hstep _ _ _ _ hP h1 h2 _ rfl h3).1 h4)
        · simp only [ne_eq, Decidable.not_not] at h4
          exact ih _ _ _ _ _ ((hstep _ _ _ _ hP h1 h2 _ rfl h3).2 h4) h
    · rw [if_neg h1] at h
      cases h
      exact hend _ _ _ _ hP h1

theorem BzipImpl.BzipEndWithData_rule {σ : Type} (nat : Native σ) (P : Vars σ → Prop)
    (Q : Int × Vars σ → Prop)
    (hmem : ∀ v, P v → (v.GrowBy nat 128).1 = false →
      Q (BZ_MEM_ERROR, (v.GrowBy nat 128).2))
    (hstep : ∀ v, P v → (v.GrowBy nat 128).1 = true →
      ∀ s, s = (v.GrowBy nat 128).2.callStep nat Flush.finish
          (v.GrowBy nat 128).2.out.length 128 →
        s.1 ≠ BZ_SEQUENCE_ERROR →
        (s.1 ≠ BZ_FINISH_OK → s.1 ≠ BZ_STREAM_END → Q (s.1, s.2.2)) ∧
        (s.1 = BZ_STREAM_END →
          Q (BZ_OK, { s.2.2 with out := s.2.2.out.IncreaseLengthBy (128 - s.2.1) })) ∧
        (s.1 = BZ_FINISH_OK →
          P { s.2.2 with out := s.2.2.out.IncreaseLengthBy (128 - s.2.1) })) :
    ∀ (fuel : Nat) (v : Vars σ) (r : Int × Vars σ), P v →
      BzipImpl.BzipEndWithData nat fuel v = .ok r → Q r := by
  intro fuel
  induction fuel with
  | zero => intro v f _ h; simp [BzipImpl.BzipEndWithData] at h
  | succ n ih =>
    intro v f hP h
    simp only [BzipImpl.BzipEndWithData] at h
    by_cases h1 : (v.GrowBy nat 128).1 = false
    · rw [if_pos h1] at h
      cases h
      exact hmem v hP h1
    · rw [if_neg h1] at h
      simp only [Bool.not_eq_false] at h1
      by_cases h2 : ((v.GrowBy nat 128).2.callStep nat Flush.finish
          (v.GrowBy nat 128).2.out.length 128).1 = BZ_SEQUENCE_ERROR
      · rw [if_pos h2] at h
        cases h
      · rw [if_neg h2] at h
        obtain ⟨hbad, hdone, hloop⟩ := hstep v hP h1 _ rfl h2
        by_cases h3 : ((v.GrowBy nat 128).2.callStep nat Flush.finish
            (v.GrowBy nat 128).2.out.length 128).1 ≠ BZ_FINISH_OK ∧
            ((v.GrowBy nat 128).2.callStep nat Flush.finish
            (v.GrowBy nat 128).2.out.length 128).1 ≠ BZ_STREAM_END
        · rw [if_pos h3] at h
          cases h
          exact hbad h3.1 h3.2
        · rw [if_neg h3] at h
          by_cases h4 : ((v.GrowBy nat 128).2.callStep nat Flush.finish
              (v.GrowBy nat 128).2.out.length 128).1 ≠ BZ_STREAM_END
          · rw [if_pos h4] at h
            have h5 : ((v.GrowBy nat 128).2.callStep nat Flush.finish
                (v.GrowBy nat 128).2.out.length 128).1 = BZ_FINISH_OK := by
              by_contra hne
              exact h3 ⟨hne, h4⟩
            exact ih _ _ (hloop h5) h
          · rw [if_neg h4] at h
            cases h
            simp only [ne_eq, Decidable.not_not] at h4
            exact hdone h4

theorem BunzipImpl.bunzip_writeLoop_rule {σ : Type} (nat : Native σ)
    (P : List Byte → Int → Int → Vars σ → Prop) (Q : Flow σ → Prop)
    (hend : ∀ data n ret v, P data n ret v → ¬ n > 0 → Q (.next ret v))
    (hmem : ∀ data n ret v, P data n ret v → n > 0 →
      (v.GrowBy nat n.toNat).1 = false →
      Q (.leave BZ_MEM_ERROR (v.GrowBy nat n.toNat).2))
    (hstep : ∀ data n ret v, P data n ret v → n > 0 →
      (v.GrowBy nat n.toNat).1 = true →
      ∀ s, s = Vars.callStep nat { (v.GrowBy nat n.toNat).2 with
            stream_ := { (v.GrowBy nat n.toNat).2.stream_ with
              next_in := data, avail_in := n.toNat } } Flush.run
          (v.GrowBy nat n.toNat).2.out.length n.toNat →
        s.1 ≠ BZ_SEQUENCE_ERROR →
        (s.1 ≠ BZ_OK → s.1 ≠ BZ_STREAM_END → Q (.leave s.1 s.2.2)) ∧
        (s.1 = BZ_STREAM_END →
          Q (.leave s.1 { s.2.2 with out := s.2.2.out.IncreaseLengthBy (n.toNat - s.2.1),
                                     t := s.2.2.t.alter State.Eos })) ∧
        (s.1 = BZ_OK →
          P (data.drop (n.toNat - s.2.2.stream_.avail_in)) s.2.2.stream_.avail_in s.1
            { s.2.2 with out := s.2.2.out.IncreaseLengthBy (n.toNat - s.2.1) })) :
    ∀ (fuel : Nat) (data : List Byte) (n ret : Int) (v : Vars σ) (f : Flow σ),
      P data n ret v → BunzipImpl.writeLoop nat fuel data n ret v = .ok f → Q f := by
  intro fuel
  induction fuel with
  | zero =>
    intro data n ret v f hP h
    unfold BunzipImpl.writeLoop at h
    by_cases h1 : n > 0
    · rw [if_pos h1] at h
      cases h
    · rw [if_neg h1] at h
      cases h
      exact hend _ _ _ _ hP h1
  | succ k ih =>
    intro data n ret v f hP h
    unfold BunzipImpl.writeLoop at h
    by_cases h1 : n > 0
    · rw [if_pos h1] at h
      simp only at h
      by_cases h2 : (v.GrowBy nat n.toNat).1 = false
      · rw [if_pos h2] at h
        cases h
        exact hmem _ _ _ _ hP h1 h2
      · rw [if_neg h2] at h
        simp only [Bool.not_eq_false] at h2
        split_ifs at h with h3 h4 h5
        · cases h
          exact ((hstep _ _ _ _ hP h1 h2 _ rfl h3).1 h4.1 h4.2)
        · cases h
          exact ((hstep _ _ _ _ hP h1 h2 _ rfl h3).2.1 h5)
        · have h6 : (Vars.callStep nat { (v.GrowBy nat n.toNat).2 with
              stream_ := { (v.GrowBy nat n.toNat).2.stream_ with
                next_in := data, avail_in := n.toNat } } Flush.run
              (v.GrowBy nat n.toNat).2.out.length n.toNat).1 = BZ_OK := by
            by_contra hne
            exact h4 ⟨hne, h5⟩
          exact ih _ _ _ _ _ ((hstep _ _ _ _ hP h1 h2 _ rfl h3).2.2 h6) h
    · rw [if_neg h1] at h
      cases h
      exact hend _ _ _ _ hP h1

/-! ### C17: the input offered to each step -/

theorem Extends.same (G : Call → Prop) (log : List Call) : Extends G log log :=
  ⟨[], by simp, by simp⟩

theorem Extends.snoc {G : Call → Prop} {log1 log2 log3 : List Call} (h : Extends G log1 log2)
    (c : Call) (hc : G c) (e : log3 = log2 ++ [c]) : Extends G log1 log3 := by
  obtain ⟨l, hl, hg⟩ := h
  refine ⟨l ++ [c], by rw [e, hl, List.append_assoc], ?_⟩
  intro x hx
  rcases List.mem_append.1 hx with h | h
  · exact hg x h
  · simp at h; subst h; exact hc

theorem Extends.of_eq {G : Call → Prop} {log1 log2 log3 : List Call} (h : Extends G log1 log2)
    (e : log3 = log2) : Extends G log1 log3 := by
  rw [e]; exact h

theorem Vars.callStep_avail_in {σ : Type} (nat : Native σ) (v : Vars σ) (f : Flush)
    (off ao : Nat) :
    (v.callStep nat f off ao).2.2.stream_.avail_in ≤ v.stream_.avail_in := by
  simp [Vars.callStep]

theorem Vars.round_extends {σ : Type} (nat : Native σ) (G : Call → Prop) (log0 : List Call)
    (v w : Vars σ) (n : Nat) (f : Flush) (off ao : Nat)
    (h : Extends G log0 v.stream_.log)
    (hw : w.stream_.log = (v.GrowBy nat n).2.stream_.log) (hc : w.out = (v.GrowBy nat n).2.out)
    (hg : G (Call.grow n (v.GrowBy nat n).1))
    (hs : G (Call.step f w.stream_.avail_in off ao (v.GrowBy nat n).2.out.capacity
      (w.callStep nat f off ao).1)) :
    Extends G log0 (w.callStep nat f off ao).2.2.stream_.log := by
  have h1 := (Vars.GrowBy_fields nat v n).2.2.2.2.1
  have h2 := (Vars.callStep_fields nat w f off ao).2.2.2.2.1
  rw [hc] at h2
  exact (h.snoc _ hg (hw.trans h1)).snoc _ hs h2

theorem Gzip.deflateInner_slices {σ : Type} (nat : Native σ) (log0 : List Call) (fuel : Nat)
    (v : Vars σ) (f : Flow σ)
    (h0 : Extends (fun c => c.availIn ≤ CHUNK) log0 v.stream_.log)
    (ha : v.stream_.avail_in ≤ CHUNK)
    (h : Gzip.deflateInner nat fuel v = .ok f) :
    Extends (fun c => c.availIn ≤ CHUNK) log0 f.vars.stream_.log := by
  refine Gzip.deflateInner_rule nat
    (fun v => Extends (fun c => c.availIn ≤ CHUNK) log0 v.stream_.log ∧
      v.stream_.avail_in ≤ CHUNK)
    (fun f => Extends (fun c => c.availIn ≤ CHUNK) log0 f.vars.stream_.log)
    ?_ ?_ fuel v f ⟨h0, ha⟩ h
  · intro v ⟨he, _⟩ _
    exact he.snoc _ (by simp [Call.availIn]) (Vars.GrowBy_fields nat v CHUNK).2.2.2.2.1
  · intro v ⟨he, hv⟩ _ s hs _
    have hai := (Vars.GrowBy_fields nat v CHUNK).2.2.2.2.2.2.2.1
    have hr := Vars.round_extends nat _ log0 v (v.GrowBy nat CHUNK).2 CHUNK Flush.run
      (v.GrowBy nat CHUNK).2.out_len CHUNK he rfl rfl (by simp [Call.availIn])
      (by simp only [Call.availIn]; rw [hai]; exact hv)
    have hle := Vars.callStep_avail_in nat (v.GrowBy nat CHUNK).2 Flush.run
      (v.GrowBy nat CHUNK).2.out_len CHUNK
    rw [← hs] at hr hle
    refine ⟨fun _ => hr, fun _ _ => hr, fun _ _ => ⟨hr, ?_⟩⟩
    simp only []
    omega

theorem slice_le_chunk (n : Int) : (if n > CHUNK then CHUNK else n.toNat) ≤ CHUNK := by
  by_cases h : n > (CHUNK : Int)
  · rw [if_pos h]
  · rw [if_neg h]
    have hC : (CHUNK : Int) = 16384 := rfl
    have hC2 : CHUNK = 16384 := rfl
    omega

theorem Gzip.deflateOuter_slices {σ : Type} (nat : Native σ) (inner : Nat)
    (log0 : List Call) (fuel : Nat) (data : List Byte) (n ret : Int) (v : Vars σ) (f : Flow σ)
    (h0 : Extends (fun c => c.availIn ≤ CHUNK) log0 v.stream_.log)
    (h : Gzip.deflateOuter nat inner fuel data n ret v = .ok f) :
    Extends (fun c => c.availIn ≤ CHUNK) log0 f.vars.stream_.log := by
  refine Gzip.deflateOuter_rule nat inner
    (fun _ _ _ v => Extends (fun c => c.availIn ≤ CHUNK) log0 v.stream_.log)
    (fun f => Extends (fun c => c.availIn ≤ CHUNK) log0 f.vars.stream_.log)
    ?_ ?_ ?_ fuel data n ret v f h0 h
  · intro _ _ _ v he _
    exact he
  · intro data n _ v r v2 he _ hin
    have hp := fun a b => Gzip.deflateInner_slices nat log0 inner _ _ a b hin
    exact hp he (slice_le_chunk n)
  · intro data n _ v r v2 he _ hin
    have hp := fun a b => Gzip.deflateInner_slices nat log0 inner _ _ a b hin
    exact hp he (slice_le_chunk n)

theorem Gunzip.inflateInner_slices {σ : Type} (nat : Native σ) (log0 : List Call) (fuel : Nat)
    (v : Vars σ) (f : Flow σ)
    (h0 : Extends (fun c => c.availIn ≤ CHUNK) log0 v.stream_.log)
    (ha : v.stream_.avail_in ≤ CHUNK)
    (h : Gunzip.inflateInner nat fuel v = .ok f) :
    Extends (fun c => c.availIn ≤ CHUNK) log0 f.vars.stream_.log := by
  refine Gunzip.inflateInner_rule nat
    (fun v => Extends (fun c => c.availIn ≤ CHUNK) log0 v.stream_.log ∧
      v.stream_.avail_in ≤ CHUNK)
    (fun f => Extends (fun c => c.availIn ≤ CHUNK) log0 f.vars.stream_.log)
    ?_ ?_ fuel v f ⟨h0, ha⟩ h
  · intro v ⟨he, _⟩ _
    exact he.snoc _ (by simp [Call.availIn]) (Vars.GrowBy_fields nat v CHUNK).2.2.2.2.1
  · intro v ⟨he, hv⟩ _ s hs _
    have hai := (Vars.GrowBy_fields nat v CHUNK).2.2.2.2.2.2.2.1
    have hr := Vars.round_extends nat _ log0 v (v.GrowBy nat CHUNK).2 CHUNK Flush.run
      (v.GrowBy nat CHUNK).2.out_len CHUNK he rfl rfl (by simp [Call.availIn])
      (by simp only [Call.availIn]; rw [hai]; exact hv)
    have hle := Vars.callStep_avail_in nat (v.GrowBy nat CHUNK).2 Flush.run
      (v.GrowBy nat CHUNK).2.out_len CHUNK
    rw [← hs] at hr hle
    refine ⟨fun _ => ?_, fun _ _ _ => hr, fun _ => hr, fun _ _ => hr, fun _ _ => ⟨hr, ?_⟩⟩
    · by_cases hi : s.2.2.t.orig = State.Idle
      · refine hr.of_eq ?_
        simp [Flow.vars, Vars.GunzipEnd, Gunzip.GunzipEnd, Vars.abort, Transition.abort, hi]
      · refine hr.snoc (Call.destroy s.2.2.stream_.allocated) (by simp [Call.availIn]) ?_
        simp [Flow.vars, Vars.GunzipEnd, Gunzip.GunzipEnd, Vars.abort, Transition.abort,
          Stream.callDestroy, hi]
    · simp only []
      omega

theorem Gunzip.inflateOuter_slices {σ : Type} (nat : Native σ) (inner : Nat)
    (log0 : List Call) (fuel : Nat) (data : List Byte) (n ret : Int) (v : Vars σ) (f : Flow σ)
    (h0 : Extends (fun c => c.availIn ≤ CHUNK) log0 v.stream_.log)
    (h : Gunzip.inflateOuter nat inner fuel data n ret v = .ok f) :
    Extends (fun c => c.availIn ≤ CHUNK) log0 f.vars.stream_.log := by
  refine Gunzip.inflateOuter_rule nat inner
    (fun _ _ _ v => Extends (fun c => c.availIn ≤ CHUNK) log0 v.stream_.log)
    (fun f => Extends (fun c => c.availIn ≤ CHUNK) log0 f.vars.stream_.log)
    ?_ ?_ ?_ fuel data n ret v f h0 h
  · intro _ _ _ v he _
    exact he
  · intro data n _ v r v2 he _ hin
    have hp := fun a b => Gunzip.inflateInner_slices nat log0 inner _ _ a b hin
    exact hp he (slice_le_chunk n)
  · intro data n _ v r v2 he _ hin
    have hp := fun a b => Gunzip.inflateInner_slices nat log0 inner _ _ a b hin
    exact hp he (slice_le_chunk n)

theorem BzipImpl.bzip_writeLoop_slices {σ : Type} (nat : Native σ) (log0 : List Call) (B : Nat)
    (fuel : Nat) (data : List Byte) (n ret : Int) (v : Vars σ) (f : Flow σ)
    (h0 : Extends (fun c => c.availIn ≤ B) log0 v.stream_.log) (hn : n.toNat ≤ B)
    (h : BzipImpl.writeLoop nat fuel data n ret v = .ok f) :
    Extends (fun c => c.availIn ≤ B) log0 f.vars.stream_.log := by
  refine BzipImpl.bzip_writeLoop_rule nat
    (fun _ n _ v => Extends (fun c => c.availIn ≤ B) log0 v.stream_.log ∧ n.toNat ≤ B)
    (fun f => Extends (fun c => c.availIn ≤ B) log0 f.vars.stream_.log)
    ?_ ?_ ?_ fuel data n ret v f ⟨h0, hn⟩ h
  · intro _ _ _ v he _
    exact he.1
  · intro _ n _ v ⟨he, _⟩ _ _
    exact he.snoc _ (by simp [Call.availIn]) (Vars.GrowBy_fields nat v _).2.2.2.2.1
  · intro data n _ v ⟨he, hv⟩ _ _ s hs _
    have hr := Vars.round_extends nat _ log0 v { (v.GrowBy nat (n + 1).toNat).2 with
        stream_ := { (v.GrowBy nat (n + 1).toNat).2.stream_ with
          next_in := data, avail_in := n.toNat } } (n + 1).toNat Flush.run
      (v.GrowBy nat (n + 1).toNat).2.out.length (n + 1).toNat he rfl rfl
      (by simp [Call.availIn]) (by simp only [Call.availIn]; exact hv)
    have hle := Vars.callStep_avail_in nat { (v.GrowBy nat (n + 1).toNat).2 with
        stream_ := { (v.GrowBy nat (n + 1).toNat).2.stream_ with
          next_in := data, avail_in := n.toNat } } Flush.run
      (v.GrowBy nat (n + 1).toNat).2.out.length (n + 1).toNat
    rw [← hs] at hr hle
    refine ⟨fun _ => hr, fun _ => ⟨hr, ?_⟩⟩
    simp only [Int.toNat_ofNat] at hle ⊢
    omega

theorem BunzipImpl.bunzip_writeLoop_slices {σ : Type} (nat : Native σ) (log0 : List Call)
    (B : Nat) (fuel : Nat) (data : List Byte) (n ret : Int) (v : Vars σ) (f : Flow σ)
    (h0 : Extends (fun c => c.availIn ≤ B) log0 v.stream_.log) (hn : n.toNat ≤ B)
    (h : BunzipImpl.writeLoop nat fuel data n ret v = .ok f) :
    Extends (fun c => c.availIn ≤ B) log0 f.vars.stream_.log := by
  refine BunzipImpl.bunzip_writeLoop_rule nat
    (fun _ n _ v => Extends (fun c => c.availIn ≤ B) log0 v.stream_.log ∧ n.toNat ≤ B)
    (fun f => Extends (fun c => c.availIn ≤ B) log0 f.vars.stream_.log)
    ?_ ?_ ?_ fuel data n ret v f ⟨h0, hn⟩ h
  · intro _ _ _ v he _
    exact he.1
  · intro _ n _ v ⟨he, _⟩ _ _
    exact he.snoc _ (by simp [Call.availIn]) (Vars.GrowBy_fields nat v _).2.2.2.2.1
  · intro data n _ v ⟨he, hv⟩ _ _ s hs _
    have hr := Vars.round_extends nat _ log0 v { (v.GrowBy nat n.toNat).2 with
        stream_ := { (v.GrowBy nat n.toNat).2.stream_ with
          next_in := data, avail_in := n.toNat } } n.toNat Flush.run
      (v.GrowBy nat n.toNat).2.out.length n.toNat he rfl rfl
      (by simp [Call.availIn]) (by simp only [Call.availIn]; exact hv)
    have hle := Vars.callStep_avail_in nat { (v.GrowBy nat n.toNat).2 with
        stream_ := { (v.GrowBy nat n.toNat).2.stream_ with
          next_in := data, avail_in := n.toNat } } Flush.run
      (v.GrowBy nat n.toNat).2.out.length n.toNat
    rw [← hs] at hr hle
    refine ⟨fun _ _ => hr, fun _ => hr, fun _ => ⟨hr, ?_⟩⟩
    simp only [Int.toNat_ofNat] at hle ⊢
    omega

/-- C17, as stated, fails for the bzip2 family: `BzipImpl::Write` offers the whole data to
`BZ2_bzCompress` in one step.  A Write of `CHUNK + 1` bytes makes one step with
`avail_in = CHUNK + 1`, and no bound holds for all lengths. -/
theorem bounded_input_slices_counterexample :
    (∃ x, BzipImpl.Write (echoNative BZ_RUN_OK BZ_FINISH_OK BZ_STREAM_END) 2
        (Instance.pending []) (List.replicate (CHUNK + 1) 0) (CHUNK + 1) = .ok x ∧
      x.1.status = BZ_OK ∧
      x.2.stream_.log = [Call.grow (CHUNK + 2) true,
        Call.step Flush.run (CHUNK + 1) 0 (CHUNK + 2) (CHUNK + 2) BZ_RUN_OK]) ∧
    ¬ ∃ B : Nat, ∀ (n : Nat) (x : Result × Instance (List Byte)),
      BzipImpl.Write (echoNative BZ_RUN_OK BZ_FINISH_OK BZ_STREAM_END) 2
        (Instance.pending []) (List.replicate n 0) n = .ok x →
      ∀ c ∈ x.2.stream_.log, c.availIn ≤ B := by
  have key : ∀ n : Nat, ∃ x, BzipImpl.Write (echoNative BZ_RUN_OK BZ_FINISH_OK BZ_STREAM_END) 2
        (Instance.pending []) (List.replicate (n + 1) 0) ((n + 1 : Nat) : Int) = .ok x ∧
      x.1.status = BZ_OK ∧
      x.2.stream_.log = [Call.grow (n + 2) true,
        Call.step Flush.run (n + 1) 0 (n + 2) (n + 2) BZ_RUN_OK] := by
    intro n
    have hpos : ((n + 1 : Nat) : Int) > 0 := by omega
    have h1 : (((n + 1 : Nat) : Int) + 1).toNat = n + 2 := by omega
    unfold BzipImpl.Write
    rw [if_neg (by simp [Instance.pending])]
    unfold BzipImpl.writeLoop
    rw [if_pos hpos]
    simp only [h1, Int.toNat_ofNat]
    rw [if_neg (by simp [Vars.GrowBy, echoNative])]
    rw [if_neg (by simp [Vars.GrowBy, Vars.callStep, echoNative]; decide)]
    rw [if_neg (by simp [Vars.GrowBy, Vars.callStep, echoNative])]
    unfold BzipImpl.writeLoop
    rw [if_neg (by simp [Vars.GrowBy, Vars.callStep, echoNative, Vars.enter, Instance.pending])]
    refine ⟨_, rfl, rfl, ?_⟩
    simp [Vars.exitBzip, Vars.GrowBy, Vars.callStep, echoNative, Vars.enter, Instance.pending,
      ScopedOutputBuffer.empty]
  refine ⟨?_, ?_⟩
  · exact key CHUNK
  · rintro ⟨B, hB⟩
    obtain ⟨x, hx, -, hl⟩ := key B
    have := hB (B + 1) x hx (Call.step Flush.run (B + 1) 0 (B + 2) (B + 2) BZ_RUN_OK)
      (by rw [hl]; simp)
    simp [Call.availIn] at this

/-- C17, amended.  In every Write that returns, whatever the state it is called in, the
library, the data and its length: each step of `GzipDeflate` and of `GunzipInflate` is
offered at most `CHUNK` = 16384 input bytes; each step of `BzipImpl::Write` and of
`BunzipImpl::Write` is offered at most `data_len` input bytes, the length passed to that
Write (the step is offered all the input not yet consumed), which is no fixed bound. -/
theorem bounded_input_slices {σ : Type} (nat : Native σ) (fuel : Nat) (g : Instance σ)
    (data : List Byte) (data_len : Int) :
    CHUNK = 16384 ∧
    (∀ x, Gzip.GzipDeflate nat fuel g data data_len = .ok x →
      Extends (fun c => c.availIn ≤ CHUNK) g.stream_.log x.2.stream_.log) ∧
    (∀ x, Gunzip.GunzipInflate nat fuel g data data_len = .ok x →
      Extends (fun c => c.availIn ≤ CHUNK) g.stream_.log x.2.stream_.log) ∧
    (∀ x, BzipImpl.Write nat fuel g data data_len = .ok x →
      Extends (fun c => c.availIn ≤ data_len.toNat) g.stream_.log x.2.stream_.log) ∧
    (∀ x, BunzipImpl.Write nat fuel g data data_len = .ok x →
      Extends (fun c => c.availIn ≤ data_len.toNat) g.stream_.log x.2.stream_.log) := by
  refine ⟨rfl, ?_, ?_, ?_, ?_⟩
  · intro x hx
    unfold Gzip.GzipDeflate at hx
    by_cases hs : g.state_ ≠ State.Data
    · rw [if_pos hs] at hx
      cases hx
      exact Extends.same _ _
    · rw [if_neg hs] at hx
      split at hx
      · cases hx
      · rename_i r v hv
        cases hx
        exact Gzip.deflateOuter_slices nat fuel _ fuel data data_len _ _ _ (Extends.same _ _) hv
      · rename_i r v hv
        cases hx
        exact Gzip.deflateOuter_slices nat fuel _ fuel data data_len _ _ _ (Extends.same _ _) hv
  · intro x hx
    unfold Gunzip.GunzipInflate at hx
    by_cases he : g.state_ = State.Eos
    · rw [if_pos he] at hx
      cases hx
      exact Extends.same _ _
    · rw [if_neg he] at hx
      by_cases hs : g.state_ ≠ State.Data
      · rw [if_pos hs] at hx
        cases hx
        exact Extends.same _ _
      · rw [if_neg hs] at hx
        split at hx
        · cases hx
        · rename_i r v hv
          cases hx
          exact Gunzip.inflateOuter_slices nat fuel _ fuel data data_len _ _ _
            (Extends.same _ _) hv
        · rename_i r v hv
          cases hx
          exact Gunzip.inflateOuter_slices nat fuel _ fuel data data_len _ _ _
            (Extends.same _ _) hv
  · intro x hx
    unfold BzipImpl.Write at hx
    by_cases hs : g.state_ ≠ State.Data
    · rw [if_pos hs] at hx
      cases hx
      exact Extends.same _ _
    · rw [if_neg hs] at hx
      split at hx
      · cases hx
      · rename_i r v hv
        cases hx
        exact BzipImpl.bzip_writeLoop_slices nat _ _ fuel data data_len _ _ _ (Extends.same _ _)
          (le_refl _) hv
      · rename_i r v hv
        cases hx
        exact BzipImpl.bzip_writeLoop_slices nat _ _ fuel data data_len _ _ _ (Extends.same _ _)
          (le_refl _) hv
  · intro x hx
    unfold BunzipImpl.Write at hx
    by_cases he : g.state_ = State.Eos
    · rw [if_pos he] at hx
      cases hx
      exact Extends.same _ _
    · rw [if_neg he] at hx
      by_cases hs : g.state_ ≠ State.Data
      · rw [if_pos hs] at hx
        cases hx
        exact Extends.same _ _
      · rw [if_neg hs] at hx
        split at hx
        · cases hx
        · rename_i r v hv
          cases hx
          exact BunzipImpl.bunzip_writeLoop_slices nat _ _ fuel data data_len _ _ _
            (Extends.same _ _) (le_refl _) hv
        · rename_i r v hv
          cases hx
          exact BunzipImpl.bunzip_writeLoop_slices nat _ _ fuel data data_len _ _ _
            (Extends.same _ _) (le_refl _) hv

/-- C17, run: a Write of three bytes to a `Gzip` over the byte-storing codec makes one step,
offered three input bytes. -/
theorem bounded_input_slices_witness :
    ∃ x, Gzip.GzipDeflate (echoNative Z_OK Z_OK Z_STREAM_END) 1 (Instance.pending [])
        [1, 2, 3] 3 = .ok x ∧
      x.2.stream_.log = [Call.grow CHUNK true, Call.step Flush.run 3 0 CHUNK CHUNK Z_OK] ∧
      Extends (fun c => c.availIn ≤ CHUNK) [] x.2.stream_.log :=
  ⟨_, rfl, rfl,
    (bounded_input_slices (echoNative Z_OK Z_OK Z_STREAM_END) 1 (Instance.pending [])
      [1, 2, 3] 3).2.1 _ rfl⟩

/-! ### C18: how many times the input loops run -/

theorem chunkCount_pos (n : Int) (h : n > 0) : 0 < chunkCount n := by
  show 0 < (n.toNat + 16384 - 1) / 16384
  omega

theorem chunkCount_sub (n : Int) (k : Nat) (h : chunkCount n ≤ k + 1) :
    chunkCount (n - CHUNK) ≤ k := by
  have h2 : (n.toNat + 16384 - 1) / 16384 ≤ k + 1 := h
  show ((n - 16384).toNat + 16384 - 1) / 16384 ≤ k
  omega

theorem Gzip.deflateOuter_fuel {σ : Type} (nat : Native σ) (inner : Nat) :
    ∀ (fuel fuel2 : Nat) (data : List Byte) (n ret : Int) (v : Vars σ),
      chunkCount n ≤ fuel → chunkCount n ≤ fuel2 →
      Gzip.deflateOuter nat inner fuel data n ret v =
        Gzip.deflateOuter nat inner fuel2 data n ret v := by
  intro fuel
  induction fuel with
  | zero =>
    intro fuel2 data n ret v h1 _
    have hn : ¬ n > 0 := fun hp => by have := chunkCount_pos n hp; omega
    unfold Gzip.deflateOuter
    rw [if_neg hn, if_neg hn]
  | succ k ih =>
    intro fuel2 data n ret v h1 h2
    by_cases hn : n > 0
    · cases fuel2 with
      | zero => have := chunkCount_pos n hn; omega
      | succ k2 =>
        unfold Gzip.deflateOuter
        rw [if_pos hn, if_pos hn]
        simp only
        split
        · rfl
        · rfl
        · exact ih _ _ _ _ _ (chunkCount_sub n k h1) (chunkCount_sub n k2 h2)
    · unfold Gzip.deflateOuter
      rw [if_neg hn, if_neg hn]

theorem Gzip.deflateOuter_iterations {σ : Type} (nat : Native σ) (inner : Nat)
    (hin : ∀ w, ∃ f, Gzip.deflateInner nat inner w = .ok f) :
    ∀ (fuel : Nat) (data : List Byte) (n ret : Int) (v : Vars σ),
      chunkCount n ≤ fuel → ∃ f, Gzip.deflateOuter nat inner fuel data n ret v = .ok f := by
  intro fuel
  induction fuel with
  | zero =>
    intro data n ret v h1
    have hn : ¬ n > 0 := fun hp => by have := chunkCount_pos n hp; omega
    unfold Gzip.deflateOuter
    rw [if_neg hn]
    exact ⟨_, rfl⟩
  | succ k ih =>
    intro data n ret v h1
    unfold Gzip.deflateOuter
    by_cases hn : n > 0
    · rw [if_pos hn]
      simp only
      obtain ⟨f, hf⟩ := hin { v with stream_ := { v.stream_ with
        avail_in := if n > CHUNK then CHUNK else n.toNat, next_in := data } }
      rw [hf]
      cases f with
      | next r w => exact ih _ _ _ _ (chunkCount_sub n k h1)
      | leave r w => exact ⟨_, rfl⟩
    · rw [if_neg hn]
      exact ⟨_, rfl⟩

theorem Gunzip.inflateOuter_fuel {σ : Type} (nat : Native σ) (inner : Nat) :
    ∀ (fuel fuel2 : Nat) (data : List Byte) (n ret : Int) (v : Vars σ),
      chunkCount n ≤ fuel → chunkCount n ≤ fuel2 →
      Gunzip.inflateOuter nat inner fuel data n ret v =
        Gunzip.inflateOuter nat inner fuel2 data n ret v := by
  intro fuel
  induction fuel with
  | zero =>
    intro fuel2 data n ret v h1 _
    have hn : ¬ n > 0 := fun hp => by have := chunkCount_pos n hp; omega
    unfold Gunzip.inflateOuter
    rw [if_neg hn, if_neg hn]
  | succ k ih =>
    intro fuel2 data n ret v h1 h2
    by_cases hn : n > 0
    · cases fuel2 with
      | zero => have := chunkCount_pos n hn; omega
      | succ k2 =>
        unfold Gunzip.inflateOuter
        rw [if_pos hn, if_pos hn]
        simp only
        split
        · rfl
        · rfl
        · exact ih _ _ _ _ _ (chunkCount_sub n k h1) (chunkCount_sub n k2 h2)
    · unfold Gunzip.inflateOuter
      rw [if_neg hn, if_neg hn]

theorem Gunzip.inflateOuter_iterations {σ : Type} (nat : Native σ) (inner : Nat)
    (hin : ∀ w, ∃ f, Gunzip.inflateInner nat inner w = .ok f) :
    ∀ (fuel : Nat) (data : List Byte) (n ret : Int) (v : Vars σ),
      chunkCount n ≤ fuel → ∃ f, Gunzip.inflateOuter nat inner fuel data n ret v = .ok f := by
  intro fuel
  induction fuel with
  | zero =>
    intro data n ret v h1
    have hn : ¬ n > 0 := fun hp => by have := chunkCount_pos n hp; omega
    unfold Gunzip.inflateOuter
    rw [if_neg hn]
    exact ⟨_, rfl⟩
  | succ k ih =>
    intro data n ret v h1
    unfold Gunzip.inflateOuter
    by_cases hn : n > 0
    · rw [if_pos hn]
      simp only
      obtain ⟨f, hf⟩ := hin { v with stream_ := { v.stream_ with
        avail_in := if n > CHUNK then CHUNK else n.toNat, next_in := data } }
      rw [hf]
      cases f with
      | next r w => exact ih _ _ _ _ (chunkCount_sub n k h1)
      | leave r w => exact ⟨_, rfl⟩
    · rw [if_neg hn]
      exact ⟨_, rfl⟩

theorem stepCount_round (c1 c2 : Call) (h1 : c1.isStep = false) (h2 : c2.isStep = true)
    (l : List Call) : stepCount ([c1, c2] ++ l) = 1 + stepCount l := by
  simp [stepCount, List.countP_cons, h1, h2]
  omega

theorem Vars.round_log {σ : Type} (nat : Native σ) (v w : Vars σ) (n : Nat) (f : Flush)
    (off ao : Nat) (hw : w.stream_.log = (v.GrowBy nat n).2.stream_.log) :
    (w.callStep nat f off ao).2.2.stream_.log = v.stream_.log ++
      [Call.grow n (v.GrowBy nat n).1,
       Call.step f w.stream_.avail_in off ao w.out.capacity (w.callStep nat f off ao).1] := by
  rw [(Vars.callStep_fields nat w f off ao).2.2.2.2.1, hw,
    (Vars.GrowBy_fields nat v n).2.2.2.2.1]
  simp

theorem take_ne_nil (data : List Byte) (n : Int) (h1 : n > 0) (hd : n ≤ data.length) :
    data.take n.toNat ≠ [] := by
  intro e
  have := congrArg List.length e
  simp only [List.length_take, List.length_nil] at this
  omega

theorem BzipImpl.bzip_writeLoop_bounded {σ : Type} (nat : Native σ)
    (hc : Consuming nat BZ_RUN_OK) :
    ∀ (fuel : Nat) (data : List Byte) (n ret : Int) (v : Vars σ),
      n ≤ data.length → n.toNat ≤ fuel →
      (BzipImpl.writeLoop nat fuel data n ret v = .error Halt.assertion ∧
        ∃ w inp k, (nat.step w Flush.run inp k).1.status = BZ_SEQUENCE_ERROR) ∨
      ∃ f, BzipImpl.writeLoop nat fuel data n ret v = .ok f ∧
        ∃ l, f.vars.stream_.log = v.stream_.log ++ l ∧ stepCount l ≤ n.toNat := by
  intro fuel
  induction fuel with
  | zero =>
    intro data n ret v _ h
    have hn : ¬ n > 0 := by omega
    unfold BzipImpl.writeLoop
    rw [if_neg hn]
    exact Or.inr ⟨_, rfl, [], by simp [Flow.vars], by simp [stepCount]⟩
  | succ k ih =>
    intro data n ret v hd h
    unfold BzipImpl.writeLoop
    by_cases h1 : n > 0
    · rw [if_pos h1]
      simp only
      have hgl := (Vars.GrowBy_fields nat v (n + 1).toNat).2.2.2.2.1
      by_cases h2 : (v.GrowBy nat (n + 1).toNat).1 = false
      · rw [if_pos h2]
        exact Or.inr ⟨_, rfl, [Call.grow _ _], hgl, by simp [stepCount, Call.isStep]⟩
      rw [if_neg h2]
      have hn := Vars.callStep_native nat { (v.GrowBy nat (n + 1).toNat).2 with
          stream_ := { (v.GrowBy nat (n + 1).toNat).2.stream_ with
            next_in := data, avail_in := n.toNat } } Flush.run
        (v.GrowBy nat (n + 1).toNat).2.out.length (n + 1).toNat
      have hlog := Vars.round_log nat v { (v.GrowBy nat (n + 1).toNat).2 with
          stream_ := { (v.GrowBy nat (n + 1).toNat).2.stream_ with
            next_in := data, avail_in := n.toNat } } (n + 1).toNat Flush.run
        (v.GrowBy nat (n + 1).toNat).2.out.length (n + 1).toNat rfl
      generalize Vars.callStep nat { (v.GrowBy nat (n + 1).toNat).2 with
          stream_ := { (v.GrowBy nat (n + 1).toNat).2.stream_ with
            next_in := data, avail_in := n.toNat } } Flush.run
        (v.GrowBy nat (n + 1).toNat).2.out.length (n + 1).toNat = s at hn hlog ⊢
      obtain ⟨hstat, -, -, hai⟩ := hn
      obtain ⟨c1, c2, hc1, hc2, hlog⟩ : ∃ c1 c2 : Call, c1.isStep = false ∧
          c2.isStep = true ∧ s.2.2.stream_.log = v.stream_.log ++ [c1, c2] := by
        refine ⟨_, _, ?_, ?_, hlog⟩ <;> rfl
      by_cases hseq : s.1 = BZ_SEQUENCE_ERROR
      · rw [if_pos hseq]
        exact Or.inl ⟨rfl, _, _, _, hstat.symm.trans hseq⟩
      rw [if_neg hseq]
      by_cases h3 : s.1 ≠ BZ_RUN_OK
      · rw [if_pos h3]
        refine Or.inr ⟨_, rfl, [c1, c2], hlog, ?_⟩
        have := stepCount_round c1 c2 hc1 hc2 []
        simp only [List.append_nil, stepCount, List.countP_nil] at this ⊢
        omega
      · rw [if_neg h3]
        simp only [ne_eq, Decidable.not_not] at h3
        have hpos := hc _ _ _ (take_ne_nil data n h1 hd) (hstat.symm.trans h3)
        simp only at hai hpos
        rcases ih (data.drop (n.toNat - s.2.2.stream_.avail_in))
          (s.2.2.stream_.avail_in : Int) s.1
          { s.2.2 with out := s.2.2.out.IncreaseLengthBy ((n + 1).toNat - s.2.1) }
          (by simp only [List.length_drop]; omega) (by simp only [Int.toNat_ofNat]; omega)
          with hbad | ⟨f, hf2, l2, hl2, hc3⟩
        · exact Or.inl hbad
        refine Or.inr ⟨f, hf2, [c1, c2] ++ l2, ?_, ?_⟩
        · rw [hl2]
          simp only [hlog, List.append_assoc]
        · rw [stepCount_round c1 c2 hc1 hc2 l2]
          simp only [Int.toNat_ofNat] at hc3
          omega
    · rw [if_neg h1]
      exact Or.inr ⟨_, rfl, [], by simp [Flow.vars], by simp [stepCount]⟩

theorem BunzipImpl.bunzip_writeLoop_bounded {σ : Type} (nat : Native σ)
    (hc : Consuming nat BZ_OK) :
    ∀ (fuel : Nat) (data : List Byte) (n ret : Int) (v : Vars σ),
      n ≤ data.length → n.toNat ≤ fuel →
      (BunzipImpl.writeLoop nat fuel data n ret v = .error Halt.assertion ∧
        ∃ w inp k, (nat.step w Flush.run inp k).1.status = BZ_SEQUENCE_ERROR) ∨
      ∃ f, BunzipImpl.writeLoop nat fuel data n ret v = .ok f ∧
        ∃ l, f.vars.stream_.log = v.stream_.log ++ l ∧ stepCount l ≤ n.toNat := by
  intro fuel
  induction fuel with
  | zero =>
    intro data n ret v _ h
    have hn : ¬ n > 0 := by omega
    unfold BunzipImpl.writeLoop
    rw [if_neg hn]
    exact Or.inr ⟨_, rfl, [], by simp [Flow.vars], by simp [stepCount]⟩
  | succ k ih =>
    intro data n ret v hd h
    unfold BunzipImpl.writeLoop
    by_cases h1 : n > 0
    · rw [if_pos h1]
      simp only
      have hgl := (Vars.GrowBy_fields nat v n.toNat).2.2.2.2.1
      by_cases h2 : (v.GrowBy nat n.toNat).1 = false
      · rw [if_pos h2]
        exact Or.inr ⟨_, rfl, [Call.grow _ _], hgl, by simp [stepCount, Call.isStep]⟩
      rw [if_neg h2]
      have hn := Vars.callStep_native nat { (v.GrowBy nat n.toNat).2 with
          stream_ := { (v.GrowBy nat n.toNat).2.stream_ with
            next_in := data, avail_in := n.toNat } } Flush.run
        (v.GrowBy nat n.toNat).2.out.length n.toNat
      have hlog := Vars.round_log nat v { (v.GrowBy nat n.toNat).2 with
          stream_ := { (v.GrowBy nat n.toNat).2.stream_ with
            next_in := data, avail_in := n.toNat } } n.toNat Flush.run
        (v.GrowBy nat n.toNat).2.out.length n.toNat rfl
      generalize Vars.callStep nat { (v.GrowBy nat n.toNat).2 with
          stream_ := { (v.GrowBy nat n.toNat).2.stream_ with
            next_in := data, avail_in := n.toNat } } Flush.run
        (v.GrowBy nat n.toNat).2.out.length n.toNat = s at hn hlog ⊢
      obtain ⟨hstat, -, -, hai⟩ := hn
      obtain ⟨c1, c2, hc1, hc2, hlog⟩ : ∃ c1 c2 : Call, c1.isStep = false ∧
          c2.isStep = true ∧ s.2.2.stream_.log = v.stream_.log ++ [c1, c2] := by
        refine ⟨_, _, ?_, ?_, hlog⟩ <;> rfl
      have hone : stepCount [c1, c2] ≤ n.toNat := by
        have := stepCount_round c1 c2 hc1 hc2 []
        simp only [List.append_nil, stepCount, List.countP_nil] at this ⊢
        omega
      by_cases hseq : s.1 = BZ_SEQUENCE_ERROR
      · rw [if_pos hseq]
        exact Or.inl ⟨rfl, _, _, _, hstat.symm.trans hseq⟩
      rw [if_neg hseq]
      by_cases h3 : s.1 ≠ BZ_OK ∧ s.1 ≠ BZ_STREAM_END
      · rw [if_pos h3]
        exact Or.inr ⟨_, rfl, [c1, c2], hlog, hone⟩
      · rw [if_neg h3]
        by_cases h4 : s.1 = BZ_STREAM_END
        · rw [if_pos h4]
          exact Or.inr ⟨_, rfl, [c1, c2], hlog, hone⟩
        · rw [if_neg h4]
          have h5 : s.1 = BZ_OK := by
            by_contra hne
            exact h3 ⟨hne, h4⟩
          have hpos := hc _ _ _ (take_ne_nil data n h1 hd) (hstat.symm.trans h5)
          simp only at hai hpos
          rcases ih (data.drop (n.toNat - s.2.2.stream_.avail_in))
            (s.2.2.stream_.avail_in : Int) s.1
            { s.2.2 with out := s.2.2.out.IncreaseLengthBy (n.toNat - s.2.1) }
            (by simp only [List.length_drop]; omega) (by simp only [Int.toNat_ofNat]; omega)
            with hbad | ⟨f, hf2, l2, hl2, hc3⟩
          · exact Or.inl hbad
          refine Or.inr ⟨f, hf2, [c1, c2] ++ l2, ?_, ?_⟩
          · rw [hl2]
            simp only [hlog, List.append_assoc]
          · rw [stepCount_round c1 c2 hc1 hc2 l2]
            simp only [Int.toNat_ofNat] at hc3
            omega
    · rw [if_neg h1]
      exact Or.inr ⟨_, rfl, [], by simp [Flow.vars], by simp [stepCount]⟩

theorem echoNative_consuming (run more done : Int) :
    Consuming (echoNative run more done) run := by
  intro w inp n hne _
  simp only [echoNative]
  exact List.length_pos.2 hne

/-- C18. Termination of the input loops, for data of length `n` (`data_len = n`).
The outer loop of `GzipDeflate` and of `GunzipInflate` makes at most `chunkCount n` =
`ceil(n / CHUNK)` iterations: fuel beyond that number is never used (the loop gives the same
result with any two amounts of fuel that reach it), and with that much fuel the loop returns
whenever each run of the inner loop does.
The loop of `BzipImpl::Write` and of `BunzipImpl::Write` ends after at most `n` steps of the
library, provided every step that is offered input and answers the progressing status
(`BZ_RUN_OK`, for decompression `BZ_OK`) takes at least one byte, and `data` holds the `n`
bytes: with fuel `n` the Write either returns, with at most `n` step calls added to the
history, or stops at the `assert` because a step answered `BZ_SEQUENCE_ERROR`; it never runs
out of fuel.
A Write with `n = 0` on a session in state `Data` returns the success status with zero output
bytes, with any fuel, and leaves the instance as it was: state `Data`, no step and no growth
request made. -/
theorem input_loops_terminate {σ : Type} (nat : Native σ) (inner fuel fuel2 : Nat)
    (g : Instance σ) (data : List Byte) (n ret : Int) (v : Vars σ) :
    (chunkCount n ≤ fuel → chunkCount n ≤ fuel2 →
      Gzip.deflateOuter nat inner fuel data n ret v =
        Gzip.deflateOuter nat inner fuel2 data n ret v ∧
      Gunzip.inflateOuter nat inner fuel data n ret v =
        Gunzip.inflateOuter nat inner fuel2 data n ret v) ∧
    ((∀ w, ∃ f, Gzip.deflateInner nat inner w = .ok f) → chunkCount n ≤ fuel →
      ∃ f, Gzip.deflateOuter nat inner fuel data n ret v = .ok f) ∧
    ((∀ w, ∃ f, Gunzip.inflateInner nat inner w = .ok f) → chunkCount n ≤ fuel →
      ∃ f, Gunzip.inflateOuter nat inner fuel data n ret v = .ok f) ∧
    (Consuming nat BZ_RUN_OK → n ≤ data.length → n.toNat ≤ fuel →
      (BzipImpl.Write nat fuel g data n = .error Halt.assertion ∧
        ∃ w inp k, (nat.step w Flush.run inp k).1.status = BZ_SEQUENCE_ERROR) ∨
      ∃ x, BzipImpl.Write nat fuel g data n = .ok x ∧
        ∃ l, x.2.stream_.log = g.stream_.log ++ l ∧ stepCount l ≤ n.toNat) ∧
    (Consuming nat BZ_OK → n ≤ data.length → n.toNat ≤ fuel →
      (BunzipImpl.Write nat fuel g data n = .error Halt.assertion ∧
        ∃ w inp k, (nat.step w Flush.run inp k).1.status = BZ_SEQUENCE_ERROR) ∨
      ∃ x, BunzipImpl.Write nat fuel g data n = .ok x ∧
        ∃ l, x.2.stream_.log = g.stream_.log ++ l ∧ stepCount l ≤ n.toNat) ∧
    (g.state_ = State.Data →
      ReturnsUntouched (Gzip.GzipDeflate nat fuel g data 0) Z_OK g ∧
      ReturnsUntouched (Gunzip.GunzipInflate nat fuel g data 0) Z_OK g ∧
      ReturnsUntouched (BzipImpl.Write nat fuel g data 0) BZ_OK g ∧
      ReturnsUntouched (BunzipImpl.Write nat fuel g data 0) BZ_OK g) := by
  refine ⟨fun h1 h2 => ⟨Gzip.deflateOuter_fuel nat inner _ _ _ _ _ _ h1 h2,
      Gunzip.inflateOuter_fuel nat inner _ _ _ _ _ _ h1 h2⟩,
    fun hin h1 => Gzip.deflateOuter_iterations nat inner hin _ _ _ _ _ h1,
    fun hin h1 => Gunzip.inflateOuter_iterations nat inner hin _ _ _ _ _ h1, ?_, ?_, ?_⟩
  · intro hc hd hf
    unfold BzipImpl.Write
    by_cases hs : g.state_ ≠ State.Data
    · rw [if_pos hs]
      exact Or.inr ⟨_, rfl, [], by simp [Instance.early], by simp [stepCount]⟩
    · rw [if_neg hs]
      rcases BzipImpl.bzip_writeLoop_bounded nat hc fuel data n BZ_OK
        (Vars.enter g State.Error) hd hf with ⟨hbad, hw⟩ | ⟨f, hf2, l, hl, hcount⟩
      · rw [hbad]
        exact Or.inl ⟨rfl, hw⟩
      · rw [hf2]
        cases f <;> exact Or.inr ⟨_, rfl, l, hl, hcount⟩
  · intro hc hd hf
    unfold BunzipImpl.Write
    by_cases he : g.state_ = State.Eos
    · rw [if_pos he]
      exact Or.inr ⟨_, rfl, [], by simp [Instance.early], by simp [stepCount]⟩
    rw [if_neg he]
    by_cases hs : g.state_ ≠ State.Data
    · rw [if_pos hs]
      exact Or.inr ⟨_, rfl, [], by simp [Instance.early], by simp [stepCount]⟩
    · rw [if_neg hs]
      rcases BunzipImpl.bunzip_writeLoop_bounded nat hc fuel data n BZ_OK
        (Vars.enter g State.Error) hd hf with ⟨hbad, hw⟩ | ⟨f, hf2, l, hl, hcount⟩
      · rw [hbad]
        exact Or.inl ⟨rfl, hw⟩
      · rw [hf2]
        cases f <;> exact Or.inr ⟨_, rfl, l, hl, hcount⟩
  · intro hs
    have hg : ({ stream_ := g.stream_, state_ := State.Data } : Instance σ) = g := by
      cases g
      simp only [Instance.mk.injEq, true_and]
      exact hs.symm
    refine ⟨⟨(g.early Z_OK).1, ?_, rfl, rfl, rfl, rfl⟩,
      ⟨(g.early Z_OK).1, ?_, rfl, rfl, rfl, rfl⟩,
      ⟨(g.early BZ_OK).1, ?_, rfl, rfl, rfl, rfl⟩,
      ⟨(g.early BZ_OK).1, ?_, rfl, rfl, rfl, rfl⟩⟩
    · unfold Gzip.GzipDeflate Gzip.deflateOuter
      simp [hs, Vars.exitGzip, Vars.enter, Transition.finish, Transition.alter,
        Transition.start, ScopedOutputBuffer.empty, hg, Instance.early]
    · unfold Gunzip.GunzipInflate Gunzip.inflateOuter
      simp [hs, Vars.exitGzip, Vars.enter, Transition.finish, Transition.alter,
        Transition.start, ScopedOutputBuffer.empty, hg, Instance.early]
    · unfold BzipImpl.Write BzipImpl.writeLoop
      simp [hs, Vars.exitBzip, Vars.enter, Transition.finish, Transition.alter,
        Transition.start, ScopedOutputBuffer.empty, hg, Instance.early]
    · unfold BunzipImpl.Write BunzipImpl.writeLoop
      simp [hs, Vars.exitBzip, Vars.enter, Transition.finish, Transition.alter,
        Transition.start, ScopedOutputBuffer.empty, hg, Instance.early]

/-- C18, run: data of length `3 * CHUNK + 7` needs four iterations of the outer loop; a Write
of three bytes to a `BzipImpl` over the byte-storing codec returns with fuel 3 after at most
three steps; a Write of no bytes to a `Gzip` in state `Data` returns `Z_OK` with no fuel at
all and changes nothing. -/
theorem input_loops_terminate_witness :
    chunkCount (3 * CHUNK + 7) = 4 ∧
    (∃ x, BzipImpl.Write (echoNative BZ_RUN_OK BZ_FINISH_OK BZ_STREAM_END) 3
        (Instance.pending []) [1, 2, 3] 3 = .ok x ∧
      ∃ l, x.2.stream_.log = (Instance.pending []).stream_.log ++ l ∧ stepCount l ≤ 3) ∧
    ReturnsUntouched
      (Gzip.GzipDeflate (constNative 0 0 0 [] true) 0 (Instance.inState State.Data true) [] 0)
      Z_OK (Instance.inState State.Data true) :=
  ⟨by decide,
   ((input_loops_terminate (echoNative BZ_RUN_OK BZ_FINISH_OK BZ_STREAM_END) 0 3 3
      (Instance.pending []) [1, 2, 3] 3 0 (Vars.enter (Instance.pending []) State.Error)).2.2.2.1
      (echoNative_consuming _ _ _) (by decide) (by decide)).resolve_left
        (fun h => nomatch h.1),
   ((input_loops_terminate (constNative 0 0 0 [] true) 0 0 0
      (Instance.inState State.Data true) [] 0 0
      (Vars.enter (Instance.inState State.Data true) State.Error)).2.2.2.2.2 rfl).1⟩

/-! ### Storing bytes in the output buffer -/

theorem writeAt_length (mem : List Byte) (off : Nat) (bs : List Byte) :
    off + bs.length ≤ (writeAt mem off bs).length := by
  simp only [writeAt, List.length_append, List.length_take, List.length_replicate,
    List.length_drop]
  omega

theorem writeAt_take_left (mem : List Byte) (off : Nat) (bs : List Byte)
    (h : off ≤ mem.length) : (writeAt mem off bs).take off = mem.take off := by
  have h1 : ((mem ++ List.replicate (off - mem.length) 0).take off).length = off := by
    simp only [List.length_take, List.length_append, List.length_replicate]
    omega
  have h2 : (mem ++ List.replicate (off - mem.length) 0).take off = mem.take off := by
    rw [List.take_append_of_le_length h]
  simp only [writeAt, List.append_assoc]
  rw [List.take_append_of_le_length (by omega), h2]
  exact List.take_of_length_le (by simp)

theorem writeAt_take (mem : List Byte) (off : Nat) (bs : List Byte) (h : off ≤ mem.length) :
    (writeAt mem off bs).take (off + bs.length) = mem.take off ++ bs := by
  have h2 : (mem ++ List.replicate (off - mem.length) 0).take off = mem.take off := by
    rw [List.take_append_of_le_length h]
  have h3 : (mem.take off ++ bs).length = off + bs.length := by
    simp only [List.length_append, List.length_take]
    omega
  simp only [writeAt, h2]
  rw [← h3, List.take_left']
  rfl

theorem writeAt_end (mem bs : List Byte) (off : Nat) (h : off = mem.length) :
    writeAt mem off bs = mem ++ bs := by
  subst h
  simp [writeAt]

/-! ### C15: the output region offered by the gzip paths -/

/-- `GunzipInflate` of `CHUNK + 1` bytes over the codec that stores bytes as they are: the
first step fills the `CHUNK` bytes of output space, and the two steps that follow are offered
the region that starts at offset `CHUNK` of a buffer whose capacity is still `CHUNK`. -/
theorem Gunzip.GunzipInflate_past_capacity (d : List Byte) (hd : d.length = CHUNK + 1) :
    ∃ x, Gunzip.GunzipInflate (echoNative Z_OK Z_OK Z_STREAM_END) 2 (Instance.pending [])
        d (CHUNK + 1) = .ok x ∧
      x.1.status = Z_OK ∧ x.1.output = d ∧
      x.2.stream_.log =
        [Call.grow CHUNK true, Call.step Flush.run CHUNK 0 CHUNK CHUNK Z_OK,
         Call.grow CHUNK true, Call.step Flush.run 0 CHUNK CHUNK CHUNK Z_OK,
         Call.grow CHUNK true, Call.step Flush.run 1 CHUNK CHUNK CHUNK Z_OK] ∧
      x.1.out.capacity = CHUNK ∧ x.1.out_len = CHUNK + 1 := by
  have h1 : CHUNK - 16383 = 1 := rfl
  have hA : (d.take CHUNK).length = CHUNK := by
    rw [List.length_take, hd]; omega
  have hX1 : List.take CHUNK (List.take CHUNK (List.take CHUNK d)) = d.take CHUNK := by
    simp [List.take_take]
  have hX2 : List.drop CHUNK (List.take CHUNK d) = [] :=
    List.drop_eq_nil_of_le (by omega)
  have hX3 : List.drop (CHUNK + CHUNK) (List.take CHUNK d) = [] :=
    List.drop_eq_nil_of_le (by omega)
  have hX4 : (List.drop CHUNK d).length = 1 := by
    rw [List.length_drop, hd]; omega
  have hX5 : ∀ l : List Byte, l.length = 1 → List.take CHUNK l = l := fun l hl =>
    List.take_of_length_le (by omega)
  have hX6 : List.take 1 (List.drop CHUNK d) = List.drop CHUNK d :=
    List.take_of_length_le (by omega)
  simp [Gunzip.GunzipInflate, Gunzip.inflateOuter, Gunzip.inflateInner, Vars.GrowBy,
    Vars.callStep, echoNative, Instance.pending, Vars.enter, hd, Vars.exitGzip,
    ScopedOutputBuffer.empty, Transition.start, Transition.alter, Transition.finish]
  refine ⟨?_, h1⟩
  rw [h1, hX1, hX2, hX3, List.nil_append, hX6, hX5 _ hX4, hX5 _ hX4, List.take_nil,
    List.take_nil, writeAt_end [] _ 0 rfl, List.nil_append, writeAt_end _ _ _ hA.symm,
    List.append_nil, writeAt_end _ _ _ hA.symm]
  rw [List.take_of_length_le (by rw [List.length_append, hA, hX4])]
  exact List.take_append_drop _ _

/-- The same run of `GzipDeflate`. -/
theorem Gzip.GzipDeflate_past_capacity (d : List Byte) (hd : d.length = CHUNK + 1) :
    ∃ x, Gzip.GzipDeflate (echoNative Z_OK Z_OK Z_STREAM_END) 2 (Instance.pending [])
        d (CHUNK + 1) = .ok x ∧
      x.1.status = Z_OK ∧ x.1.output = d ∧
      x.2.stream_.log =
        [Call.grow CHUNK true, Call.step Flush.run CHUNK 0 CHUNK CHUNK Z_OK,
         Call.grow CHUNK true, Call.step Flush.run 0 CHUNK CHUNK CHUNK Z_OK,
         Call.grow CHUNK true, Call.step Flush.run 1 CHUNK CHUNK CHUNK Z_OK] ∧
      x.1.out.capacity = CHUNK ∧ x.1.out_len = CHUNK + 1 := by
  have h1 : CHUNK - 16383 = 1 := rfl
  have hA : (d.take CHUNK).length = CHUNK := by
    rw [List.length_take, hd]; omega
  have hX1 : List.take CHUNK (List.take CHUNK (List.take CHUNK d)) = d.take CHUNK := by
    simp [List.take_take]
  have hX2 : List.drop CHUNK (List.take CHUNK d) = [] :=
    List.drop_eq_nil_of_le (by omega)
  have hX3 : List.drop (CHUNK + CHUNK) (List.take CHUNK d) = [] :=
    List.drop_eq_nil_of_le (by omega)
  have hX4 : (List.drop CHUNK d).length = 1 := by
    rw [List.length_drop, hd]; omega
  have hX5 : ∀ l : List Byte, l.length = 1 → List.take CHUNK l = l := fun l hl =>
    List.take_of_length_le (by omega)
  have hX6 : List.take 1 (List.drop CHUNK d) = List.drop CHUNK d :=
    List.take_of_length_le (by omega)
  simp [Gzip.GzipDeflate, Gzip.deflateOuter, Gzip.deflateInner, Vars.GrowBy,
    Vars.callStep, echoNative, Instance.pending, Vars.enter, hd, Vars.exitGzip,
    ScopedOutputBuffer.empty, Transition.start, Transition.alter, Transition.finish]
  refine ⟨?_, h1⟩
  rw [h1, hX1, hX2, hX3, List.nil_append, hX6, hX5 _ hX4, hX5 _ hX4, List.take_nil,
    List.take_nil, writeAt_end [] _ 0 rfl, List.nil_append, writeAt_end _ _ _ hA.symm,
    List.append_nil, writeAt_end _ _ _ hA.symm]
  rw [List.take_of_length_le (by rw [List.length_append, hA, hX4])]
  exact List.take_append_drop _ _

theorem Vars.GrowBy_capacity {σ : Type} (nat : Native σ) (v : Vars σ) (n : Nat) :
    ((v.GrowBy nat n).1 = true →
      (v.GrowBy nat n).2.out.capacity = max v.out.capacity (v.out.length + n)) ∧
    ((v.GrowBy nat n).1 = false → (v.GrowBy nat n).2.out = v.out) := by
  cases h : (nat.grow v.stream_.native n).1 <;> simp [Vars.GrowBy, h]

theorem Vars.callStep_avail_out {σ : Type} (nat : Native σ) (v : Vars σ) (f : Flush)
    (off ao : Nat) : (v.callStep nat f off ao).2.1 ≤ ao := by
  simp [Vars.callStep]

/-- One round of a bzip2 loop keeps the region offered inside the buffer: `GrowBy(n)` makes
room for `n` bytes beyond the logical length, the step is offered `n` bytes at that length,
and `IncreaseLengthBy` advances the length by what the step stored. -/
theorem Vars.round_in_bounds {σ : Type} (nat : Native σ) (log0 : List Call) (v w : Vars σ)
    (n off : Nat) (f : Flush)
    (h : Extends (fun c => c.inBounds = true) log0 v.stream_.log)
    (hg : (v.GrowBy nat n).1 = true)
    (hw : w.stream_.log = (v.GrowBy nat n).2.stream_.log) (hc : w.out = (v.GrowBy nat n).2.out)
    (hoff : off = (v.GrowBy nat n).2.out.length) :
    Extends (fun c => c.inBounds = true) log0 (w.callStep nat f off n).2.2.stream_.log ∧
    ((w.callStep nat f off n).2.2.out.IncreaseLengthBy
        (n - (w.callStep nat f off n).2.1)).length ≤
      ((w.callStep nat f off n).2.2.out.IncreaseLengthBy
        (n - (w.callStep nat f off n).2.1)).capacity ∧
    (w.callStep nat f off n).2.2.out.length ≤ (w.callStep nat f off n).2.2.out.capacity := by
  have hcap := (Vars.GrowBy_capacity nat v n).1 hg
  have hlen := (Vars.GrowBy_fields nat v n).2.2.2.2.2.1
  have hf := Vars.callStep_fields nat w f off n
  have hao := Vars.callStep_avail_out nat w f off n
  have hwl : w.out.length = v.out.length := by rw [hc, hlen]
  have hwc : w.out.capacity = max v.out.capacity (v.out.length + n) := by rw [hc, hcap]
  rw [hlen] at hoff
  refine ⟨?_, ?_, ?_⟩
  · have hr := Vars.round_extends nat (fun c => c.inBounds = true) log0 v w n f off n
      h hw hc (by simp [Call.inBounds]) ?_
    · exact hr
    · simp only [Call.inBounds, decide_eq_true_eq]
      rw [hcap, hoff]
      exact le_max_right _ _
  · simp only [ScopedOutputBuffer.IncreaseLengthBy]
    rw [hf.2.2.2.2.2.1, hf.2.2.2.2.2.2, hwl, hwc]
    have := le_max_right v.out.capacity (v.out.length + n)
    omega
  · rw [hf.2.2.2.2.2.1, hf.2.2.2.2.2.2, hwl, hwc]
    have := le_max_right v.out.capacity (v.out.length + n)
    omega

theorem BzipImpl.bzip_writeLoop_in_bounds {σ : Type} (nat : Native σ) (log0 : List Call)
    (fuel : Nat) (data : List Byte) (n ret : Int) (v : Vars σ) (f : Flow σ)
    (h0 : Extends (fun c => c.inBounds = true) log0 v.stream_.log)
    (hv : v.out.length ≤ v.out.capacity)
    (h : BzipImpl.writeLoop nat fuel data n ret v = .ok f) :
    Extends (fun c => c.inBounds = true) log0 f.vars.stream_.log ∧
      f.vars.out.length ≤ f.vars.out.capacity := by
  refine BzipImpl.bzip_writeLoop_rule nat
    (fun _ _ _ v => Extends (fun c => c.inBounds = true) log0 v.stream_.log ∧
      v.out.length ≤ v.out.capacity)
    (fun f => Extends (fun c => c.inBounds = true) log0 f.vars.stream_.log ∧
      f.vars.out.length ≤ f.vars.out.capacity)
    ?_ ?_ ?_ fuel data n ret v f ⟨h0, hv⟩ h
  · intro _ _ _ v he _
    exact he
  · intro _ n _ v ⟨he, hl⟩ _ hg
    refine ⟨he.snoc _ (by simp [Call.inBounds]) (Vars.GrowBy_fields nat v _).2.2.2.2.1, ?_⟩
    simp only [Flow.vars]
    rw [(Vars.GrowBy_capacity nat v _).2 hg]
    exact hl
  · intro data n _ v ⟨he, _⟩ _ hg s hs _
    obtain ⟨h1, h2, h3⟩ := Vars.round_in_bounds nat log0 v
      { (v.GrowBy nat (n + 1).toNat).2 with
        stream_ := { (v.GrowBy nat (n + 1).toNat).2.stream_ with
          next_in := data, avail_in := n.toNat } } (n + 1).toNat
      (v.GrowBy nat (n + 1).toNat).2.out.length Flush.run he hg rfl rfl rfl
    rw [← hs] at h1 h2 h3
    exact ⟨fun _ => ⟨h1, h3⟩, fun _ => ⟨h1, h2⟩⟩

theorem BunzipImpl.bunzip_writeLoop_in_bounds {σ : Type} (nat : Native σ) (log0 : List Call)
    (fuel : Nat) (data : List Byte) (n ret : Int) (v : Vars σ) (f : Flow σ)
    (h0 : Extends (fun c => c.inBounds = true) log0 v.stream_.log)
    (hv : v.out.length ≤ v.out.capacity)
    (h : BunzipImpl.writeLoop nat fuel data n ret v = .ok f) :
    Extends (fun c => c.inBounds = true) log0 f.vars.stream_.log ∧
      f.vars.out.length ≤ f.vars.out.capacity := by
  refine BunzipImpl.bunzip_writeLoop_rule nat
    (fun _ _ _ v => Extends (fun c => c.inBounds = true) log0 v.stream_.log ∧
      v.out.length ≤ v.out.capacity)
    (fun f => Extends (fun c => c.inBounds = true) log0 f.vars.stream_.log ∧
      f.vars.out.length ≤ f.vars.out.capacity)
    ?_ ?_ ?_ fuel data n ret v f ⟨h0, hv⟩ h
  · intro _ _ _ v he _
    exact he
  · intro _ n _ v ⟨he, hl⟩ _ hg
    refine ⟨he.snoc _ (by simp [Call.inBounds]) (Vars.GrowBy_fields nat v _).2.2.2.2.1, ?_⟩
    simp only [Flow.vars]
    rw [(Vars.GrowBy_capacity nat v _).2 hg]
    exact hl
  · intro data n _ v ⟨he, _⟩ _ hg s hs _
    obtain ⟨h1, h2, h3⟩ := Vars.round_in_bounds nat log0 v
      { (v.GrowBy nat n.toNat).2 with
        stream_ := { (v.GrowBy nat n.toNat).2.stream_ with
          next_in := data, avail_in := n.toNat } } n.toNat
      (v.GrowBy nat n.toNat).2.out.length Flush.run he hg rfl rfl rfl
    rw [← hs] at h1 h2 h3
    exact ⟨fun _ _ => ⟨h1, h3⟩, fun _ => ⟨h1, h2⟩, fun _ => ⟨h1, h2⟩⟩

theorem BzipImpl.BzipEndWithData_in_bounds {σ : Type} (nat : Native σ) (log0 : List Call)
    (fuel : Nat) (v : Vars σ) (r : Int × Vars σ)
    (h0 : Extends (fun c => c.inBounds = true) log0 v.stream_.log)
    (hv : v.out.length ≤ v.out.capacity)
    (h : BzipImpl.BzipEndWithData nat fuel v = .ok r) :
    Extends (fun c => c.inBounds = true) log0 r.2.stream_.log ∧
      r.2.out.length ≤ r.2.out.capacity := by
  refine BzipImpl.BzipEndWithData_rule nat
    (fun v => Extends (fun c => c.inBounds = true) log0 v.stream_.log ∧
      v.out.length ≤ v.out.capacity)
    (fun r => Extends (fun c => c.inBounds = true) log0 r.2.stream_.log ∧
      r.2.out.length ≤ r.2.out.capacity)
    ?_ ?_ fuel v r ⟨h0, hv⟩ h
  · intro v ⟨he, hl⟩ hg
    refine ⟨he.snoc _ (by simp [Call.inBounds]) (Vars.GrowBy_fields nat v _).2.2.2.2.1, ?_⟩
    simp only
    rw [(Vars.GrowBy_capacity nat v _).2 hg]
    exact hl
  · intro v ⟨he, _⟩ hg s hs _
    obtain ⟨h1, h2, h3⟩ := Vars.round_in_bounds nat log0 v (v.GrowBy nat 128).2 128
      (v.GrowBy nat 128).2.out.length Flush.finish he hg rfl rfl rfl
    rw [← hs] at h1 h2 h3
    exact ⟨fun _ _ => ⟨h1, h3⟩, fun _ => ⟨h1, h2⟩, fun _ => ⟨h1, h2⟩⟩

/-- The bzip2 paths keep every output region inside the buffer, under the `GrowBy` contract
of the spec: in every `BzipImpl::Write`, `BunzipImpl::Write` and `BzipImpl::Close` that
returns, each region offered to a step lies within the capacity of the buffer at that call,
and the logical length handed to the caller is at most the capacity. -/
theorem bzip2_output_region_in_bounds {σ : Type} (nat : Native σ) (fuel : Nat)
    (g : Instance σ) (data : List Byte) (data_len : Int) :
    (∀ x, BzipImpl.Write nat fuel g data data_len = .ok x →
      Extends (fun c => c.inBounds = true) g.stream_.log x.2.stream_.log ∧
      x.1.out.length ≤ x.1.out.capacity) ∧
    (∀ x, BunzipImpl.Write nat fuel g data data_len = .ok x →
      Extends (fun c => c.inBounds = true) g.stream_.log x.2.stream_.log ∧
      x.1.out.length ≤ x.1.out.capacity) ∧
    (∀ x, BzipImpl.Close nat fuel g = .ok x →
      Extends (fun c => c.inBounds = true) g.stream_.log x.2.stream_.log ∧
      x.1.out.length ≤ x.1.out.capacity) := by
  have hstart : Extends (fun c => c.inBounds = true) g.stream_.log
      (Vars.enter g State.Error).stream_.log := Extends.same _ _
  have hempty : (Vars.enter g State.Error).out.length ≤ (Vars.enter g State.Error).out.capacity :=
    le_refl _
  refine ⟨?_, ?_, ?_⟩
  · intro x hx
    unfold BzipImpl.Write at hx
    by_cases hs : g.state_ ≠ State.Data
    · rw [if_pos hs] at hx
      cases hx
      exact ⟨Extends.same _ _, le_refl _⟩
    · rw [if_neg hs] at hx
      split at hx
      · cases hx
      · rename_i r v hv
        cases hx
        exact BzipImpl.bzip_writeLoop_in_bounds nat _ fuel data data_len _ _ _ hstart hempty hv
      · rename_i r v hv
        cases hx
        exact BzipImpl.bzip_writeLoop_in_bounds nat _ fuel data data_len _ _ _ hstart hempty hv
  · intro x hx
    unfold BunzipImpl.Write at hx
    by_cases he : g.state_ = State.Eos
    · rw [if_pos he] at hx
      cases hx
      exact ⟨Extends.same _ _, le_refl _⟩
    rw [if_neg he] at hx
    by_cases hs : g.state_ ≠ State.Data
    · rw [if_pos hs] at hx
      cases hx
      exact ⟨Extends.same _ _, le_refl _⟩
    · rw [if_neg hs] at hx
      split at hx
      · cases hx
      · rename_i r v hv
        cases hx
        exact BunzipImpl.bunzip_writeLoop_in_bounds nat _ fuel data data_len _ _ _ hstart hempty hv
      · rename_i r v hv
        cases hx
        exact BunzipImpl.bunzip_writeLoop_in_bounds nat _ fuel data data_len _ _ _ hstart hempty hv
  · intro x hx
    unfold BzipImpl.Close at hx
    by_cases hi : g.state_ = State.Idle
    · rw [if_pos hi] at hx
      cases hx
      exact ⟨Extends.same _ _, le_refl _⟩
    rw [if_neg hi] at hx
    by_cases ha : ¬ (g.state_ = State.Data ∨ g.state_ = State.Error)
    · rw [if_pos ha] at hx
      cases hx
    rw [if_neg ha] at hx
    simp only at hx
    by_cases hd : (Vars.enter g State.Error).state_ = State.Data
    · rw [if_pos hd] at hx
      split at hx
      · cases hx
      · rename_i r hr
        cases hx
        obtain ⟨h1, h2⟩ := BzipImpl.BzipEndWithData_in_bounds nat _ fuel _ _ hstart hempty hr
        refine ⟨h1.snoc (Call.destroy r.2.stream_.allocated) (by simp [Call.inBounds]) ?_, h2⟩
        have hne : r.2.t.orig ≠ State.Idle := by
          obtain ⟨l, ⟨ht, _, _, _⟩, _⟩ := BzipImpl.BzipEndWithData_steps nat _ _ _ hr
          rw [ht]
          simpa [Vars.enter, Transition.start] using hi
        simp [Vars.exitBzip, Vars.BzipDestroy, BzipImpl.Destroy, Vars.abort, Transition.abort,
          Stream.callDestroy, hne]
    · rw [if_neg hd] at hx
      cases hx
      refine ⟨(Extends.same _ _).snoc (Call.destroy g.stream_.allocated)
        (by simp [Call.inBounds]) ?_, le_refl _⟩
      simp [Vars.exitBzip, Vars.BzipDestroy, BzipImpl.Destroy, Vars.abort, Transition.abort,
        Stream.callDestroy, Vars.enter, Transition.start, hi]

/-- C15, on the gzip paths, under the `GrowBy` contract of the spec.  A `GunzipInflate`, and
a `GzipDeflate`, of `CHUNK + 1` = 16385 bytes over the codec that stores bytes as they are
(output as long as the input) returns `Z_OK` with the 16385 bytes.  The first step fills the
`CHUNK` bytes offered at offset 0.  `GrowBy(CHUNK)` is then asked for `CHUNK` bytes beyond
the logical length, which is still 0, so the capacity stays `CHUNK`; the next steps are
offered the region from offset `out_len = CHUNK` to `2 * CHUNK`, which lies outside the
buffer, the last byte is stored there, and the length handed to the caller, `CHUNK + 1`,
exceeds the capacity.  The bzip2 paths (`BzipImpl::Write`, `BunzipImpl::Write`,
`BzipImpl::Close`) advance the logical length with `IncreaseLengthBy` after each step: there
every region offered lies within the capacity, and the length handed to the caller is at most
the capacity. -/
theorem gzip_output_region_past_capacity :
    (∃ x, Gunzip.GunzipInflate (echoNative Z_OK Z_OK Z_STREAM_END) 2 (Instance.pending [])
        (List.replicate (CHUNK + 1) 7) (CHUNK + 1) = .ok x ∧
      x.1.status = Z_OK ∧ x.1.output = List.replicate (CHUNK + 1) 7 ∧
      x.2.stream_.log =
        [Call.grow CHUNK true, Call.step Flush.run CHUNK 0 CHUNK CHUNK Z_OK,
         Call.grow CHUNK true, Call.step Flush.run 0 CHUNK CHUNK CHUNK Z_OK,
         Call.grow CHUNK true, Call.step Flush.run 1 CHUNK CHUNK CHUNK Z_OK] ∧
      (∃ c ∈ x.2.stream_.log, c.inBounds = false) ∧
      x.1.out.capacity = CHUNK ∧ x.1.out_len = CHUNK + 1 ∧ x.1.out.capacity < x.1.out_len) ∧
    (∃ x, Gzip.GzipDeflate (echoNative Z_OK Z_OK Z_STREAM_END) 2 (Instance.pending [])
        (List.replicate (CHUNK + 1) 7) (CHUNK + 1) = .ok x ∧
      x.1.status = Z_OK ∧ x.1.output = List.replicate (CHUNK + 1) 7 ∧
      x.2.stream_.log =
        [Call.grow CHUNK true, Call.step Flush.run CHUNK 0 CHUNK CHUNK Z_OK,
         Call.grow CHUNK true, Call.step Flush.run 0 CHUNK CHUNK CHUNK Z_OK,
         Call.grow CHUNK true, Call.step Flush.run 1 CHUNK CHUNK CHUNK Z_OK] ∧
      (∃ c ∈ x.2.stream_.log, c.inBounds = false) ∧
      x.1.out.capacity = CHUNK ∧ x.1.out_len = CHUNK + 1 ∧ x.1.out.capacity < x.1.out_len) ∧
    (∀ (σ : Type) (nat : Native σ) (fuel : Nat) (g : Instance σ) (data : List Byte)
      (data_len : Int) (x : Result × Instance σ),
      (BzipImpl.Write nat fuel g data data_len = .ok x ∨
        BunzipImpl.Write nat fuel g data data_len = .ok x ∨
        BzipImpl.Close nat fuel g = .ok x) →
      Extends (fun c => c.inBounds = true) g.stream_.log x.2.stream_.log ∧
      x.1.out.length ≤ x.1.out.capacity) := by
  have hd : (List.replicate (CHUNK + 1) (7 : Byte)).length = CHUNK + 1 :=
    List.length_replicate _ _
  obtain ⟨x, hx, h1, h2, h3, h4, h5⟩ := Gunzip.GunzipInflate_past_capacity _ hd
  obtain ⟨y, hy, k1, k2, k3, k4, k5⟩ := Gzip.GzipDeflate_past_capacity _ hd
  refine ⟨⟨x, hx, h1, h2, h3, ⟨Call.step Flush.run 1 CHUNK CHUNK CHUNK Z_OK, ?_, by decide⟩,
      h4, h5, ?_⟩,
    ⟨y, hy, k1, k2, k3, ⟨Call.step Flush.run 1 CHUNK CHUNK CHUNK Z_OK, ?_, by decide⟩,
      k4, k5, ?_⟩, ?_⟩
  · rw [h3]; simp
  · rw [h4, h5]; exact Nat.lt_succ_self _
  · rw [k3]; simp
  · rw [k4, k5]; exact Nat.lt_succ_self _
  · intro σ nat fuel g data data_len x hx
    have hb := bzip2_output_region_in_bounds nat fuel g data data_len
    rcases hx with hx | hx | hx
    · exact hb.1 x hx
    · exact hb.2.1 x hx
    · exact hb.2.2 x hx

/-! ### Libraries that keep a notebook -/

theorem recorded_records {σ : Type} (nat : Native σ) :
    Records (recorded nat) (fun w => w.2.1) (fun w => w.2.2) :=
  ⟨fun _ => ⟨rfl, rfl⟩, fun _ => ⟨rfl, rfl⟩, fun _ _ => ⟨rfl, rfl⟩,
    fun _ _ _ _ => ⟨rfl, rfl⟩⟩

/-- What a growth request leaves alone. -/
theorem Vars.GrowBy_io {σ : Type} {nat : Native σ} {taken stored : σ → List Byte}
    (hrec : Records nat taken stored) (v : Vars σ) (n : Nat) :
    taken (v.GrowBy nat n).2.stream_.native = taken v.stream_.native ∧
    stored (v.GrowBy nat n).2.stream_.native = stored v.stream_.native ∧
    (v.GrowBy nat n).2.out.mem = v.out.mem ∧ (v.GrowBy nat n).2.out_len = v.out_len ∧
    (v.GrowBy nat n).2.out.length = v.out.length ∧
    (v.GrowBy nat n).2.stream_.next_in = v.stream_.next_in ∧
    (v.GrowBy nat n).2.stream_.avail_in = v.stream_.avail_in := by
  obtain ⟨-, -, h3, h5, -, h6, h7, h8, h9⟩ := Vars.GrowBy_fields nat v n
  rw [Vars.GrowBy_native]
  exact ⟨(hrec.2.2.1 _ _).1, (hrec.2.2.1 _ _).2, h7, h3, h6, h9, h8⟩

/-- What a step does to the buffer, to the input cursor and to the notebook: it stores some
bytes `p`, no more than the space offered, at the offset given, and takes the first `c` bytes
on offer. -/
theorem Vars.callStep_io {σ : Type} {nat : Native σ} {taken stored : σ → List Byte}
    (hrec : Records nat taken stored) (v : Vars σ) (f : Flush) (off ao : Nat) :
    ∃ (p : List Byte) (c : Nat), p.length ≤ ao ∧ c ≤ v.stream_.avail_in ∧
      (v.callStep nat f off ao).2.1 = ao - p.length ∧
      (v.callStep nat f off ao).2.2.out.mem = writeAt v.out.mem off p ∧
      (v.callStep nat f off ao).2.2.out.length = v.out.length ∧
      (v.callStep nat f off ao).2.2.out_len = v.out_len ∧
      stored (v.callStep nat f off ao).2.2.stream_.native = stored v.stream_.native ++ p ∧
      taken (v.callStep nat f off ao).2.2.stream_.native =
        taken v.stream_.native ++ v.stream_.next_in.take c ∧
      (v.callStep nat f off ao).2.2.stream_.next_in = v.stream_.next_in.drop c ∧
      (v.callStep nat f off ao).2.2.stream_.avail_in = v.stream_.avail_in - c ∧
      c = min (nat.step v.stream_.native f (v.stream_.next_in.take v.stream_.avail_in)
        ao).1.consumed v.stream_.avail_in ∧
      p = (nat.step v.stream_.native f (v.stream_.next_in.take v.stream_.avail_in)
        ao).1.produced.take ao := by
  refine ⟨(nat.step v.stream_.native f (v.stream_.next_in.take v.stream_.avail_in)
      ao).1.produced.take ao,
    min (nat.step v.stream_.native f (v.stream_.next_in.take v.stream_.avail_in) ao).1.consumed
      v.stream_.avail_in, ?_, ?_, rfl, rfl, rfl, rfl, ?_, ?_, rfl, rfl, rfl, rfl⟩
  · simp
  · exact Nat.min_le_right _ _
  · exact (hrec.2.2.2 _ _ _ _).2
  · have := (hrec.2.2.2 v.stream_.native f (v.stream_.next_in.take v.stream_.avail_in) ao).1
    simp only [Vars.callStep]
    rw [this, List.take_take]

/-! ### The calls of a decompressing Write -/

/-- One round of a loop on the input side: a growth, the input fields set by the driver, a
step.  The step takes the first `c` bytes at `next_in` and moves `next_in` and `avail_in` by
`c`, the number of bytes the library reports as consumed. -/
theorem Vars.round_input {σ : Type} {nat : Native σ} {taken stored : σ → List Byte}
    (hrec : Records nat taken stored) (v v2 : Vars σ) (m : Nat) (f : Flush) (off ao : Nat)
    (hn : v2.stream_.native = (v.GrowBy nat m).2.stream_.native)
    (ht : v2.t = v.t) (hs : v2.state_ = v.state_) :
    ∃ c, c ≤ v2.stream_.avail_in ∧
      taken (v2.callStep nat f off ao).2.2.stream_.native =
        taken v.stream_.native ++ v2.stream_.next_in.take c ∧
      (v2.callStep nat f off ao).2.2.stream_.next_in = v2.stream_.next_in.drop c ∧
      (v2.callStep nat f off ao).2.2.stream_.avail_in = v2.stream_.avail_in - c ∧
      (v2.callStep nat f off ao).2.2.t = v.t ∧
      (v2.callStep nat f off ao).2.2.state_ = v.state_ ∧
      c = min (nat.step v2.stream_.native f (v2.stream_.next_in.take v2.stream_.avail_in)
        ao).1.consumed v2.stream_.avail_in ∧
      (v2.callStep nat f off ao).1 =
        (nat.step v2.stream_.native f (v2.stream_.next_in.take v2.stream_.avail_in)
          ao).1.status ∧
      (v2.callStep nat f off ao).2.1 =
        ao - ((nat.step v2.stream_.native f (v2.stream_.next_in.take v2.stream_.avail_in)
          ao).1.produced.take ao).length := by
  obtain ⟨p, c, -, hc, h3, -, -, -, -, h8, h9, h10, h11, h12⟩ :=
    Vars.callStep_io hrec v2 f off ao
  refine ⟨c, hc, ?_, h9, h10, ?_, ?_, h11, rfl, ?_⟩
  · rw [h8, hn, (Vars.GrowBy_io hrec v m).1]
  · rw [(Vars.callStep_fields nat v2 f off ao).1, ht]
  · rw [(Vars.callStep_fields nat v2 f off ao).2.1, hs]
  · rw [h3, h12]

theorem take_append_take_drop (l : List Byte) (k c : Nat) :
    l.take k ++ (l.drop k).take c = l.take (k + c) := by
  rw [List.take_add]

theorem BzipImpl.bzip_writeLoop_input {σ : Type} {nat : Native σ} {taken stored : σ → List Byte}
    (hrec : Records nat taken stored) (t0 data0 : List Byte) (n0 : Nat)
    (fuel : Nat) (data : List Byte) (n ret : Int) (v : Vars σ) (f : Flow σ)
    (h0 : ∃ k, k ≤ n0 ∧ taken v.stream_.native = t0 ++ data0.take k ∧ data = data0.drop k ∧
      n.toNat = n0 - k ∧ v.t.live = true ∧ v.t.value = State.Error)
    (h : BzipImpl.writeLoop nat fuel data n ret v = .ok f) :
    Cursor taken t0 data0 n0 f := by
  refine BzipImpl.bzip_writeLoop_rule nat
    (fun data n _ v => ∃ k, k ≤ n0 ∧ taken v.stream_.native = t0 ++ data0.take k ∧
      data = data0.drop k ∧ n.toNat = n0 - k ∧ v.t.live = true ∧ v.t.value = State.Error)
    (fun f => Cursor taken t0 data0 n0 f) ?_ ?_ ?_ fuel data n ret v f h0 h
  · rintro _ n _ v ⟨k, hk, ht, -, hn, hl, hv⟩ hn0
    refine ⟨k, hk, ht, fun _ => ⟨?_, hl, hv⟩, fun h => Bool.noConfusion h⟩
    have : n.toNat = 0 := by omega
    omega
  · rintro _ n _ v ⟨k, hk, ht, -, -, hl, hv⟩ _ _
    refine ⟨k, hk, ?_, fun h => Bool.noConfusion h, fun _ => ?_⟩
    · show taken (v.GrowBy nat (n + 1).toNat).2.stream_.native = _
      rw [(Vars.GrowBy_io hrec v _).1, ht]
    · show Transition.finish (v.GrowBy nat (n + 1).toNat).2.t _ ≠ _
      rw [(Vars.GrowBy_fields nat v _).1]
      simp [Transition.finish, hl, hv]
  · rintro data n _ v ⟨k, hk, ht, hd, hn, hl, hv⟩ _ _ s hs _
    obtain ⟨c, hc, h1, h2, h3, h4, h5, -⟩ := Vars.round_input hrec v
      { (v.GrowBy nat (n + 1).toNat).2 with
        stream_ := { (v.GrowBy nat (n + 1).toNat).2.stream_ with
          next_in := data, avail_in := n.toNat } } (n + 1).toNat Flush.run
      (v.GrowBy nat (n + 1).toNat).2.out.length (n + 1).toNat rfl
      (Vars.GrowBy_fields nat v _).1 (Vars.GrowBy_fields nat v _).2.1
    rw [← hs] at h1 h2 h3 h4 h5
    simp only at h1 h2 h3 hc
    have htk : taken s.2.2.stream_.native = t0 ++ data0.take (k + c) := by
      rw [h1, ht, hd, List.append_assoc, take_append_take_drop]
    refine ⟨fun _ => ⟨k + c, by omega, htk, fun h => Bool.noConfusion h, fun _ => ?_⟩,
      fun _ => ?_⟩
    · show Transition.finish s.2.2.t s.2.2.state_ ≠ _
      rw [h4]
      simp [Transition.finish, hl, hv]
    · refine ⟨k + c, by omega, htk, ?_, ?_, ?_, ?_⟩
      · rw [h3, hd, List.drop_drop]
        congr 1
        omega
      · rw [h3]
        simp only [Int.toNat_ofNat]
        omega
      · show s.2.2.t.live = true
        rw [h4, hl]
      · show s.2.2.t.value = State.Error
        rw [h4, hv]

theorem BunzipImpl.bunzip_writeLoop_input {σ : Type} {nat : Native σ} {taken stored : σ → List Byte}
    (hrec : Records nat taken stored) (t0 data0 : List Byte) (n0 : Nat)
    (fuel : Nat) (data : List Byte) (n ret : Int) (v : Vars σ) (f : Flow σ)
    (h0 : ∃ k, k ≤ n0 ∧ taken v.stream_.native = t0 ++ data0.take k ∧ data = data0.drop k ∧
      n.toNat = n0 - k ∧ v.t.live = true ∧ v.t.value = State.Error)
    (h : BunzipImpl.writeLoop nat fuel data n ret v = .ok f) :
    Cursor taken t0 data0 n0 f := by
  refine BunzipImpl.bunzip_writeLoop_rule nat
    (fun data n _ v => ∃ k, k ≤ n0 ∧ taken v.stream_.native = t0 ++ data0.take k ∧
      data = data0.drop k ∧ n.toNat = n0 - k ∧ v.t.live = true ∧ v.t.value = State.Error)
    (fun f => Cursor taken t0 data0 n0 f) ?_ ?_ ?_ fuel data n ret v f h0 h
  · rintro _ n _ v ⟨k, hk, ht, -, hn, hl, hv⟩ hn0
    refine ⟨k, hk, ht, fun _ => ⟨?_, hl, hv⟩, fun h => Bool.noConfusion h⟩
    have : n.toNat = 0 := by omega
    omega
  · rintro _ n _ v ⟨k, hk, ht, -, -, hl, hv⟩ _ _
    refine ⟨k, hk, ?_, fun h => Bool.noConfusion h, fun _ => ?_⟩
    · show taken (v.GrowBy nat n.toNat).2.stream_.native = _
      rw [(Vars.GrowBy_io hrec v _).1, ht]
    · show Transition.finish (v.GrowBy nat n.toNat).2.t _ ≠ _
      rw [(Vars.GrowBy_fields nat v _).1]
      simp [Transition.finish, hl, hv]
  · rintro data n _ v ⟨k, hk, ht, hd, hn, hl, hv⟩ _ _ s hs _
    obtain ⟨c, hc, h1, h2, h3, h4, h5, -⟩ := Vars.round_input hrec v
      { (v.GrowBy nat n.toNat).2 with
        stream_ := { (v.GrowBy nat n.toNat).2.stream_ with
          next_in := data, avail_in := n.toNat } } n.toNat Flush.run
      (v.GrowBy nat n.toNat).2.out.length n.toNat rfl
      (Vars.GrowBy_fields nat v _).1 (Vars.GrowBy_fields nat v _).2.1
    rw [← hs] at h1 h2 h3 h4 h5
    simp only at h1 h2 h3 hc
    have htk : taken s.2.2.stream_.native = t0 ++ data0.take (k + c) := by
      rw [h1, ht, hd, List.append_assoc, take_append_take_drop]
    refine ⟨fun _ _ => ⟨k + c, by omega, htk, fun h => Bool.noConfusion h, fun _ => ?_⟩,
      fun _ => ⟨k + c, by omega, htk, fun h => Bool.noConfusion h, fun _ => ?_⟩,
      fun _ => ?_⟩
    · show Transition.finish s.2.2.t s.2.2.state_ ≠ _
      rw [h4]
      simp [Transition.finish, hl, hv]
    · show Transition.finish (s.2.2.t.alter State.Eos) s.2.2.state_ ≠ _
      rw [h4]
      simp [Transition.finish, Transition.alter, hl]
    · refine ⟨k + c, by omega, htk, ?_, ?_, ?_, ?_⟩
      · rw [h3, hd, List.drop_drop]
        congr 1
        omega
      · rw [h3]
        simp only [Int.toNat_ofNat]
        omega
      · show s.2.2.t.live = true
        rw [h4, hl]
      · show s.2.2.t.value = State.Error
        rw [h4, hv]

/-- The offered slice is used up: the first `j + c` bytes of `d` are its first `a` bytes once
the step took `c` bytes, all that was left of the slice. -/
theorem take_used_up (d : List Byte) (a j c : Nat) (hj : j ≤ a) (hc : c ≤ a - j)
    (hall : ((d.drop j).take (a - j)).length ≤ c) : d.take (j + c) = d.take a := by
  rw [List.length_take, List.length_drop] at hall
  apply List.ext_getElem
  · simp only [List.length_take]
    omega
  · intro i h1 h2
    simp only [List.getElem_take]

theorem Gzip.deflateInner_input {σ : Type} {nat : Native σ} {taken stored : σ → List Byte}
    (hrec : Records nat taken stored) (hdr : Draining nat Z_OK) (t d : List Byte) (a : Nat)
    (fuel : Nat) (v : Vars σ) (f : Flow σ)
    (h0 : ∃ j, j ≤ a ∧ taken v.stream_.native = t ++ d.take j ∧
      v.stream_.next_in = d.drop j ∧ v.stream_.avail_in = a - j ∧ v.t.live = true ∧
      v.t.value = State.Error)
    (h : Gzip.deflateInner nat fuel v = .ok f) :
    ∃ j, j ≤ a ∧ taken f.vars.stream_.native = t ++ d.take j ∧
      (f.isNext = true → d.take j = d.take a ∧ f.vars.t.live = true ∧
        f.vars.t.value = State.Error) ∧
      (f.isNext = false → f.vars.t.finish f.vars.state_ ≠ State.Data) := by
  refine Gzip.deflateInner_rule nat
    (fun v => ∃ j, j ≤ a ∧ taken v.stream_.native = t ++ d.take j ∧
      v.stream_.next_in = d.drop j ∧ v.stream_.avail_in = a - j ∧ v.t.live = true ∧
      v.t.value = State.Error)
    (fun f => ∃ j, j ≤ a ∧ taken f.vars.stream_.native = t ++ d.take j ∧
      (f.isNext = true → d.take j = d.take a ∧ f.vars.t.live = true ∧
        f.vars.t.value = State.Error) ∧
      (f.isNext = false → f.vars.t.finish f.vars.state_ ≠ State.Data)) ?_ ?_ fuel v f h0 h
  · rintro v ⟨j, hj, ht, -, -, hl, hv⟩ _
    refine ⟨j, hj, ?_, fun h => Bool.noConfusion h, fun _ => ?_⟩
    · show taken (v.GrowBy nat CHUNK).2.stream_.native = _
      rw [(Vars.GrowBy_io hrec v _).1, ht]
    · show Transition.finish (v.GrowBy nat CHUNK).2.t _ ≠ _
      rw [(Vars.GrowBy_fields nat v _).1]
      simp [Transition.finish, hl, hv]
  · rintro v ⟨j, hj, ht, hni, hai, hl, hv⟩ _ s hs _
    obtain ⟨c, hc, h1, h2, h3, h4, h5, h6, h7, h8⟩ := Vars.round_input hrec v
      (v.GrowBy nat CHUNK).2 CHUNK Flush.run (v.GrowBy nat CHUNK).2.out_len CHUNK rfl
      (Vars.GrowBy_fields nat v _).1 (Vars.GrowBy_fields nat v _).2.1
    rw [← hs] at h1 h2 h3 h4 h5 h7 h8
    have eni := (Vars.GrowBy_io hrec v CHUNK).2.2.2.2.2.1
    have eai := (Vars.GrowBy_io hrec v CHUNK).2.2.2.2.2.2
    simp only [eni, eai, hni, hai] at h1 h2 h3 h6 h7 h8 hc
    have htk : taken s.2.2.stream_.native = t ++ d.take (j + c) := by
      rw [h1, ht, List.append_assoc, take_append_take_drop]
    refine ⟨fun _ => ⟨j + c, by omega, htk, fun h => Bool.noConfusion h, fun _ => ?_⟩,
      fun hok hne => ⟨j + c, by omega, htk, fun _ => ⟨?_, ?_, ?_⟩, fun h => Bool.noConfusion h⟩,
      fun _ _ => ⟨j + c, by omega, htk, ?_, ?_, ?_, ?_⟩⟩
    · show Transition.finish s.2.2.t s.2.2.state_ ≠ _
      rw [h4]
      simp [Transition.finish, hl, hv]
    · refine take_used_up d a j c hj hc ?_
      have hlt : ((nat.step (v.GrowBy nat CHUNK).2.stream_.native Flush.run
          ((d.drop j).take (a - j)) CHUNK).1.produced.take CHUNK).length < CHUNK := by
        rw [h8] at hne
        omega
      have := hdr _ _ _ (h7.symm.trans hok) hlt
      rw [h6]
      exact Nat.le_min.2 ⟨this, by rw [List.length_take]; exact Nat.min_le_left _ _⟩
    · show s.2.2.t.live = true
      rw [h4, hl]
    · show s.2.2.t.value = State.Error
      rw [h4, hv]
    · show s.2.2.stream_.next_in = _
      rw [h2, List.drop_drop]
    · show s.2.2.stream_.avail_in = _
      rw [h3]
      omega
    · show s.2.2.t.live = true
      rw [h4, hl]
    · show s.2.2.t.value = State.Error
      rw [h4, hv]

/-- The fatal path of `GunzipInflate`, `t.abort(); GunzipEnd();`: the guard is disarmed, the
state is `Idle`, and the library took no byte. -/
theorem Vars.abort_GunzipEnd_input {σ : Type} {nat : Native σ} {taken stored : σ → List Byte}
    (hrec : Records nat taken stored) (v : Vars σ) :
    taken (v.abort.GunzipEnd nat).stream_.native = taken v.stream_.native ∧
    (v.abort.GunzipEnd nat).t.finish (v.abort.GunzipEnd nat).state_ = State.Idle := by
  by_cases hi : v.t.orig = State.Idle
  · simp [Vars.GunzipEnd, Vars.abort, Gunzip.GunzipEnd, Transition.abort, Transition.finish,
      hi]
  · simp [Vars.GunzipEnd, Vars.abort, Gunzip.GunzipEnd, Transition.abort, Transition.finish,
      hi, Stream.callDestroy, (hrec.2.1 _).1]

theorem Gunzip.inflateInner_input {σ : Type} {nat : Native σ} {taken stored : σ → List Byte}
    (hrec : Records nat taken stored) (hdr : Draining nat Z_OK) (t d : List Byte) (a : Nat)
    (fuel : Nat) (v : Vars σ) (f : Flow σ)
    (h0 : ∃ j, j ≤ a ∧ taken v.stream_.native = t ++ d.take j ∧
      v.stream_.next_in = d.drop j ∧ v.stream_.avail_in = a - j ∧ v.t.live = true ∧
      v.t.value = State.Error)
    (h : Gunzip.inflateInner nat fuel v = .ok f) :
    ∃ j, j ≤ a ∧ taken f.vars.stream_.native = t ++ d.take j ∧
      (f.isNext = true → d.take j = d.take a ∧ f.vars.t.live = true ∧
        f.vars.t.value = State.Error) ∧
      (f.isNext = false → f.vars.t.finish f.vars.state_ ≠ State.Data) := by
  refine Gunzip.inflateInner_rule nat
    (fun v => ∃ j, j ≤ a ∧ taken v.stream_.native = t ++ d.take j ∧
      v.stream_.next_in = d.drop j ∧ v.stream_.avail_in = a - j ∧ v.t.live = true ∧
      v.t.value = State.Error)
    (fun f => ∃ j, j ≤ a ∧ taken f.vars.stream_.native = t ++ d.take j ∧
      (f.isNext = true → d.take j = d.take a ∧ f.vars.t.live = true ∧
        f.vars.t.value = State.Error) ∧
      (f.isNext = false → f.vars.t.finish f.vars.state_ ≠ State.Data)) ?_ ?_ fuel v f h0 h
  · rintro v ⟨j, hj, ht, -, -, hl, hv⟩ _
    refine ⟨j, hj, ?_, fun h => Bool.noConfusion h, fun _ => ?_⟩
    · show taken (v.GrowBy nat CHUNK).2.stream_.native = _
      rw [(Vars.GrowBy_io hrec v _).1, ht]
    · show Transition.finish (v.GrowBy nat CHUNK).2.t _ ≠ _
      rw [(Vars.GrowBy_fields nat v _).1]
      simp [Transition.finish, hl, hv]
  · rintro v ⟨j, hj, ht, hni, hai, hl, hv⟩ _ s hs _
    obtain ⟨c, hc, h1, h2, h3, h4, h5, h6, h7, h8⟩ := Vars.round_input hrec v
      (v.GrowBy nat CHUNK).2 CHUNK Flush.run (v.GrowBy nat CHUNK).2.out_len CHUNK rfl
      (Vars.GrowBy_fields nat v _).1 (Vars.GrowBy_fields nat v _).2.1
    rw [← hs] at h1 h2 h3 h4 h5 h7 h8
    have eni := (Vars.GrowBy_io hrec v CHUNK).2.2.2.2.2.1
    have eai := (Vars.GrowBy_io hrec v CHUNK).2.2.2.2.2.2
    simp only [eni, eai, hni, hai] at h1 h2 h3 h6 h7 h8 hc
    have htk : taken s.2.2.stream_.native = t ++ d.take (j + c) := by
      rw [h1, ht, List.append_assoc, take_append_take_drop]
    refine ⟨fun _ => ⟨j + c, by omega, ?_, fun h => Bool.noConfusion h, fun _ => ?_⟩,
      fun _ _ _ => ⟨j + c, by omega, htk, fun h => Bool.noConfusion h, fun _ => ?_⟩,
      fun _ => ⟨j + c, by omega, htk, fun h => Bool.noConfusion h, fun _ => ?_⟩,
      fun hok hne => ⟨j + c, by omega, htk, fun _ => ⟨?_, ?_, ?_⟩, fun h => Bool.noConfusion h⟩,
      fun _ _ => ⟨j + c, by omega, htk, ?_, ?_, ?_, ?_⟩⟩
    · show taken (s.2.2.abort.GunzipEnd nat).stream_.native = _
      rw [(Vars.abort_GunzipEnd_input hrec s.2.2).1, htk]
    · show Transition.finish (s.2.2.abort.GunzipEnd nat).t
        (s.2.2.abort.GunzipEnd nat).state_ ≠ _
      rw [(Vars.abort_GunzipEnd_input hrec s.2.2).2]
      decide
    · show Transition.finish s.2.2.t s.2.2.state_ ≠ _
      rw [h4]
      simp [Transition.finish, hl, hv]
    · show Transition.finish (s.2.2.t.alter State.Eos) s.2.2.state_ ≠ _
      rw [h4]
      simp [Transition.finish, Transition.alter, hl]
    · refine take_used_up d a j c hj hc ?_
      have hlt : ((nat.step (v.GrowBy nat CHUNK).2.stream_.native Flush.run
          ((d.drop j).take (a - j)) CHUNK).1.produced.take CHUNK).length < CHUNK := by
        rw [h8] at hne
        omega
      have := hdr _ _ _ (h7.symm.trans hok) hlt
      rw [h6]
      exact Nat.le_min.2 ⟨this, by rw [List.length_take]; exact Nat.min_le_left _ _⟩
    · show s.2.2.t.live = true
      rw [h4, hl]
    · show s.2.2.t.value = State.Error
      rw [h4, hv]
    · show s.2.2.stream_.next_in = _
      rw [h2, List.drop_drop]
    · show s.2.2.stream_.avail_in = _
      rw [h3]
      omega
    · show s.2.2.t.live = true
      rw [h4, hl]
    · show s.2.2.t.value = State.Error
      rw [h4, hv]

/-- The arithmetic of the slices: after `k` bytes, the slice of `min CHUNK (n0 - k)` bytes
ends where `k + CHUNK` bytes, capped by `n0`, end. -/
theorem slice_end (n0 n : Int) (k : Nat) (hn : n = n0 - k) (hpos : n > 0) :
    k + (if n > CHUNK then CHUNK else n.toNat) = min (k + CHUNK) n0.toNat ∧
    min k n0.toNat = k := by
  have hC : CHUNK = 16384 := rfl
  split <;> omega

theorem Gzip.deflateOuter_input {σ : Type} {nat : Native σ} {taken stored : σ → List Byte}
    (hrec : Records nat taken stored) (hdr : Draining nat Z_OK) (t0 data0 : List Byte)
    (n0 : Int) (inner fuel : Nat) (data : List Byte) (n ret : Int) (v : Vars σ) (f : Flow σ)
    (h0 : ∃ k : Nat, data = data0.drop k ∧ n = n0 - k ∧
      taken v.stream_.native = t0 ++ data0.take (min k n0.toNat) ∧ v.t.live = true ∧
      v.t.value = State.Error)
    (h : Gzip.deflateOuter nat inner fuel data n ret v = .ok f) :
    Cursor taken t0 data0 n0.toNat f := by
  refine Gzip.deflateOuter_rule nat inner
    (fun data n _ v => ∃ k : Nat, data = data0.drop k ∧ n = n0 - k ∧
      taken v.stream_.native = t0 ++ data0.take (min k n0.toNat) ∧ v.t.live = true ∧
      v.t.value = State.Error)
    (fun f => Cursor taken t0 data0 n0.toNat f) ?_ ?_ ?_ fuel data n ret v f h0 h
  · rintro _ n _ v ⟨k, -, hn, ht, hl, hv⟩ hn0
    refine ⟨min k n0.toNat, Nat.min_le_right _ _, ht, fun _ => ⟨?_, hl, hv⟩,
      fun h => Bool.noConfusion h⟩
    omega
  · rintro data n _ v r v2 ⟨k, hd, hn, ht, hl, hv⟩ hpos hin
    obtain ⟨e1, e2⟩ := slice_end n0 n k hn hpos
    have hp := fun hh => Gzip.deflateInner_input hrec hdr (taken v.stream_.native)
      data (if n > CHUNK then CHUNK else n.toNat) inner _ _ hh hin
    obtain ⟨j, hj, htk, -, hfin⟩ := hp ⟨0, Nat.zero_le _, by simp, rfl, rfl, hl, hv⟩
    refine ⟨k + j, ?_, ?_, fun h => Bool.noConfusion h, hfin⟩
    · have := Nat.min_le_right (k + CHUNK) n0.toNat
      omega
    · rw [htk, ht, e2, hd, List.append_assoc, take_append_take_drop]
  · rintro data n _ v r v2 ⟨k, hd, hn, ht, hl, hv⟩ hpos hin
    obtain ⟨e1, e2⟩ := slice_end n0 n k hn hpos
    have hp := fun hh => Gzip.deflateInner_input hrec hdr (taken v.stream_.native)
      data (if n > CHUNK then CHUNK else n.toNat) inner _ _ hh hin
    obtain ⟨j, hj, htk, hnx, -⟩ := hp ⟨0, Nat.zero_le _, by simp, rfl, rfl, hl, hv⟩
    obtain ⟨hall, hl2, hv2⟩ := hnx rfl
    refine ⟨k + CHUNK, ?_, ?_, ?_, hl2, hv2⟩
    · rw [hd, List.drop_drop]
    · rw [hn]
      push_cast
      ring
    · show taken v2.stream_.native = _
      have : taken v2.stream_.native = _ := htk
      rw [this, hall, ht, e2, hd, List.append_assoc, take_append_take_drop, e1]

theorem Gunzip.inflateOuter_input {σ : Type} {nat : Native σ} {taken stored : σ → List Byte}
    (hrec : Records nat taken stored) (hdr : Draining nat Z_OK) (t0 data0 : List Byte)
    (n0 : Int) (inner fuel : Nat) (data : List Byte) (n ret : Int) (v : Vars σ) (f : Flow σ)
    (h0 : ∃ k : Nat, data = data0.drop k ∧ n = n0 - k ∧
      taken v.stream_.native = t0 ++ data0.take (min k n0.toNat) ∧ v.t.live = true ∧
      v.t.value = State.Error)
    (h : Gunzip.inflateOuter nat inner fuel data n ret v = .ok f) :
    Cursor taken t0 data0 n0.toNat f := by
  refine Gunzip.inflateOuter_rule nat inner
    (fun data n _ v => ∃ k : Nat, data = data0.drop k ∧ n = n0 - k ∧
      taken v.stream_.native = t0 ++ data0.take (min k n0.toNat) ∧ v.t.live = true ∧
      v.t.value = State.Error)
    (fun f => Cursor taken t0 data0 n0.toNat f) ?_ ?_ ?_ fuel data n ret v f h0 h
  · rintro _ n _ v ⟨k, -, hn, ht, hl, hv⟩ hn0
    refine ⟨min k n0.toNat, Nat.min_le_right _ _, ht, fun _ => ⟨?_, hl, hv⟩,
      fun h => Bool.noConfusion h⟩
    omega
  · rintro data n _ v r v2 ⟨k, hd, hn, ht, hl, hv⟩ hpos hin
    obtain ⟨e1, e2⟩ := slice_end n0 n k hn hpos
    have hp := fun hh => Gunzip.inflateInner_input hrec hdr (taken v.stream_.native)
      data (if n > CHUNK then CHUNK else n.toNat) inner _ _ hh hin
    obtain ⟨j, hj, htk, -, hfin⟩ := hp ⟨0, Nat.zero_le _, by simp, rfl, rfl, hl, hv⟩
    refine ⟨k + j, ?_, ?_, fun h => Bool.noConfusion h, hfin⟩
    · have := Nat.min_le_right (k + CHUNK) n0.toNat
      omega
    · rw [htk, ht, e2, hd, List.append_assoc, take_append_take_drop]
  · rintro data n _ v r v2 ⟨k, hd, hn, ht, hl, hv⟩ hpos hin
    obtain ⟨e1, e2⟩ := slice_end n0 n k hn hpos
    have hp := fun hh => Gunzip.inflateInner_input hrec hdr (taken v.stream_.native)
      data (if n > CHUNK then CHUNK else n.toNat) inner _ _ hh hin
    obtain ⟨j, hj, htk, hnx, -⟩ := hp ⟨0, Nat.zero_le _, by simp, rfl, rfl, hl, hv⟩
    obtain ⟨hall, hl2, hv2⟩ := hnx rfl
    refine ⟨k + CHUNK, ?_, ?_, ?_, hl2, hv2⟩
    · rw [hd, List.drop_drop]
    · rw [hn]
      push_cast
      ring
    · show taken v2.stream_.native = _
      have : taken v2.stream_.native = _ := htk
      rw [this, hall, ht, e2, hd, List.append_assoc, take_append_take_drop, e1]

theorem Fed.of_early {σ : Type} (taken : σ → List Byte) (g : Instance σ) (data : List Byte)
    (data_len : Int) (r : Int) (hs : g.state_ ≠ State.Data) :
    Fed taken g data data_len (g.early r) :=
  ⟨0, Nat.zero_le _, by simp [Instance.early], fun h => absurd h hs⟩

theorem Fed.of_cursor {σ : Type} (taken : σ → List Byte) (g : Instance σ) (data : List Byte)
    (data_len : Int) (f : Flow σ) (x : Result × Instance σ)
    (hc : Cursor taken (taken g.stream_.native) data data_len.toNat f)
    (hn : x.2.stream_.native = f.vars.stream_.native)
    (hl : f.isNext = false → x.2.state_ = f.vars.t.finish f.vars.state_) :
    Fed taken g data data_len x := by
  obtain ⟨k, hk, ht, hnx, hlv⟩ := hc
  refine ⟨k, hk, by rw [hn, ht], fun hd => ?_⟩
  cases hf : f.isNext
  · exact absurd ((hl hf).symm.trans hd) (hlv hf)
  · exact (hnx hf).1

theorem BzipImpl.bzip_Write_fed {σ : Type} {nat : Native σ} {taken stored : σ → List Byte}
    (hrec : Records nat taken stored) (fuel : Nat) (g : Instance σ) (data : List Byte)
    (data_len : Int) (x : Result × Instance σ)
    (h : BzipImpl.Write nat fuel g data data_len = .ok x) : Fed taken g data data_len x := by
  unfold BzipImpl.Write at h
  by_cases hs : g.state_ ≠ State.Data
  · rw [if_pos hs] at h
    cases h
    exact Fed.of_early taken g data data_len _ hs
  · rw [if_neg hs] at h
    have hc := BzipImpl.bzip_writeLoop_input hrec (taken g.stream_.native) data data_len.toNat fuel
      data data_len BZ_OK (Vars.enter g State.Error)
    split at h
    · cases h
    · next r v hf =>
      cases h
      exact Fed.of_cursor taken g data data_len _ _
        (hc _ ⟨0, Nat.zero_le _, by simp [Vars.enter], rfl, rfl, rfl, rfl⟩ hf) rfl
        (fun _ => rfl)
    · next r v hf =>
      cases h
      exact Fed.of_cursor taken g data data_len _ _
        (hc _ ⟨0, Nat.zero_le _, by simp [Vars.enter], rfl, rfl, rfl, rfl⟩ hf) rfl
        (fun h => Bool.noConfusion h)

theorem BunzipImpl.bunzip_Write_fed {σ : Type} {nat : Native σ} {taken stored : σ → List Byte}
    (hrec : Records nat taken stored) (fuel : Nat) (g : Instance σ) (data : List Byte)
    (data_len : Int) (x : Result × Instance σ)
    (h : BunzipImpl.Write nat fuel g data data_len = .ok x) : Fed taken g data data_len x := by
  unfold BunzipImpl.Write at h
  by_cases he : g.state_ = State.Eos
  · rw [if_pos he] at h
    cases h
    exact Fed.of_early taken g data data_len _ (by rw [he]; decide)
  · rw [if_neg he] at h
    by_cases hs : g.state_ ≠ State.Data
    · rw [if_pos hs] at h
      cases h
      exact Fed.of_early taken g data data_len _ hs
    · rw [if_neg hs] at h
      have hc := BunzipImpl.bunzip_writeLoop_input hrec (taken g.stream_.native) data data_len.toNat
        fuel data data_len BZ_OK (Vars.enter g State.Error)
      split at h
      · cases h
      · next r v hf =>
        cases h
        exact Fed.of_cursor taken g data data_len _ _
          (hc _ ⟨0, Nat.zero_le _, by simp [Vars.enter], rfl, rfl, rfl, rfl⟩ hf) rfl
          (fun _ => rfl)
      · next r v hf =>
        cases h
        exact Fed.of_cursor taken g data data_len _ _
          (hc _ ⟨0, Nat.zero_le _, by simp [Vars.enter], rfl, rfl, rfl, rfl⟩ hf) rfl
          (fun h => Bool.noConfusion h)

theorem Gzip.GzipDeflate_fed {σ : Type} {nat : Native σ} {taken stored : σ → List Byte}
    (hrec : Records nat taken stored) (hdr : Draining nat Z_OK) (fuel : Nat) (g : Instance σ)
    (data : List Byte) (data_len : Int) (x : Result × Instance σ)
    (h : Gzip.GzipDeflate nat fuel g data data_len = .ok x) : Fed taken g data data_len x := by
  unfold Gzip.GzipDeflate at h
  by_cases hs : g.state_ ≠ State.Data
  · rw [if_pos hs] at h
    cases h
    exact Fed.of_early taken g data data_len _ hs
  · rw [if_neg hs] at h
    have hc := Gzip.deflateOuter_input hrec hdr (taken g.stream_.native) data data_len fuel
      fuel data data_len Z_OK (Vars.enter g State.Error)
    split at h
    · cases h
    · next r v hf =>
      cases h
      exact Fed.of_cursor taken g data data_len _ _
        (hc _ ⟨0, rfl, by simp, by simp [Vars.enter], rfl, rfl⟩ hf) rfl (fun _ => rfl)
    · next r v hf =>
      cases h
      exact Fed.of_cursor taken g data data_len _ _
        (hc _ ⟨0, rfl, by simp, by simp [Vars.enter], rfl, rfl⟩ hf) rfl
        (fun h => Bool.noConfusion h)

theorem Gunzip.GunzipInflate_fed {σ : Type} {nat : Native σ} {taken stored : σ → List Byte}
    (hrec : Records nat taken stored) (hdr : Draining nat Z_OK) (fuel : Nat) (g : Instance σ)
    (data : List Byte) (data_len : Int) (x : Result × Instance σ)
    (h : Gunzip.GunzipInflate nat fuel g data data_len = .ok x) :
    Fed taken g data data_len x := by
  unfold Gunzip.GunzipInflate at h
  by_cases he : g.state_ = State.Eos
  · rw [if_pos he] at h
    cases h
    exact Fed.of_early taken g data data_len _ (by rw [he]; decide)
  · rw [if_neg he] at h
    by_cases hs : g.state_ ≠ State.Data
    · rw [if_pos hs] at h
      cases h
      exact Fed.of_early taken g data data_len _ hs
    · rw [if_neg hs] at h
      have hc := Gunzip.inflateOuter_input hrec hdr (taken g.stream_.native) data data_len
        fuel fuel data data_len Z_OK (Vars.enter g State.Error)
      split at h
      · cases h
      · next r v hf =>
        cases h
        exact Fed.of_cursor taken g data data_len _ _
          (hc _ ⟨0, rfl, by simp, by simp [Vars.enter], rfl, rfl⟩ hf) rfl (fun _ => rfl)
      · next r v hf =>
        cases h
        exact Fed.of_cursor taken g data data_len _ _
          (hc _ ⟨0, rfl, by simp, by simp [Vars.enter], rfl, rfl⟩ hf) rfl
          (fun h => Bool.noConfusion h)

theorem echoNative_draining (run more done : Int) :
    Draining (recorded (echoNative run more done)) run :=
  fun _ inp _ _ _ => Nat.le_refl inp.length

/-- C13, as stated, fails for the gzip family: after the steps for a slice the drivers of
`gzip.cc` advance by the size of a full slice (`data += CHUNK; data_len -= CHUNK;`), whatever
the library consumed.  Against a library whose step takes one byte, answers `Z_OK` and
stores nothing, a Write of three bytes makes one step, offered three bytes, and returns
`Z_OK` in state `Data`: the library has taken the byte `1` only, and the bytes `2, 3` are
never offered again. -/
theorem input_cursor_by_consumed_counterexample :
    (∃ x, Gzip.GzipDeflate (recorded (constNative 0 Z_OK 1 [] true)) 2
        (Instance.active ((), [], [])) [1, 2, 3] 3 = .ok x ∧
      x.1.status = Z_OK ∧ x.2.state_ = State.Data ∧ x.2.stream_.native.2.1 = [1] ∧
      x.2.stream_.log = [Call.grow CHUNK true, Call.step Flush.run 3 0 CHUNK CHUNK Z_OK]) ∧
    (∃ x, Gunzip.GunzipInflate (recorded (constNative 0 Z_OK 1 [] true)) 2
        (Instance.active ((), [], [])) [1, 2, 3] 3 = .ok x ∧
      x.1.status = Z_OK ∧ x.2.state_ = State.Data ∧ x.2.stream_.native.2.1 = [1] ∧
      x.2.stream_.log = [Call.grow CHUNK true, Call.step Flush.run 3 0 CHUNK CHUNK Z_OK]) :=
  ⟨⟨_, rfl, rfl, rfl, rfl, rfl⟩, ⟨_, rfl, rfl, rfl, rfl, rfl⟩⟩

/-- C13, amended.  Against the notebook of the library (`Records`), for every Write that
returns, whatever the state it is called in and whatever the library does (`Fed`): in
`BzipImpl::Write` and `BunzipImpl::Write`, which move `data` and `data_len` by the number of
bytes the library consumed, the bytes the library took during the call are the first `k`
bytes of `data`, in order, for some `k` at most `data_len`, and `k` is `data_len` when the
call leaves the state `Data`; so no byte is skipped or offered again once taken.  In
`GzipDeflate` and `GunzipInflate`, which move `data` and `data_len` by `CHUNK` after the steps
for a slice, the same holds for a library whose step, when it answers `Z_OK` and leaves
output space unused, has taken all the input it was offered (`Draining`). -/
theorem input_cursor_by_consumed {σ : Type} (nat : Native σ) (taken stored : σ → List Byte)
    (hrec : Records nat taken stored) (fuel : Nat) (g : Instance σ) (data : List Byte)
    (data_len : Int) :
    (∀ x, BzipImpl.Write nat fuel g data data_len = .ok x → Fed taken g data data_len x) ∧
    (∀ x, BunzipImpl.Write nat fuel g data data_len = .ok x → Fed taken g data data_len x) ∧
    (Draining nat Z_OK →
      (∀ x, Gzip.GzipDeflate nat fuel g data data_len = .ok x → Fed taken g data data_len x) ∧
      (∀ x, Gunzip.GunzipInflate nat fuel g data data_len = .ok x →
        Fed taken g data data_len x)) :=
  ⟨fun x h => BzipImpl.bzip_Write_fed hrec fuel g data data_len x h,
    fun x h => BunzipImpl.bunzip_Write_fed hrec fuel g data data_len x h,
    fun hdr => ⟨fun x h => Gzip.GzipDeflate_fed hrec hdr fuel g data data_len x h,
      fun x h => Gunzip.GunzipInflate_fed hrec hdr fuel g data data_len x h⟩⟩

/-- C13, run: a `BzipImpl::Write` of three bytes against a library that takes one byte per
step makes three steps, offered 3, 2 and 1 bytes, and the library has taken `1, 2, 3`; a
`GzipDeflate` of three bytes against the byte-storing codec, which takes all it is offered,
leaves the state `Data` with the three bytes taken. -/
theorem input_cursor_by_consumed_witness :
    (∃ x, BzipImpl.Write (recorded (constNative 0 BZ_RUN_OK 1 [] true)) 4
        (Instance.active ((), [], [])) [1, 2, 3] 3 = .ok x ∧
      x.2.state_ = State.Data ∧ x.2.stream_.native.2.1 = [1, 2, 3] ∧
      x.2.stream_.log.map Call.availIn = [0, 3, 0, 2, 0, 1] ∧
      Fed (fun w => w.2.1) (Instance.active ((), [], [])) [1, 2, 3] 3 x) ∧
    (∃ x, Gzip.GzipDeflate (recorded (echoNative Z_OK Z_OK Z_STREAM_END)) 2
        (Instance.active ([], [], [])) [1, 2, 3] 3 = .ok x ∧
      x.2.state_ = State.Data ∧ x.2.stream_.native.2.1 = [1, 2, 3] ∧
      Fed (fun w => w.2.1) (Instance.active ([], [], [])) [1, 2, 3] 3 x) :=
  ⟨⟨_, rfl, rfl, rfl, rfl,
      (input_cursor_by_consumed (recorded (constNative 0 BZ_RUN_OK 1 [] true))
        (fun w => w.2.1) (fun w => w.2.2) (recorded_records _) 4
        (Instance.active ((), [], [])) [1, 2, 3] 3).1 _ rfl⟩,
    ⟨_, rfl, rfl, rfl,
      ((input_cursor_by_consumed (recorded (echoNative Z_OK Z_OK Z_STREAM_END))
        (fun w => w.2.1) (fun w => w.2.2) (recorded_records _) 2
        (Instance.active ([], [], [])) [1, 2, 3] 3).2.2
        (echoNative_draining Z_OK Z_OK Z_STREAM_END)).1 _ rfl⟩⟩

/-! ### The bytes stored and the bytes handed back -/

theorem itemised_items {σ : Type} (nat : Native σ) :
    Itemised (itemised nat) (fun w => w.2) :=
  ⟨fun _ => rfl, fun _ => rfl, fun _ _ => rfl, fun _ _ _ _ => rfl⟩

theorem stepCount_append (l l2 : List Call) :
    stepCount (l ++ l2) = stepCount l + stepCount l2 := by
  simp [stepCount, List.countP_append]

theorem stepCount_cons (c : Call) (l : List Call) :
    stepCount (c :: l) = stepCount l + (if c.isStep = true then 1 else 0) := by
  simp [stepCount, List.countP_cons]

theorem offsetsFollow_append (l2 : List Call) (cs2 : List (List Byte)) :
    ∀ (l : List Call) (cs : List (List Byte)) (s : Nat), cs.length = stepCount l →
      offsetsFollow s (l ++ l2) (cs ++ cs2) =
        (offsetsFollow s l cs && offsetsFollow (s + cs.flatten.length) l2 cs2) := by
  intro l
  induction l with
  | nil =>
    intro cs s h
    have : cs = [] := List.length_eq_zero.1 (by simpa [stepCount] using h)
    subst this
    simp [offsetsFollow]
  | cons c l ih =>
    intro cs s h
    rw [stepCount_cons] at h
    by_cases hc : c.isStep = true
    · rw [if_pos hc] at h
      cases cs with
      | nil => simp at h
      | cons ch cs =>
        simp only [List.length_cons, Nat.add_right_cancel_iff] at h
        simp only [List.cons_append, offsetsFollow, hc, if_true, List.append_eq, ih cs _ h,
          List.flatten_cons, List.length_append, Bool.and_assoc, Nat.add_assoc]
    · rw [if_neg hc, Nat.add_zero] at h
      simp only [List.cons_append, offsetsFollow, hc, Bool.false_eq_true, if_false,
        List.append_eq, ih cs s h]

theorem handedBack_append (a b : Int) (l2 : List Call) (cs2 : List (List Byte)) :
    ∀ (l : List Call) (cs : List (List Byte)), (∀ c ∈ l, c.accepted a b = true) →
      cs.length = stepCount l →
      handedBack a b (l ++ l2) (cs ++ cs2) = cs.flatten ++ handedBack a b l2 cs2 := by
  intro l
  induction l with
  | nil =>
    intro cs _ h
    have : cs = [] := List.length_eq_zero.1 (by simpa [stepCount] using h)
    subst this
    simp
  | cons c l ih =>
    intro cs hall h
    rw [stepCount_cons] at h
    have hl : ∀ c ∈ l, c.accepted a b = true := fun x hx => hall x (List.mem_cons_of_mem _ hx)
    by_cases hc : c.isStep = true
    · rw [if_pos hc] at h
      cases cs with
      | nil => simp at h
      | cons ch cs =>
        simp only [List.length_cons, Nat.add_right_cancel_iff] at h
        simp only [List.cons_append, handedBack, hc, if_true, hall c (List.mem_cons_self _ _),
          List.append_eq, ih cs hl h, List.flatten_cons, List.append_assoc]
    · rw [if_neg hc, Nat.add_zero] at h
      simp only [List.cons_append, handedBack, hc, Bool.false_eq_true, if_false,
        List.append_eq, ih cs hl h]

theorem handedBack_quiet (a b : Int) (cs : List (List Byte)) :
    ∀ l : List Call, (∀ d ∈ l, d.isStep = false) → handedBack a b l cs = [] := by
  intro l
  induction l with
  | nil => intro _; rfl
  | cons c l ih =>
    intro h
    simp only [handedBack, h c (List.mem_cons_self _ _), Bool.false_eq_true, if_false]
    exact ih fun d hd => h d (List.mem_cons_of_mem _ hd)

theorem offsetsFollow_quiet (s : Nat) (cs : List (List Byte)) :
    ∀ l : List Call, (∀ d ∈ l, d.isStep = false) → offsetsFollow s l cs = true := by
  intro l
  induction l with
  | nil => intro _; rfl
  | cons c l ih =>
    intro h
    simp only [offsetsFollow, h c (List.mem_cons_self _ _), Bool.false_eq_true, if_false]
    exact ih fun d hd => h d (List.mem_cons_of_mem _ hd)

theorem stepCount_quiet :
    ∀ l : List Call, (∀ d ∈ l, d.isStep = false) → stepCount l = 0 := by
  intro l h
  simp only [stepCount, List.countP_eq_zero]
  intro d hd
  simp [h d hd]

theorem filter_quiet : ∀ l : List Call, (∀ d ∈ l, d.isStep = false) →
    l.filter Call.isStep = [] := by
  intro l h
  simp only [List.filter_eq_nil_iff]
  intro d hd
  simp [h d hd]

theorem Tallied.empty (a b : Int) : Tallied a b [] [] [] 0 :=
  ⟨fun _ h => (nomatch h), rfl, rfl, rfl, Nat.le_refl _⟩

theorem Tallied.len_eq {a b : Int} {l : List Call} {cs : List (List Byte)} {mem : List Byte}
    {len : Nat} (h : Tallied a b l cs mem len) : len = cs.flatten.length := by
  obtain ⟨-, -, -, h4, h5⟩ := h
  rw [← h4, List.length_take]
  omega

/-- A call that is no step, after the calls tallied. -/
theorem Tallied.snoc_quiet {a b : Int} {l : List Call} {cs : List (List Byte)}
    {mem : List Byte} {len : Nat} (h : Tallied a b l cs mem len) (c : Call)
    (hc : c.isStep = false) : Tallied a b (l ++ [c]) cs mem len := by
  obtain ⟨h1, h2, h3, h4, h5⟩ := h
  refine ⟨?_, ?_, ?_, h4, h5⟩
  · intro x hx
    rcases List.mem_append.1 hx with hx | hx
    · exact h1 x hx
    · simp only [List.mem_singleton] at hx
      subst hx
      cases x <;> simp_all [Call.accepted, Call.isStep]
  · rw [stepCount_append, stepCount_cons, hc]
    simpa [stepCount] using h2
  · have := offsetsFollow_append [c] [] l cs 0 h2
    rw [List.append_nil] at this
    rw [this, h3, offsetsFollow_quiet _ _ _ (by simpa using hc)]
    rfl

/-- An accepted step that was offered the offset `len` and stored `p`, after the calls
tallied. -/
theorem Tallied.snoc_step {a b : Int} {l : List Call} {cs : List (List Byte)}
    {mem : List Byte} {len : Nat} (h : Tallied a b l cs mem len) (c : Call)
    (hc : c.isStep = true) (ha : c.accepted a b = true) (ho : c.offset = len)
    (p : List Byte) :
    Tallied a b (l ++ [c]) (cs ++ [p]) (writeAt mem len p) (len + p.length) := by
  have hlen := h.len_eq
  obtain ⟨h1, h2, h3, h4, h5⟩ := h
  refine ⟨?_, ?_, ?_, ?_, writeAt_length mem len p⟩
  · intro x hx
    rcases List.mem_append.1 hx with hx | hx
    · exact h1 x hx
    · simp only [List.mem_singleton] at hx
      subst hx
      exact ha
  · rw [stepCount_append, stepCount_cons, if_pos hc]
    simp [stepCount, h2]
  · rw [offsetsFollow_append [c] [p] l cs 0 h2, h3]
    simp [offsetsFollow, hc, ho, hlen]
  · rw [writeAt_take _ _ _ h5, h4]
    simp

/-- A store at the offset `len` leaves the first `len` bytes alone. -/
theorem Tallied.stored_after {a b : Int} {l : List Call} {cs : List (List Byte)}
    {mem : List Byte} {len : Nat} (h : Tallied a b l cs mem len) (p : List Byte) :
    Tallied a b l cs (writeAt mem len p) len := by
  obtain ⟨h1, h2, h3, h4, h5⟩ := h
  refine ⟨h1, h2, h3, ?_, ?_⟩
  · rw [writeAt_take_left _ _ _ h5, h4]
  · have := writeAt_length mem len p
    omega

theorem OutputPost.start (a b : Int) (log0 : List Call) (c0 : List (List Byte))
    (next : Bool) : OutputPost a b log0 c0 log0 c0 [] 0 next :=
  ⟨[], [], by simp, by simp, Or.inl (Tallied.empty a b)⟩

theorem OutputPost.tallied {a b : Int} {log0 log : List Call} {c0 now : List (List Byte)}
    {mem : List Byte} {len : Nat} (h : OutputPost a b log0 c0 log now mem len true) :
    ∃ l cs, log = log0 ++ l ∧ now = c0 ++ cs ∧ Tallied a b l cs mem len := by
  obtain ⟨l, cs, hl, hc, h | ⟨h, -⟩⟩ := h
  · exact ⟨l, cs, hl, hc, h⟩
  · cases h

theorem OutputPost.weaken {a b : Int} {log0 log : List Call} {c0 now : List (List Byte)}
    {mem : List Byte} {len : Nat} (h : OutputPost a b log0 c0 log now mem len true)
    (next : Bool) : OutputPost a b log0 c0 log now mem len next := by
  obtain ⟨l, cs, hl, hc, ht⟩ := h.tallied
  exact ⟨l, cs, hl, hc, Or.inl ht⟩

/-- A growth request, or a destroy call, after the last step: nothing changes on the output
side. -/
theorem OutputPost.snoc_call {a b : Int} {log0 log log2 : List Call}
    {c0 now : List (List Byte)} {mem : List Byte} {len : Nat} {next : Bool}
    (h : OutputPost a b log0 c0 log now mem len next) (c : Call) (hq : c.isStep = false)
    (e : log2 = log ++ [c]) : OutputPost a b log0 c0 log2 now mem len next := by
  obtain ⟨l, cs, hl, hc, h | ⟨hn, l1, cs1, x, ch, l2, e1, e2, ht, hx, hr, ho, hl2⟩⟩ := h
  · exact ⟨l ++ [c], cs, by rw [e, hl, List.append_assoc], hc, Or.inl (h.snoc_quiet c hq)⟩
  · refine ⟨l ++ [c], cs, by rw [e, hl, List.append_assoc], hc,
      Or.inr ⟨hn, l1, cs1, x, ch, l2 ++ [c], by rw [e1]; simp, e2, ht, hx, hr, ho, ?_⟩⟩
    intro d hd
    rcases List.mem_append.1 hd with hd | hd
    · exact hl2 d hd
    · simp only [List.mem_singleton] at hd
      subst hd
      exact hq

theorem Vars.GrowBy_items {σ : Type} {nat : Native σ} {chunks : σ → List (List Byte)}
    (hit : Itemised nat chunks) (v : Vars σ) (n : Nat) :
    chunks (v.GrowBy nat n).2.stream_.native = chunks v.stream_.native ∧
    (v.GrowBy nat n).2.out.mem = v.out.mem := by
  obtain ⟨-, -, -, -, -, -, h7, -⟩ := Vars.GrowBy_fields nat v n
  rw [Vars.GrowBy_native]
  exact ⟨hit.2.2.1 _ _, h7⟩

/-- What a step does to the buffer and to the itemised notebook: it stores some bytes `p`, at
most `ao`, at the offset it was offered, leaves `ao` minus their number as `avail_out`, and the
notebook gets `p` as a new entry. -/
theorem Vars.callStep_items {σ : Type} {nat : Native σ} {chunks : σ → List (List Byte)}
    (hit : Itemised nat chunks) (v : Vars σ) (f : Flush) (off ao : Nat) :
    ∃ p : List Byte, p.length ≤ ao ∧
      (v.callStep nat f off ao).2.1 = ao - p.length ∧
      (v.callStep nat f off ao).2.2.out.mem = writeAt v.out.mem off p ∧
      chunks (v.callStep nat f off ao).2.2.stream_.native = chunks v.stream_.native ++ [p] :=
  ⟨(nat.step v.stream_.native f (v.stream_.next_in.take v.stream_.avail_in)
      ao).1.produced.take ao, by simp, rfl, rfl, hit.2.2.2 _ _ _ _⟩

/-- One round of a loop: a growth request that succeeds and a step that is offered `ao`
bytes at the offset `len`.  When the step answers an accepted status, the bytes it stored
(`ao` minus the `avail_out` left) follow the `len` bytes tallied before; when it answers
another status, the tally stays at `len` and the step is recorded as rejected. -/
theorem Vars.round_output {σ : Type} {nat : Native σ} {chunks : σ → List (List Byte)}
    (hit : Itemised nat chunks) (a b : Int) (log0 : List Call) (c0 : List (List Byte))
    (v w : Vars σ) (n : Nat) (f : Flush) (len ao : Nat)
    (h : OutputPost a b log0 c0 v.stream_.log (chunks v.stream_.native) v.out.mem len true)
    (hn : w.stream_.native = (v.GrowBy nat n).2.stream_.native)
    (ho : w.out = (v.GrowBy nat n).2.out)
    (hl : w.stream_.log = (v.GrowBy nat n).2.stream_.log) :
    (((w.callStep nat f len ao).1 = a ∨ (w.callStep nat f len ao).1 = b) →
      OutputPost a b log0 c0 (w.callStep nat f len ao).2.2.stream_.log
        (chunks (w.callStep nat f len ao).2.2.stream_.native)
        (w.callStep nat f len ao).2.2.out.mem (len + (ao - (w.callStep nat f len ao).2.1))
        true) ∧
    ((w.callStep nat f len ao).1 ≠ a → (w.callStep nat f len ao).1 ≠ b →
      OutputPost a b log0 c0 (w.callStep nat f len ao).2.2.stream_.log
        (chunks (w.callStep nat f len ao).2.2.stream_.native)
        (w.callStep nat f len ao).2.2.out.mem len false) := by
  obtain ⟨l, cs, hlog, hnow, ht⟩ := h.tallied
  obtain ⟨hs, hm⟩ := Vars.GrowBy_items hit v n
  obtain ⟨p, hp, hao, hmem, hst⟩ := Vars.callStep_items hit w f len ao
  have hrl := Vars.round_log nat v w n f len ao hl
  rw [hn, hs, hnow, List.append_assoc] at hst
  rw [ho, hm] at hmem
  have hg := ht.snoc_quiet (Call.grow n (v.GrowBy nat n).1) rfl
  have e : len + (ao - (ao - p.length)) = len + p.length := by omega
  refine ⟨fun hacc => ⟨(l ++ [Call.grow n (v.GrowBy nat n).1]) ++
        [Call.step f w.stream_.avail_in len ao w.out.capacity (w.callStep nat f len ao).1],
      cs ++ [p], by rw [hrl, hlog]; simp, hst, Or.inl ?_⟩,
    fun ha hb => ⟨l ++ [Call.grow n (v.GrowBy nat n).1,
        Call.step f w.stream_.avail_in len ao w.out.capacity (w.callStep nat f len ao).1],
      cs ++ [p], by rw [hrl, hlog]; simp, hst,
      Or.inr ⟨rfl, l ++ [Call.grow n (v.GrowBy nat n).1], cs,
        Call.step f w.stream_.avail_in len ao w.out.capacity (w.callStep nat f len ao).1,
        p, [], by simp, rfl, ?_, rfl, ?_, rfl, fun _ h => (nomatch h)⟩⟩⟩
  · rw [hmem, hao, e]
    exact hg.snoc_step
      (Call.step f w.stream_.avail_in len ao w.out.capacity (w.callStep nat f len ao).1) rfl
      (by simpa [Call.accepted] using hacc) rfl p
  · rw [hmem]
    exact hg.stored_after p
  · simp only [Call.accepted, decide_eq_false_iff_not, not_or]
    exact ⟨ha, hb⟩

/-- A growth request that fails. -/
theorem Vars.grow_output {σ : Type} {nat : Native σ} {chunks : σ → List (List Byte)}
    (hit : Itemised nat chunks) (a b : Int) (log0 : List Call) (c0 : List (List Byte))
    (v : Vars σ) (n len : Nat) (next : Bool)
    (h : OutputPost a b log0 c0 v.stream_.log (chunks v.stream_.native) v.out.mem len true) :
    OutputPost a b log0 c0 (v.GrowBy nat n).2.stream_.log
      (chunks (v.GrowBy nat n).2.stream_.native) (v.GrowBy nat n).2.out.mem len next := by
  obtain ⟨hs, hm⟩ := Vars.GrowBy_items hit v n
  rw [hs, hm]
  exact (h.weaken next).snoc_call (Call.grow n (v.GrowBy nat n).1) rfl
    (Vars.GrowBy_fields nat v n).2.2.2.2.1

theorem Gzip.deflateInner_output {σ : Type} {nat : Native σ} {chunks : σ → List (List Byte)}
    (hit : Itemised nat chunks) (log0 : List Call) (c0 : List (List Byte)) (fuel : Nat)
    (v : Vars σ) (f : Flow σ)
    (h0 : OutputPost Z_OK Z_OK log0 c0 v.stream_.log (chunks v.stream_.native) v.out.mem
      v.out_len true)
    (h : Gzip.deflateInner nat fuel v = .ok f) :
    OutputPost Z_OK Z_OK log0 c0 f.vars.stream_.log (chunks f.vars.stream_.native)
      f.vars.out.mem f.vars.out_len f.isNext := by
  refine Gzip.deflateInner_rule nat
    (fun v => OutputPost Z_OK Z_OK log0 c0 v.stream_.log (chunks v.stream_.native) v.out.mem
      v.out_len true)
    (fun f => OutputPost Z_OK Z_OK log0 c0 f.vars.stream_.log (chunks f.vars.stream_.native)
      f.vars.out.mem f.vars.out_len f.isNext)
    ?_ ?_ fuel v f h0 h
  · intro v hP _
    have := Vars.grow_output hit Z_OK Z_OK log0 c0 v CHUNK v.out_len false hP
    simpa [Flow.vars, Flow.isNext, (Vars.GrowBy_fields nat v CHUNK).2.2.1] using this
  · intro v hP _ s hs _
    have e1 : (v.GrowBy nat CHUNK).2.out_len = v.out_len :=
      (Vars.GrowBy_fields nat v CHUNK).2.2.1
    have e2 := (Vars.callStep_fields nat (v.GrowBy nat CHUNK).2 Flush.run
      (v.GrowBy nat CHUNK).2.out_len CHUNK).2.2.1
    obtain ⟨hok, hbad⟩ := Vars.round_output hit Z_OK Z_OK log0 c0 v (v.GrowBy nat CHUNK).2
      CHUNK Flush.run (v.GrowBy nat CHUNK).2.out_len CHUNK (by rw [e1]; exact hP) rfl rfl rfl
    rw [← hs] at hok hbad e2
    refine ⟨fun hne => ?_, fun ha _ => ?_, fun ha _ => ?_⟩
    · have := hbad hne hne
      simpa [Flow.vars, Flow.isNext, e2] using this
    · simpa [Flow.vars, Flow.isNext, e2] using hok (Or.inl ha)
    · simpa [e2] using hok (Or.inl ha)

theorem Gzip.deflateOuter_output {σ : Type} {nat : Native σ} {chunks : σ → List (List Byte)}
    (hit : Itemised nat chunks) (inner : Nat) (log0 : List Call) (c0 : List (List Byte))
    (fuel : Nat) (data : List Byte) (n ret : Int) (v : Vars σ) (f : Flow σ)
    (h0 : OutputPost Z_OK Z_OK log0 c0 v.stream_.log (chunks v.stream_.native) v.out.mem
      v.out_len true)
    (h : Gzip.deflateOuter nat inner fuel data n ret v = .ok f) :
    OutputPost Z_OK Z_OK log0 c0 f.vars.stream_.log (chunks f.vars.stream_.native)
      f.vars.out.mem f.vars.out_len f.isNext := by
  refine Gzip.deflateOuter_rule nat inner
    (fun _ _ _ v => OutputPost Z_OK Z_OK log0 c0 v.stream_.log (chunks v.stream_.native)
      v.out.mem v.out_len true)
    (fun f => OutputPost Z_OK Z_OK log0 c0 f.vars.stream_.log (chunks f.vars.stream_.native)
      f.vars.out.mem f.vars.out_len f.isNext)
    ?_ ?_ ?_ fuel data n ret v f h0 h
  · intro _ _ _ v hP _
    exact hP
  · intro data n _ v r v2 hP _ hin
    have hp := fun a => Gzip.deflateInner_output hit log0 c0 inner _ _ a hin
    exact hp hP
  · intro data n _ v r v2 hP _ hin
    have hp := fun a => Gzip.deflateInner_output hit log0 c0 inner _ _ a hin
    exact hp hP

theorem Gzip.endLoop_output {σ : Type} {nat : Native σ} {chunks : σ → List (List Byte)}
    (hit : Itemised nat chunks) (log0 : List Call) (c0 : List (List Byte)) (fuel : Nat)
    (v : Vars σ) (r : Int × Vars σ)
    (h0 : OutputPost Z_OK Z_STREAM_END log0 c0 v.stream_.log (chunks v.stream_.native)
      v.out.mem v.out_len true)
    (h : Gzip.endLoop nat fuel v = .ok r) :
    OutputPost Z_OK Z_STREAM_END log0 c0 r.2.stream_.log (chunks r.2.stream_.native)
      r.2.out.mem r.2.out_len false := by
  refine Gzip.endLoop_rule nat
    (fun v => OutputPost Z_OK Z_STREAM_END log0 c0 v.stream_.log (chunks v.stream_.native)
      v.out.mem v.out_len true)
    (fun r => OutputPost Z_OK Z_STREAM_END log0 c0 r.2.stream_.log (chunks r.2.stream_.native)
      r.2.out.mem r.2.out_len false)
    ?_ ?_ fuel v r h0 h
  · intro v hP _
    have := Vars.grow_output hit Z_OK Z_STREAM_END log0 c0 v CHUNK v.out_len false hP
    simpa [(Vars.GrowBy_fields nat v CHUNK).2.2.1] using this
  · intro v hP _ s hs _
    have e1 : (v.GrowBy nat CHUNK).2.out_len = v.out_len :=
      (Vars.GrowBy_fields nat v CHUNK).2.2.1
    have e2 := (Vars.callStep_fields nat (v.GrowBy nat CHUNK).2 Flush.finish
      (v.GrowBy nat CHUNK).2.out_len CHUNK).2.2.1
    obtain ⟨hok, hbad⟩ := Vars.round_output hit Z_OK Z_STREAM_END log0 c0 v
      (v.GrowBy nat CHUNK).2 CHUNK Flush.finish (v.GrowBy nat CHUNK).2.out_len CHUNK
      (by rw [e1]; exact hP) rfl rfl rfl
    rw [← hs] at hok hbad e2
    refine ⟨fun h1 h2 => ?_, fun hb => ?_, fun ha => ?_⟩
    · have := hbad h1 h2
      simpa [e2] using this
    · simpa [e2] using (hok (Or.inr hb)).weaken false
    · simpa [e2] using hok (Or.inl ha)

/-- The teardown inside `GunzipInflate` changes nothing on the output side. -/
theorem Vars.GunzipEnd_output {σ : Type} {nat : Native σ} {chunks : σ → List (List Byte)}
    (hit : Itemised nat chunks) (a b : Int) (log0 : List Call) (c0 : List (List Byte))
    (v : Vars σ) (len : Nat) (next : Bool)
    (h : OutputPost a b log0 c0 v.stream_.log (chunks v.stream_.native) v.out.mem len next) :
    OutputPost a b log0 c0 (v.abort.GunzipEnd nat).stream_.log
      (chunks (v.abort.GunzipEnd nat).stream_.native) (v.abort.GunzipEnd nat).out.mem len
      next := by
  by_cases hi : v.t.orig = State.Idle
  · simpa [Vars.GunzipEnd, Gunzip.GunzipEnd, Vars.abort, Transition.abort, hi] using h
  · have hd := hit.2.1 v.stream_.native
    have := h.snoc_call (Call.destroy v.stream_.allocated) rfl rfl
    simpa [Vars.GunzipEnd, Gunzip.GunzipEnd, Vars.abort, Transition.abort, hi,
      Stream.callDestroy, hd] using this

theorem Gunzip.inflateInner_output {σ : Type} {nat : Native σ} {chunks : σ → List (List Byte)}
    (hit : Itemised nat chunks) (log0 : List Call) (c0 : List (List Byte)) (fuel : Nat)
    (v : Vars σ) (f : Flow σ)
    (h0 : OutputPost Z_OK Z_STREAM_END log0 c0 v.stream_.log (chunks v.stream_.native)
      v.out.mem v.out_len true)
    (h : Gunzip.inflateInner nat fuel v = .ok f) :
    OutputPost Z_OK Z_STREAM_END log0 c0 f.vars.stream_.log (chunks f.vars.stream_.native)
      f.vars.out.mem f.vars.out_len f.isNext := by
  refine Gunzip.inflateInner_rule nat
    (fun v => OutputPost Z_OK Z_STREAM_END log0 c0 v.stream_.log (chunks v.stream_.native)
      v.out.mem v.out_len true)
    (fun f => OutputPost Z_OK Z_STREAM_END log0 c0 f.vars.stream_.log
      (chunks f.vars.stream_.native) f.vars.out.mem f.vars.out_len f.isNext)
    ?_ ?_ fuel v f h0 h
  · intro v hP _
    have := Vars.grow_output hit Z_OK Z_STREAM_END log0 c0 v CHUNK v.out_len false hP
    simpa [Flow.vars, Flow.isNext, (Vars.GrowBy_fields nat v CHUNK).2.2.1] using this
  · intro v hP _ s hs _
    have e1 : (v.GrowBy nat CHUNK).2.out_len = v.out_len :=
      (Vars.GrowBy_fields nat v CHUNK).2.2.1
    have e2 := (Vars.callStep_fields nat (v.GrowBy nat CHUNK).2 Flush.run
      (v.GrowBy nat CHUNK).2.out_len CHUNK).2.2.1
    obtain ⟨hok, hbad⟩ := Vars.round_output hit Z_OK Z_STREAM_END log0 c0 v
      (v.GrowBy nat CHUNK).2 CHUNK Flush.run (v.GrowBy nat CHUNK).2.out_len CHUNK
      (by rw [e1]; exact hP) rfl rfl rfl
    rw [← hs] at hok hbad e2
    refine ⟨fun hf => ?_, fun _ h1 h2 => ?_, fun hb => ?_, fun ha _ => ?_, fun ha _ => ?_⟩
    · have h1 : s.1 ≠ Z_OK := by rcases hf with e | e | e <;> rw [e] <;> decide
      have h2 : s.1 ≠ Z_STREAM_END := by rcases hf with e | e | e <;> rw [e] <;> decide
      have := Vars.GunzipEnd_output hit Z_OK Z_STREAM_END log0 c0 s.2.2 _ false (hbad h1 h2)
      have e3 : (s.2.2.abort.GunzipEnd nat).out_len = s.2.2.out_len := rfl
      simpa [Flow.vars, Flow.isNext, e3, e2] using this
    · have := hbad h1 h2
      simpa [Flow.vars, Flow.isNext, e2] using this
    · simpa [Flow.vars, Flow.isNext, e2] using (hok (Or.inr hb)).weaken false
    · simpa [Flow.vars, Flow.isNext, e2] using hok (Or.inl ha)
    · simpa [e2] using hok (Or.inl ha)

theorem Gunzip.inflateOuter_output {σ : Type} {nat : Native σ} {chunks : σ → List (List Byte)}
    (hit : Itemised nat chunks) (inner : Nat) (log0 : List Call) (c0 : List (List Byte))
    (fuel : Nat) (data : List Byte) (n ret : Int) (v : Vars σ) (f : Flow σ)
    (h0 : OutputPost Z_OK Z_STREAM_END log0 c0 v.stream_.log (chunks v.stream_.native)
      v.out.mem v.out_len true)
    (h : Gunzip.inflateOuter nat inner fuel data n ret v = .ok f) :
    OutputPost Z_OK Z_STREAM_END log0 c0 f.vars.stream_.log (chunks f.vars.stream_.native)
      f.vars.out.mem f.vars.out_len f.isNext := by
  refine Gunzip.inflateOuter_rule nat inner
    (fun _ _ _ v => OutputPost Z_OK Z_STREAM_END log0 c0 v.stream_.log
      (chunks v.stream_.native) v.out.mem v.out_len true)
    (fun f => OutputPost Z_OK Z_STREAM_END log0 c0 f.vars.stream_.log
      (chunks f.vars.stream_.native) f.vars.out.mem f.vars.out_len f.isNext)
    ?_ ?_ ?_ fuel data n ret v f h0 h
  · intro _ _ _ v hP _
    exact hP
  · intro data n _ v r v2 hP _ hin
    have hp := fun a => Gunzip.inflateInner_output hit log0 c0 inner _ _ a hin
    exact hp hP
  · intro data n _ v r v2 hP _ hin
    have hp := fun a => Gunzip.inflateInner_output hit log0 c0 inner _ _ a hin
    exact hp hP

theorem BzipImpl.bzip_writeLoop_output {σ : Type} {nat : Native σ}
    {chunks : σ → List (List Byte)}
    (hit : Itemised nat chunks) (log0 : List Call) (c0 : List (List Byte))
    (fuel : Nat) (data : List Byte) (n ret : Int) (v : Vars σ) (f : Flow σ)
    (h0 : OutputPost BZ_RUN_OK BZ_RUN_OK log0 c0 v.stream_.log (chunks v.stream_.native)
      v.out.mem v.out.length true)
    (h : BzipImpl.writeLoop nat fuel data n ret v = .ok f) :
    OutputPost BZ_RUN_OK BZ_RUN_OK log0 c0 f.vars.stream_.log (chunks f.vars.stream_.native)
      f.vars.out.mem f.vars.out.length f.isNext := by
  refine BzipImpl.bzip_writeLoop_rule nat
    (fun _ _ _ v => OutputPost BZ_RUN_OK BZ_RUN_OK log0 c0 v.stream_.log
      (chunks v.stream_.native) v.out.mem v.out.length true)
    (fun f => OutputPost BZ_RUN_OK BZ_RUN_OK log0 c0 f.vars.stream_.log
      (chunks f.vars.stream_.native) f.vars.out.mem f.vars.out.length f.isNext)
    ?_ ?_ ?_ fuel data n ret v f h0 h
  · intro _ _ _ v hP _
    exact hP
  · intro _ n _ v hP _ _
    have := Vars.grow_output hit BZ_RUN_OK BZ_RUN_OK log0 c0 v (n + 1).toNat v.out.length
      false hP
    simpa [Flow.vars, Flow.isNext, (Vars.GrowBy_fields nat v _).2.2.2.2.2.1] using this
  · intro data n _ v hP _ _ s hs _
    have e1 : (v.GrowBy nat (n + 1).toNat).2.out.length = v.out.length :=
      (Vars.GrowBy_fields nat v _).2.2.2.2.2.1
    have e2 := (Vars.callStep_fields nat { (v.GrowBy nat (n + 1).toNat).2 with
        stream_ := { (v.GrowBy nat (n + 1).toNat).2.stream_ with
          next_in := data, avail_in := n.toNat } } Flush.run
      (v.GrowBy nat (n + 1).toNat).2.out.length (n + 1).toNat).2.2.2.2.2.1
    obtain ⟨hok, hbad⟩ := Vars.round_output hit BZ_RUN_OK BZ_RUN_OK log0 c0 v
      { (v.GrowBy nat (n + 1).toNat).2 with
        stream_ := { (v.GrowBy nat (n + 1).toNat).2.stream_ with
          next_in := data, avail_in := n.toNat } } (n + 1).toNat Flush.run
      (v.GrowBy nat (n + 1).toNat).2.out.length (n + 1).toNat
      (by rw [e1]; exact hP) rfl rfl rfl
    rw [← hs] at hok hbad e2
    simp only at e2
    refine ⟨fun hne => ?_, fun ha => ?_⟩
    · have := hbad hne hne
      simpa [Flow.vars, Flow.isNext, e2] using this
    · simpa [ScopedOutputBuffer.IncreaseLengthBy, e2] using hok (Or.inl ha)

theorem BzipImpl.BzipEndWithData_output {σ : Type} {nat : Native σ}
    {chunks : σ → List (List Byte)} (hit : Itemised nat chunks) (log0 : List Call)
    (c0 : List (List Byte)) (fuel : Nat) (v : Vars σ) (r : Int × Vars σ)
    (h0 : OutputPost BZ_FINISH_OK BZ_STREAM_END log0 c0 v.stream_.log
      (chunks v.stream_.native) v.out.mem v.out.length true)
    (h : BzipImpl.BzipEndWithData nat fuel v = .ok r) :
    OutputPost BZ_FINISH_OK BZ_STREAM_END log0 c0 r.2.stream_.log
      (chunks r.2.stream_.native) r.2.out.mem r.2.out.length false := by
  refine BzipImpl.BzipEndWithData_rule nat
    (fun v => OutputPost BZ_FINISH_OK BZ_STREAM_END log0 c0 v.stream_.log
      (chunks v.stream_.native) v.out.mem v.out.length true)
    (fun r => OutputPost BZ_FINISH_OK BZ_STREAM_END log0 c0 r.2.stream_.log
      (chunks r.2.stream_.native) r.2.out.mem r.2.out.length false)
    ?_ ?_ fuel v r h0 h
  · intro v hP _
    have := Vars.grow_output hit BZ_FINISH_OK BZ_STREAM_END log0 c0 v 128 v.out.length
      false hP
    simpa [(Vars.GrowBy_fields nat v _).2.2.2.2.2.1] using this
  · intro v hP _ s hs _
    have e1 : (v.GrowBy nat 128).2.out.length = v.out.length :=
      (Vars.GrowBy_fields nat v _).2.2.2.2.2.1
    have e2 := (Vars.callStep_fields nat (v.GrowBy nat 128).2 Flush.finish
      (v.GrowBy nat 128).2.out.length 128).2.2.2.2.2.1
    obtain ⟨hok, hbad⟩ := Vars.round_output hit BZ_FINISH_OK BZ_STREAM_END log0 c0 v
      (v.GrowBy nat 128).2 128 Flush.finish (v.GrowBy nat 128).2.out.length 128
      (by rw [e1]; exact hP) rfl rfl rfl
    rw [← hs] at hok hbad e2
    refine ⟨fun h1 h2 => ?_, fun hb => ?_, fun ha => ?_⟩
    · have := hbad h1 h2
      simpa [e2] using this
    · simpa [ScopedOutputBuffer.IncreaseLengthBy, e2] using (hok (Or.inr hb)).weaken false
    · simpa [ScopedOutputBuffer.IncreaseLengthBy, e2] using hok (Or.inl ha)

theorem BunzipImpl.bunzip_writeLoop_output {σ : Type} {nat : Native σ}
    {chunks : σ → List (List Byte)}
    (hit : Itemised nat chunks) (log0 : List Call) (c0 : List (List Byte))
    (fuel : Nat) (data : List Byte) (n ret : Int) (v : Vars σ) (f : Flow σ)
    (h0 : OutputPost BZ_OK BZ_STREAM_END log0 c0 v.stream_.log (chunks v.stream_.native)
      v.out.mem v.out.length true)
    (h : BunzipImpl.writeLoop nat fuel data n ret v = .ok f) :
    OutputPost BZ_OK BZ_STREAM_END log0 c0 f.vars.stream_.log (chunks f.vars.stream_.native)
      f.vars.out.mem f.vars.out.length f.isNext := by
  refine BunzipImpl.bunzip_writeLoop_rule nat
    (fun _ _ _ v => OutputPost BZ_OK BZ_STREAM_END log0 c0 v.stream_.log
      (chunks v.stream_.native) v.out.mem v.out.length true)
    (fun f => OutputPost BZ_OK BZ_STREAM_END log0 c0 f.vars.stream_.log
      (chunks f.vars.stream_.native) f.vars.out.mem f.vars.out.length f.isNext)
    ?_ ?_ ?_ fuel data n ret v f h0 h
  · intro _ _ _ v hP _
    exact hP
  · intro _ n _ v hP _ _
    have := Vars.grow_output hit BZ_OK BZ_STREAM_END log0 c0 v n.toNat v.out.length
      false hP
    simpa [Flow.vars, Flow.isNext, (Vars.GrowBy_fields nat v _).2.2.2.2.2.1] using this
  · intro data n _ v hP _ _ s hs _
    have e1 : (v.GrowBy nat n.toNat).2.out.length = v.out.length :=
      (Vars.GrowBy_fields nat v _).2.2.2.2.2.1
    have e2 := (Vars.callStep_fields nat { (v.GrowBy nat n.toNat).2 with
        stream_ := { (v.GrowBy nat n.toNat).2.stream_ with
          next_in := data, avail_in := n.toNat } } Flush.run
      (v.GrowBy nat n.toNat).2.out.length n.toNat).2.2.2.2.2.1
    obtain ⟨hok, hbad⟩ := Vars.round_output hit BZ_OK BZ_STREAM_END log0 c0 v
      { (v.GrowBy nat n.toNat).2 with
        stream_ := { (v.GrowBy nat n.toNat).2.stream_ with
          next_in := data, avail_in := n.toNat } } n.toNat Flush.run
      (v.GrowBy nat n.toNat).2.out.length n.toNat
      (by rw [e1]; exact hP) rfl rfl rfl
    rw [← hs] at hok hbad e2
    simp only at e2
    refine ⟨fun h1 h2 => ?_, fun hb => ?_, fun ha => ?_⟩
    · have := hbad h1 h2
      simpa [Flow.vars, Flow.isNext, e2] using this
    · simpa [Flow.vars, Flow.isNext, ScopedOutputBuffer.IncreaseLengthBy, e2] using
        (hok (Or.inr hb)).weaken false
    · simpa [ScopedOutputBuffer.IncreaseLengthBy, e2] using hok (Or.inl ha)

/-- What a loop established, read at the end of the call: the calls made and the entries
stored during the call, the shape of the history, and the bytes handed back. -/
theorem Handed.of_post {σ : Type} {a b : Int} {chunks : σ → List (List Byte)}
    {g : Instance σ} {x : Result × Instance σ} (mem : List Byte) (len : Nat) (next : Bool)
    (h : OutputPost a b g.stream_.log (chunks g.stream_.native) x.2.stream_.log
      (chunks x.2.stream_.native) mem len next)
    (ho : x.1.output = mem.take len) :
    ∃ l cs, During chunks g x l cs ∧ Handed a b l cs x.1.output len ∧
      x.1.output = handedBack a b l cs := by
  obtain ⟨l, cs, hl, hc, ht | ⟨-, l1, cs1, c, ch, l2, e1, e2, ht, hstep, hrej, hoff, hq⟩⟩ :=
    h
  · have hlen := ht.len_eq
    obtain ⟨h1, h2, h3, h4, h5⟩ := ht
    have hb : handedBack a b l cs = cs.flatten := by
      have := handedBack_append a b [] [] l cs h1 h2
      simpa [handedBack] using this
    refine ⟨l, cs, ⟨hl, hc⟩, ⟨h2, ?_, h3, by rw [hb, hlen], fun _ => by rw [ho, hb, h4]⟩,
      by rw [ho, hb, h4]⟩
    intro y hy
    exact h1 y (List.mem_of_mem_filter (List.mem_of_mem_dropLast hy))
  · have hlen := ht.len_eq
    obtain ⟨h1, h2, h3, h4, h5⟩ := ht
    have hb : handedBack a b l cs = cs1.flatten := by
      rw [e1, e2, handedBack_append a b (c :: l2) [ch] l1 cs1 h1 h2]
      simp [handedBack, hstep, hrej]
    refine ⟨l, cs, ⟨hl, hc⟩, ⟨?_, ?_, ?_, by rw [hb, hlen], fun _ => by rw [ho, hb, h4]⟩,
      by rw [ho, hb, h4]⟩
    · rw [e1, e2, stepCount_append, stepCount_cons, if_pos hstep, stepCount_quiet l2 hq]
      simp [h2]
    · rw [e1, List.filter_append, List.filter_cons_of_pos hstep, filter_quiet l2 hq,
        List.dropLast_concat]
      intro y hy
      exact h1 y (List.mem_of_mem_filter hy)
    · rw [e1, e2, offsetsFollow_append (c :: l2) [ch] l1 cs1 0 h2, h3]
      simp [offsetsFollow, hstep, hoff, hlen, offsetsFollow_quiet _ _ l2 hq]

theorem Handed.untouched {σ : Type} (a b : Int) (chunks : σ → List (List Byte))
    (g : Instance σ) (ret : Int) :
    ∃ l cs, During chunks g (g.early ret) l cs ∧
      Handed a b l cs (g.early ret).1.output 0 ∧
      (g.early ret).1.output = handedBack a b l cs :=
  ⟨[], [], ⟨by simp [Instance.early], by simp [Instance.early]⟩,
    ⟨rfl, fun _ h => (nomatch h), rfl, rfl, fun _ => rfl⟩, rfl⟩

theorem Gzip.GzipDeflate_handed {σ : Type} {nat : Native σ} {chunks : σ → List (List Byte)}
    (hit : Itemised nat chunks) (fuel : Nat) (g : Instance σ) (data : List Byte)
    (data_len : Int) (x : Result × Instance σ)
    (hx : Gzip.GzipDeflate nat fuel g data data_len = .ok x) :
    ∃ l cs, During chunks g x l cs ∧ Handed Z_OK Z_OK l cs x.1.output x.1.out_len ∧
      x.1.output = handedBack Z_OK Z_OK l cs := by
  unfold Gzip.GzipDeflate at hx
  by_cases hs : g.state_ ≠ State.Data
  · rw [if_pos hs] at hx
    cases hx
    exact Handed.untouched _ _ _ _ _
  · rw [if_neg hs] at hx
    have h0 := OutputPost.start Z_OK Z_OK g.stream_.log (chunks g.stream_.native) true
    split at hx
    · cases hx
    · rename_i r v hv
      cases hx
      exact Handed.of_post _ _ _ (Gzip.deflateOuter_output hit fuel _ _ fuel data data_len _ _ _
        h0 hv) rfl
    · rename_i r v hv
      cases hx
      exact Handed.of_post _ _ _ (Gzip.deflateOuter_output hit fuel _ _ fuel data data_len _ _ _
        h0 hv) rfl

theorem Gunzip.GunzipInflate_handed {σ : Type} {nat : Native σ} {chunks : σ → List (List Byte)}
    (hit : Itemised nat chunks) (fuel : Nat) (g : Instance σ) (data : List Byte)
    (data_len : Int) (x : Result × Instance σ)
    (hx : Gunzip.GunzipInflate nat fuel g data data_len = .ok x) :
    ∃ l cs, During chunks g x l cs ∧ Handed Z_OK Z_STREAM_END l cs x.1.output x.1.out_len ∧
      x.1.output = handedBack Z_OK Z_STREAM_END l cs := by
  unfold Gunzip.GunzipInflate at hx
  by_cases he : g.state_ = State.Eos
  · rw [if_pos he] at hx
    cases hx
    exact Handed.untouched _ _ _ _ _
  rw [if_neg he] at hx
  by_cases hs : g.state_ ≠ State.Data
  · rw [if_pos hs] at hx
    cases hx
    exact Handed.untouched _ _ _ _ _
  · rw [if_neg hs] at hx
    have h0 := OutputPost.start Z_OK Z_STREAM_END g.stream_.log (chunks g.stream_.native) true
    split at hx
    · cases hx
    · rename_i r v hv
      cases hx
      exact Handed.of_post _ _ _ (Gunzip.inflateOuter_output hit fuel _ _ fuel data data_len _ _ _
        h0 hv) rfl
    · rename_i r v hv
      cases hx
      exact Handed.of_post _ _ _ (Gunzip.inflateOuter_output hit fuel _ _ fuel data data_len _ _ _
        h0 hv) rfl

theorem BzipImpl.bzip_Write_handed {σ : Type} {nat : Native σ} {chunks : σ → List (List Byte)}
    (hit : Itemised nat chunks) (fuel : Nat) (g : Instance σ) (data : List Byte)
    (data_len : Int) (x : Result × Instance σ)
    (hx : BzipImpl.Write nat fuel g data data_len = .ok x) :
    ∃ l cs, During chunks g x l cs ∧
      Handed BZ_RUN_OK BZ_RUN_OK l cs x.1.output x.1.out.length ∧
      x.1.output = handedBack BZ_RUN_OK BZ_RUN_OK l cs := by
  unfold BzipImpl.Write at hx
  by_cases hs : g.state_ ≠ State.Data
  · rw [if_pos hs] at hx
    cases hx
    exact Handed.untouched _ _ _ _ _
  · rw [if_neg hs] at hx
    have h0 := OutputPost.start BZ_RUN_OK BZ_RUN_OK g.stream_.log (chunks g.stream_.native)
      true
    split at hx
    · cases hx
    · rename_i r v hv
      cases hx
      exact Handed.of_post _ _ _ (BzipImpl.bzip_writeLoop_output hit _ _ fuel data data_len _ _ _
        h0 hv) rfl
    · rename_i r v hv
      cases hx
      exact Handed.of_post _ _ _ (BzipImpl.bzip_writeLoop_output hit _ _ fuel data data_len _ _ _
        h0 hv) rfl

theorem BunzipImpl.bunzip_Write_handed {σ : Type} {nat : Native σ}
    {chunks : σ → List (List Byte)}
    (hit : Itemised nat chunks) (fuel : Nat) (g : Instance σ) (data : List Byte)
    (data_len : Int) (x : Result × Instance σ)
    (hx : BunzipImpl.Write nat fuel g data data_len = .ok x) :
    ∃ l cs, During chunks g x l cs ∧
      Handed BZ_OK BZ_STREAM_END l cs x.1.output x.1.out.length ∧
      x.1.output = handedBack BZ_OK BZ_STREAM_END l cs := by
  unfold BunzipImpl.Write at hx
  by_cases he : g.state_ = State.Eos
  · rw [if_pos he] at hx
    cases hx
    exact Handed.untouched _ _ _ _ _
  rw [if_neg he] at hx
  by_cases hs : g.state_ ≠ State.Data
  · rw [if_pos hs] at hx
    cases hx
    exact Handed.untouched _ _ _ _ _
  · rw [if_neg hs] at hx
    have h0 := OutputPost.start BZ_OK BZ_STREAM_END g.stream_.log (chunks g.stream_.native)
      true
    split at hx
    · cases hx
    · rename_i r v hv
      cases hx
      exact Handed.of_post _ _ _ (BunzipImpl.bunzip_writeLoop_output hit _ _ fuel data
        data_len _ _ _ h0 hv) rfl
    · rename_i r v hv
      cases hx
      exact Handed.of_post _ _ _ (BunzipImpl.bunzip_writeLoop_output hit _ _ fuel data
        data_len _ _ _ h0 hv) rfl

theorem OutputPost.destroyed {σ : Type} {nat : Native σ} {chunks : σ → List (List Byte)}
    (hit : Itemised nat chunks) {a b : Int} {log0 : List Call} {c0 : List (List Byte)}
    {mem : List Byte}
    {len : Nat} {next : Bool} (s : Stream σ)
    (h : OutputPost a b log0 c0 s.log (chunks s.native) mem len next) :
    OutputPost a b log0 c0 (s.callDestroy nat).log (chunks (s.callDestroy nat).native) mem len
      next := by
  have hd := hit.2.1 s.native
  have := h.snoc_call (Call.destroy s.allocated) rfl rfl
  simpa [Stream.callDestroy, hd] using this

theorem Gzip.GzipEnd_handed {σ : Type} {nat : Native σ} {chunks : σ → List (List Byte)}
    (hit : Itemised nat chunks) (fuel : Nat) (g : Instance σ)
    (x : Result × Instance σ) (hx : Gzip.GzipEnd nat fuel g = .ok x) :
    ∃ l cs, During chunks g x l cs ∧ Handed Z_OK Z_STREAM_END l cs x.1.output x.1.out_len ∧
      x.1.output = handedBack Z_OK Z_STREAM_END l cs := by
  unfold Gzip.GzipEnd at hx
  by_cases hi : g.state_ = State.Idle
  · rw [if_pos hi] at hx
    cases hx
    exact Handed.untouched _ _ _ _ _
  rw [if_neg hi] at hx
  by_cases ha : ¬ (g.state_ = State.Data ∨ g.state_ = State.Error)
  · rw [if_pos ha] at hx
    cases hx
  rw [if_neg ha] at hx
  simp only at hx
  have h0 := OutputPost.start Z_OK Z_STREAM_END g.stream_.log (chunks g.stream_.native) true
  by_cases hd : (Vars.enter g State.Idle).state_ = State.Data
  · rw [if_pos hd] at hx
    split at hx
    · cases hx
    · rename_i r hr
      cases hx
      unfold Gzip.GzipEndWithData at hr
      have hp := fun a => Gzip.endLoop_output hit g.stream_.log (chunks g.stream_.native) fuel
        _ _ a hr
      exact Handed.of_post _ _ _ (OutputPost.destroyed hit _ (hp h0)) rfl
  · rw [if_neg hd] at hx
    cases hx
    exact Handed.of_post _ _ _ (OutputPost.destroyed hit _ h0) rfl

theorem BzipImpl.Close_handed {σ : Type} {nat : Native σ} {chunks : σ → List (List Byte)}
    (hit : Itemised nat chunks) (fuel : Nat) (g : Instance σ)
    (x : Result × Instance σ) (hx : BzipImpl.Close nat fuel g = .ok x) :
    ∃ l cs, During chunks g x l cs ∧
      Handed BZ_FINISH_OK BZ_STREAM_END l cs x.1.output x.1.out.length ∧
      x.1.output = handedBack BZ_FINISH_OK BZ_STREAM_END l cs := by
  unfold BzipImpl.Close at hx
  by_cases hi : g.state_ = State.Idle
  · rw [if_pos hi] at hx
    cases hx
    exact Handed.untouched _ _ _ _ _
  rw [if_neg hi] at hx
  by_cases ha : ¬ (g.state_ = State.Data ∨ g.state_ = State.Error)
  · rw [if_pos ha] at hx
    cases hx
  rw [if_neg ha] at hx
  simp only at hx
  have h0 := OutputPost.start BZ_FINISH_OK BZ_STREAM_END g.stream_.log
    (chunks g.stream_.native) true
  by_cases hd : (Vars.enter g State.Error).state_ = State.Data
  · rw [if_pos hd] at hx
    split at hx
    · cases hx
    · rename_i r hr
      cases hx
      have hp := BzipImpl.BzipEndWithData_output hit g.stream_.log (chunks g.stream_.native)
        fuel _ _ h0 hr
      have hne : r.2.t.orig ≠ State.Idle := by
        obtain ⟨l, ⟨ht, _, _, _⟩, _⟩ := BzipImpl.BzipEndWithData_steps nat _ _ _ hr
        rw [ht]
        simpa [Vars.enter, Transition.start] using hi
      have := OutputPost.destroyed hit r.2.stream_ hp
      refine Handed.of_post r.2.out.mem r.2.out.length false ?_ ?_
      · simpa [Vars.exitBzip, Vars.BzipDestroy, BzipImpl.Destroy, Vars.abort,
          Transition.abort, hne] using this
      · simp [Vars.exitBzip, Vars.BzipDestroy, Vars.abort]
  · rw [if_neg hd] at hx
    cases hx
    have := OutputPost.destroyed hit g.stream_ h0
    refine Handed.of_post [] 0 true ?_ ?_
    · simpa [Vars.exitBzip, Vars.BzipDestroy, BzipImpl.Destroy, Vars.abort,
        Transition.abort, Vars.enter, Transition.start, hi] using this
    · simp [Vars.exitBzip, Vars.BzipDestroy, Vars.abort, Vars.enter,
        ScopedOutputBuffer.empty]

/-! ### Libraries that reach the end of the stream, or an error -/

theorem Ending.grows {σ : Type} {nat : Native σ} {ok fin : Int} {k : Nat} {w : σ}
    (h : Ending nat ok fin k w) (m : Nat) : (nat.grow w m).1 = true := by
  cases k with
  | zero => exact (h m [] 0).1
  | succ k => exact (h m [] 0).1

theorem Vars.GrowBy_ok {σ : Type} (nat : Native σ) (v : Vars σ) (n : Nat) :
    (v.GrowBy nat n).1 = (nat.grow v.stream_.native n).1 := by
  cases h : (nat.grow v.stream_.native n).1 <;> simp [Vars.GrowBy, h]

/-- The round in which the library answers `fin`. -/
theorem Ending.round_last {σ : Type} {nat : Native σ} {ok fin : Int} (v w : Vars σ)
    (m off ao : Nat) (he : Ending nat ok fin 0 v.stream_.native)
    (hn : w.stream_.native = (v.GrowBy nat m).2.stream_.native) :
    (w.callStep nat Flush.run off ao).1 = fin := by
  rw [(Vars.callStep_native nat w Flush.run off ao).1, hn, Vars.GrowBy_native]
  exact (he _ _ _).2

/-- A round before the library answers `fin`. -/
theorem Ending.round_more {σ : Type} {nat : Native σ} {ok fin : Int} {k : Nat} (v w : Vars σ)
    (m off ao : Nat) (he : Ending nat ok fin (k + 1) v.stream_.native)
    (hn : w.stream_.native = (v.GrowBy nat m).2.stream_.native) :
    (w.callStep nat Flush.run off ao).1 = ok ∧
    Ending nat ok fin k (w.callStep nat Flush.run off ao).2.2.stream_.native := by
  rw [(Vars.callStep_native nat w Flush.run off ao).1,
    (Vars.callStep_native nat w Flush.run off ao).2.1, hn, Vars.GrowBy_native]
  exact (he _ _ _).2

/-- The loop of `BunzipImpl::Write` returns against a library that is `k` progressing steps
away from answering `fin` (the end of its stream, or an error), for every fuel above `k`, with
`BZ_OK` or `fin`. -/
theorem BunzipImpl.bunzip_writeLoop_ends {σ : Type} (nat : Native σ) (fin : Int)
    (hf1 : fin ≠ BZ_OK) (hf2 : fin ≠ BZ_SEQUENCE_ERROR) :
    ∀ (k fuel : Nat) (data : List Byte) (n ret : Int) (v : Vars σ),
      Ending nat BZ_OK fin k v.stream_.native → k < fuel → ret = BZ_OK →
      ∃ f, BunzipImpl.writeLoop nat fuel data n ret v = .ok f ∧
        (f.ret = BZ_OK ∨ f.ret = fin) := by
  intro k
  induction k with
  | zero =>
    intro fuel data n ret v he hk hr
    obtain ⟨fuel, rfl⟩ : ∃ j, fuel = j + 1 := ⟨fuel - 1, by omega⟩
    unfold BunzipImpl.writeLoop
    by_cases h1 : n > 0
    · rw [if_pos h1]
      simp only
      have hg : (v.GrowBy nat n.toNat).1 = true := by
        rw [Vars.GrowBy_ok]; exact he.grows _
      rw [if_neg (by rw [hg]; decide)]
      have hn := Ending.round_last v { (v.GrowBy nat n.toNat).2 with
          stream_ := { (v.GrowBy nat n.toNat).2.stream_ with
            next_in := data, avail_in := n.toNat } } n.toNat
        (v.GrowBy nat n.toNat).2.out.length n.toNat he rfl
      generalize Vars.callStep nat { (v.GrowBy nat n.toNat).2 with
          stream_ := { (v.GrowBy nat n.toNat).2.stream_ with
            next_in := data, avail_in := n.toNat } } Flush.run
        (v.GrowBy nat n.toNat).2.out.length n.toNat = s at hn ⊢
      rw [if_neg (by rw [hn]; exact hf2)]
      by_cases hend : s.1 = BZ_STREAM_END
      · rw [if_neg (fun h => h.2 hend), if_pos hend]
        exact ⟨_, rfl, Or.inr hn⟩
      · rw [if_pos ⟨by rw [hn]; exact hf1, hend⟩]
        exact ⟨_, rfl, Or.inr hn⟩
    · rw [if_neg h1]
      exact ⟨_, rfl, Or.inl hr⟩
  | succ k ih =>
    intro fuel data n ret v he hk hr
    obtain ⟨fuel, rfl⟩ : ∃ j, fuel = j + 1 := ⟨fuel - 1, by omega⟩
    unfold BunzipImpl.writeLoop
    by_cases h1 : n > 0
    · rw [if_pos h1]
      simp only
      have hg : (v.GrowBy nat n.toNat).1 = true := by
        rw [Vars.GrowBy_ok]; exact he.grows _
      rw [if_neg (by rw [hg]; decide)]
      obtain ⟨hn, hnext⟩ := Ending.round_more v { (v.GrowBy nat n.toNat).2 with
          stream_ := { (v.GrowBy nat n.toNat).2.stream_ with
            next_in := data, avail_in := n.toNat } } n.toNat
        (v.GrowBy nat n.toNat).2.out.length n.toNat he rfl
      generalize Vars.callStep nat { (v.GrowBy nat n.toNat).2 with
          stream_ := { (v.GrowBy nat n.toNat).2.stream_ with
            next_in := data, avail_in := n.toNat } } Flush.run
        (v.GrowBy nat n.toNat).2.out.length n.toNat = s at hn hnext ⊢
      rw [if_neg (by rw [hn]; decide), if_neg (by rw [hn]; decide),
        if_neg (by rw [hn]; decide)]
      exact ih fuel _ _ _ _ hnext (by omega) hn
    · rw [if_neg h1]
      exact ⟨_, rfl, Or.inl hr⟩

/-- The inner loop of `GunzipInflate` returns against a library that is `k` progressing steps
away from answering `fin`, for every fuel above `k`: it runs to its end with `Z_OK`, the
library then fewer steps away, or it leaves with `fin` (`Z_DATA_ERROR` when `fin` is
`Z_NEED_DICT`). -/
theorem Gunzip.inflateInner_ends {σ : Type} (nat : Native σ) (fin : Int)
    (hf1 : fin ≠ Z_OK) (hf2 : fin ≠ Z_STREAM_ERROR) :
    ∀ (k fuel : Nat) (v : Vars σ),
      Ending nat Z_OK fin k v.stream_.native → k < fuel →
      ∃ f, Gunzip.inflateInner nat fuel v = .ok f ∧
        ((f.isNext = true ∧ f.ret = Z_OK ∧
            ∃ k2, k2 < k ∧ Ending nat Z_OK fin k2 f.vars.stream_.native) ∨
          (f.isNext = false ∧ f.ret = if fin = Z_NEED_DICT then Z_DATA_ERROR else fin)) := by
  intro k
  induction k with
  | zero =>
    intro fuel v he hk
    obtain ⟨fuel, rfl⟩ : ∃ j, fuel = j + 1 := ⟨fuel - 1, by omega⟩
    simp only [Gunzip.inflateInner]
    have hg : (v.GrowBy nat CHUNK).1 = true := by
      rw [Vars.GrowBy_ok]; exact he.grows _
    rw [if_neg (by rw [hg]; decide)]
    have hn := Ending.round_last v (v.GrowBy nat CHUNK).2 CHUNK
      (v.GrowBy nat CHUNK).2.out_len CHUNK he rfl
    generalize Vars.callStep nat (v.GrowBy nat CHUNK).2 Flush.run
      (v.GrowBy nat CHUNK).2.out_len CHUNK = s at hn ⊢
    rw [if_neg (by rw [hn]; exact hf2)]
    by_cases hfat : s.1 = Z_NEED_DICT ∨ s.1 = Z_DATA_ERROR ∨ s.1 = Z_MEM_ERROR
    · rw [if_pos hfat]
      exact ⟨_, rfl, Or.inr ⟨rfl, by simp only [Flow.ret, hn]⟩⟩
    · rw [if_neg hfat]
      have hnd : ¬ fin = Z_NEED_DICT := fun e => hfat (Or.inl (hn.trans e))
      by_cases hend : s.1 = Z_STREAM_END
      · rw [if_neg (fun h => h.2 hend), if_pos hend]
        exact ⟨_, rfl, Or.inr ⟨rfl, by simp only [Flow.ret, hn, if_neg hnd]⟩⟩
      · rw [if_pos ⟨by rw [hn]; exact hf1, hend⟩]
        exact ⟨_, rfl, Or.inr ⟨rfl, by simp only [Flow.ret, hn, if_neg hnd]⟩⟩
  | succ k ih =>
    intro fuel v he hk
    obtain ⟨fuel, rfl⟩ : ∃ j, fuel = j + 1 := ⟨fuel - 1, by omega⟩
    simp only [Gunzip.inflateInner]
    have hg : (v.GrowBy nat CHUNK).1 = true := by
      rw [Vars.GrowBy_ok]; exact he.grows _
    rw [if_neg (by rw [hg]; decide)]
    obtain ⟨hn, hnext⟩ := Ending.round_more v (v.GrowBy nat CHUNK).2 CHUNK
      (v.GrowBy nat CHUNK).2.out_len CHUNK he rfl
    generalize Vars.callStep nat (v.GrowBy nat CHUNK).2 Flush.run
      (v.GrowBy nat CHUNK).2.out_len CHUNK = s at hn hnext ⊢
    rw [if_neg (by rw [hn]; decide), if_neg (by rw [hn]; decide),
      if_neg (by rw [hn]; decide), if_neg (by rw [hn]; decide)]
    by_cases h0 : s.2.1 = 0
    · rw [if_pos h0]
      obtain ⟨f, hf, h | h⟩ := ih fuel
        { s.2.2 with out_len := s.2.2.out_len + (CHUNK - s.2.1) } hnext (by omega)
      · obtain ⟨h1, h2, k2, h3, h4⟩ := h
        exact ⟨f, hf, Or.inl ⟨h1, h2, k2, by omega, h4⟩⟩
      · exact ⟨f, hf, Or.inr h⟩
    · rw [if_neg h0]
      exact ⟨_, rfl, Or.inl ⟨rfl, hn, k, by omega, hnext⟩⟩

/-- The outer loop of `GunzipInflate` returns against a library that is `k` progressing steps
away from answering `fin`, for every fuel above `k`. -/
theorem Gunzip.inflateOuter_ends {σ : Type} (nat : Native σ) (inner : Nat) (fin : Int)
    (hf1 : fin ≠ Z_OK) (hf2 : fin ≠ Z_STREAM_ERROR) :
    ∀ (fuel k : Nat) (data : List Byte) (n ret : Int) (v : Vars σ),
      Ending nat Z_OK fin k v.stream_.native → k < fuel → k < inner → ret = Z_OK →
      ∃ f, Gunzip.inflateOuter nat inner fuel data n ret v = .ok f ∧
        (f.ret = Z_OK ∨ f.ret = if fin = Z_NEED_DICT then Z_DATA_ERROR else fin) := by
  intro fuel
  induction fuel with
  | zero => intro k _ _ _ _ _ hk; omega
  | succ fuel ih =>
    intro k data n ret v he hk hi hr
    unfold Gunzip.inflateOuter
    by_cases h1 : n > 0
    · rw [if_pos h1]
      simp only
      obtain ⟨f, hf, h | h⟩ := Gunzip.inflateInner_ends nat fin hf1 hf2 k inner
        { v with stream_ := { v.stream_ with
            avail_in := if n > CHUNK then CHUNK else n.toNat, next_in := data } } he hi
      · obtain ⟨h2, h3, k2, h4, h5⟩ := h
        cases f with
        | leave r v2 => cases h2
        | next r v2 =>
          rw [hf]
          exact ih k2 _ _ _ _ h5 (by omega) (by omega) h3
      · obtain ⟨h2, h3⟩ := h
        cases f with
        | next r v2 => cases h2
        | leave r v2 =>
          rw [hf]
          exact ⟨_, rfl, Or.inr h3⟩
    · rw [if_neg h1]
      exact ⟨_, rfl, Or.inl hr⟩

/-- `GunzipInflate` returns against a library that is `k` progressing steps away from
answering `fin`, for every fuel above `k`, with `Z_OK` or with `fin` (`Z_DATA_ERROR` when
`fin` is `Z_NEED_DICT`). -/
theorem Gunzip.GunzipInflate_ends {σ : Type} (nat : Native σ) (fin : Int) (hf1 : fin ≠ Z_OK)
    (hf2 : fin ≠ Z_STREAM_ERROR) (k fuel : Nat) (g : Instance σ)
    (data : List Byte) (data_len : Int) (hs : g.state_ = State.Data)
    (he : Ending nat Z_OK fin k g.stream_.native) (hk : k < fuel) :
    ∃ x, Gunzip.GunzipInflate nat fuel g data data_len = .ok x ∧
      (x.1.status = Z_OK ∨ x.1.status = if fin = Z_NEED_DICT then Z_DATA_ERROR else fin) := by
  obtain ⟨f, hf, h⟩ := Gunzip.inflateOuter_ends nat fuel fin hf1 hf2 fuel k data data_len Z_OK
    (Vars.enter g State.Error) he hk hk rfl
  unfold Gunzip.GunzipInflate
  rw [if_neg (by rw [hs]; decide), if_neg (by rw [hs]; decide), hf]
  cases f with
  | next r v => exact ⟨_, rfl, h⟩
  | leave r v => exact ⟨_, rfl, h⟩

/-- `BunzipImpl::Write` returns against a library that is `k` progressing steps away from
answering `fin`, for every fuel above `k`, with `BZ_OK` or with `fin`. -/
theorem BunzipImpl.bunzip_Write_ends {σ : Type} (nat : Native σ) (fin : Int)
    (hf1 : fin ≠ BZ_OK) (hf2 : fin ≠ BZ_SEQUENCE_ERROR) (k fuel : Nat)
    (g : Instance σ) (data : List Byte) (data_len : Int) (hs : g.state_ = State.Data)
    (he : Ending nat BZ_OK fin k g.stream_.native) (hk : k < fuel) :
    ∃ x, BunzipImpl.Write nat fuel g data data_len = .ok x ∧
      (x.1.status = BZ_OK ∨ x.1.status = fin) := by
  obtain ⟨f, hf, h⟩ := BunzipImpl.bunzip_writeLoop_ends nat fin hf1 hf2 k fuel data data_len
    BZ_OK (Vars.enter g State.Error) he hk rfl
  unfold BunzipImpl.Write
  rw [if_neg (by rw [hs]; decide), if_neg (by rw [hs]; decide), hf]
  cases f with
  | next r v => exact ⟨_, rfl, h⟩
  | leave r v => exact ⟨_, rfl, h⟩

/-- C14, as stated, fails: the bytes a step stores are handed back only when the driver
accepts the status of the step.  A Write of one byte to a `Gunzip` whose `inflate` stores
`1, 2, 3` and answers `Z_DATA_ERROR` hands back no byte (`out_len` is 0) although the step
stored three, and a Write of one byte to a `BzipImpl` whose `BZ2_bzCompress` fills the two
bytes of room it is offered with `1, 2` and answers `BZ_PARAM_ERROR` hands back no byte
(`out.length()` is 0) although the step stored two.  In both runs the region offered lay
within the capacity of the buffer. -/
theorem output_accumulation_counterexample :
    (∃ x, Gunzip.GunzipInflate (itemised (constNative 0 Z_DATA_ERROR 0 [1, 2, 3] true)) 1
        (Instance.active ((), [])) [9] 1 = .ok x ∧
      x.1.status = Z_DATA_ERROR ∧ x.1.output = [] ∧ x.1.out_len = 0 ∧
      x.2.stream_.log = [Call.grow CHUNK true,
        Call.step Flush.run 1 0 CHUNK CHUNK Z_DATA_ERROR, Call.destroy true] ∧
      x.2.stream_.native.2 = [[1, 2, 3]]) ∧
    (∃ x, BzipImpl.Write (itemised (constNative 0 BZ_PARAM_ERROR 0 [1, 2, 3] true)) 1
        (Instance.active ((), [])) [9] 1 = .ok x ∧
      x.1.status = BZ_PARAM_ERROR ∧ x.1.output = [] ∧ x.1.out.length = 0 ∧
      x.2.stream_.log = [Call.grow 2 true, Call.step Flush.run 1 0 2 2 BZ_PARAM_ERROR] ∧
      x.2.stream_.native.2 = [[1, 2]]) :=
  ⟨⟨_, rfl, rfl, rfl, rfl, rfl, rfl⟩, ⟨_, rfl, rfl, rfl, rfl, rfl, rfl⟩⟩

/-- C14, amended.  For every Write and End of either family that returns, whatever the state
it is called in and whatever the library does, against the itemised notebook of the library
(`Itemised`): with `l` the calls made during the call and `cs` the bytes its steps stored,
one entry per step in call order (`During`), the predicate `Handed` holds.  That is: only the
last step of the call can have answered a status the driver rejects; each step was offered
the output region that starts at the offset where the bytes of the steps before it end; the
length handed back (`out_len` for gzip, `out.length()` for bzip2) is the length of
`handedBack`, the entries of the accepted steps concatenated in call order (those of a
rejected step left out); and the bytes handed back are `handedBack`.  The accepted statuses
are `Z_OK` in `GzipDeflate`; `Z_OK`, `Z_STREAM_END` in `GunzipInflate` and `GzipEnd`;
`BZ_RUN_OK` in `BzipImpl::Write`; `BZ_OK`, `BZ_STREAM_END` in `BunzipImpl::Write`;
`BZ_FINISH_OK`, `BZ_STREAM_END` in `BzipImpl::Close`.
For the gzip family this is stated for calls whose `out_len` stays below `2 ^ 31` (it is an
`int`), and the bytes handed back for calls in which every region offered lay within the
capacity of the buffer.  For the bzip2 family every region offered lies within the capacity;
`BzipImpl::Write` is stated for `data_len` below `2 ^ 31 - 1` (it computes
`data_len + 1`). -/
theorem output_accumulation {σ : Type} (nat : Native σ) (chunks : σ → List (List Byte))
    (hit : Itemised nat chunks) (fuel : Nat) (g : Instance σ) (data : List Byte)
    (data_len : Int) :
    (∀ x, Gzip.GzipDeflate nat fuel g data data_len = .ok x → x.1.out_len < 2 ^ 31 →
      ∃ l cs, During chunks g x l cs ∧ Handed Z_OK Z_OK l cs x.1.output x.1.out_len) ∧
    (∀ x, Gunzip.GunzipInflate nat fuel g data data_len = .ok x → x.1.out_len < 2 ^ 31 →
      ∃ l cs, During chunks g x l cs ∧
        Handed Z_OK Z_STREAM_END l cs x.1.output x.1.out_len) ∧
    (∀ x, Gzip.GzipEnd nat fuel g = .ok x → x.1.out_len < 2 ^ 31 →
      ∃ l cs, During chunks g x l cs ∧
        Handed Z_OK Z_STREAM_END l cs x.1.output x.1.out_len) ∧
    (∀ x, BzipImpl.Write nat fuel g data data_len = .ok x → data_len < 2 ^ 31 - 1 →
      ∃ l cs, During chunks g x l cs ∧
        Handed BZ_RUN_OK BZ_RUN_OK l cs x.1.output x.1.out.length ∧
        (∀ c ∈ l, c.inBounds = true) ∧ x.1.output = handedBack BZ_RUN_OK BZ_RUN_OK l cs) ∧
    (∀ x, BunzipImpl.Write nat fuel g data data_len = .ok x →
      ∃ l cs, During chunks g x l cs ∧
        Handed BZ_OK BZ_STREAM_END l cs x.1.output x.1.out.length ∧
        (∀ c ∈ l, c.inBounds = true) ∧ x.1.output = handedBack BZ_OK BZ_STREAM_END l cs) ∧
    (∀ x, BzipImpl.Close nat fuel g = .ok x →
      ∃ l cs, During chunks g x l cs ∧
        Handed BZ_FINISH_OK BZ_STREAM_END l cs x.1.output x.1.out.length ∧
        (∀ c ∈ l, c.inBounds = true) ∧
        x.1.output = handedBack BZ_FINISH_OK BZ_STREAM_END l cs) := by
  have key : ∀ (x : Result × Instance σ) (l l2 : List Call),
      x.2.stream_.log = g.stream_.log ++ l →
      Extends (fun c => c.inBounds = true) g.stream_.log x.2.stream_.log →
      ∀ c ∈ l, c.inBounds = true := by
    rintro x l l2 hl ⟨l3, hl3, hin⟩
    have : l3 = l := List.append_cancel_left (hl3.symm.trans hl)
    subst this
    exact hin
  obtain ⟨b1, b2, b3⟩ := bzip2_output_region_in_bounds nat fuel g data data_len
  refine ⟨?_, ?_, ?_, ?_, ?_, ?_⟩
  · intro x hx _
    obtain ⟨l, cs, hd, hh, -⟩ := Gzip.GzipDeflate_handed hit fuel g data data_len x hx
    exact ⟨l, cs, hd, hh⟩
  · intro x hx _
    obtain ⟨l, cs, hd, hh, -⟩ := Gunzip.GunzipInflate_handed hit fuel g data data_len x hx
    exact ⟨l, cs, hd, hh⟩
  · intro x hx _
    obtain ⟨l, cs, hd, hh, -⟩ := Gzip.GzipEnd_handed hit fuel g x hx
    exact ⟨l, cs, hd, hh⟩
  · intro x hx _
    obtain ⟨l, cs, hd, hh, ho⟩ := BzipImpl.bzip_Write_handed hit fuel g data data_len x hx
    exact ⟨l, cs, hd, hh, key x l [] hd.1 (b1 x hx).1, ho⟩
  · intro x hx
    obtain ⟨l, cs, hd, hh, ho⟩ := BunzipImpl.bunzip_Write_handed hit fuel g data data_len x hx
    exact ⟨l, cs, hd, hh, key x l [] hd.1 (b2 x hx).1, ho⟩
  · intro x hx
    obtain ⟨l, cs, hd, hh, ho⟩ := BzipImpl.Close_handed hit fuel g x hx
    exact ⟨l, cs, hd, hh, key x l [] hd.1 (b3 x hx).1, ho⟩

/-- C14, run.  A `BzipImpl::Write` of three bytes against a library that takes one byte and
stores `7` per step, and answers `BZ_RUN_OK` once and `BZ_PARAM_ERROR` after that: the first
step is offered offset 0 and its byte is handed back, the second is offered offset 1 and its
byte is not; the notebook holds both.  A `GzipDeflate` of three bytes over the byte-storing
codec, which has two bytes pending from before: the five bytes of its one step come back. -/
theorem output_accumulation_witness :
    (∃ x, BzipImpl.Write (itemised (countNative BZ_RUN_OK BZ_PARAM_ERROR 1 [7])) 2
        (Instance.active (1, [])) [1, 2, 3] 3 = .ok x ∧
      x.1.status = BZ_PARAM_ERROR ∧ x.1.output = [7] ∧ x.1.out.length = 1 ∧
      x.2.stream_.log =
        [Call.grow 4 true, Call.step Flush.run 3 0 4 4 BZ_RUN_OK,
         Call.grow 3 true, Call.step Flush.run 2 1 3 4 BZ_PARAM_ERROR] ∧
      x.2.stream_.native.2 = [[7], [7]] ∧
      ∃ l cs, During (fun w => w.2) (Instance.active (1, [])) x l cs ∧
        Handed BZ_RUN_OK BZ_RUN_OK l cs x.1.output x.1.out.length ∧
        (∀ c ∈ l, c.inBounds = true) ∧ x.1.output = handedBack BZ_RUN_OK BZ_RUN_OK l cs) ∧
    (∃ x, Gzip.GzipDeflate (itemised (echoNative Z_OK Z_OK Z_STREAM_END)) 1
        (Instance.active ([8, 9], [])) [1, 2, 3] 3 = .ok x ∧
      x.1.status = Z_OK ∧ x.1.output = [8, 9, 1, 2, 3] ∧ x.1.out_len = 5 ∧
      x.2.stream_.native.2 = [[8, 9, 1, 2, 3]] ∧
      ∃ l cs, During (fun w => w.2) (Instance.active ([8, 9], [])) x l cs ∧
        Handed Z_OK Z_OK l cs x.1.output x.1.out_len) :=
  ⟨⟨_, rfl, rfl, rfl, rfl, rfl, rfl,
      (output_accumulation (itemised (countNative BZ_RUN_OK BZ_PARAM_ERROR 1 [7]))
        (fun w => w.2) (itemised_items _) 2 (Instance.active (1, [])) [1, 2, 3]
        3).2.2.2.1 _ rfl (by decide)⟩,
    ⟨_, rfl, rfl, rfl, rfl, rfl,
      (output_accumulation (itemised (echoNative Z_OK Z_OK Z_STREAM_END))
        (fun w => w.2) (itemised_items _) 1 (Instance.active ([8, 9], [])) [1, 2, 3]
        3).1 _ rfl (by decide)⟩⟩

/-! ### C3: teardown after a fatal decompression error -/

/-- The loop of `BunzipImpl::Write` returns an error status `st` (other than the memory
error a failed growth gives) exactly when one of its steps answered `st`. -/
theorem BunzipImpl.bunzip_writeLoop_answered {σ : Type} (nat : Native σ) (log0 : List Call)
    (fuel : Nat) (data : List Byte) (n ret : Int) (v : Vars σ) (f : Flow σ)
    (h0 : ∃ l, v.stream_.log = log0 ++ l ∧ ∀ c ∈ l, c.progress BZ_OK = true)
    (hr : ret = BZ_OK) (h : BunzipImpl.writeLoop nat fuel data n ret v = .ok f) :
    ∃ l, f.vars.stream_.log = log0 ++ l ∧
      ∀ st, st ≠ BZ_OK → st ≠ BZ_STREAM_END → st ≠ BZ_MEM_ERROR →
        ((∃ c ∈ l, c.answered st = true) ↔ f.ret = st) := by
  have hprog : ∀ (l : List Call) (st : Int), st ≠ BZ_OK →
      (∀ c ∈ l, c.progress BZ_OK = true) → ¬ ∃ c ∈ l, c.answered st = true := by
    rintro l st hst hp ⟨c, hc, ha⟩
    have := hp c hc
    cases c <;> simp_all [Call.progress, Call.answered]
  refine BunzipImpl.bunzip_writeLoop_rule nat
    (fun _ _ ret v => ret = BZ_OK ∧
      ∃ l, v.stream_.log = log0 ++ l ∧ ∀ c ∈ l, c.progress BZ_OK = true)
    (fun f => ∃ l, f.vars.stream_.log = log0 ++ l ∧
      ∀ st, st ≠ BZ_OK → st ≠ BZ_STREAM_END → st ≠ BZ_MEM_ERROR →
        ((∃ c ∈ l, c.answered st = true) ↔ f.ret = st))
    ?_ ?_ ?_ fuel data n ret v f ⟨hr, h0⟩ h
  · rintro _ _ ret v ⟨hr, l, hl, hp⟩ _
    refine ⟨l, hl, fun st h1 _ _ => ⟨fun h => absurd h (hprog l st h1 hp), fun e => ?_⟩⟩
    exact absurd (e.symm.trans hr) h1
  · rintro _ n _ v ⟨-, l, hl, hp⟩ _ hg
    refine ⟨l ++ [Call.grow (n.toNat) (v.GrowBy nat n.toNat).1], ?_, fun st h1 _ h3 => ?_⟩
    · show (v.GrowBy nat n.toNat).2.stream_.log = _
      rw [(Vars.GrowBy_fields nat v _).2.2.2.2.1, hl, List.append_assoc]
    · refine ⟨?_, fun e => absurd e.symm h3⟩
      rintro ⟨c, hc, ha⟩
      rcases List.mem_append.1 hc with hc | hc
      · exact absurd ⟨c, hc, ha⟩ (hprog l st h1 hp)
      · simp only [List.mem_singleton] at hc
        subst hc
        simp [Call.answered] at ha
  · rintro data n _ v ⟨-, l, hl, hp⟩ _ hg s hs _
    have hlog := Vars.round_log nat v { (v.GrowBy nat n.toNat).2 with
        stream_ := { (v.GrowBy nat n.toNat).2.stream_ with
          next_in := data, avail_in := n.toNat } } n.toNat Flush.run
      (v.GrowBy nat n.toNat).2.out.length n.toNat rfl
    rw [← hs, hl, List.append_assoc, hg] at hlog
    simp only at hlog
    have hiff : ∀ st, st ≠ BZ_OK →
        ((∃ c ∈ l ++ [Call.grow n.toNat true,
          Call.step Flush.run n.toNat (v.GrowBy nat n.toNat).2.out.length n.toNat
            (v.GrowBy nat n.toNat).2.out.capacity s.1], c.answered st = true) ↔ s.1 = st) := by
      intro st h1
      constructor
      · rintro ⟨c, hc, ha⟩
        rcases List.mem_append.1 hc with hc | hc
        · exact absurd ⟨c, hc, ha⟩ (hprog l st h1 hp)
        · simp only [List.mem_cons, List.mem_singleton, List.not_mem_nil, or_false] at hc
          rcases hc with hc | hc <;> subst hc <;> simp [Call.answered] at ha
          exact ha
      · intro e
        exact ⟨_, List.mem_append_right _ (List.mem_cons_of_mem _ (List.mem_singleton_self _)),
          by simp [Call.answered, e]⟩
    refine ⟨fun _ _ => ⟨_, hlog, fun st h1 _ _ => hiff st h1⟩,
      fun _ => ⟨_, hlog, fun st h1 _ _ => hiff st h1⟩, fun hok => ⟨hok, _, hlog, ?_⟩⟩
    intro c hc
    rcases List.mem_append.1 hc with hc | hc
    · exact hp c hc
    · simp only [List.mem_cons, List.mem_singleton, List.not_mem_nil, or_false] at hc
      rcases hc with hc | hc <;> subst hc <;> simp [Call.progress, hok]

theorem BunzipImpl.bunzip_Write_answered {σ : Type} (nat : Native σ) (fuel : Nat)
    (g : Instance σ) (data : List Byte) (data_len : Int) (hs : g.state_ = State.Data)
    (x : Result × Instance σ) (hx : BunzipImpl.Write nat fuel g data data_len = .ok x) :
    ∃ l, x.2.stream_.log = g.stream_.log ++ l ∧
      ∀ st, st ≠ BZ_OK → st ≠ BZ_STREAM_END → st ≠ BZ_MEM_ERROR →
        ((∃ c ∈ l, c.answered st = true) ↔ x.1.status = st) := by
  unfold BunzipImpl.Write at hx
  rw [if_neg (by rw [hs]; decide), if_neg (by rw [hs]; decide)] at hx
  have hp := fun f => BunzipImpl.bunzip_writeLoop_answered nat g.stream_.log fuel data
    data_len BZ_OK (Vars.enter g State.Error) f
    ⟨[], by simp [Vars.enter], fun _ h => (nomatch h)⟩ rfl
  split at hx
  · cases hx
  · rename_i r v hv
    cases hx
    exact hp _ hv
  · rename_i r v hv
    cases hx
    exact hp _ hv

/-- C3.  On a session in state `Data`, for every library:
`Gunzip` tears the session down.  A Write that returns returns `Z_DATA_ERROR` exactly when
one of its inflate steps answered `Z_DATA_ERROR` or `Z_NEED_DICT`; then the destroy primitive
was called as the last call of that same Write, the native context is released, the state is
`Idle`, and the `GunzipInit` called next returns what the native init returns, with state
`Data` when that is `Z_OK`.
`BunzipImpl` does not.  A Write that returns returns `BZ_DATA_ERROR` (`BZ_DATA_ERROR_MAGIC`)
exactly when one of its steps answered that status; then the state is `Error`, the native
context is still allocated, no destroy call was made, and the `BunzipInit` called next is
rejected with `BZ_SEQUENCE_ERROR`, the instance unchanged.
The Write returns: when its first step answers such a status, for every positive fuel; and
against a library that is `k` progressing steps away from answering such a status (`Ending`),
for every fuel above `k`, with that status (`Z_DATA_ERROR` for `Z_NEED_DICT`) or, when the
input ends before, with the progressing status. -/
theorem fatal_error_teardown {σ : Type} (nat : Native σ) (fuel : Nat) (g : Instance σ)
    (data : List Byte) (data_len : Int) (hs : g.state_ = State.Data) :
    (∀ x, Gunzip.GunzipInflate nat fuel g data data_len = .ok x →
      ∃ l, x.2.stream_.log = g.stream_.log ++ l ∧
        ((∃ c ∈ l, c.answered Z_DATA_ERROR = true ∨ c.answered Z_NEED_DICT = true) ↔
          x.1.status = Z_DATA_ERROR) ∧
        (x.1.status = Z_DATA_ERROR →
          x.2.state_ = State.Idle ∧ x.2.stream_.allocated = false ∧
          (∃ l0, l = l0 ++ [Call.destroy g.stream_.allocated]) ∧
          (Gunzip.GunzipInit nat x.2).1 = (nat.init x.2.stream_.native).1 ∧
          ((nat.init x.2.stream_.native).1 = Z_OK →
            (Gunzip.GunzipInit nat x.2).2.state_ = State.Data))) ∧
    (0 < data_len → (nat.grow g.stream_.native CHUNK).1 = true →
      (firstStepStatus nat g data CHUNK
          (if data_len > CHUNK then CHUNK else data_len.toNat) CHUNK = Z_DATA_ERROR ∨
        firstStepStatus nat g data CHUNK
          (if data_len > CHUNK then CHUNK else data_len.toNat) CHUNK = Z_NEED_DICT) →
      ∃ x, Gunzip.GunzipInflate nat (fuel + 1) g data data_len = .ok x ∧
        x.1.status = Z_DATA_ERROR) ∧
    (∀ x, BunzipImpl.Write nat fuel g data data_len = .ok x →
      (x.1.status = BZ_DATA_ERROR ∨ x.1.status = BZ_DATA_ERROR_MAGIC) →
      x.2.state_ = State.Error ∧ x.2.stream_.allocated = g.stream_.allocated ∧
      destroyCount x.2.stream_.log = destroyCount g.stream_.log ∧
      BunzipImpl.BunzipInit nat x.2 = (BZ_SEQUENCE_ERROR, x.2)) ∧
    (0 < data_len → (nat.grow g.stream_.native data_len.toNat).1 = true →
      ∀ st, (st = BZ_DATA_ERROR ∨ st = BZ_DATA_ERROR_MAGIC) →
      firstStepStatus nat g data data_len.toNat data_len.toNat data_len.toNat = st →
      ∃ x, BunzipImpl.Write nat (fuel + 1) g data data_len = .ok x ∧ x.1.status = st) ∧
    (∀ x, BunzipImpl.Write nat fuel g data data_len = .ok x →
      ∃ l, x.2.stream_.log = g.stream_.log ++ l ∧
        ∀ st, (st = BZ_DATA_ERROR ∨ st = BZ_DATA_ERROR_MAGIC) →
          ((∃ c ∈ l, c.answered st = true) ↔ x.1.status = st)) ∧
    (∀ k st, (st = Z_DATA_ERROR ∨ st = Z_NEED_DICT) →
      Ending nat Z_OK st k g.stream_.native → k < fuel →
      ∃ x, Gunzip.GunzipInflate nat fuel g data data_len = .ok x ∧
        (x.1.status = Z_OK ∨ x.1.status = Z_DATA_ERROR)) ∧
    (∀ k st, (st = BZ_DATA_ERROR ∨ st = BZ_DATA_ERROR_MAGIC) →
      Ending nat BZ_OK st k g.stream_.native → k < fuel →
      ∃ x, BunzipImpl.Write nat fuel g data data_len = .ok x ∧
        (x.1.status = BZ_OK ∨ x.1.status = st)) := by
  refine ⟨?_, ?_, ?_, ?_, ?_, ?_, ?_⟩
  · intro x hx
    rcases Gunzip.GunzipInflate_outcome nat fuel g data data_len hs x hx with
      ⟨hne, _, _, _, _, l, hl, hq⟩ | ⟨hr, hidle, hal, l, a, b, c, d, st, hl, hq, hst, hstat⟩
    · refine ⟨l, hl, ⟨?_, fun e => absurd e hne⟩, fun e => absurd e hne⟩
      rintro ⟨c, hc, h | h⟩
      · rw [(hq.not_answered c hc).1] at h; cases h
      · rw [(hq.not_answered c hc).2] at h; cases h
    · refine ⟨l ++ [Call.step Flush.run a b c d st, Call.destroy g.stream_.allocated],
        by rw [hl, List.append_assoc], ⟨?_, ?_⟩, ?_⟩
      · rintro ⟨x, hx, h⟩
        rw [hstat]
        simp only [List.mem_append, List.mem_cons, List.mem_singleton, List.not_mem_nil,
          or_false] at hx
        rcases hx with hx | hx | hx
        · rcases h with h | h
          · rw [(hq.not_answered x hx).1] at h; cases h
          · rw [(hq.not_answered x hx).2] at h; cases h
        · subst hx
          simp only [Call.answered, decide_eq_true_eq] at h
          rcases h with h | h <;> rw [h] <;> decide
        · subst hx
          simp [Call.answered] at h
      · intro e
        refine ⟨Call.step Flush.run a b c d st, by simp, ?_⟩
        simp only [Call.answered, decide_eq_true_eq]
        rw [hstat] at e
        rcases hst with h | h | h
        · exact Or.inr h
        · exact Or.inl h
        · rw [h] at e; exact absurd e (by decide)
      · intro _
        refine ⟨hidle, hal, ⟨l ++ [Call.step Flush.run a b c d st], by simp⟩, ?_, ?_⟩
        · simp only [Gunzip.GunzipInit, hidle, ne_eq, not_true_eq_false, if_false,
            Stream.callInit]
          split_ifs <;> rfl
        · intro hok
          simp only [Gunzip.GunzipInit, hidle, ne_eq, not_true_eq_false, if_false,
            Stream.callInit]
          rw [if_pos hok]
  · intro hlen hgrow hst
    exact Gunzip.GunzipInflate_first_fatal nat fuel g data data_len hs hlen hgrow hst
  · intro x hx hst
    obtain ⟨hni, hd, he, ha, l, hl, hq⟩ :=
      BunzipImpl.bunzip_Write_outcome nat fuel g data data_len hs x hx
    have hstate : x.2.state_ = State.Error := by
      have h1 : x.1.status ≠ BZ_OK := by rcases hst with e | e <;> rw [e] <;> decide
      have h2 : x.1.status ≠ BZ_STREAM_END := by rcases hst with e | e <;> rw [e] <;> decide
      have h3 : x.2.state_ ≠ State.Data := fun e => h1 (hd.2 e)
      have h4 : x.2.state_ ≠ State.Eos := fun e => h2 (he.2 e)
      cases hx2 : x.2.state_ <;> simp_all
    refine ⟨hstate, ha, ?_, ?_⟩
    · rw [hl]
      have := hq.no_destroy
      unfold destroyCount at *
      simp [List.countP_append, this]
    · simp [BunzipImpl.BunzipInit, hstate]
  · intro hlen hgrow st hv hst
    exact BunzipImpl.Write_first_fatal nat fuel g data data_len hs hlen hgrow st hv hst
  · intro x hx
    obtain ⟨l, hl, h⟩ := BunzipImpl.bunzip_Write_answered nat fuel g data data_len hs x hx
    refine ⟨l, hl, fun st hst => ?_⟩
    rcases hst with e | e <;> subst e <;> exact h _ (by decide) (by decide) (by decide)
  · intro k st hst he hk
    rcases hst with e | e <;> subst e
    · exact Gunzip.GunzipInflate_ends nat Z_DATA_ERROR (by decide) (by decide) k fuel g data
        data_len hs he hk
    · exact Gunzip.GunzipInflate_ends nat Z_NEED_DICT (by decide) (by decide) k fuel g data
        data_len hs he hk
  · intro k st hst he hk
    rcases hst with e | e <;> subst e
    · exact BunzipImpl.bunzip_Write_ends nat BZ_DATA_ERROR (by decide) (by decide) k fuel g
        data data_len hs he hk
    · exact BunzipImpl.bunzip_Write_ends nat BZ_DATA_ERROR_MAGIC (by decide) (by decide) k
        fuel g data data_len hs he hk

/-- C3, run.  One byte written to a `Gunzip` whose `inflate` answers `Z_NEED_DICT`: the Write
returns `Z_DATA_ERROR`, the context is released by a destroy call in that Write, the state is
`Idle`, and the next `GunzipInit` succeeds and leaves the state `Data`.  One byte written to a
`BunzipImpl` whose `BZ2_bzDecompress` answers `BZ_DATA_ERROR`: the Write returns that status,
no destroy call is made, the context stays allocated, the state is `Error`, and the next
`BunzipInit` is rejected with `BZ_SEQUENCE_ERROR`. -/
theorem fatal_error_teardown_witness :
    (∃ x, Gunzip.GunzipInflate (constNative 0 Z_NEED_DICT 0 [] true) 1
        (Instance.inState State.Data true) [1] 1 = .ok x ∧
      x.1.status = Z_DATA_ERROR ∧ x.2.state_ = State.Idle ∧
      x.2.stream_.allocated = false ∧ destroyCount x.2.stream_.log = 1 ∧
      (Gunzip.GunzipInit (constNative 0 Z_NEED_DICT 0 [] true) x.2).1 = Z_OK ∧
      (Gunzip.GunzipInit (constNative 0 Z_NEED_DICT 0 [] true) x.2).2.state_ = State.Data) ∧
    (∃ x, BunzipImpl.Write (constNative 0 BZ_DATA_ERROR 0 [] true) 1
        (Instance.inState State.Data true) [1] 1 = .ok x ∧
      x.1.status = BZ_DATA_ERROR ∧
      x.2.stream_.log = [Call.grow 1 true, Call.step Flush.run 1 0 1 1 BZ_DATA_ERROR] ∧
      x.2.state_ = State.Error ∧ x.2.stream_.allocated = true ∧
      destroyCount x.2.stream_.log = 0 ∧
      BunzipImpl.BunzipInit (constNative 0 BZ_DATA_ERROR 0 [] true) x.2 =
        (BZ_SEQUENCE_ERROR, x.2)) :=
  ⟨⟨_, rfl, rfl,
      ((((fatal_error_teardown (constNative 0 Z_NEED_DICT 0 [] true) 1
        (Instance.inState State.Data true) [1] 1 rfl).1 _ rfl).choose_spec.2.2) rfl).1,
      rfl, rfl, rfl, rfl⟩,
    ⟨_, rfl, rfl, rfl,
      (fatal_error_teardown (constNative 0 BZ_DATA_ERROR 0 [] true) 1
        (Instance.inState State.Data true) [1] 1 rfl).2.2.1 _ rfl (Or.inl rfl)⟩⟩

end NodeCompress
